import Mathlib

/-!
# JKSN codec (`c++/jksn.cpp`): a shallow embedding and its properties

The development follows the C++ source function by function.  Conventions:

* a byte string (`std::string`, the content of a stream) is a list of naturals, one per
  byte; a cast `uint8_t(x)` or `char(x)` of the source is `x % 256` here;
* `uintmax_t` is a natural below `2 ^ 64`, `intmax_t` an integer in the signed 64-bit range;
  conversions between them wrap (`toUintmax`, `toIntmax`);
* a C++ exception, or `abort()`, is an error of `Except JKSNErr`;
* `assert(e)` aborts unless the build defines `NDEBUG`; the flag `ndebug` of the encoder
  functions selects the build (`true`: assertions compiled out);
* mutable state (the codec cache, the input stream) is passed explicitly;
* the floating-point kinds (`JKSN_FLOAT`, `JKSN_DOUBLE`, `JKSN_LONG_DOUBLE`) are outside
  this development: `JKSNValue` has the nine other kinds.
-/

namespace JKSN

/-- Byte strings: one natural per byte. -/
abbrev Bytes := List Nat

/-- What the code can throw: the three exception classes used in `jksn.cpp`, the bare
`const char *` thrown on a truncated stream, `abort()` (also a failed `assert`), and the
marker for the float opcodes, which this development does not follow.  The last one is not
thrown by the code: `deadOrigin` marks the point where `optimize` reads `obj.origin` after
the object it points to has been destroyed.  That read is undefined behaviour, and the
development follows the program no further. -/
inductive JKSNErr where
  | JKSNEncodeError
  | JKSNDecodeError
  | JKSNTypeError
  | charPointer
  | aborted
  | floatOpcode
  | deadOrigin
  deriving DecidableEq, Repr

/-- The value ADT without its floating-point kinds.  An Object lists the entries of its
`std::map` in iteration order. -/
inductive JKSNValue where
  | undefined
  | null
  | bool (b : Bool)
  | int (n : Int)
  | string (s : Bytes)
  | blob (s : Bytes)
  | array (xs : List JKSNValue)
  | object (kvs : List (JKSNValue × JKSNValue))
  | unspecified

/-- Conversion `uintmax_t(x)` of a signed integer. -/
def toUintmax (x : Int) : Nat := (x % 2 ^ 64).toNat

/-- Conversion `intmax_t(x)` of an unsigned 64-bit integer (two's complement). -/
def toIntmax (x : Nat) : Int :=
  if x % 2 ^ 64 < 2 ^ 63 then ((x % 2 ^ 64 : Nat) : Int) else ((x % 2 ^ 64 : Nat) : Int) - 2 ^ 64

/-- Result of signed 64-bit arithmetic: the mathematical result wrapped to `intmax_t`. -/
def wrapIntmax (x : Int) : Int := toIntmax (toUintmax x)

/-- Conversion `uint8_t(x)` of a signed integer. -/
def toUint8 (x : Int) : Nat := (x % 256).toNat

/-- Conversions `int8_t(x)`, `int16_t(x)`, `int32_t(x)` of an unsigned integer, for
`bits` = 8, 16, 32. -/
def toSigned (bits : Nat) (x : Nat) : Int :=
  if x % 2 ^ bits < 2 ^ (bits - 1) then ((x % 2 ^ bits : Nat) : Int)
  else ((x % 2 ^ bits : Nat) : Int) - 2 ^ bits

/-! ## The value accessors

`toBool`, `toInt` and `toString` are defined in `jksn.cpp`.  `toBlob`, `toVector`, `toMap`,
`isObject` and `getType` are defined in the header `jksn.hpp`, which is not part of the
sources.  The encoder calls each accessor on a value of the matching kind. -/

/-- Function `JKSNValue::toBool`. -/
def JKSNValue.toBool : JKSNValue → Except JKSNErr Bool
  | .bool b => .ok b
  | .undefined => .ok false
  | .null => .ok false
  | .int n => .ok (decide (n ≠ 0))
  | .string s => .ok (decide (s.length ≠ 0))
  | .blob s => .ok (decide (s.length ≠ 0))
  | .array xs => .ok (decide (xs.length ≠ 0))
  | .object kvs => .ok (decide (kvs.length ≠ 0))
  | .unspecified => .error .JKSNTypeError

/-- Modelled from the C++ standard library: `std::stoll(str)` in base 10, on the bytes up to
the first NUL.  White space is skipped, an optional sign and the longest run of decimal
digits are read; there is no result when no digit is found (`std::invalid_argument`) or the
number is outside the range of `long long` (`std::out_of_range`). -/
def stoll (str : Bytes) : Option Int :=
  let text := (str.map (fun c => c % 256)).takeWhile (fun c => decide (c ≠ 0))
  let text := text.dropWhile (fun c => decide (c = 0x20 ∨ (0x09 ≤ c ∧ c ≤ 0x0d)))
  let negative : Bool := decide (text.head? = some 0x2d)
  let text := if text.head? = some 0x2d ∨ text.head? = some 0x2b then text.tail else text
  let digits := text.takeWhile (fun c => decide (0x30 ≤ c ∧ c ≤ 0x39))
  if digits = [] then none
  else
    let magnitude : Nat := digits.foldl (fun (acc c : Nat) => acc * 10 + (c - 0x30)) 0
    let value : Int := if negative then -(magnitude : Int) else (magnitude : Int)
    if -2 ^ 63 ≤ value ∧ value < 2 ^ 63 then some value else none

/-- Function `JKSNValue::toInt`. -/
def JKSNValue.toInt : JKSNValue → Except JKSNErr Int
  | .int n => .ok n
  | .bool b => .ok (if b then 1 else 0)
  | .null => .ok 0
  | .string s =>
    match stoll s with
    | some n => .ok n
    | none => .error .JKSNTypeError
  | _ => .error .JKSNTypeError

/-- Modelled from the C++ standard library: `std::to_string` of an `intmax_t`, the decimal
digits with a minus sign for a negative number. -/
def decimalString (n : Int) : Bytes :=
  (if n < 0 then [0x2d] else []) ++ (Nat.toDigits 10 n.natAbs).map Char.toNat

mutual
/-- Function `JKSNValue::toString`; for a String, the UTF-8 bytes of the value. -/
def JKSNValue.toString : JKSNValue → Except JKSNErr Bytes
  | .undefined => .ok [0x75, 0x6e, 0x64, 0x65, 0x66, 0x69, 0x6e, 0x65, 0x64]
  | .null => .ok [0x6e, 0x75, 0x6c, 0x6c]
  | .bool b => .ok (if b then [0x74, 0x72, 0x75, 0x65] else [0x66, 0x61, 0x6c, 0x73, 0x65])
  | .int n => .ok (decimalString n)
  | .string s => .ok s
  | .blob s => .ok s
  | .array xs => JKSNValue.toStringLoop xs true []
  | .object _ =>
    .ok [0x5b, 0x6f, 0x62, 0x6a, 0x65, 0x63, 0x74, 0x20, 0x4f, 0x62, 0x6a, 0x65, 0x63, 0x74, 0x5d]
  | .unspecified => .error .JKSNTypeError
/-- The loop of `toString` over the elements of an Array, which are joined by commas. -/
def JKSNValue.toStringLoop : List JKSNValue → Bool → Bytes → Except JKSNErr Bytes
  | [], _, res => .ok res
  | i :: rest, first, res =>
    match JKSNValue.toString i with
    | .ok str => JKSNValue.toStringLoop rest false ((if first then res else res ++ [0x2c]) ++ str)
    | .error e => .error e
end

/-- Modelled from the spec: `JKSNValue::toBlob` on the matching kind. -/
def JKSNValue.toBlob : JKSNValue → Except JKSNErr Bytes
  | .blob s => .ok s
  | _ => .error .JKSNTypeError

/-- Modelled from the spec: `JKSNValue::toVector` on the matching kind. -/
def JKSNValue.toVector : JKSNValue → Except JKSNErr (List JKSNValue)
  | .array xs => .ok xs
  | _ => .error .JKSNTypeError

/-- Modelled from the spec: `JKSNValue::toMap` on the matching kind, as the entries in
iteration order. -/
def JKSNValue.toMap : JKSNValue → Except JKSNErr (List (JKSNValue × JKSNValue))
  | .object kvs => .ok kvs
  | _ => .error .JKSNTypeError

/-- Modelled from the spec: the test `JKSNValue::isObject`. -/
def JKSNValue.isObject : JKSNValue → Bool
  | .object _ => true
  | _ => false

/-! ## Byte primitives -/

/-- The loop of `encodeInt` for size 0: while `number != 0`, append the low seven bits with
the continuation bit and shift.  The first argument bounds the iterations; 64 is enough for
a 64-bit `number` (`encodeIntLoop_digits`). -/
def encodeIntLoop : Nat → Nat → Bytes → Bytes
  | 0, _, result => result
  | fuel + 1, number, result =>
    if number ≠ 0 then
      encodeIntLoop fuel (number >>> 7) (result ++ [((number &&& 0x7f) ||| 0x80) % 256])
    else result

/-- Function `JKSNEncoderPrivate::encodeInt(number, size)`.  The fixed widths 2 and 4 shift
`uint8_t(number)`, as the source does. -/
def encodeInt (number : Nat) (size : Nat) : Except JKSNErr Bytes :=
  let number := number % 2 ^ 64
  match size with
  | 1 => .ok [number % 256]
  | 2 => .ok [((number % 256) >>> 8) % 256, number % 256]
  | 4 => .ok [((number % 256) >>> 24) % 256, ((number % 256) >>> 16) % 256,
              ((number % 256) >>> 8) % 256, number % 256]
  | 0 => .ok (encodeIntLoop 64 (number >>> 7) [(number &&& 0x7f) % 256]).reverse
  | _ => .error .aborted

/-- Function `DJBHash(buf, iv)`: a 32-bit unsigned accumulator, truncated to a byte. -/
def DJBHash (buf : Bytes) (iv : Nat) : Nat :=
  (buf.foldl (fun result i => (result + ((result <<< 5) % 2 ^ 32 + i % 256) % 2 ^ 32) % 2 ^ 32)
    (iv % 256)) % 256

/-- The `while(check_length--)` loop of `UTF8CheckContinuation`. -/
def UTF8CheckContinuationLoop (utf8str : Bytes) : Nat → Nat → Bool
  | _, 0 => true
  | start, check_length + 1 =>
    if ((utf8str.getD (start + 1) 0) % 256) &&& 0xc0 ≠ 0x80 then false
    else UTF8CheckContinuationLoop utf8str (start + 1) check_length

/-- Function `UTF8CheckContinuation(utf8str, start, check_length)`. -/
def UTF8CheckContinuation (utf8str : Bytes) (start check_length : Nat) : Bool :=
  if utf8str.length > start + check_length then
    UTF8CheckContinuationLoop utf8str start check_length
  else false

/-- One iteration of the `while` loop of `UTF8ToUTF16LE` at index `i`: the bytes appended
and the new index, or none when the sequence at `i` is rejected (the code then throws in
strict mode, or substitutes U+FFFD). -/
def UTF8ToUTF16LEStep (utf8str : Bytes) (i : Nat) : Option (Bytes × Nat) :=
  let b0 := (utf8str.getD i 0) % 256
  let b1 := (utf8str.getD (i + 1) 0) % 256
  let b2 := (utf8str.getD (i + 2) 0) % 256
  let b3 := (utf8str.getD (i + 3) 0) % 256
  if b0 < 0x80 then some ([b0, 0], i + 1)
  else if b0 < 0xc0 then none
  else if b0 < 0xe0 then
    if UTF8CheckContinuation utf8str i 1 then
      let ucs4 := ((b0 &&& 0x1f) <<< 6) ||| (b1 &&& 0x3f)
      if ucs4 ≥ 0x80 then some ([ucs4 % 256, (ucs4 >>> 16) % 256], i + 2) else none
    else none
  else if b0 < 0xf0 then
    if UTF8CheckContinuation utf8str i 2 then
      let ucs4 := ((b0 &&& 0xf) <<< 12) ||| ((b1 &&& 0x3f) <<< 6) ||| (b2 &&& 0x3f)
      if ucs4 ≥ 0x800 ∧ (ucs4 &&& 0xf800) ≠ 0xd800 then
        some ([ucs4 % 256, (ucs4 >>> 16) % 256], i + 3)
      else none
    else none
  else if b0 < 0xf8 then
    if UTF8CheckContinuation utf8str i 3 then
      let ucs4 := ((b0 &&& 0x7) <<< 18) ||| ((b1 &&& 0x3f) <<< 12) ||| ((b2 &&& 0x3f) <<< 6)
                    ||| (b3 &&& 0x3f)
      if ucs4 ≥ 0x10000 ∧ ucs4 < 0x110000 then
        let ucs4 := ucs4 - 0x10000
        some ([(ucs4 >>> 10) % 256, ((ucs4 >>> 18) ||| 0xd8) % 256, ucs4 % 256,
               ((ucs4 &&& 0x3f) ||| 0xdc) % 256], i + 4)
      else none
    else none
  else none

/-- The `while(i < utf8str.size())` loop of `UTF8ToUTF16LE`.  The first argument bounds
the iterations; every iteration advances `i`, so `utf8str.size()` is enough
(`UTF8ToUTF16LELoop_fuel`). -/
def UTF8ToUTF16LELoop (utf8str : Bytes) (strict : Bool) : Nat → Nat → Bytes → Except JKSNErr Bytes
  | 0, _, utf16str => .ok utf16str
  | fuel + 1, i, utf16str =>
    if i < utf8str.length then
      match UTF8ToUTF16LEStep utf8str i with
      | some (unit, j) => UTF8ToUTF16LELoop utf8str strict fuel j (utf16str ++ unit)
      | none =>
        if strict then .error .JKSNTypeError
        else UTF8ToUTF16LELoop utf8str strict fuel (i + 1) (utf16str ++ [0xfd, 0xff])
    else .ok utf16str

/-- Function `UTF8ToUTF16LE(utf8str, strict)`. -/
def UTF8ToUTF16LE (utf8str : Bytes) (strict : Bool) : Except JKSNErr Bytes :=
  UTF8ToUTF16LELoop utf8str strict utf8str.length 0 []

/-- One iteration of the `while` loop of `UTF16ToUTF8` at index `i`: the bytes appended and
the new index.  The units are `char16_t`; the code point of a surrogate pair is a
`uint32_t`. -/
def UTF16ToUTF8Step (utf16str : List Nat) (i : Nat) : Bytes × Nat :=
  let u0 := (utf16str.getD i 0) % 2 ^ 16
  let u1 := (utf16str.getD (i + 1) 0) % 2 ^ 16
  if u0 < 0x80 then ([u0 % 256], i + 1)
  else if u0 < 0x800 then
    ([((u0 >>> 6) ||| 0xc0) % 256, ((u0 &&& 0x3f) ||| 0x80) % 256], i + 1)
  else if u0 &&& 0xf800 ≠ 0xd800 then
    ([((u0 >>> 12) ||| 0xe0) % 256, (((u0 >>> 6) &&& 0x3f) ||| 0x80) % 256,
      ((u0 &&& 0x3f) ||| 0x80) % 256], i + 1)
  else if i + 1 < utf16str.length ∧ u0 &&& 0xfc00 = 0xd800 ∧ u1 &&& 0xfc00 = 0xdc00 then
    let ucs4 := ((((u0 &&& 0x3ff) <<< 10) ||| (u1 &&& 0x3ff)) % 2 ^ 32 + 0x10000) % 2 ^ 32
    ([((ucs4 >>> 18) ||| 0xf0) % 256, (((ucs4 >>> 12) &&& 0x3f) ||| 0x80) % 256,
      (((ucs4 >>> 6) &&& 0x3f) ||| 0x80) % 256, ((ucs4 &&& 0x3f) ||| 0x80) % 256], i + 2)
  else ([0xef, 0xbf, 0xbd], i + 1)

/-- The `while(i < utf16str.size())` loop of `UTF16ToUTF8`.  The first argument bounds the
iterations; every iteration advances `i`, so `utf16str.size()` is enough
(`UTF16ToUTF8Loop_eq`). -/
def UTF16ToUTF8Loop (utf16str : List Nat) : Nat → Nat → Bytes → Bytes
  | 0, _, utf8str => utf8str
  | fuel + 1, i, utf8str =>
    if i < utf16str.length then
      UTF16ToUTF8Loop utf16str fuel (UTF16ToUTF8Step utf16str i).2
        (utf8str ++ (UTF16ToUTF8Step utf16str i).1)
    else utf8str

/-- Function `UTF16ToUTF8(utf16str)`, on the sequence of code units. -/
def UTF16ToUTF8 (utf16str : List Nat) : Bytes :=
  UTF16ToUTF8Loop utf16str utf16str.length 0 []

/-- What `UTF8ToUTF16LE` appends for a code point `ucs4` it has accepted: the two bytes of
the one-, two- and three-byte cases, the four bytes of the four-byte case. -/
def UTF16LEUnits (ucs4 : Nat) : Bytes :=
  if ucs4 < 0x10000 then [ucs4 % 256, (ucs4 >>> 16) % 256]
  else
    let ucs4 := ucs4 - 0x10000
    [(ucs4 >>> 10) % 256, ((ucs4 >>> 18) ||| 0xd8) % 256, ucs4 % 256,
      ((ucs4 &&& 0x3f) ||| 0xdc) % 256]

/-! ## Equality and ordering of values (`operator==`, `operator<`)

These order the keys of the `std::map` behind an Object and decide membership in the
column set of the swapped array encoding. -/

/-- Modelled from the spec: the enumeration `jksn_data_type` of `jksn.hpp`, in the order of
the cases of `dumpValue` (the float kinds take 4, 5 and 6). -/
def JKSNValue.getType : JKSNValue → Nat
  | .undefined => 0
  | .null => 1
  | .bool _ => 2
  | .int _ => 3
  | .string _ => 7
  | .blob _ => 8
  | .array _ => 9
  | .object _ => 10
  | .unspecified => 11

mutual
/-- Comparison `JKSNValue::operator==`. -/
def valEq : JKSNValue → JKSNValue → Bool
  | .bool a, .bool b => a == b
  | .int a, .int b => a == b
  | .string a, .string b => a == b
  | .blob a, .blob b => a == b
  | .array xs, .array ys => if xs.length ≠ ys.length then false else valEqList xs ys
  | .object xs, .object ys => if xs.length ≠ ys.length then false else valEqEntries xs ys
  | .undefined, .undefined => true
  | .null, .null => true
  | .unspecified, .unspecified => true
  | _, _ => false
/-- The element loop of `operator==` on two vectors of equal size. -/
def valEqList : List JKSNValue → List JKSNValue → Bool
  | [], _ => true
  | _ :: _, [] => true
  | x :: xs, y :: ys => if !(valEq x y) then false else valEqList xs ys
/-- The entry loop of `operator==` on two maps of equal size. -/
def valEqEntries : List (JKSNValue × JKSNValue) → List (JKSNValue × JKSNValue) → Bool
  | [], _ => true
  | _ :: _, [] => true
  | (k, v) :: xs, (k2, v2) :: ys =>
    if !(valEq k k2) || !(valEq v v2) then false else valEqEntries xs ys
end

/-- Comparison `std::string::operator<`: lexicographic on unsigned bytes. -/
def bytesLt : Bytes → Bytes → Bool
  | [], [] => false
  | [], _ :: _ => true
  | _ :: _, [] => false
  | a :: s, b :: t =>
    if a % 256 < b % 256 then true else if b % 256 < a % 256 then false else bytesLt s t

mutual
/-- Comparison `JKSNValue::operator<`.  On two Objects the source binds `that_map` to
`this->toMap()`, so the entry loop runs on the left operand twice. -/
def valLt : JKSNValue → JKSNValue → Bool
  | .bool a, .bool b => !a && b
  | .int a, .int b => decide (a < b)
  | .string a, .string b => bytesLt a b
  | .blob a, .blob b => bytesLt a b
  | .array xs, .array ys => valLtList xs ys
  | .object xs, .object _ => valLtEntries xs xs
  | .undefined, .undefined => false
  | .null, .null => false
  | .unspecified, .unspecified => false
  | a, b => decide (a.getType < b.getType)
/-- The element loop of `operator<` on two vectors. -/
def valLtList : List JKSNValue → List JKSNValue → Bool
  | [], ys => !ys.isEmpty
  | _ :: _, [] => false
  | x :: xs, y :: ys =>
    if valLt x y then true else if !(valEq x y) then false else valLtList xs ys
/-- The entry loop of `operator<` on two maps. -/
def valLtEntries : List (JKSNValue × JKSNValue) → List (JKSNValue × JKSNValue) → Bool
  | [], ys => !ys.isEmpty
  | _ :: _, [] => false
  | (k, v) :: xs, (k2, v2) :: ys =>
    if valLt k k2 then true
    else if !(valEq k k2) then false
    else if valLt v v2 then true
    else if !(valEq v v2) then false
    else valLtEntries xs ys
end

/-- Lookup `std::map::find(column)` on the entries in iteration order: the first entry whose
key is not less than `column` (the lower bound), provided `column` is not less than it. -/
def mapFind {β : Type} (row : List (JKSNValue × β)) (column : JKSNValue) :
    Option (JKSNValue × β) :=
  match row.find? (fun e => !(valLt e.1 column)) with
  | some e => if valLt column e.1 then none else some e
  | none => none

/-! ## The proxy tree -/

/-- Class `JKSNProxy`.  The field `origin` holds the value that the pointer `origin` of the
source refers to; whether that object is still alive when `optimize` reads the pointer is
tracked by `optimizeAt`. -/
inductive JKSNProxy where
  | mk (origin : JKSNValue) (control : Nat) (data : Bytes) (buf : Bytes)
      (children : List JKSNProxy) (hash : Nat)

namespace JKSNProxy

/-- Field `origin`. -/
def origin : JKSNProxy → JKSNValue
  | .mk o _ _ _ _ _ => o

/-- Field `control`. -/
def control : JKSNProxy → Nat
  | .mk _ c _ _ _ _ => c

/-- Field `data`. -/
def data : JKSNProxy → Bytes
  | .mk _ _ d _ _ _ => d

/-- Field `buf`. -/
def buf : JKSNProxy → Bytes
  | .mk _ _ _ b _ _ => b

/-- Field `children`. -/
def children : JKSNProxy → List JKSNProxy
  | .mk _ _ _ _ cs _ => cs

/-- Field `hash`. -/
def hash : JKSNProxy → Nat
  | .mk _ _ _ _ _ h => h

/-- Assignment to `children`. -/
def setChildren : JKSNProxy → List JKSNProxy → JKSNProxy
  | .mk o c d b _ h, cs => .mk o c d b cs h

/-- Assignment to `hash`. -/
def setHash : JKSNProxy → Nat → JKSNProxy
  | .mk o c d b cs _, h => .mk o c d b cs h

mutual
/-- Method `JKSNProxy::toString(recursive)`; `output` writes the same bytes. -/
def toString (recursive : Bool) : JKSNProxy → Bytes
  | .mk _ control data buf children _ =>
    [control % 256] ++ data ++ buf ++ (if recursive then toStringList children else [])
/-- The loop of `toString` over the children. -/
def toStringList : List JKSNProxy → Bytes
  | [] => []
  | i :: rest => toString true i ++ toStringList rest
end

mutual
/-- Method `JKSNProxy::size(depth)`. -/
def size (depth : Nat) : JKSNProxy → Nat
  | .mk _ _ data buf children _ =>
    1 + data.length + buf.length +
      (if depth = 0 then sizeList 0 children
       else if depth ≠ 1 then sizeList (depth - 1) children
       else 0)
/-- The loops of `size` over the children. -/
def sizeList (depth : Nat) : List JKSNProxy → Nat
  | [] => 0
  | i :: rest => size depth i + sizeList depth rest
end

mutual
/-- The nodes of a proxy tree in emission order (the order in which `output` writes them). -/
def nodes : JKSNProxy → List JKSNProxy
  | .mk o c d b children h => .mk o c d b children h :: nodesList children
/-- The nodes of a list of trees in emission order. -/
def nodesList : List JKSNProxy → List JKSNProxy
  | [] => []
  | i :: rest => nodes i ++ nodesList rest
end

end JKSNProxy

/-- Class `JKSNCache`.  The source leaves `lastint` uninitialised; it is read only when
`haslastint` is set. -/
structure JKSNCache where
  haslastint : Bool
  lastint : Int
  texthash : Nat → Option Bytes
  blobhash : Nat → Option Bytes

/-- The cache of a newly constructed encoder or decoder. -/
def JKSNCache.fresh : JKSNCache :=
  { haslastint := false, lastint := 0, texthash := fun _ => none, blobhash := fun _ => none }

/-! ## The encoder -/

/-- Function `dumpUndefined`. -/
def dumpUndefined (obj : JKSNValue) : JKSNProxy := .mk obj 0x00 [] [] [] 0

/-- Function `dumpNull`. -/
def dumpNull (obj : JKSNValue) : JKSNProxy := .mk obj 0x01 [] [] [] 0

/-- Function `dumpBool`. -/
def dumpBool (obj : JKSNValue) : Except JKSNErr JKSNProxy := do
  let b ← obj.toBool
  pure (.mk obj (if b then 0x03 else 0x02) [] [] [] 0)

/-- Function `dumpUnspecified`. -/
def dumpUnspecified (obj : JKSNValue) : JKSNProxy := .mk obj 0xa0 [] [] [] 0

/-- Function `dumpInt`.  The last branch computes `uintmax_t(-number)`: for the least
`intmax_t`, -2^63, the negation overflows, which is undefined in the source; here it is
2^63, the result of the wrapping negation, and the statements about the round trip leave
that one integer out. -/
def dumpInt (obj : JKSNValue) : Except JKSNErr JKSNProxy := do
  let number ← obj.toInt
  if number ≥ 0 ∧ number ≤ 0xa then
    pure (.mk obj (0x10 ||| toUint8 number) [] [] [] 0)
  else if number ≥ -0x80 ∧ number ≤ 0x7f then
    pure (.mk obj 0x1d (← encodeInt (toUintmax number) 1) [] [] 0)
  else if number ≥ -0x8000 ∧ number ≤ 0x7fff then
    pure (.mk obj 0x1c (← encodeInt (toUintmax number) 2) [] [] 0)
  else if (number ≥ -0x80000000 ∧ number ≤ -0x200000) ∨
          (number ≥ 0x200000 ∧ number ≤ 0x7fffffff) then
    pure (.mk obj 0x1b (← encodeInt (toUintmax number) 4) [] [] 0)
  else if number ≥ 0 then
    pure (.mk obj 0x1f (← encodeInt (toUintmax number) 0) [] [] 0)
  else
    pure (.mk obj 0x1e (← encodeInt (toUintmax (-number)) 0) [] [] 0)

/-- Function `dumpString`. -/
def dumpString (obj : JKSNValue) : Except JKSNErr JKSNProxy := do
  let str ← obj.toString
  let (obj_short, is_utf16) ←
    match UTF8ToUTF16LE str true with
    | .ok obj_utf16 =>
      if obj_utf16.length < str.length then pure (obj_utf16, true) else pure (str, false)
    | .error .JKSNTypeError => pure (str, false)
    | .error e => throw e
  let control := if is_utf16 then 0x30 else 0x40
  let length := if is_utf16 then obj_short.length / 2 else obj_short.length
  let result ←
    if length ≤ (if is_utf16 then 0xb else 0xc) then
      pure (JKSNProxy.mk obj (control ||| length % 256) [] obj_short [] 0)
    else if length ≤ 0xff then
      pure (JKSNProxy.mk obj (control ||| 0xe) (← encodeInt length 1) obj_short [] 0)
    else if length ≤ 0xffff then
      pure (JKSNProxy.mk obj (control ||| 0xd) (← encodeInt length 2) obj_short [] 0)
    else
      pure (JKSNProxy.mk obj (control ||| 0xf) (← encodeInt length 0) obj_short [] 0)
  pure (result.setHash (DJBHash result.buf 0))

/-- Function `dumpBlob`. -/
def dumpBlob (obj : JKSNValue) : Except JKSNErr JKSNProxy := do
  let blob ← obj.toBlob
  let length := blob.length
  let result ←
    if length ≤ 0xb then
      pure (JKSNProxy.mk obj (0x50 ||| length % 256) [] blob [] 0)
    else if length ≤ 0xff then
      pure (JKSNProxy.mk obj 0x5e (← encodeInt length 1) blob [] 0)
    else if length ≤ 0xffff then
      pure (JKSNProxy.mk obj 0x5d (← encodeInt length 2) blob [] 0)
    else
      pure (JKSNProxy.mk obj 0x5f (← encodeInt length 0) blob [] 0)
  pure (result.setHash (DJBHash result.buf 0))

/-- Function `testSwapAvailability`, on the vector of the array. -/
def testSwapAvailabilityLoop : List JKSNValue → Bool → Bool
  | [], columns => columns
  | row :: rest, columns =>
    match row with
    | .object kvs => testSwapAvailabilityLoop rest (columns || !kvs.isEmpty)
    | _ => false

/-- Function `testSwapAvailability`. -/
def testSwapAvailability (obj : JKSNValue) : Except JKSNErr Bool := do
  pure (testSwapAvailabilityLoop (← obj.toVector) false)

/-- The results of a sequence of calls, in order: the first error aborts the sequence. -/
def collect {α : Type} : List (Except JKSNErr α) → Except JKSNErr (List α)
  | [] => .ok []
  | x :: rest => do
    let a ← x
    let others ← collect rest
    pure (a :: others)

/-! ### Arrays and objects

`dumpValue` calls itself on the elements of an array, on the keys and values of an object,
and, for the swapped array, on the keys of the rows.  The bodies of `encodeStraightArray`,
`encodeSwappedArray`, `dumpArray` and `dumpObject` are written first, taking the results of
those calls (`dumpValue(i)`, in the order of the source) as an argument; `dumpValue` then
supplies them by recursion on the value (`dumpElements_eq_map`, `dumpEntries_eq_flatMap`,
`dumpKeys_eq_map` and `dumpRows_of_objects` state what is supplied). -/

/-- Body of `encodeStraightArray`; `dumped` holds `dumpValue(i)` for the elements `i` of
`obj.toVector()`. -/
def encodeStraightArrayFrom (ndebug : Bool) (obj : JKSNValue)
    (dumped : List (Except JKSNErr JKSNProxy)) : Except JKSNErr JKSNProxy := do
  let length := (← obj.toVector).length
  let result ←
    if length ≤ 0xc then
      pure (JKSNProxy.mk obj (0x80 ||| length % 256) [] [] [] 0)
    else if length ≤ 0xff then
      pure (JKSNProxy.mk obj 0x8e (← encodeInt length 1) [] [] 0)
    else if length ≤ 0xffff then
      pure (JKSNProxy.mk obj 0x8d (← encodeInt length 2) [] [] 0)
    else
      pure (JKSNProxy.mk obj 0x8f (← encodeInt length 0) [] [] 0)
  let children ← collect dumped
  if !ndebug && children.length != length then throw .aborted
  pure (result.setChildren children)

/-- Modelled from the spec: membership `columns_set.find(key) != columns_set.end()` in the
`std::unordered_set<JKSNValue>`; the hash of `jksn.hpp` is not part of the sources, and the
set holds the keys pushed to `columns`, compared by `operator==`. -/
def columnsContain {β : Type} (columns : List (JKSNValue × β)) (key : JKSNValue) : Bool :=
  columns.any (fun c => valEq c.1 key)

/-- The first loop of `encodeSwappedArray`: the keys of all rows in first-seen order, each
once.  An entry pairs a key with the result of `dumpValue` on it. -/
def swapColumns {β : Type} (rows : List (List (JKSNValue × β))) : List (JKSNValue × β) :=
  rows.flatten.foldl
    (fun columns column => if columnsContain columns column.1 then columns else columns ++ [column])
    []

/-- The calls `row.toMap()` of `encodeSwappedArray`.  A row of `rows` is none when the
element is not an Object (`toMap` throws), and otherwise lists the keys of the row in
iteration order, each paired with `dumpValue(key)`. -/
def swapRows (rows : List (Option (List (JKSNValue × Except JKSNErr JKSNProxy)))) :
    Except JKSNErr (List (List (JKSNValue × Except JKSNErr JKSNProxy))) :=
  collect (rows.map (fun row =>
    match row with
    | some entries => Except.ok entries
    | none => Except.error JKSNErr.JKSNTypeError))

/-- The second loop of `encodeSwappedArray`: for each column `dumpValue(column)`, then for
each row the cell, `dumpValue(it->first)` when `find` hits and `dumpValue` of Unspecified
otherwise. -/
def swapCells (rows : List (List (JKSNValue × Except JKSNErr JKSNProxy))) :
    List (Except JKSNErr JKSNProxy) :=
  (swapColumns rows).flatMap (fun column =>
    column.2 :: rows.map (fun row =>
      match mapFind row column.1 with
      | some it => it.2
      | none => Except.ok (dumpUnspecified JKSNValue.unspecified)))

/-- Body of `encodeSwappedArray`; `rows` holds the keys of the rows with the results of
`dumpValue` on them (see `swapRows`). -/
def encodeSwappedArrayFrom (ndebug : Bool) (obj : JKSNValue)
    (rows : List (Option (List (JKSNValue × Except JKSNErr JKSNProxy)))) :
    Except JKSNErr JKSNProxy := do
  let rows ← swapRows rows
  let collen := (swapColumns rows).length
  let result ←
    if collen ≤ 0xc then
      pure (JKSNProxy.mk obj (0xa0 ||| collen % 256) [] [] [] 0)
    else if collen ≤ 0xff then
      pure (JKSNProxy.mk obj 0xae (← encodeInt collen 1) [] [] 0)
    else if collen ≤ 0xffff then
      pure (JKSNProxy.mk obj 0xad (← encodeInt collen 2) [] [] 0)
    else
      pure (JKSNProxy.mk obj 0xaf (← encodeInt collen 0) [] [] 0)
  let children ← collect (swapCells rows)
  if !ndebug && children.length != collen * 2 then throw .aborted
  pure (result.setChildren children)

/-- Body of `dumpArray`. -/
def dumpArrayFrom (ndebug : Bool) (obj : JKSNValue)
    (dumped : List (Except JKSNErr JKSNProxy))
    (rows : List (Option (List (JKSNValue × Except JKSNErr JKSNProxy)))) :
    Except JKSNErr JKSNProxy := do
  let result ← encodeStraightArrayFrom ndebug obj dumped
  if ← testSwapAvailability obj then
    let result_swapped ← encodeSwappedArrayFrom ndebug obj rows
    if result_swapped.size 3 < result.size 3 then
      pure result_swapped
    else pure result
  else pure result

/-- Body of `dumpObject`; `dumped` holds `dumpValue(item.first)`, `dumpValue(item.second)`
for the entries of `obj.toMap()` in order. -/
def dumpObjectFrom (ndebug : Bool) (obj : JKSNValue)
    (dumped : List (Except JKSNErr JKSNProxy)) : Except JKSNErr JKSNProxy := do
  let length := (← obj.toMap).length
  let result ←
    if length ≤ 0xc then
      pure (JKSNProxy.mk obj (0x90 ||| length % 256) [] [] [] 0)
    else if length ≤ 0xff then
      pure (JKSNProxy.mk obj 0x9e (← encodeInt length 1) [] [] 0)
    else if length ≤ 0xffff then
      pure (JKSNProxy.mk obj 0x9d (← encodeInt length 2) [] [] 0)
    else
      pure (JKSNProxy.mk obj 0x9f (← encodeInt length 0) [] [] 0)
  let children ← collect dumped
  if !ndebug && children.length != length * 2 then throw .aborted
  pure (result.setChildren children)

mutual
/-- Function `dumpValue`. -/
def dumpValue (ndebug : Bool) : JKSNValue → Except JKSNErr JKSNProxy
  | .undefined => .ok (dumpUndefined .undefined)
  | .null => .ok (dumpNull .null)
  | .bool b => dumpBool (.bool b)
  | .int n => dumpInt (.int n)
  | .string s => dumpString (.string s)
  | .blob s => dumpBlob (.blob s)
  | .array xs =>
    dumpArrayFrom ndebug (.array xs) (dumpElements ndebug xs) (dumpRows ndebug xs)
  | .object kvs => dumpObjectFrom ndebug (.object kvs) (dumpEntries ndebug kvs)
  | .unspecified => .ok (dumpUnspecified .unspecified)
/-- The calls `dumpValue(i)` for the elements of a vector. -/
def dumpElements (ndebug : Bool) : List JKSNValue → List (Except JKSNErr JKSNProxy)
  | [] => []
  | i :: rest => dumpValue ndebug i :: dumpElements ndebug rest
/-- The calls `dumpValue(item.first)`, `dumpValue(item.second)` for the entries of a map. -/
def dumpEntries (ndebug : Bool) :
    List (JKSNValue × JKSNValue) → List (Except JKSNErr JKSNProxy)
  | [] => []
  | (k, v) :: rest => dumpValue ndebug k :: dumpValue ndebug v :: dumpEntries ndebug rest
/-- The rows of an array for the swapped encoding: for a row that is an Object, its keys
paired with `dumpValue(key)`. -/
def dumpRows (ndebug : Bool) :
    List JKSNValue → List (Option (List (JKSNValue × Except JKSNErr JKSNProxy)))
  | [] => []
  | .object kvs :: rest => some (dumpKeys ndebug kvs) :: dumpRows ndebug rest
  | _ :: rest => none :: dumpRows ndebug rest
/-- The keys of a map, paired with `dumpValue(key)`. -/
def dumpKeys (ndebug : Bool) :
    List (JKSNValue × JKSNValue) → List (JKSNValue × Except JKSNErr JKSNProxy)
  | [] => []
  | (k, _) :: rest => (k, dumpValue ndebug k) :: dumpKeys ndebug rest
end

/-- Function `encodeStraightArray`. -/
def encodeStraightArray (ndebug : Bool) (obj : JKSNValue) : Except JKSNErr JKSNProxy :=
  match obj with
  | .array xs => encodeStraightArrayFrom ndebug obj (dumpElements ndebug xs)
  | _ => .error .JKSNTypeError

/-- Function `encodeSwappedArray`. -/
def encodeSwappedArray (ndebug : Bool) (obj : JKSNValue) : Except JKSNErr JKSNProxy :=
  match obj with
  | .array xs => encodeSwappedArrayFrom ndebug obj (dumpRows ndebug xs)
  | _ => .error .JKSNTypeError

/-- Function `dumpArray`. -/
def dumpArray (ndebug : Bool) (obj : JKSNValue) : Except JKSNErr JKSNProxy := do
  let result ← encodeStraightArray ndebug obj
  if ← testSwapAvailability obj then
    let result_swapped ← encodeSwappedArray ndebug obj
    if result_swapped.size 3 < result.size 3 then
      pure result_swapped
    else pure result
  else pure result

/-- Function `dumpObject`. -/
def dumpObject (ndebug : Bool) (obj : JKSNValue) : Except JKSNErr JKSNProxy :=
  match obj with
  | .object kvs => dumpObjectFrom ndebug obj (dumpEntries ndebug kvs)
  | _ => .error .JKSNTypeError

/-! ### The optimizer -/

/-- Function `abs` as the calls `abs(delta)` and `abs(obj.origin->toInt())` of `optimize`
resolve it.  The file includes `<cstdlib>` and `<cmath>` and has no using-directive, so with
g++ and libstdc++ the unqualified name finds `int abs(int)` of `<stdlib.h>` only: the
`intmax_t` argument is converted to `int`, and the result is an `int`.  Below 2^31 in
magnitude this is the absolute value, also with a library that declares the `long`
overloads in the global namespace. -/
def absInt (x : Int) : Int := toSigned 32 (|toSigned 32 (toUintmax x)|).toNat

/-- The delta form chosen by `optimize` for `delta`: the new control byte and data.  The
literal `-0x80000000` of the source has no suffix: `0x80000000` is an `unsigned int`, its
negation is 2147483648, and the lower bound of the int32 branch compares with that. -/
def deltaForm (delta : Int) : Except JKSNErr (Nat × Bytes) := do
  if delta ≥ 0 ∧ delta ≤ 0x5 then
    pure (0xb0 ||| toUint8 delta, [])
  else if delta ≥ -0x5 ∧ delta ≤ -0x1 then
    pure (0xb0 ||| toUint8 (delta + 11), [])
  else if delta ≥ -0x80 ∧ delta ≤ 0x7f then
    pure (0xbd, ← encodeInt (toUintmax delta) 1)
  else if delta ≥ -0x8000 ∧ delta ≤ 0x7fff then
    pure (0xbc, ← encodeInt (toUintmax delta) 2)
  else if (delta ≥ 0x80000000 ∧ delta ≤ -0x200000) ∨
          (delta ≥ 0x200000 ∧ delta ≤ 0x7fffffff) then
    pure (0xbb, ← encodeInt (toUintmax delta) 4)
  else if delta ≥ 0 then
    pure (0xbf, ← encodeInt (toUintmax delta) 0)
  else
    pure (0xbe, ← encodeInt (toUintmax (-delta)) 0)

/-- The `case 0x10` of `optimize`: the control and data of the node afterwards, and the
cache.  `origin` is what `obj.origin` points to, read twice by `toInt()`; `optimizeAt` calls
this only where that object is alive.  The difference `toInt() - lastint` of two `intmax_t`
is taken as wrapping (`wrapIntmax`); where it overflows the source is undefined. -/
def optimizeInt (cache : JKSNCache) (origin : JKSNValue) (control : Nat) (data : Bytes) :
    Except JKSNErr (Nat × Bytes × JKSNCache) := do
  let rewritten ←
    if cache.haslastint then do
      let current ← origin.toInt
      let delta := wrapIntmax (current - cache.lastint)
      if absInt delta < absInt current then
        let (new_control, new_data) ← deltaForm delta
        if new_data.length < data.length then pure (new_control, new_data)
        else pure (control, data)
      else pure (control, data)
    else pure (control, data)
  let current ← origin.toInt
  pure (rewritten.1, rewritten.2, { cache with haslastint := true, lastint := current })

/-- The `case 0x30`, `case 0x40` and `case 0x50` of `optimize` on one hash table (`texthash`
or `blobhash`): the control, data and buf of the node afterwards, and the table. -/
def optimizeHash (table : Nat → Option Bytes) (control : Nat) (data buf : Bytes) (hash : Nat) :
    Except JKSNErr (Nat × Bytes × Bytes × (Nat → Option Bytes)) := do
  if buf.length > 1 then
    if table hash = some buf then
      pure (0x3c, ← encodeInt hash 1, [], table)
    else
      pure (control, data, buf, fun i => if i = hash then some buf else table i)
  else pure (control, data, buf, table)

/-! `JKSNProxy::origin` is a pointer (`const JKSNValue *origin`), kept by value in
`JKSNProxy` here.  `optimize` runs after `dumpValue` has returned, and the objects that some
of the pointers refer to are destroyed by then:

* `dumpObject` binds `const std::pair<JKSNValue, JKSNValue> &item` to the elements of a
  `std::map<JKSNValue, JKSNValue>`, whose element type is `std::pair<const JKSNValue,
  JKSNValue>`: each iteration builds a temporary pair, a deep copy, and `item.first` and
  `item.second` die with it at the end of the iteration;
* `encodeSwappedArray` passes to `dumpValue` the elements of its local list `columns` and
  the temporary of the conditional expression in its second loop;
* `encodeStraightArray` passes to `dumpValue` the elements of `obj.toVector()`, which live
  as long as `obj`.

So the origins of the children of an Object record (class 0x9) and of a swapped Array
record (class 0xa), and of all nodes below them, are dead when `optimize` visits them; the
origin of the root, `obj` of `dumpToProxy`, is alive, and the children of a straight Array
record (class 0x8) are alive when the record is.  `optimize` reads `obj.origin` on integer
records only (`case 0x10`).  The flag `alive` of `optimizeAt` tracks this along the
traversal. -/

mutual
/-- Function `optimize` on a node whose origin is alive or not, as `alive` says: the
rewritten node and the cache afterwards.  An integer record with a dead origin ends the
run (`JKSNErr.deadOrigin`). -/
def optimizeAt (alive : Bool) (cache : JKSNCache) :
    JKSNProxy → Except JKSNErr (JKSNProxy × JKSNCache)
  | .mk origin control data buf children hash =>
    let cls := control &&& 0xf0
    if cls = 0x10 then
      if alive then do
        let (control, data, cache) ← optimizeInt cache origin control data
        pure (.mk origin control data buf children hash, cache)
      else .error .deadOrigin
    else if cls = 0x30 ∨ cls = 0x40 then do
      let (control, data, buf, table) ← optimizeHash cache.texthash control data buf hash
      pure (.mk origin control data buf children hash, { cache with texthash := table })
    else if cls = 0x50 then do
      let (control, data, buf, table) ← optimizeHash cache.blobhash control data buf hash
      pure (.mk origin control data buf children hash, { cache with blobhash := table })
    else do
      let (children, cache) ← optimizeChildrenAt (alive && decide (cls = 0x80)) cache children
      pure (.mk origin control data buf children hash, cache)
/-- The loop of `optimize` over the children of a node. -/
def optimizeChildrenAt (alive : Bool) (cache : JKSNCache) :
    List JKSNProxy → Except JKSNErr (List JKSNProxy × JKSNCache)
  | [] => .ok ([], cache)
  | child :: rest => do
    let (child, cache) ← optimizeAt alive cache child
    let (rest, cache) ← optimizeChildrenAt alive cache rest
    pure (child :: rest, cache)
end

/-- Function `optimize` as `dumpToProxy` calls it, on the proxy of its argument `obj`: the
origin of the root is alive. -/
def optimize (cache : JKSNCache) (proxy : JKSNProxy) : Except JKSNErr (JKSNProxy × JKSNCache) :=
  optimizeAt true cache proxy

/-- Function `JKSNEncoderPrivate::dumpToProxy` on an encoder whose cache is `cache`: the
proxy and the cache it leaves. -/
def dumpToProxy (ndebug : Bool) (cache : JKSNCache) (obj : JKSNValue) :
    Except JKSNErr (JKSNProxy × JKSNCache) := do
  let proxy ← dumpValue ndebug obj
  optimize cache proxy

/-- Functions `JKSNEncoder::dump` and `JKSNEncoder::dumps` on an encoder whose cache is
`cache`: the bytes written and the cache left.  Writing to the output string does not fail. -/
def JKSNEncoder.dumps (ndebug : Bool) (cache : JKSNCache) (obj : JKSNValue) (header : Bool) :
    Except JKSNErr (Bytes × JKSNCache) := do
  let (proxy, cache) ← dumpToProxy ndebug cache obj
  pure ((if header then [0x6a, 0x6b, 0x21] else []) ++ proxy.toString true, cache)

/-! ## The decoder -/

/-- An input stream (`std::istream` over a string): the bytes already read, most recent
first, the bytes still to read, the count of the last unformatted read (`gcount`), and
whether `failbit` is set. -/
structure IStream where
  past : Bytes
  rest : Bytes
  gcount : Nat
  failed : Bool

/-- A stream over a string, as `std::istringstream stream(str)`. -/
def IStream.ofBytes (str : Bytes) : IStream :=
  { past := [], rest := str, gcount := 0, failed := false }

/-- Call `fp.get(c)`: the byte read, if the stream is good and not at its end; otherwise
`failbit` is set. -/
def IStream.get (fp : IStream) : Option Nat × IStream :=
  if fp.failed then (none, { fp with gcount := 0 })
  else
    match fp.rest with
    | [] => (none, { fp with gcount := 0, failed := true })
    | c :: rest => (some c, { fp with past := c :: fp.past, rest := rest, gcount := 1 })

/-- Call `fp.read(buffer, n)`: the `n` bytes read, if the stream is good and has them;
otherwise what is left is consumed, `gcount` counts it and `failbit` is set. -/
def IStream.read (fp : IStream) (n : Nat) : Option Bytes × IStream :=
  if fp.failed then (none, { fp with gcount := 0 })
  else if n ≤ fp.rest.length then
    (some (fp.rest.take n),
      { fp with past := (fp.rest.take n).reverse ++ fp.past, rest := fp.rest.drop n, gcount := n })
  else
    (none, { past := fp.rest.reverse ++ fp.past, rest := [], gcount := fp.rest.length,
             failed := true })

/-- Call `fp.seekg(-n, fp.cur)`: nothing happens on a stream whose `failbit` is set;
otherwise the position moves back by `n` bytes (a position before the start fails). -/
def IStream.seekBack (fp : IStream) (n : Nat) : IStream :=
  if fp.failed then fp
  else if n ≤ fp.past.length then
    { fp with past := fp.past.drop n, rest := (fp.past.take n).reverse ++ fp.rest }
  else { fp with failed := true }

/-- The `do ... while` loop of `decodeInt` for size 0, on the bytes still to read: the
value and the bytes left.  An exhausted stream throws the `const char *`. -/
def decodeIntLoop : Bytes → Nat → Except JKSNErr (Nat × Bytes)
  | rest, result =>
    if result &&& (2 ^ 64 - 1 - ((2 ^ 64 - 1) >>> 7)) ≠ 0 then .error .JKSNDecodeError
    else
      match rest with
      | [] => .error .charPointer
      | thisbyte :: rest =>
        let result := ((result <<< 7) % 2 ^ 64) ||| ((thisbyte % 256) &&& 0x7f)
        if (thisbyte % 256) &&& 0x80 ≠ 0 then decodeIntLoop rest result
        else .ok (result, rest)

/-- Function `JKSNDecoderPrivate::decodeInt(fp, size)`: the value and the stream
afterwards. -/
def decodeInt (fp : IStream) (size : Nat) : Except JKSNErr (Nat × IStream) :=
  match size with
  | 1 =>
    match fp.get with
    | (some buffer, fp) => .ok (buffer % 256, fp)
    | (none, _) => .error .charPointer
  | 2 =>
    match fp.read 2 with
    | (some buffer, fp) =>
      .ok ((((buffer.getD 0 0) % 256) <<< 8) ||| ((buffer.getD 1 0) % 256), fp)
    | (none, _) => .error .charPointer
  | 4 =>
    match fp.read 4 with
    | (some buffer, fp) =>
      .ok ((((buffer.getD 0 0) % 256) <<< 24) ||| (((buffer.getD 1 0) % 256) <<< 16) |||
           (((buffer.getD 2 0) % 256) <<< 8) ||| ((buffer.getD 3 0) % 256), fp)
    | (none, _) => .error .charPointer
  | 0 =>
    if fp.failed then .error .charPointer
    else
      match decodeIntLoop fp.rest 0 with
      | .ok (result, rest) =>
        .ok (result, { fp with
          past := (fp.rest.take (fp.rest.length - rest.length)).reverse ++ fp.past,
          rest := rest, gcount := 1 })
      | .error e => .error e
  | _ => .error .aborted

/-- The `switch` of `parseValue` on the control byte just read, for the values that
`JKSNValue` has here.  The float opcodes end it with `JKSNErr.floatOpcode`: for 0x20, 0x2e
and 0x2f the source returns a float constant without reading (`parseValueFloatConstant`
below), and for 0x2b, 0x2c and 0x2d it calls `parseLongDouble`, `parseDouble` and
`parseFloat`, which `jksn.cpp` declares and does not define.  Under 0x1e the source computes
`-intmax_t(decodeInt(fp, 0))`: for the payload 2^63 the operand is the least `intmax_t` and
the negation overflows, which is undefined in the source; here it wraps to -2^63, and the
statements about the decoder leave that one result out. -/
def parseControl (cache : JKSNCache) (control : Nat) (fp : IStream) :
    Except JKSNErr (JKSNValue × JKSNCache × IStream) :=
  let ctrlhi := control &&& 0xf0
  if ctrlhi = 0x00 then
    if control = 0x00 then .ok (.undefined, cache, fp)
    else if control = 0x01 then .ok (.null, cache, fp)
    else if control = 0x02 then .ok (.bool false, cache, fp)
    else if control = 0x03 then .ok (.bool true, cache, fp)
    else if control = 0x0f then .error .JKSNDecodeError
    else .error .JKSNDecodeError
  else if ctrlhi = 0x10 then
    let cache := { cache with haslastint := true }
    if control = 0x1b then do
      let (n, fp) ← decodeInt fp 4
      let cache := { cache with lastint := toSigned 32 n }
      pure (.int cache.lastint, cache, fp)
    else if control = 0x1c then do
      let (n, fp) ← decodeInt fp 2
      let cache := { cache with lastint := toSigned 16 n }
      pure (.int cache.lastint, cache, fp)
    else if control = 0x1d then do
      let (n, fp) ← decodeInt fp 1
      let cache := { cache with lastint := toSigned 8 n }
      pure (.int cache.lastint, cache, fp)
    else if control = 0x1e then do
      let (n, fp) ← decodeInt fp 0
      let cache := { cache with lastint := wrapIntmax (-(toIntmax n)) }
      if cache.lastint ≥ 0 then throw .JKSNDecodeError
      pure (.int cache.lastint, cache, fp)
    else if control = 0x1f then do
      let (n, fp) ← decodeInt fp 0
      let cache := { cache with lastint := toIntmax n }
      if cache.lastint < 0 then throw .JKSNDecodeError
      pure (.int cache.lastint, cache, fp)
    else
      let cache := { cache with lastint := ((control &&& 0xf : Nat) : Int) }
      .ok (.int cache.lastint, cache, fp)
  else if ctrlhi = 0x20 then
    if control = 0x20 ∨ control = 0x2b ∨ control = 0x2c ∨ control = 0x2d ∨ control = 0x2e ∨
        control = 0x2f then .error .floatOpcode
    else .error .JKSNDecodeError
  else .error .JKSNDecodeError

/-- Function `JKSNDecoderPrivate::parseValue` on a decoder whose cache is `cache`: the value,
the cache and the stream afterwards. -/
def parseValue (cache : JKSNCache) (fp : IStream) :
    Except JKSNErr (JKSNValue × JKSNCache × IStream) :=
  match fp.get with
  | (none, _) => .error .charPointer
  | (some signed_control, fp) => parseControl cache (signed_control % 256) fp

/-- The float constants that `parseValue` returns for the opcodes 0x20, 0x2e and 0x2f:
`JKSNValue(NAN)`, `JKSNValue(-INFINITY)` and `JKSNValue(INFINITY)`.  The float kinds are not
part of `JKSNValue` here, and `parseControl` stops at these opcodes (`JKSNErr.floatOpcode`). -/
inductive FloatConstant where
  | nan
  | negInfinity
  | infinity
  deriving DecidableEq, Repr

/-- The `case 0x20` of `parseValue` for the opcodes that return a constant.  The opcodes
0x2b, 0x2c and 0x2d call `parseLongDouble`, `parseDouble` and `parseFloat`, which `jksn.cpp`
declares and does not define. -/
def parseFloatConstant (control : Nat) : Option FloatConstant :=
  if control = 0x20 then some .nan
  else if control = 0x2e then some .negInfinity
  else if control = 0x2f then some .infinity
  else none

/-- Function `JKSNDecoderPrivate::parseValue` where it returns a float constant: the
constant, the cache and the stream afterwards.  Nothing is read after the control byte. -/
def parseValueFloatConstant (cache : JKSNCache) (fp : IStream) :
    Option (FloatConstant × JKSNCache × IStream) :=
  match fp.get with
  | (none, _) => none
  | (some signed_control, fp) =>
    (parseFloatConstant (signed_control % 256)).map (fun constant => (constant, cache, fp))

/-- Function `JKSNDecoder::parse(fp, header)`. -/
def JKSNDecoder.parseStream (cache : JKSNCache) (fp : IStream) (header : Bool) :
    Except JKSNErr (JKSNValue × JKSNCache × IStream) :=
  let fp :=
    if header then
      match fp.read 3 with
      | (some header_buf, fp1) =>
        if fp1.gcount ≠ 3 ∨ header_buf ≠ [0x6a, 0x6b, 0x21] then fp1.seekBack fp1.gcount
        else fp1
      | (none, fp1) => fp1.seekBack fp1.gcount
    else fp
  parseValue cache fp

/-- Function `JKSNDecoder::parse(str, header)` on a decoder whose cache is `cache`. -/
def JKSNDecoder.parse (cache : JKSNCache) (str : Bytes) (header : Bool) :
    Except JKSNErr (JKSNValue × JKSNCache) :=
  match JKSNDecoder.parseStream cache (IStream.ofBytes str) header with
  | .ok (value, cache, _) => .ok (value, cache)
  | .error e => .error e

/-! ## Vocabulary of the statements -/

/-- The cache of an encoder or decoder right after the integer `n`. -/
def JKSNCache.afterInt (cache : JKSNCache) (n : Int) : JKSNCache :=
  { cache with haslastint := true, lastint := n }

/-- Reference definition of the variable-length integer (spec, section 4.1): the base-128
digits of `n`, most significant first, the continuation bit 0x80 set on every byte except
the last. -/
def varintReference (n : Nat) : Bytes :=
  ((Nat.digits 128 (n / 128)).reverse.map (fun d => d + 128)) ++ [n % 128]

/-- A control byte of a string record (class 0x3 or 0x4). -/
def isTextControl (control : Nat) : Prop :=
  control &&& 0xf0 = 0x30 ∨ control &&& 0xf0 = 0x40

/-- A control byte of a blob record (class 0x5). -/
def isBlobControl (control : Nat) : Prop := control &&& 0xf0 = 0x50

/-- Two control bytes whose records share a hash table of the cache: both strings
(`texthash`) or both blobs (`blobhash`). -/
def sameHashTable (a b : Nat) : Prop :=
  (isTextControl a ∧ isTextControl b) ∨ (isBlobControl a ∧ isBlobControl b)

/-- Two control bytes of the same class: equal high nibbles. -/
def sameHighNibble (a b : Nat) : Prop := a &&& 0xf0 = b &&& 0xf0

/-- What the dumpers guarantee of every node they build: the control is a byte other than
0x3c, an integer node stems from an Int, and a string or blob node carries the hash of its
payload. -/
def JKSNProxy.Dumped (q : JKSNProxy) : Prop :=
  q.control ≠ 0x3c ∧ q.control < 256 ∧
  (q.control &&& 0xf0 = 0x10 → ∃ n, q.origin = .int n) ∧
  (isTextControl q.control ∨ isBlobControl q.control → q.hash = DJBHash q.buf 0)

/-- All nodes of a tree are as the dumpers build them. -/
def JKSNProxy.AllDumped (p : JKSNProxy) : Prop := ∀ q ∈ p.nodes, q.Dumped

/-- The payload record that a hash reference `node`, standing for `original`, points back
to: `earlier` kept its control and payload, is related to `original` by `sameClass`, has
the payload of `original`, and the data of `node` is the DJB8 hash of that payload. -/
def resolves (sameClass : Nat → Nat → Prop) (earlier original node : JKSNProxy) : Prop :=
  earlier.control ≠ 0x3c ∧ sameClass earlier.control original.control ∧
  earlier.buf = original.buf ∧ node.data = [DJBHash earlier.buf 0]

/-- Every hash reference of the optimized tree is resolved: a node of `optimized` with
control 0x3c stands where `proxy` had a node `original`; an earlier node of `optimized`, in
emission order, is a payload record related to `original` by `sameClass`, carries the payload
of `original`, and the data byte of the reference is the DJB8 hash of that payload. -/
def HashRefsResolved (sameClass : Nat → Nat → Prop) (proxy optimized : JKSNProxy) : Prop :=
  ∀ (j : Nat) (node : JKSNProxy), optimized.nodes[j]? = some node → node.control = 0x3c →
    ∃ (original : JKSNProxy) (i : Nat) (earlier : JKSNProxy),
      proxy.nodes[j]? = some original ∧ i < j ∧ optimized.nodes[i]? = some earlier ∧
      resolves sameClass earlier original node

/-- What a caller of the decoder observes of a result: the value, the cache, and the part
of the stream still to read. -/
def observed (r : Except JKSNErr (JKSNValue × JKSNCache × IStream)) :
    Except JKSNErr (JKSNValue × JKSNCache × Bytes × Bool) :=
  match r with
  | .ok (v, c, fp) => .ok (v, c, fp.rest, fp.failed)
  | .error e => .error e

/-- The classes of record for which `parseValue` has no case. -/
def undecodedClass (control : Nat) : Prop :=
  control &&& 0xf0 = 0x30 ∨ control &&& 0xf0 = 0x40 ∨ control &&& 0xf0 = 0x50 ∨
  control &&& 0xf0 = 0x80 ∨ control &&& 0xf0 = 0x90 ∨ control &&& 0xf0 = 0xa0

/-- The hash references among `optimized`, the nodes that replace `originals` one for one,
are resolved by nodes emitted before them: by a node of `emitted`, or by an earlier node
of `optimized`. -/
def Resolved (sameClass : Nat → Nat → Prop) :
    List JKSNProxy → List JKSNProxy → List JKSNProxy → Prop
  | _, [], [] => True
  | emitted, original :: originals, node :: optimized =>
    (node.control = 0x3c → ∃ earlier ∈ emitted, resolves sameClass earlier original node) ∧
    Resolved sameClass (emitted ++ [node]) originals optimized
  | _, _, _ => False

/-- Every entry of the hash tables of the cache is the payload of a record already emitted,
of the kind of the table, stored under its DJB8 hash. -/
def CacheInv (cache : JKSNCache) (emitted : List JKSNProxy) : Prop :=
  (∀ h s, cache.texthash h = some s →
    ∃ e ∈ emitted, e.control ≠ 0x3c ∧ isTextControl e.control ∧ e.buf = s ∧ DJBHash s 0 = h) ∧
  (∀ h s, cache.blobhash h = some s →
    ∃ e ∈ emitted, e.control ≠ 0x3c ∧ isBlobControl e.control ∧ e.buf = s ∧ DJBHash s 0 = h)

/-- Big-endian base-128 value of the low seven bits of the bytes of a sequence, over
unbounded integers. -/
def base128Value (bytes : Bytes) : Nat :=
  bytes.foldl (fun acc b => acc * 128 + b % 128) 0

/-- Reference definition of the DJB8 hash (spec, byte primitives): `h := iv`; for each byte
`b` of `buf` in order `h := h + (h << 5) + b`, over unbounded integers; the result is
`h mod 256`. -/
def DJBReference (buf : Bytes) (iv : Nat) : Nat :=
  (buf.foldl (fun h b => h + (h <<< 5) + b) iv) % 256

/-- The fold `h := (33 * h + b) mod 256` from `iv`. -/
def DJBFold33 (buf : Bytes) (iv : Nat) : Nat :=
  buf.foldl (fun h b => (33 * h + b) % 256) iv

/-- Reference definition of the fixed-width integer (spec, byte primitives): the `k` bytes
of `n`, most significant first; byte `i` is `(n >> 8 (k - 1 - i)) mod 256`. -/
def bigEndianReference (k n : Nat) : Bytes :=
  (List.range k).map (fun i => (n >>> (8 * (k - 1 - i))) % 256)

/-- The length-form ladder that `dumpString`, `dumpBlob`, `encodeStraightArray` and
`dumpObject` each spell out: the control byte and the data of a record of class `control`
built for the length `length`.  The low nibble holds a length up to `immediate` (0xb where
0xc is taken, else 0xc); above that 0xe, 0xd, 0xf announce `encodeInt(length, 1)`,
`encodeInt(length, 2)`, `encodeInt(length, 0)`. -/
def lengthForm (control immediate length : Nat) : Except JKSNErr (Nat × Bytes) := do
  if length ≤ immediate then pure (control ||| length % 256, [])
  else if length ≤ 0xff then pure (control ||| 0xe, ← encodeInt length 1)
  else if length ≤ 0xffff then pure (control ||| 0xd, ← encodeInt length 2)
  else pure (control ||| 0xf, ← encodeInt length 0)

/-- Reference reading of a record header (spec, control-byte grammar): the length that the
control byte and the data denote.  Low nibble 0xe: one byte; 0xd: two bytes, big-endian;
0xf: a variable-length integer; otherwise the low nibble itself, with no data. -/
def grammarLength (control : Nat) (data : Bytes) : Option Nat :=
  let low := control % 16
  if low = 0xe then
    match data with
    | [b] => some b
    | _ => none
  else if low = 0xd then
    match data with
    | [hi, lo] => some (hi * 256 + lo)
    | _ => none
  else if low = 0xf then
    if data = [] then none else some (base128Value data)
  else if data = [] then some low
  else none

/-- Reference definition of a signed fixed-width integer (spec, byte primitives): the
big-endian value of the payload, sign-extended from its width of 8 bits per byte. -/
def signedBigEndianReference (payload : Bytes) : Int :=
  let value : Nat := payload.foldl (fun (acc b : Nat) => acc * 256 + b) 0
  if value < 2 ^ (8 * payload.length - 1) then (value : Int)
  else (value : Int) - ((2 ^ (8 * payload.length) : Nat) : Int)

/-- Reference reading of a delta record (spec, control-byte grammar, class 0xB): the delta
that the control byte and the data denote.  Low nibble 0 to 5: the nibble; 6 to 0xA: the
nibble minus 11; 0xD, 0xC, 0xB: the sign-extended big-endian payload of 1, 2, 4 bytes; 0xF:
a variable-length integer; 0xE: a variable-length integer, negated. -/
def grammarDelta (control : Nat) (data : Bytes) : Option Int :=
  let low := control % 16
  if low ≤ 0x5 then (if data = [] then some (low : Int) else none)
  else if low ≤ 0xa then (if data = [] then some ((low : Int) - 11) else none)
  else if low = 0xd then (if data.length = 1 then some (signedBigEndianReference data) else none)
  else if low = 0xc then (if data.length = 2 then some (signedBigEndianReference data) else none)
  else if low = 0xb then (if data.length = 4 then some (signedBigEndianReference data) else none)
  else if low = 0xf then (if data = [] then none else some ((base128Value data : Nat) : Int))
  else (if data = [] then none else some (-((base128Value data : Nat) : Int)))

/-- Reference definition of a Unicode scalar value: a code point up to U+10FFFF that is
not a surrogate. -/
def isScalarValue (cp : Nat) : Prop := cp < 0xD800 ∨ (0xE000 ≤ cp ∧ cp < 0x110000)

/-- Reference definition of UTF-8 (Unicode, table 3-6): the bytes of a code point. -/
def utf8Encode (cp : Nat) : Bytes :=
  if cp < 0x80 then [cp]
  else if cp < 0x800 then [0xC0 + cp / 64, 0x80 + cp % 64]
  else if cp < 0x10000 then [0xE0 + cp / 4096, 0x80 + cp / 64 % 64, 0x80 + cp % 64]
  else [0xF0 + cp / 262144, 0x80 + cp / 4096 % 64, 0x80 + cp / 64 % 64, 0x80 + cp % 64]

/-- Reference definition of well-formed UTF-8: the encoding of a sequence of scalar values.
A stray continuation byte, a truncated sequence, an overlong form, an encoded surrogate, a
code point above U+10FFFF and a byte from 0xF8 on are what no such encoding contains. -/
def WellFormedUTF8 (s : Bytes) : Prop :=
  ∃ cps : List Nat, (∀ cp ∈ cps, isScalarValue cp) ∧ s = cps.flatMap utf8Encode

/-- Reference definition of UTF-16LE: the bytes of a code point, low byte first; a code
point from U+10000 on is the high surrogate followed by the low surrogate. -/
def utf16LEEncode (cp : Nat) : Bytes :=
  if cp < 0x10000 then [cp % 256, cp / 256]
  else
    let high := 0xD800 + (cp - 0x10000) / 1024
    let low := 0xDC00 + (cp - 0x10000) % 1024
    [high % 256, high / 256, low % 256, low / 256]

/-- Reference reading of a sequence of UTF-16 code units as code points: a unit that is not
a surrogate is itself, a high surrogate immediately followed by a low surrogate is the
supplementary code point they form, every other surrogate is U+FFFD. -/
def utf16CodePoints : List Nat → List Nat
  | [] => []
  | [u] => [if 0xD800 ≤ u ∧ u < 0xE000 then 0xFFFD else u]
  | u :: v :: rest =>
    if 0xD800 ≤ u ∧ u < 0xDC00 ∧ 0xDC00 ≤ v ∧ v < 0xE000 then
      (0x10000 + (u - 0xD800) * 1024 + (v - 0xDC00)) :: utf16CodePoints rest
    else (if 0xD800 ≤ u ∧ u < 0xE000 then 0xFFFD else u) :: utf16CodePoints (v :: rest)
termination_by units => units.length

/-- One node of a tree before and after `optimize`.  The origin, the hash and the number of
children are those of the node before; the record (control, data, buf) is the one before,
or it is a delta record (class 0xB) or a hash reference (0x3C) with a strictly smaller
`size(1)`, the size of the node without its children. -/
def optimizedNode (before after : JKSNProxy) : Prop :=
  after.origin = before.origin ∧ after.hash = before.hash ∧
  after.children.length = before.children.length ∧
  ((after.control = before.control ∧ after.data = before.data ∧ after.buf = before.buf) ∨
   ((after.control &&& 0xf0 = 0xb0 ∨ after.control = 0x3c) ∧ after.size 1 < before.size 1))

/-- Two String records stand for the same String value. -/
def sameString (earlier original : JKSNProxy) : Prop := earlier.origin = original.origin

/-- Two String records stand for the same String value, provided both are class 0x4, where
the payload is the UTF-8 byte sequence of the value itself. -/
def sameStringIfBothUTF8 (earlier original : JKSNProxy) : Prop :=
  earlier.control &&& 0xf0 = 0x40 → original.control &&& 0xf0 = 0x40 →
    earlier.origin = original.origin

/-- Every hash reference of the optimized tree that stands for a String is resolved by a
String record: a node of `optimized` with control 0x3c whose origin is the String `s`
stands where `proxy` had the record `original` that `dumpString` builds for `s`; an earlier
node of `optimized`, in emission order, is the record `earlier` that `dumpString` builds
for a String `t`, carries the payload of `original`, the data byte of the reference is the
DJB8 hash of that payload, and the two records are related by `sameText`. -/
def StringRefsResolved (sameText : JKSNProxy → JKSNProxy → Prop)
    (proxy optimized : JKSNProxy) : Prop :=
  ∀ (j : Nat) (node : JKSNProxy) (s : Bytes), optimized.nodes[j]? = some node →
    node.control = 0x3c → node.origin = .string s →
    ∃ (original : JKSNProxy) (i : Nat) (earlier : JKSNProxy) (t : Bytes),
      proxy.nodes[j]? = some original ∧ dumpString (.string s) = .ok original ∧
      i < j ∧ optimized.nodes[i]? = some earlier ∧ dumpString (.string t) = .ok earlier ∧
      earlier.buf = original.buf ∧ node.data = [DJBHash original.buf 0] ∧
      sameText earlier original

mutual
/-- Whether `optimize`, on a node that it visits with the flag `alive`, reads no dead
origin: no integer record lies below an Object record or a swapped Array record, where the
origins are dead (see `optimizeAt`). -/
def JKSNProxy.originsAlive (alive : Bool) : JKSNProxy → Bool
  | .mk _ control _ _ children _ =>
    if control &&& 0xf0 = 0x10 then alive
    else if control &&& 0xf0 = 0x30 ∨ control &&& 0xf0 = 0x40 ∨ control &&& 0xf0 = 0x50 then true
    else JKSNProxy.originsAliveList (alive && decide (control &&& 0xf0 = 0x80)) children
/-- The same for a list of nodes visited with the flag `alive`. -/
def JKSNProxy.originsAliveList (alive : Bool) : List JKSNProxy → Bool
  | [] => true
  | child :: rest =>
    JKSNProxy.originsAlive alive child && JKSNProxy.originsAliveList alive rest
end

/-- Reference definition of the extent of a variable-length integer (spec, byte
primitives): the bytes up to and including the first one whose continuation bit 0x80 is
clear. -/
def varintExtent : Bytes → Option Bytes
  | [] => none
  | b :: rest =>
    if (b % 256) &&& 0x80 ≠ 0 then (varintExtent rest).map (List.cons b) else some [b]

/-- The first `n` bytes of a sequence that has them. -/
def takeExactly (n : Nat) (s : Bytes) : Option Bytes :=
  if n ≤ s.length then some (s.take n) else none

/-- Reference definition of the extent of a record of class 0x0, 0x1 or 0x2 at the head of
a byte sequence (spec, control-byte grammar): the control byte and its payload, which is 1,
2 or 4 bytes for the integers 0x1d, 0x1c, 0x1b, a variable-length integer for 0x1e and 0x1f,
4, 8 or 10 bytes for the floats 0x2d, 0x2c, 0x2b, and empty for every other control byte. -/
def recordExtent : Bytes → Option Bytes
  | [] => none
  | c :: rest =>
    let control := c % 256
    let payload : Option Bytes :=
      if control = 0x1d then takeExactly 1 rest
      else if control = 0x1c then takeExactly 2 rest
      else if control = 0x1b then takeExactly 4 rest
      else if control = 0x1e ∨ control = 0x1f then varintExtent rest
      else if control = 0x2d then takeExactly 4 rest
      else if control = 0x2c then takeExactly 8 rest
      else if control = 0x2b then takeExactly 10 rest
      else some []
    payload.map (List.cons c)

/-- The integer records along a run of `optimize` over the nodes `originals`, in emission
order, which leaves the nodes `optimized` in their place: from the cache `cache`, each
integer record (class 0x1) is rewritten as `optimizeInt` does from the cache left by the
integer record before it, and `final` has the `haslastint` and `lastint` left by the last
one. -/
def IntTrace : JKSNCache → List JKSNProxy → List JKSNProxy → JKSNCache → Prop
  | cache, [], [], final =>
    final.haslastint = cache.haslastint ∧ final.lastint = cache.lastint
  | cache, x :: originals, y :: optimized, final =>
    if x.control &&& 0xf0 = 0x10 then
      ∃ c d next, optimizeInt cache x.origin x.control x.data = .ok (c, d, next) ∧
        y = .mk x.origin c d x.buf x.children x.hash ∧ IntTrace next originals optimized final
    else IntTrace cache originals optimized final
  | _, _, _, _ => False

/-! ## Lemmas -/

theorem or_0x80_of_lt (x : Nat) (h : x < 128) : (x ||| 0x80) = x + 128 := by
  interval_cases x <;> rfl

theorem encodeIntLoop_digits (fuel : Nat) : ∀ (number : Nat) (result : Bytes),
    number < 128 ^ fuel →
    encodeIntLoop fuel number result = result ++ (Nat.digits 128 number).map (fun d => d + 128) := by
  induction fuel with
  | zero =>
    intro number result h
    have h0 : number = 0 := by simpa using h
    subst h0
    simp [encodeIntLoop]
  | succ fuel ih =>
    intro number result h
    by_cases h0 : number = 0
    · subst h0
      simp [encodeIntLoop]
    · have hpos : 0 < number := Nat.pos_of_ne_zero h0
      have hdiv : number >>> 7 < 128 ^ fuel := by
        rw [Nat.shiftRight_eq_div_pow]
        have : number < 128 ^ fuel * 2 ^ 7 := by
          rw [pow_succ] at h; simpa using h
        exact Nat.div_lt_of_lt_mul (by rw [Nat.mul_comm]; exact this)
      have hmod : number &&& 0x7f = number % 128 := by
        have := Nat.and_pow_two_sub_one_eq_mod number 7
        simpa using this
      have hlt : number % 128 < 128 := Nat.mod_lt _ (by norm_num)
      rw [encodeIntLoop, if_pos h0, ih _ _ hdiv, hmod, or_0x80_of_lt _ hlt,
        Nat.digits_def' (by norm_num) hpos, Nat.shiftRight_eq_div_pow]
      have h256 : (number % 128 + 128) % 256 = number % 128 + 128 := Nat.mod_eq_of_lt (by omega)
      simp [h256]

theorem encodeInt_varint (n : Nat) (h : n < 2 ^ 64) :
    encodeInt n 0 = .ok (varintReference n) := by
  have hmod : n % 2 ^ 64 = n := Nat.mod_eq_of_lt h
  have hdiv : n >>> 7 < 128 ^ 64 := by
    rw [Nat.shiftRight_eq_div_pow]
    calc n / 2 ^ 7 ≤ n := Nat.div_le_self _ _
      _ < 2 ^ 64 := h
      _ ≤ 128 ^ 64 := by norm_num
  have hand : n &&& 0x7f = n % 128 := by
    have := Nat.and_pow_two_sub_one_eq_mod n 7
    simpa using this
  have h256 : n % 128 % 256 = n % 128 := Nat.mod_eq_of_lt (by omega)
  have hloop := encodeIntLoop_digits 64 (n >>> 7) [(n &&& 0x7f) % 256] hdiv
  simp only [encodeInt, hmod, hloop, varintReference]
  rw [hand, h256, Nat.shiftRight_eq_div_pow]
  simp [List.map_reverse]

end JKSN
namespace JKSN

theorem overflowMask_eq : (2 ^ 64 - 1 - ((2 ^ 64 - 1) >>> 7) : Nat) = 127 <<< 57 := by decide

theorem and_overflowMask_eq_zero (r : Nat) (h : r < 2 ^ 57) : r &&& (127 <<< 57) = 0 := by
  apply Nat.eq_of_testBit_eq
  intro i
  rw [Nat.testBit_and, Nat.testBit_shiftLeft, Nat.zero_testBit]
  by_cases hi : i ≥ 57
  · have : r < 2 ^ i := lt_of_lt_of_le h (Nat.pow_le_pow_right (by norm_num) hi)
    rw [Nat.testBit_lt_two_pow this]
    rfl
  · simp [hi]

theorem and_overflowMask_ne_zero (r : Nat) (hlo : 2 ^ 57 ≤ r) (hhi : r < 2 ^ 64) :
    r &&& (127 <<< 57) ≠ 0 := by
  obtain ⟨i, hi, hbit⟩ := Nat.ge_two_pow_implies_high_bit_true hlo
  intro h0
  have hlt : i < 64 := by
    by_contra hge
    have : r < 2 ^ i := lt_of_lt_of_le hhi (Nat.pow_le_pow_right (by norm_num) (by omega))
    rw [Nat.testBit_lt_two_pow this] at hbit
    exact Bool.noConfusion hbit
  have h1 : (r &&& (127 <<< 57)).testBit i = true := by
    rw [Nat.testBit_and, Nat.testBit_shiftLeft, hbit]
    have h127 : Nat.testBit 127 (i - 57) = true := by
      have : i - 57 < 7 := by omega
      interval_cases h : i - 57 <;> rfl
    simp [hi, h127]
  rw [h0, Nat.zero_testBit] at h1
  exact Bool.noConfusion h1

theorem shift7_or (r d : Nat) (hr : r < 2 ^ 57) (hd : d < 128) :
    ((r <<< 7) % 2 ^ 64) ||| d = r * 128 + d := by
  have h1 : r <<< 7 = 2 ^ 7 * r := by rw [Nat.shiftLeft_eq, Nat.mul_comm]
  have h2 : (2 ^ 7 * r) % 2 ^ 64 = 2 ^ 7 * r := Nat.mod_eq_of_lt (by omega)
  rw [h1, h2, ← Nat.mul_add_lt_is_or (by simpa using hd) r]
  omega

theorem low7_of_cont (d : Nat) (hd : d < 128) :
    ((d + 128) % 256) &&& 0x7f = d ∧ ((d + 128) % 256) &&& 0x80 ≠ 0 := by
  interval_cases d <;> exact ⟨rfl, by decide⟩

theorem low7_of_last (d : Nat) (hd : d < 128) :
    (d % 256) &&& 0x7f = d ∧ (d % 256) &&& 0x80 = 0 := by
  interval_cases d <;> exact ⟨rfl, rfl⟩

theorem decodeIntLoop_cont (r d : Nat) (rest : Bytes) (hr : r < 2 ^ 57) (hd : d < 128) :
    decodeIntLoop ((d + 128) :: rest) r = decodeIntLoop rest (r * 128 + d) := by
  rw [decodeIntLoop, overflowMask_eq, if_neg (not_not.mpr (and_overflowMask_eq_zero r hr))]
  simp only [(low7_of_cont d hd).1, shift7_or r d hr hd]
  rw [if_pos (low7_of_cont d hd).2]

theorem decodeIntLoop_last (r d : Nat) (rest : Bytes) (hr : r < 2 ^ 57) (hd : d < 128) :
    decodeIntLoop (d :: rest) r = .ok (r * 128 + d, rest) := by
  rw [decodeIntLoop, overflowMask_eq, if_neg (not_not.mpr (and_overflowMask_eq_zero r hr))]
  simp only [(low7_of_last d hd).1, shift7_or r d hr hd]
  rw [if_neg (by simp [(low7_of_last d hd).2])]

theorem foldl_base128_ge (ds : List Nat) : ∀ r : Nat,
    r ≤ ds.foldl (fun acc d => acc * 128 + d) r := by
  induction ds with
  | nil => intro r; exact le_refl _
  | cons d ds ih =>
    intro r
    simp only [List.foldl_cons]
    exact le_trans (by omega) (ih (r * 128 + d))

theorem decodeIntLoop_digits (ds : List Nat) : ∀ (r last : Nat) (rest : Bytes),
    (∀ d ∈ ds, d < 128) → last < 128 →
    (ds.foldl (fun acc d => acc * 128 + d) r) * 128 + last < 2 ^ 64 →
    decodeIntLoop (ds.map (fun d => d + 128) ++ last :: rest) r =
      .ok ((ds.foldl (fun acc d => acc * 128 + d) r) * 128 + last, rest) := by
  induction ds with
  | nil =>
    intro r last rest _ hlast hbound
    simp only [List.foldl_nil, List.map_nil, List.nil_append] at hbound ⊢
    exact decodeIntLoop_last r last rest (by omega) hlast
  | cons d ds ih =>
    intro r last rest hds hlast hbound
    have hd : d < 128 := hds d (List.mem_cons_self _ _)
    have hge := foldl_base128_ge ds (r * 128 + d)
    simp only [List.foldl_cons] at hbound
    simp only [List.map_cons, List.cons_append, List.foldl_cons]
    rw [decodeIntLoop_cont r d _ (by omega) hd]
    exact ih (r * 128 + d) last rest (fun x hx => hds x (List.mem_cons_of_mem _ hx)) hlast hbound

theorem foldl_base128_digits (m : Nat) :
    (Nat.digits 128 m).reverse.foldl (fun acc d => acc * 128 + d) 0 = m := by
  rw [List.foldl_reverse]
  have h := Nat.ofDigits_digits 128 m
  rw [Nat.ofDigits_eq_foldr] at h
  have hf : (fun (x : ℕ) (y : ℕ) => y * 128 + x) = (fun (x : ℕ) (y : ℕ) => ((x : ℕ) : ℕ) + 128 * y) := by
    funext x y; omega
  rw [hf]
  simpa using h

theorem decodeIntLoop_varint (n : Nat) (rest : Bytes) (h : n < 2 ^ 64) :
    decodeIntLoop (varintReference n ++ rest) 0 = .ok (n, rest) := by
  have hds : ∀ d ∈ (Nat.digits 128 (n / 128)).reverse, d < 128 := by
    intro d hd
    exact Nat.digits_lt_base (by norm_num) (List.mem_reverse.mp hd)
  have hfold := foldl_base128_digits (n / 128)
  have hval : n / 128 * 128 + n % 128 = n := by omega
  have := decodeIntLoop_digits (Nat.digits 128 (n / 128)).reverse 0 (n % 128) rest hds
    (Nat.mod_lt _ (by norm_num)) (by rw [hfold, hval]; exact h)
  rw [hfold, hval] at this
  simpa [varintReference] using this

theorem optimize_int_fresh (n : Int) (control : Nat) (data : Bytes)
    (hc : control &&& 0xf0 = 0x10) :
    optimize JKSNCache.fresh (.mk (.int n) control data [] [] 0) =
      .ok (.mk (.int n) control data [] [] 0, JKSNCache.fresh.afterInt n) := by
  simp [optimize, optimizeAt, hc, optimizeInt, JKSNCache.fresh, JKSNValue.toInt, bind,
    Except.bind, pure, Except.pure, JKSNCache.afterInt]

theorem dumps_int_of_dumpInt (ndebug : Bool) (n : Int) (control : Nat) (data : Bytes)
    (hd : dumpInt (.int n) = .ok (.mk (.int n) control data [] [] 0))
    (hc : control &&& 0xf0 = 0x10) :
    JKSNEncoder.dumps ndebug JKSNCache.fresh (.int n) false =
      .ok (control % 256 :: data, JKSNCache.fresh.afterInt n) := by
  simp [JKSNEncoder.dumps, dumpToProxy, dumpValue, hd, optimize_int_fresh n control data hc, bind,
    Except.bind, pure, Except.pure, JKSNProxy.toString, JKSNProxy.toStringList]

theorem immediate_class (k : Nat) (h : k ≤ 10) :
    (0x10 ||| k) &&& 0xf0 = 0x10 ∧ (0x10 ||| k) % 256 = 0x10 ||| k ∧ (0x10 ||| k) &&& 0xf = k
      ∧ 0x10 ||| k < 0x1b := by
  interval_cases k <;> decide

theorem dumpInt_immediate (n : Int) (h0 : 0 ≤ n) (h1 : n ≤ 10) :
    dumpInt (.int n) = .ok (.mk (.int n) (0x10 ||| n.toNat) [] [] [] 0) := by
  have : toUint8 n = n.toNat := by
    unfold toUint8
    congr 1
    omega
  simp [dumpInt, JKSNValue.toInt, bind, Except.bind, pure, Except.pure, h0, h1, this]

theorem dumpInt_int8 (n : Int) (h0 : ¬ (0 ≤ n ∧ n ≤ 10)) (h1 : -128 ≤ n) (h2 : n ≤ 127) :
    dumpInt (.int n) = .ok (.mk (.int n) 0x1d [toUintmax n % 256] [] [] 0) := by
  simp [dumpInt, JKSNValue.toInt, bind, Except.bind, pure, Except.pure, h0, h1, h2, encodeInt]
  omega

theorem dumpInt_int16 (n : Int) (h1 : ¬ (-128 ≤ n ∧ n ≤ 127)) (h2 : -32768 ≤ n) (h3 : n ≤ 32767) :
    dumpInt (.int n) = .ok (.mk (.int n) 0x1c [0, toUintmax n % 256] [] [] 0) := by
  have h0 : ¬ (0 ≤ n ∧ n ≤ 10) := by omega
  have hs : ∀ x : Nat, (x % 256) >>> 8 = 0 := by
    intro x
    rw [Nat.shiftRight_eq_div_pow]
    exact Nat.div_eq_of_lt (Nat.mod_lt _ (by norm_num))
  simp [dumpInt, JKSNValue.toInt, bind, Except.bind, pure, Except.pure, h0, h1, h2, h3, encodeInt,
    hs]
  omega

theorem dumpInt_int32 (n : Int) (h2 : ¬ (-32768 ≤ n ∧ n ≤ 32767))
    (h3 : (-2147483648 ≤ n ∧ n ≤ -2097152) ∨ (2097152 ≤ n ∧ n ≤ 2147483647)) :
    dumpInt (.int n) = .ok (.mk (.int n) 0x1b [0, 0, 0, toUintmax n % 256] [] [] 0) := by
  have h0 : ¬ (0 ≤ n ∧ n ≤ 10) := by omega
  have h1 : ¬ (-128 ≤ n ∧ n ≤ 127) := by omega
  have hs : ∀ x k : Nat, 8 ≤ k → (x % 256) >>> k = 0 := by
    intro x k hk
    rw [Nat.shiftRight_eq_div_pow]
    apply Nat.div_eq_of_lt
    calc x % 256 < 2 ^ 8 := Nat.mod_lt _ (by norm_num)
      _ ≤ 2 ^ k := Nat.pow_le_pow_right (by norm_num) hk
  simp [dumpInt, JKSNValue.toInt, bind, Except.bind, pure, Except.pure, h0, h1, h2, h3, encodeInt,
    hs]
  omega

theorem dumpInt_varint_pos (n : Int) (h2 : ¬ (-32768 ≤ n ∧ n ≤ 32767))
    (h3 : ¬ ((-2147483648 ≤ n ∧ n ≤ -2097152) ∨ (2097152 ≤ n ∧ n ≤ 2147483647)))
    (h4 : 0 ≤ n) (h5 : n < 2 ^ 63) :
    dumpInt (.int n) = .ok (.mk (.int n) 0x1f (varintReference n.natAbs) [] [] 0) := by
  have h0 : ¬ (n ≤ 10) := by omega
  have h1 : ¬ (n ≤ 127) := by omega
  have h2b : ¬ (n ≤ 32767) := by omega
  have hu : toUintmax n = n.natAbs := by unfold toUintmax; omega
  have hv := encodeInt_varint n.natAbs (by omega)
  simp [dumpInt, JKSNValue.toInt, bind, Except.bind, pure, Except.pure, h0, h1, h2b, h3, h4, hu, hv]

theorem dumpInt_varint_neg (n : Int) (h2 : ¬ (-32768 ≤ n ∧ n ≤ 32767))
    (h3 : ¬ ((-2147483648 ≤ n ∧ n ≤ -2097152) ∨ (2097152 ≤ n ∧ n ≤ 2147483647)))
    (h4 : n < 0) (h5 : -2 ^ 63 ≤ n) :
    dumpInt (.int n) = .ok (.mk (.int n) 0x1e (varintReference n.natAbs) [] [] 0) := by
  have h0 : ¬ (0 ≤ n) := by omega
  have h1 : ¬ (-128 ≤ n) := by omega
  have h2b : ¬ (-32768 ≤ n) := by omega
  have hu : toUintmax (-n) = n.natAbs := by unfold toUintmax; omega
  have hv := encodeInt_varint n.natAbs (by omega)
  simp [dumpInt, JKSNValue.toInt, bind, Except.bind, pure, Except.pure, h0, h1, h2b, h3, hu, hv]

theorem class_1d : (29 &&& 240 : Nat) = 16 := by decide
theorem class_1e : (30 &&& 240 : Nat) = 16 := by decide
theorem class_1f : (31 &&& 240 : Nat) = 16 := by decide

theorem parse_immediate (cache : JKSNCache) (k : Nat) (rest : Bytes) (h : k ≤ 10) :
    JKSNDecoder.parse cache ((0x10 ||| k) :: rest) false =
      .ok (.int k, cache.afterInt k) := by
  obtain ⟨h1, h2, h3, h4⟩ := immediate_class k h
  have e1 : (0x10 ||| k) ≠ 0x1b := by omega
  have e2 : (0x10 ||| k) ≠ 0x1c := by omega
  have e3 : (0x10 ||| k) ≠ 0x1d := by omega
  have e4 : (0x10 ||| k) ≠ 0x1e := by omega
  have e5 : (0x10 ||| k) ≠ 0x1f := by omega
  generalize 0x10 ||| k = c at h1 h2 h3 h4 e1 e2 e3 e4 e5
  simp [JKSNDecoder.parse, JKSNDecoder.parseStream, parseValue, parseControl, IStream.get,
    IStream.ofBytes, h2, h1, h3, e1, e2, e3, e4, e5, JKSNCache.afterInt]

theorem parse_int8 (cache : JKSNCache) (b : Nat) (rest : Bytes) :
    JKSNDecoder.parse cache (0x1d :: b :: rest) false =
      .ok (.int (toSigned 8 (b % 256)), cache.afterInt (toSigned 8 (b % 256))) := by
  simp [JKSNDecoder.parse, JKSNDecoder.parseStream, parseValue, parseControl, IStream.get,
    IStream.ofBytes, decodeInt, bind, Except.bind, pure, Except.pure, class_1d, class_1e, class_1f, JKSNCache.afterInt]

theorem parse_varint_pos (cache : JKSNCache) (m : Nat) (rest : Bytes) (h : m < 2 ^ 63) :
    JKSNDecoder.parse cache (0x1f :: (varintReference m ++ rest)) false =
      .ok (.int m, cache.afterInt m) := by
  have hd := decodeIntLoop_varint m rest (by omega)
  have hi : toIntmax m = (m : Int) := by
    unfold toIntmax
    simp only [Nat.reducePow]
    split_ifs <;> omega
  have hneg : ¬ ((m : Int) < 0) := by omega
  simp [JKSNDecoder.parse, JKSNDecoder.parseStream, parseValue, parseControl, IStream.get,
    IStream.ofBytes, decodeInt, bind, Except.bind, pure, Except.pure, class_1d, class_1e, class_1f, JKSNCache.afterInt, hd, hi,
    hneg, throw, throwThe, MonadExceptOf.throw]

theorem parse_varint_neg (cache : JKSNCache) (m : Nat) (rest : Bytes) (h0 : 0 < m)
    (h : m ≤ 2 ^ 63) :
    JKSNDecoder.parse cache (0x1e :: (varintReference m ++ rest)) false =
      .ok (.int (-(m : Int)), cache.afterInt (-(m : Int))) := by
  have hd := decodeIntLoop_varint m rest (by omega)
  have hi : wrapIntmax (-(toIntmax m)) = -(m : Int) := by
    unfold wrapIntmax toIntmax toUintmax
    simp only [Nat.reducePow]
    split_ifs <;> omega
  have hneg : ¬ (0 ≤ -(m : Int)) := by omega
  simp [JKSNDecoder.parse, JKSNDecoder.parseStream, parseValue, parseControl, IStream.get,
    IStream.ofBytes, decodeInt, bind, Except.bind, pure, Except.pure, class_1d, class_1e, class_1f, JKSNCache.afterInt, hd, hi,
    hneg, throw, throwThe, MonadExceptOf.throw]

mutual
theorem dumpValue_ind (nd : Bool) (Q : Except JKSNErr JKSNProxy → Prop)
    (hleaf : ∀ v, (∀ xs, v ≠ .array xs) → (∀ kvs, v ≠ .object kvs) → Q (dumpValue nd v))
    (harr : ∀ xs, (∀ r ∈ dumpElements nd xs, Q r) →
      (∀ row ∈ dumpRows nd xs, ∀ entries, row = some entries → ∀ e ∈ entries, Q e.2) →
      Q (dumpValue nd (.array xs)))
    (hobj : ∀ kvs, (∀ r ∈ dumpEntries nd kvs, Q r) → Q (dumpValue nd (.object kvs))) :
    ∀ v, Q (dumpValue nd v)
  | .undefined => hleaf _ (by intro xs h; cases h) (by intro xs h; cases h)
  | .null => hleaf _ (by intro xs h; cases h) (by intro xs h; cases h)
  | .bool _ => hleaf _ (by intro xs h; cases h) (by intro xs h; cases h)
  | .int _ => hleaf _ (by intro xs h; cases h) (by intro xs h; cases h)
  | .string _ => hleaf _ (by intro xs h; cases h) (by intro xs h; cases h)
  | .blob _ => hleaf _ (by intro xs h; cases h) (by intro xs h; cases h)
  | .unspecified => hleaf _ (by intro xs h; cases h) (by intro xs h; cases h)
  | .array xs => harr xs (dumpElements_ind nd Q hleaf harr hobj xs) (dumpRows_ind nd Q hleaf harr hobj xs)
  | .object kvs => hobj kvs (dumpEntries_ind nd Q hleaf harr hobj kvs)
theorem dumpElements_ind (nd : Bool) (Q : Except JKSNErr JKSNProxy → Prop)
    (hleaf : ∀ v, (∀ xs, v ≠ .array xs) → (∀ kvs, v ≠ .object kvs) → Q (dumpValue nd v))
    (harr : ∀ xs, (∀ r ∈ dumpElements nd xs, Q r) →
      (∀ row ∈ dumpRows nd xs, ∀ entries, row = some entries → ∀ e ∈ entries, Q e.2) →
      Q (dumpValue nd (.array xs)))
    (hobj : ∀ kvs, (∀ r ∈ dumpEntries nd kvs, Q r) → Q (dumpValue nd (.object kvs))) :
    ∀ xs, ∀ r ∈ dumpElements nd xs, Q r
  | [] => by intro r hr; simp [dumpElements] at hr
  | x :: rest => by
    intro r hr
    simp only [dumpElements, List.mem_cons] at hr
    rcases hr with h | h
    · rw [h]; exact dumpValue_ind nd Q hleaf harr hobj x
    · exact dumpElements_ind nd Q hleaf harr hobj rest r h
theorem dumpEntries_ind (nd : Bool) (Q : Except JKSNErr JKSNProxy → Prop)
    (hleaf : ∀ v, (∀ xs, v ≠ .array xs) → (∀ kvs, v ≠ .object kvs) → Q (dumpValue nd v))
    (harr : ∀ xs, (∀ r ∈ dumpElements nd xs, Q r) →
      (∀ row ∈ dumpRows nd xs, ∀ entries, row = some entries → ∀ e ∈ entries, Q e.2) →
      Q (dumpValue nd (.array xs)))
    (hobj : ∀ kvs, (∀ r ∈ dumpEntries nd kvs, Q r) → Q (dumpValue nd (.object kvs))) :
    ∀ kvs, ∀ r ∈ dumpEntries nd kvs, Q r
  | [] => by intro r hr; simp [dumpEntries] at hr
  | (k, v) :: rest => by
    intro r hr
    simp only [dumpEntries, List.mem_cons] at hr
    rcases hr with h | h | h
    · rw [h]; exact dumpValue_ind nd Q hleaf harr hobj k
    · rw [h]; exact dumpValue_ind nd Q hleaf harr hobj v
    · exact dumpEntries_ind nd Q hleaf harr hobj rest r h
theorem dumpRows_ind (nd : Bool) (Q : Except JKSNErr JKSNProxy → Prop)
    (hleaf : ∀ v, (∀ xs, v ≠ .array xs) → (∀ kvs, v ≠ .object kvs) → Q (dumpValue nd v))
    (harr : ∀ xs, (∀ r ∈ dumpElements nd xs, Q r) →
      (∀ row ∈ dumpRows nd xs, ∀ entries, row = some entries → ∀ e ∈ entries, Q e.2) →
      Q (dumpValue nd (.array xs)))
    (hobj : ∀ kvs, (∀ r ∈ dumpEntries nd kvs, Q r) → Q (dumpValue nd (.object kvs))) :
    ∀ xs, ∀ row ∈ dumpRows nd xs, ∀ entries, row = some entries → ∀ e ∈ entries, Q e.2
  | [] => by intro r hr; simp [dumpRows] at hr
  | .object kvs :: rest => by
    intro row hr entries he e hmem
    simp only [dumpRows, List.mem_cons] at hr
    rcases hr with h | h
    · rw [h] at he
      cases he
      exact dumpKeys_ind nd Q hleaf harr hobj kvs e hmem
    · exact dumpRows_ind nd Q hleaf harr hobj rest row h entries he e hmem
  | .undefined :: rest | .null :: rest | .bool _ :: rest | .int _ :: rest | .string _ :: rest
  | .blob _ :: rest | .array _ :: rest | .unspecified :: rest => by
    intro row hr entries he e hmem
    simp only [dumpRows, List.mem_cons] at hr
    rcases hr with h | h
    · rw [h] at he
      cases he
    · exact dumpRows_ind nd Q hleaf harr hobj rest row h entries he e hmem
theorem dumpKeys_ind (nd : Bool) (Q : Except JKSNErr JKSNProxy → Prop)
    (hleaf : ∀ v, (∀ xs, v ≠ .array xs) → (∀ kvs, v ≠ .object kvs) → Q (dumpValue nd v))
    (harr : ∀ xs, (∀ r ∈ dumpElements nd xs, Q r) →
      (∀ row ∈ dumpRows nd xs, ∀ entries, row = some entries → ∀ e ∈ entries, Q e.2) →
      Q (dumpValue nd (.array xs)))
    (hobj : ∀ kvs, (∀ r ∈ dumpEntries nd kvs, Q r) → Q (dumpValue nd (.object kvs))) :
    ∀ kvs, ∀ e ∈ dumpKeys nd kvs, Q e.2
  | [] => by intro r hr; simp [dumpKeys] at hr
  | (k, _) :: rest => by
    intro e hr
    simp only [dumpKeys, List.mem_cons] at hr
    rcases hr with h | h
    · rw [h]; exact dumpValue_ind nd Q hleaf harr hobj k
    · exact dumpKeys_ind nd Q hleaf harr hobj rest e h
end

theorem collect_ok_mem {α : Type} : ∀ (l : List (Except JKSNErr α)) (ps : List α),
    collect l = .ok ps → ∀ p ∈ ps, Except.ok p ∈ l
  | [], ps, h => by
    simp only [collect] at h
    cases h
    intro p hp
    cases hp
  | x :: rest, ps, h => by
    cases x with
    | error e => simp [collect, bind, Except.bind] at h
    | ok a =>
      cases hr : collect rest with
      | error e => simp [collect, bind, Except.bind, hr] at h
      | ok others =>
        simp only [collect, bind, Except.bind, hr, pure, Except.pure] at h
        cases h
        intro p hp
        rcases List.mem_cons.mp hp with h1 | h1
        · rw [h1]; exact List.mem_cons_self _ _
        · exact List.mem_cons_of_mem _ (collect_ok_mem rest others hr p h1)

theorem collect_total {α : Type} : ∀ (l : List (Except JKSNErr α)),
    (∀ r ∈ l, ∃ p, r = .ok p) → ∃ ps, collect l = .ok ps
  | [], _ => ⟨[], rfl⟩
  | x :: rest, h => by
    obtain ⟨a, ha⟩ := h x (List.mem_cons_self _ _)
    obtain ⟨others, ho⟩ := collect_total rest (fun r hr => h r (List.mem_cons_of_mem _ hr))
    exact ⟨a :: others, by simp [collect, ha, ho, bind, Except.bind, pure, Except.pure]⟩

theorem control_0x80 (k : Nat) (h : k ≤ 0xc) :
    (0x80 ||| k % 256) &&& 0xf0 = 0x80 ∧ 0x80 ||| k % 256 < 256 := by
  interval_cases k <;> decide

theorem control_0x90 (k : Nat) (h : k ≤ 0xc) :
    (0x90 ||| k % 256) &&& 0xf0 = 0x90 ∧ 0x90 ||| k % 256 < 256 := by
  interval_cases k <;> decide

theorem control_0xa0 (k : Nat) (h : k ≤ 0xc) :
    (0xa0 ||| k % 256) &&& 0xf0 = 0xa0 ∧ 0xa0 ||| k % 256 < 256 := by
  interval_cases k <;> decide

theorem control_0x40 (k : Nat) (h : k ≤ 0xc) :
    (0x40 ||| k % 256) &&& 0xf0 = 0x40 ∧ 0x40 ||| k % 256 < 256 := by
  interval_cases k <;> decide

theorem control_0x30 (k : Nat) (h : k ≤ 0xb) :
    (0x30 ||| k % 256) &&& 0xf0 = 0x30 ∧ 0x30 ||| k % 256 < 0x3c := by
  interval_cases k <;> decide

theorem control_0x50 (k : Nat) (h : k ≤ 0xb) :
    (0x50 ||| k % 256) &&& 0xf0 = 0x50 ∧ 0x50 ||| k % 256 < 256 := by
  interval_cases k <;> decide

@[simp] theorem encodeInt_one (n : Nat) : encodeInt n 1 = .ok [n % 2 ^ 64 % 256] := rfl

@[simp] theorem encodeInt_two (n : Nat) :
    encodeInt n 2 = .ok [((n % 2 ^ 64 % 256) >>> 8) % 256, n % 2 ^ 64 % 256] := rfl

@[simp] theorem encodeInt_four (n : Nat) :
    encodeInt n 4 = .ok [((n % 2 ^ 64 % 256) >>> 24) % 256, ((n % 2 ^ 64 % 256) >>> 16) % 256,
      ((n % 2 ^ 64 % 256) >>> 8) % 256, n % 2 ^ 64 % 256] := rfl

theorem encodeInt_zero (n : Nat) :
    encodeInt n 0 =
      .ok (encodeIntLoop 64 ((n % 2 ^ 64) >>> 7) [((n % 2 ^ 64) &&& 0x7f) % 256]).reverse := rfl

theorem encodeStraightArrayFrom_ok (nd : Bool) (xs : List JKSNValue)
    (dumped : List (Except JKSNErr JKSNProxy)) (p : JKSNProxy)
    (h : encodeStraightArrayFrom nd (.array xs) dumped = .ok p) :
    ∃ control data children, collect dumped = .ok children ∧
      p = .mk (.array xs) control data [] children 0 ∧ control &&& 0xf0 = 0x80 ∧ control < 256 := by
  unfold encodeStraightArrayFrom at h
  simp only [JKSNValue.toVector, bind, Except.bind, pure, Except.pure, encodeInt_one,
    encodeInt_two, encodeInt_zero] at h
  cases hc : collect dumped with
  | error e =>
    rw [hc] at h
    split_ifs at h
  | ok children =>
    rw [hc] at h
    split_ifs at h with h1 h2 h3 <;> simp only [JKSNProxy.setChildren] at h
    all_goals (split_ifs at h)
    · cases h; exact ⟨_, _, _, rfl, rfl, (control_0x80 _ h1).1, (control_0x80 _ h1).2⟩
    · cases h; exact ⟨_, _, _, rfl, rfl, by decide, by decide⟩
    · cases h; exact ⟨_, _, _, rfl, rfl, by decide, by decide⟩
    · cases h; exact ⟨_, _, _, rfl, rfl, by decide, by decide⟩

theorem dumpObjectFrom_ok (nd : Bool) (kvs : List (JKSNValue × JKSNValue))
    (dumped : List (Except JKSNErr JKSNProxy)) (p : JKSNProxy)
    (h : dumpObjectFrom nd (.object kvs) dumped = .ok p) :
    ∃ control data children, collect dumped = .ok children ∧
      p = .mk (.object kvs) control data [] children 0 ∧ control &&& 0xf0 = 0x90 ∧ control < 256 := by
  unfold dumpObjectFrom at h
  simp only [JKSNValue.toMap, bind, Except.bind, pure, Except.pure, encodeInt_one,
    encodeInt_two, encodeInt_zero] at h
  cases hc : collect dumped with
  | error e =>
    rw [hc] at h
    split_ifs at h
  | ok children =>
    rw [hc] at h
    split_ifs at h with h1 h2 h3 <;> simp only [JKSNProxy.setChildren] at h
    all_goals (split_ifs at h)
    · cases h; exact ⟨_, _, _, rfl, rfl, (control_0x90 _ h1).1, (control_0x90 _ h1).2⟩
    · cases h; exact ⟨_, _, _, rfl, rfl, by decide, by decide⟩
    · cases h; exact ⟨_, _, _, rfl, rfl, by decide, by decide⟩
    · cases h; exact ⟨_, _, _, rfl, rfl, by decide, by decide⟩

theorem encodeSwappedArrayFrom_ok (nd : Bool) (xs : List JKSNValue)
    (rows : List (Option (List (JKSNValue × Except JKSNErr JKSNProxy)))) (p : JKSNProxy)
    (h : encodeSwappedArrayFrom nd (.array xs) rows = .ok p) :
    ∃ control data children entries, swapRows rows = .ok entries ∧
      collect (swapCells entries) = .ok children ∧
      p = .mk (.array xs) control data [] children 0 ∧ control &&& 0xf0 = 0xa0 ∧ control < 256 := by
  unfold encodeSwappedArrayFrom at h
  simp only [bind, Except.bind, pure, Except.pure, encodeInt_one,
    encodeInt_two, encodeInt_zero] at h
  cases hr : swapRows rows with
  | error e => rw [hr] at h; simp at h
  | ok entries =>
    rw [hr] at h
    simp only at h
    cases hc : collect (swapCells entries) with
    | error e =>
      rw [hc] at h
      split_ifs at h
    | ok children =>
      rw [hc] at h
      split_ifs at h with h1 h2 h3 <;> simp only [JKSNProxy.setChildren] at h
      all_goals (split_ifs at h)
      · cases h; exact ⟨_, _, _, _, rfl, hc, rfl, (control_0xa0 _ h1).1, (control_0xa0 _ h1).2⟩
      · cases h; exact ⟨_, _, _, _, rfl, hc, rfl, by decide, by decide⟩
      · cases h; exact ⟨_, _, _, _, rfl, hc, rfl, by decide, by decide⟩
      · cases h; exact ⟨_, _, _, _, rfl, hc, rfl, by decide, by decide⟩

theorem dumpInt_shape (n : Int) (p : JKSNProxy) (h : dumpInt (.int n) = .ok p) :
    ∃ control data, p = .mk (.int n) control data [] [] 0 ∧ control &&& 0xf0 = 0x10 ∧
      control < 256 := by
  unfold dumpInt at h
  simp only [JKSNValue.toInt, bind, Except.bind, pure, Except.pure, encodeInt_one,
    encodeInt_two, encodeInt_four, encodeInt_zero] at h
  split_ifs at h with h1 h2 h3 h4 h5
  · cases h
    have hu : toUint8 n = n.toNat := by
      unfold toUint8
      congr 1
      omega
    obtain ⟨c1, c2, _, _⟩ := immediate_class n.toNat (by omega)
    rw [hu]
    exact ⟨_, _, rfl, c1, by omega⟩
  all_goals (cases h; exact ⟨_, _, rfl, by decide, by decide⟩)

theorem dumpString_shape (s : Bytes) (p : JKSNProxy) (h : dumpString (.string s) = .ok p) :
    ∃ control data buf, p = .mk (.string s) control data buf [] (DJBHash buf 0) ∧
      isTextControl control ∧ control ≠ 0x3c ∧ control < 256 := by
  unfold dumpString at h
  simp only [JKSNValue.toString, bind, Except.bind, pure, Except.pure, encodeInt_one,
    encodeInt_two, encodeInt_zero] at h
  cases hu : UTF8ToUTF16LE s true with
  | error e =>
    rw [hu] at h
    cases e <;> simp only [throw, throwThe, MonadExceptOf.throw] at h
    all_goals (first | cases h | skip)
    simp only [Bool.false_eq_true, if_false] at h
    split_ifs at h with h1 h2 h3
    · cases h
      exact ⟨_, _, _, rfl, Or.inr (control_0x40 _ h1).1, by
        have := (control_0x40 _ h1).1
        intro hc; rw [hc] at this; exact absurd this (by decide), (control_0x40 _ h1).2⟩
    all_goals (cases h; exact ⟨_, _, _, rfl, Or.inr (by decide), by decide, by decide⟩)
  | ok obj_utf16 =>
    rw [hu] at h
    simp only at h
    by_cases hlen : obj_utf16.length < s.length
    · simp only [hlen, if_true] at h
      split_ifs at h with h1 h2 h3
      · cases h
        exact ⟨_, _, _, rfl, Or.inl (control_0x30 _ h1).1, by
          have := (control_0x30 _ h1).2
          omega, by have := (control_0x30 _ h1).2; omega⟩
      all_goals (cases h; exact ⟨_, _, _, rfl, Or.inl (by decide), by decide, by decide⟩)
    · simp only [hlen, if_false, Bool.false_eq_true] at h
      split_ifs at h with h1 h2 h3
      · cases h
        exact ⟨_, _, _, rfl, Or.inr (control_0x40 _ h1).1, by
          have := (control_0x40 _ h1).1
          intro hc; rw [hc] at this; exact absurd this (by decide), (control_0x40 _ h1).2⟩
      all_goals (cases h; exact ⟨_, _, _, rfl, Or.inr (by decide), by decide, by decide⟩)

theorem dumpBlob_shape (s : Bytes) (p : JKSNProxy) (h : dumpBlob (.blob s) = .ok p) :
    ∃ control data, p = .mk (.blob s) control data s [] (DJBHash s 0) ∧
      isBlobControl control ∧ control ≠ 0x3c ∧ control < 256 := by
  unfold dumpBlob at h
  simp only [JKSNValue.toBlob, bind, Except.bind, pure, Except.pure, encodeInt_one,
    encodeInt_two, encodeInt_zero] at h
  split_ifs at h with h1 h2 h3
  · cases h
    exact ⟨_, _, rfl, (control_0x50 _ h1).1, by
      have := (control_0x50 _ h1).1
      intro hc; rw [hc] at this; exact absurd this (by decide), (control_0x50 _ h1).2⟩
  all_goals (cases h; exact ⟨_, _, rfl, by unfold isBlobControl; decide, by decide, by decide⟩)

theorem nodes_mk (o : JKSNValue) (c : Nat) (d b : Bytes) (ch : List JKSNProxy) (h : Nat) :
    (JKSNProxy.mk o c d b ch h).nodes = .mk o c d b ch h :: JKSNProxy.nodesList ch := by
  simp [JKSNProxy.nodes]

theorem nodesList_nil : JKSNProxy.nodesList [] = [] := by simp [JKSNProxy.nodesList]

theorem nodesList_cons (c : JKSNProxy) (cs : List JKSNProxy) :
    JKSNProxy.nodesList (c :: cs) = c.nodes ++ JKSNProxy.nodesList cs := by
  simp [JKSNProxy.nodesList]

theorem mem_nodesList (q : JKSNProxy) (cs : List JKSNProxy) :
    q ∈ JKSNProxy.nodesList cs ↔ ∃ c ∈ cs, q ∈ c.nodes := by
  induction cs with
  | nil => simp [nodesList_nil]
  | cons c cs ih => simp [nodesList_cons, ih]

theorem allDumped_node (o : JKSNValue) (c : Nat) (d b : Bytes) (ch : List JKSNProxy) (h : Nat)
    (hroot : (JKSNProxy.mk o c d b ch h).Dumped) (hch : ∀ x ∈ ch, x.AllDumped) :
    (JKSNProxy.mk o c d b ch h).AllDumped := by
  intro q hq
  rw [nodes_mk] at hq
  rcases List.mem_cons.mp hq with h1 | h1
  · rw [h1]; exact hroot
  · obtain ⟨x, hx, hqx⟩ := (mem_nodesList q ch).mp h1
    exact hch x hx q hqx

theorem dumped_of_class (o : JKSNValue) (c : Nat) (d b : Bytes) (ch : List JKSNProxy) (h : Nat)
    (hlt : c < 256) (h1 : c &&& 0xf0 ≠ 0x10) (h3 : c &&& 0xf0 ≠ 0x30) (h4 : c &&& 0xf0 ≠ 0x40)
    (h5 : c &&& 0xf0 ≠ 0x50) : (JKSNProxy.mk o c d b ch h).Dumped := by
  refine ⟨?_, hlt, ?_, ?_⟩
  · intro hc
    simp only [JKSNProxy.control] at hc
    rw [hc] at h3
    exact h3 (by decide)
  · intro hc
    exact absurd hc h1
  · intro hc
    simp only [JKSNProxy.control, isTextControl, isBlobControl] at hc
    rcases hc with (hc | hc) | hc
    · exact absurd hc h3
    · exact absurd hc h4
    · exact absurd hc h5

theorem mapFind_mem {β : Type} (row : List (JKSNValue × β)) (column : JKSNValue)
    (it : JKSNValue × β) (h : mapFind row column = some it) : it ∈ row := by
  unfold mapFind at h
  cases hf : row.find? (fun e => !(valLt e.1 column)) with
  | none => rw [hf] at h; cases h
  | some e =>
    rw [hf] at h
    simp only at h
    split_ifs at h
    cases h
    exact List.mem_of_find?_eq_some hf

theorem swapColumns_fold_subset {β : Type} (l : List (JKSNValue × β)) :
    ∀ (acc : List (JKSNValue × β)) (c : JKSNValue × β),
      c ∈ l.foldl (fun columns column =>
        if columnsContain columns column.1 then columns else columns ++ [column]) acc →
      c ∈ acc ∨ c ∈ l := by
  induction l with
  | nil => intro acc c h; exact Or.inl h
  | cons x l ih =>
    intro acc c h
    simp only [List.foldl_cons] at h
    rcases ih _ c h with h1 | h1
    · split_ifs at h1
      · exact Or.inl h1
      · rcases List.mem_append.mp h1 with h2 | h2
        · exact Or.inl h2
        · rw [List.mem_singleton.mp h2]; exact Or.inr (List.mem_cons_self _ _)
    · exact Or.inr (List.mem_cons_of_mem _ h1)

theorem swapColumns_subset {β : Type} (rows : List (List (JKSNValue × β)))
    (c : JKSNValue × β) (h : c ∈ swapColumns rows) : ∃ row ∈ rows, c ∈ row := by
  unfold swapColumns at h
  rcases swapColumns_fold_subset _ _ _ h with h1 | h1
  · cases h1
  · exact List.mem_flatten.mp h1 |>.imp fun row hrow => hrow

theorem swapCells_mem (entries : List (List (JKSNValue × Except JKSNErr JKSNProxy)))
    (r : Except JKSNErr JKSNProxy) (h : r ∈ swapCells entries) :
    (∃ row ∈ entries, ∃ e ∈ row, r = e.2) ∨ r = .ok (dumpUnspecified .unspecified) := by
  unfold swapCells at h
  obtain ⟨column, hcol, hr⟩ := List.mem_flatMap.mp h
  rcases List.mem_cons.mp hr with h1 | h1
  · obtain ⟨row, hrow, hmem⟩ := swapColumns_subset entries column hcol
    exact Or.inl ⟨row, hrow, column, hmem, h1⟩
  · obtain ⟨row, hrow, hcell⟩ := List.mem_map.mp h1
    cases hf : mapFind row column.1 with
    | none =>
      rw [hf] at hcell
      exact Or.inr hcell.symm
    | some it =>
      rw [hf] at hcell
      exact Or.inl ⟨row, hrow, it, mapFind_mem row column.1 it hf, hcell.symm⟩

theorem swapRows_mem (rows : List (Option (List (JKSNValue × Except JKSNErr JKSNProxy))))
    (entries : List (List (JKSNValue × Except JKSNErr JKSNProxy)))
    (h : swapRows rows = .ok entries) : ∀ row ∈ entries, some row ∈ rows := by
  intro row hrow
  have := collect_ok_mem _ _ h row hrow
  obtain ⟨r, hr, heq⟩ := List.mem_map.mp this
  cases r with
  | none => cases heq
  | some es =>
    simp only at heq
    cases heq
    exact hr

theorem dumpArrayFrom_ok (nd : Bool) (xs : List JKSNValue)
    (dumped : List (Except JKSNErr JKSNProxy))
    (rows : List (Option (List (JKSNValue × Except JKSNErr JKSNProxy)))) (p : JKSNProxy)
    (h : dumpArrayFrom nd (.array xs) dumped rows = .ok p) :
    ∃ straight, encodeStraightArrayFrom nd (.array xs) dumped = .ok straight ∧
      (p = straight ∨
        (testSwapAvailabilityLoop xs false = true ∧
          encodeSwappedArrayFrom nd (.array xs) rows = .ok p ∧ p.size 3 < straight.size 3)) := by
  unfold dumpArrayFrom at h
  simp only [bind, Except.bind, pure, Except.pure, testSwapAvailability, JKSNValue.toVector] at h
  cases hs : encodeStraightArrayFrom nd (.array xs) dumped with
  | error e => rw [hs] at h; cases h
  | ok straight =>
    rw [hs] at h
    simp only at h
    refine ⟨straight, rfl, ?_⟩
    by_cases ht : testSwapAvailabilityLoop xs false = true
    · simp only [ht, if_true] at h
      cases hw : encodeSwappedArrayFrom nd (.array xs) rows with
      | error e => rw [hw] at h; cases h
      | ok swapped =>
        rw [hw] at h
        simp only at h
        split_ifs at h with hlt
        · cases h; exact Or.inr ⟨ht, rfl, hlt⟩
        · cases h; exact Or.inl rfl
    · simp only [ht, if_false, Bool.false_eq_true] at h
      cases h; exact Or.inl rfl

theorem allDumped_unspecified : (dumpUnspecified .unspecified).AllDumped :=
  allDumped_node _ _ _ _ _ _ (dumped_of_class _ _ _ _ _ _ (by decide) (by decide) (by decide)
    (by decide) (by decide)) (by intro x hx; cases hx)

theorem dumpValue_leaf_allDumped (nd : Bool) (v : JKSNValue) (h1 : ∀ xs, v ≠ .array xs)
    (h2 : ∀ kvs, v ≠ .object kvs) (p : JKSNProxy) (h : dumpValue nd v = .ok p) :
    p.AllDumped := by
  cases v with
  | undefined =>
    simp only [dumpValue] at h
    cases h
    exact allDumped_node _ _ _ _ _ _ (dumped_of_class _ _ _ _ _ _ (by decide) (by decide)
      (by decide) (by decide) (by decide)) (by intro x hx; cases hx)
  | null =>
    simp only [dumpValue] at h
    cases h
    exact allDumped_node _ _ _ _ _ _ (dumped_of_class _ _ _ _ _ _ (by decide) (by decide)
      (by decide) (by decide) (by decide)) (by intro x hx; cases hx)
  | bool b =>
    simp only [dumpValue, dumpBool, JKSNValue.toBool, bind, Except.bind, pure, Except.pure] at h
    cases h
    cases b <;>
    exact allDumped_node _ _ _ _ _ _ (dumped_of_class _ _ _ _ _ _ (by decide) (by decide)
      (by decide) (by decide) (by decide)) (by intro x hx; cases hx)
  | int n =>
    simp only [dumpValue] at h
    obtain ⟨control, data, hp, hc, hlt⟩ := dumpInt_shape n p h
    subst hp
    refine allDumped_node _ _ _ _ _ _ ⟨?_, hlt, fun _ => ⟨n, rfl⟩, ?_⟩ (by intro x hx; cases hx)
    · intro h3c
      simp only [JKSNProxy.control] at h3c
      rw [h3c] at hc
      exact absurd hc (by decide)
    · intro ht
      simp only [JKSNProxy.control, isTextControl, isBlobControl, hc] at ht
      rcases ht with (ht | ht) | ht <;> exact absurd ht (by decide)
  | string s =>
    simp only [dumpValue] at h
    obtain ⟨control, data, buf, hp, ht, hne, hlt⟩ := dumpString_shape s p h
    subst hp
    refine allDumped_node _ _ _ _ _ _ ⟨hne, hlt, ?_, fun _ => rfl⟩ (by intro x hx; cases hx)
    intro hc
    simp only [JKSNProxy.control] at hc
    rcases ht with ht | ht <;> rw [hc] at ht <;> exact absurd ht (by decide)
  | blob s =>
    simp only [dumpValue] at h
    obtain ⟨control, data, hp, ht, hne, hlt⟩ := dumpBlob_shape s p h
    subst hp
    refine allDumped_node _ _ _ _ _ _ ⟨hne, hlt, ?_, fun _ => rfl⟩ (by intro x hx; cases hx)
    intro hc
    simp only [JKSNProxy.control] at hc
    unfold isBlobControl at ht
    rw [hc] at ht
    exact absurd ht (by decide)
  | array xs => exact absurd rfl (h1 xs)
  | object kvs => exact absurd rfl (h2 kvs)
  | unspecified =>
    simp only [dumpValue] at h
    cases h
    exact allDumped_unspecified

theorem dumpValue_allDumped (nd : Bool) (v : JKSNValue) :
    ∀ p, dumpValue nd v = .ok p → p.AllDumped := by
  apply dumpValue_ind nd (fun r => ∀ p, r = .ok p → p.AllDumped)
  · intro v h1 h2 p h
    exact dumpValue_leaf_allDumped nd v h1 h2 p h
  · intro xs helems hrows p h
    simp only [dumpValue] at h
    obtain ⟨straight, hs, hp⟩ := dumpArrayFrom_ok nd xs _ _ p h
    rcases hp with hp | ⟨_, hw, _⟩
    · subst hp
      obtain ⟨control, data, children, hc, hp, hcls, hlt⟩ := encodeStraightArrayFrom_ok nd xs _ _ hs
      subst hp
      refine allDumped_node _ _ _ _ _ _ (dumped_of_class _ _ _ _ _ _ hlt ?_ ?_ ?_ ?_) ?_
      · rw [hcls]; decide
      · rw [hcls]; decide
      · rw [hcls]; decide
      · rw [hcls]; decide
      · intro x hx
        exact helems _ (collect_ok_mem _ _ hc x hx) x rfl
    · obtain ⟨control, data, children, entries, hr, hc, hp, hcls, hlt⟩ :=
        encodeSwappedArrayFrom_ok nd xs _ p hw
      subst hp
      refine allDumped_node _ _ _ _ _ _ (dumped_of_class _ _ _ _ _ _ hlt ?_ ?_ ?_ ?_) ?_
      · rw [hcls]; decide
      · rw [hcls]; decide
      · rw [hcls]; decide
      · rw [hcls]; decide
      · intro x hx
        rcases swapCells_mem entries _ (collect_ok_mem _ _ hc x hx) with ⟨row, hrow, e, he, hxe⟩ | hu
        · exact hrows _ (swapRows_mem _ _ hr row hrow) row rfl e he x hxe.symm
        · cases hu
          exact allDumped_unspecified
  · intro kvs hentries p h
    simp only [dumpValue] at h
    obtain ⟨control, data, children, hc, hp, hcls, hlt⟩ := dumpObjectFrom_ok nd kvs _ p h
    subst hp
    refine allDumped_node _ _ _ _ _ _ (dumped_of_class _ _ _ _ _ _ hlt ?_ ?_ ?_ ?_) ?_
    · rw [hcls]; decide
    · rw [hcls]; decide
    · rw [hcls]; decide
    · rw [hcls]; decide
    · intro x hx
      exact hentries _ (collect_ok_mem _ _ hc x hx) x rfl

theorem dumpInt_total (n : Int) : ∃ p, dumpInt (.int n) = .ok p := by
  unfold dumpInt
  simp only [JKSNValue.toInt, bind, Except.bind, pure, Except.pure, encodeInt_one,
    encodeInt_two, encodeInt_four, encodeInt_zero]
  split_ifs <;> exact ⟨_, rfl⟩

theorem UTF8ToUTF16LELoop_error (utf8str : Bytes) (strict : Bool) (fuel : Nat) :
    ∀ (i : Nat) (utf16str : Bytes) (e : JKSNErr),
      UTF8ToUTF16LELoop utf8str strict fuel i utf16str = .error e → e = .JKSNTypeError := by
  induction fuel with
  | zero => intro i utf16str e h; simp [UTF8ToUTF16LELoop] at h
  | succ fuel ih =>
    intro i utf16str e h
    simp only [UTF8ToUTF16LELoop] at h
    by_cases hi : i < utf8str.length
    · simp only [hi, if_true] at h
      cases hs : UTF8ToUTF16LEStep utf8str i with
      | none =>
        rw [hs] at h
        simp only at h
        cases strict with
        | true =>
          simp only [if_true] at h
          cases h; rfl
        | false =>
          simp only [Bool.false_eq_true, if_false] at h
          exact ih _ _ _ h
      | some r =>
        rw [hs] at h
        exact ih _ _ _ h
    · simp only [hi, if_false] at h
      cases h

theorem dumpString_total (s : Bytes) : ∃ p, dumpString (.string s) = .ok p := by
  unfold dumpString
  simp only [JKSNValue.toString, bind, Except.bind, pure, Except.pure, encodeInt_one,
    encodeInt_two, encodeInt_zero]
  cases hu : UTF8ToUTF16LE s true with
  | error e =>
    have he : e = .JKSNTypeError := UTF8ToUTF16LELoop_error _ _ _ _ _ _ hu
    subst he
    simp only
    split_ifs <;> exact ⟨_, rfl⟩
  | ok obj_utf16 =>
    simp only
    by_cases hlen : obj_utf16.length < s.length
    · simp only [hlen, if_true]
      split_ifs <;> exact ⟨_, rfl⟩
    · simp only [hlen, if_false]
      split_ifs <;> exact ⟨_, rfl⟩

theorem dumpBlob_total (s : Bytes) : ∃ p, dumpBlob (.blob s) = .ok p := by
  unfold dumpBlob
  simp only [JKSNValue.toBlob, bind, Except.bind, pure, Except.pure, encodeInt_one,
    encodeInt_two, encodeInt_zero]
  split_ifs <;> exact ⟨_, rfl⟩

theorem encodeStraightArrayFrom_total (xs : List JKSNValue)
    (dumped : List (Except JKSNErr JKSNProxy)) (children : List JKSNProxy)
    (h : collect dumped = .ok children) :
    ∃ p, encodeStraightArrayFrom true (.array xs) dumped = .ok p := by
  unfold encodeStraightArrayFrom
  simp only [JKSNValue.toVector, bind, Except.bind, pure, Except.pure, encodeInt_one,
    encodeInt_two, encodeInt_zero, h, Bool.not_true, Bool.false_and, Bool.false_eq_true, if_false]
  split_ifs <;> exact ⟨_, rfl⟩

theorem dumpObjectFrom_total (kvs : List (JKSNValue × JKSNValue))
    (dumped : List (Except JKSNErr JKSNProxy)) (children : List JKSNProxy)
    (h : collect dumped = .ok children) :
    ∃ p, dumpObjectFrom true (.object kvs) dumped = .ok p := by
  unfold dumpObjectFrom
  simp only [JKSNValue.toMap, bind, Except.bind, pure, Except.pure, encodeInt_one,
    encodeInt_two, encodeInt_zero, h, Bool.not_true, Bool.false_and, Bool.false_eq_true, if_false]
  split_ifs <;> exact ⟨_, rfl⟩

theorem encodeSwappedArrayFrom_total (xs : List JKSNValue)
    (rows : List (Option (List (JKSNValue × Except JKSNErr JKSNProxy))))
    (entries : List (List (JKSNValue × Except JKSNErr JKSNProxy))) (children : List JKSNProxy)
    (hr : swapRows rows = .ok entries) (hc : collect (swapCells entries) = .ok children) :
    ∃ p, encodeSwappedArrayFrom true (.array xs) rows = .ok p := by
  unfold encodeSwappedArrayFrom
  simp only [bind, Except.bind, pure, Except.pure, encodeInt_one,
    encodeInt_two, encodeInt_zero, hr, hc, Bool.not_true, Bool.false_and, Bool.false_eq_true, if_false]
  split_ifs <;> exact ⟨_, rfl⟩

theorem dumpRows_some_of_swap (nd : Bool) : ∀ (xs : List JKSNValue) (columns : Bool),
    testSwapAvailabilityLoop xs columns = true → ∀ row ∈ dumpRows nd xs, row ≠ none
  | [], _, _ => by intro row hrow; simp [dumpRows] at hrow
  | .object kvs :: rest, columns, h => by
    intro row hrow
    simp only [testSwapAvailabilityLoop] at h
    simp only [dumpRows, List.mem_cons] at hrow
    rcases hrow with h1 | h1
    · rw [h1]; exact Option.some_ne_none _
    · exact dumpRows_some_of_swap nd rest _ h row h1
  | .undefined :: _, _, h | .null :: _, _, h | .bool _ :: _, _, h | .int _ :: _, _, h
  | .string _ :: _, _, h | .blob _ :: _, _, h | .array _ :: _, _, h
  | .unspecified :: _, _, h => by
    simp [testSwapAvailabilityLoop] at h

theorem swapRows_total (rows : List (Option (List (JKSNValue × Except JKSNErr JKSNProxy))))
    (h : ∀ row ∈ rows, row ≠ none) : ∃ entries, swapRows rows = .ok entries := by
  unfold swapRows
  apply collect_total
  intro r hr
  obtain ⟨row, hrow, heq⟩ := List.mem_map.mp hr
  cases row with
  | none => exact absurd rfl (h _ hrow)
  | some es => exact ⟨es, heq.symm⟩

theorem dumpArrayFrom_total (xs : List JKSNValue)
    (dumped : List (Except JKSNErr JKSNProxy))
    (rows : List (Option (List (JKSNValue × Except JKSNErr JKSNProxy))))
    (hd : ∀ r ∈ dumped, ∃ p, r = .ok p)
    (hsome : testSwapAvailabilityLoop xs false = true → ∀ row ∈ rows, row ≠ none)
    (hr : ∀ row ∈ rows, ∀ entries, row = some entries → ∀ e ∈ entries, ∃ p, e.2 = .ok p) :
    ∃ p, dumpArrayFrom true (.array xs) dumped rows = .ok p := by
  obtain ⟨children, hc⟩ := collect_total dumped hd
  obtain ⟨straight, hs⟩ := encodeStraightArrayFrom_total xs dumped children hc
  unfold dumpArrayFrom
  simp only [bind, Except.bind, pure, Except.pure, testSwapAvailability, JKSNValue.toVector, hs]
  by_cases ht : testSwapAvailabilityLoop xs false = true
  · simp only [ht, if_true]
    obtain ⟨entries, he⟩ := swapRows_total rows (hsome ht)
    have hcells : ∀ r ∈ swapCells entries, ∃ p, r = .ok p := by
      intro r hrm
      rcases swapCells_mem entries r hrm with ⟨row, hrow, e, hmem, hre⟩ | hu
      · rw [hre]
        exact hr _ (swapRows_mem rows entries he row hrow) row rfl e hmem
      · exact ⟨_, hu⟩
    obtain ⟨cells, hcs⟩ := collect_total _ hcells
    obtain ⟨swapped, hw⟩ := encodeSwappedArrayFrom_total xs rows entries cells he hcs
    rw [hw]
    simp only
    split_ifs <;> exact ⟨_, rfl⟩
  · simp only [ht, if_false, Bool.false_eq_true]
    exact ⟨_, rfl⟩

theorem dumpValue_total (v : JKSNValue) : ∃ p, dumpValue true v = .ok p := by
  apply dumpValue_ind true (fun r => ∃ p, r = .ok p)
  · intro v h1 h2
    cases v with
    | undefined => exact ⟨_, rfl⟩
    | null => exact ⟨_, rfl⟩
    | bool b => exact ⟨_, rfl⟩
    | int n => exact dumpInt_total n
    | string s => exact dumpString_total s
    | blob s => exact dumpBlob_total s
    | array xs => exact absurd rfl (h1 xs)
    | object kvs => exact absurd rfl (h2 kvs)
    | unspecified => exact ⟨_, rfl⟩
  · intro xs helems hrows
    simp only [dumpValue]
    exact dumpArrayFrom_total xs _ _ helems (fun ht => dumpRows_some_of_swap true xs false ht) hrows
  · intro kvs hentries
    simp only [dumpValue]
    obtain ⟨children, hc⟩ := collect_total _ hentries
    exact dumpObjectFrom_total kvs _ children hc

/-! ### The optimizer returns -/

theorem deltaForm_total (delta : Int) : ∃ r, deltaForm delta = .ok r := by
  unfold deltaForm
  simp only [bind, Except.bind, pure, Except.pure, encodeInt_one, encodeInt_two, encodeInt_four,
    encodeInt_zero]
  split_ifs <;> exact ⟨_, rfl⟩

theorem optimizeInt_total (cache : JKSNCache) (n : Int) (control : Nat) (data : Bytes) :
    ∃ c d, optimizeInt cache (.int n) control data = .ok (c, d, cache.afterInt n) := by
  unfold optimizeInt
  simp only [JKSNValue.toInt, bind, Except.bind, pure, Except.pure, JKSNCache.afterInt]
  by_cases hl : cache.haslastint = true
  · simp only [hl, if_true]
    by_cases ha : absInt (wrapIntmax (n - cache.lastint)) < absInt n
    · simp only [ha, if_true]
      obtain ⟨r, hr⟩ := deltaForm_total (wrapIntmax (n - cache.lastint))
      rw [hr]
      simp only
      split_ifs <;> exact ⟨_, _, rfl⟩
    · simp only [ha, if_false]
      exact ⟨_, _, rfl⟩
  · simp only [hl, if_false, Bool.false_eq_true]
    exact ⟨_, _, rfl⟩

theorem optimizeHash_total (table : Nat → Option Bytes) (control : Nat) (data buf : Bytes)
    (hash : Nat) : ∃ r, optimizeHash table control data buf hash = .ok r := by
  unfold optimizeHash
  simp only [bind, Except.bind, pure, Except.pure, encodeInt_one]
  split_ifs <;> exact ⟨_, rfl⟩

theorem originsAlive_mk (alive : Bool) (o : JKSNValue) (c : Nat) (d b : Bytes)
    (ch : List JKSNProxy) (h : Nat) :
    (JKSNProxy.mk o c d b ch h).originsAlive alive =
      if c &&& 0xf0 = 0x10 then alive
      else if c &&& 0xf0 = 0x30 ∨ c &&& 0xf0 = 0x40 ∨ c &&& 0xf0 = 0x50 then true
      else JKSNProxy.originsAliveList (alive && decide (c &&& 0xf0 = 0x80)) ch := by
  simp [JKSNProxy.originsAlive]

theorem originsAliveList_cons (alive : Bool) (c : JKSNProxy) (cs : List JKSNProxy) :
    JKSNProxy.originsAliveList alive (c :: cs) =
      (c.originsAlive alive && JKSNProxy.originsAliveList alive cs) := by
  simp [JKSNProxy.originsAliveList]

mutual
theorem optimizeAt_total : ∀ (p : JKSNProxy) (alive : Bool) (cache : JKSNCache), p.AllDumped →
    p.originsAlive alive = true → ∃ r, optimizeAt alive cache p = .ok r
  | .mk origin control data buf children hash, alive, cache, hp, ha => by
    have hroot := hp _ (by rw [nodes_mk]; exact List.mem_cons_self _ _)
    have hch : ∀ q ∈ JKSNProxy.nodesList children, q.Dumped := by
      intro q hq
      exact hp q (by rw [nodes_mk]; exact List.mem_cons_of_mem _ hq)
    rw [originsAlive_mk] at ha
    simp only [optimizeAt]
    by_cases h1 : control &&& 0xf0 = 0x10
    · simp only [h1, if_true] at ha ⊢
      subst ha
      simp only [if_true]
      obtain ⟨n, hn⟩ := hroot.2.2.1 h1
      simp only [JKSNProxy.origin] at hn
      subst hn
      obtain ⟨c, d, hr⟩ := optimizeInt_total cache n control data
      rw [hr]
      exact ⟨_, rfl⟩
    · simp only [h1, if_false] at ha ⊢
      by_cases h3 : control &&& 0xf0 = 0x30 ∨ control &&& 0xf0 = 0x40
      · simp only [h3, if_true]
        obtain ⟨r, hr⟩ := optimizeHash_total cache.texthash control data buf hash
        rw [hr]
        exact ⟨_, rfl⟩
      · simp only [h3, if_false]
        by_cases h5 : control &&& 0xf0 = 0x50
        · simp only [h5, if_true]
          obtain ⟨r, hr⟩ := optimizeHash_total cache.blobhash control data buf hash
          rw [hr]
          exact ⟨_, rfl⟩
        · simp only [h5, if_false]
          have h345 : ¬ (control &&& 0xf0 = 0x30 ∨ control &&& 0xf0 = 0x40 ∨
              control &&& 0xf0 = 0x50) := by
            rintro (h | h | h)
            · exact h3 (Or.inl h)
            · exact h3 (Or.inr h)
            · exact h5 h
          simp only [h345, if_false] at ha
          obtain ⟨r, hr⟩ := optimizeChildrenAt_total children _ cache hch ha
          rw [hr]
          exact ⟨_, rfl⟩
theorem optimizeChildrenAt_total : ∀ (cs : List JKSNProxy) (alive : Bool) (cache : JKSNCache),
    (∀ q ∈ JKSNProxy.nodesList cs, q.Dumped) → JKSNProxy.originsAliveList alive cs = true →
    ∃ r, optimizeChildrenAt alive cache cs = .ok r
  | [], _, cache, _, _ => ⟨_, rfl⟩
  | child :: rest, alive, cache, h, ha => by
    have h1 : child.AllDumped := by
      intro q hq
      exact h q (by rw [nodesList_cons]; exact List.mem_append_left _ hq)
    have h2 : ∀ q ∈ JKSNProxy.nodesList rest, q.Dumped := by
      intro q hq
      exact h q (by rw [nodesList_cons]; exact List.mem_append_right _ hq)
    rw [originsAliveList_cons, Bool.and_eq_true] at ha
    obtain ⟨r1, hr1⟩ := optimizeAt_total child alive cache h1 ha.1
    obtain ⟨r2, hr2⟩ := optimizeChildrenAt_total rest alive r1.2 h2 ha.2
    simp only [optimizeChildrenAt, bind, Except.bind, hr1, hr2]
    exact ⟨_, rfl⟩
end

mutual
theorem optimizeAt_alive : ∀ (p : JKSNProxy) (alive : Bool) (cache : JKSNCache)
    (r : JKSNProxy × JKSNCache), optimizeAt alive cache p = .ok r → p.originsAlive alive = true
  | .mk origin control data buf children hash, alive, cache, r, h => by
    rw [originsAlive_mk]
    simp only [optimizeAt, bind, Except.bind, pure, Except.pure] at h
    by_cases h1 : control &&& 0xf0 = 0x10
    · simp only [h1, if_true] at h ⊢
      cases alive with
      | true => rfl
      | false => simp at h
    · simp only [h1, if_false] at h ⊢
      by_cases h3 : control &&& 0xf0 = 0x30 ∨ control &&& 0xf0 = 0x40
      · rcases h3 with h3 | h3 <;> simp [h3]
      · by_cases h5 : control &&& 0xf0 = 0x50
        · simp [h5]
        · simp only [h3, h5, if_false] at h
          have h345 : ¬ (control &&& 0xf0 = 0x30 ∨ control &&& 0xf0 = 0x40 ∨
              control &&& 0xf0 = 0x50) := by
            rintro (h | h | h)
            · exact h3 (Or.inl h)
            · exact h3 (Or.inr h)
            · exact h5 h
          simp only [h345, if_false]
          cases hc : optimizeChildrenAt (alive && decide (control &&& 0xf0 = 0x80)) cache
              children with
          | error e => rw [hc] at h; cases h
          | ok x => exact optimizeChildrenAt_alive children _ cache x hc
theorem optimizeChildrenAt_alive : ∀ (cs : List JKSNProxy) (alive : Bool) (cache : JKSNCache)
    (r : List JKSNProxy × JKSNCache), optimizeChildrenAt alive cache cs = .ok r →
    JKSNProxy.originsAliveList alive cs = true
  | [], _, _, _, _ => by simp [JKSNProxy.originsAliveList]
  | child :: rest, alive, cache, r, h => by
    simp only [optimizeChildrenAt, bind, Except.bind, pure, Except.pure] at h
    cases h1 : optimizeAt alive cache child with
    | error e => rw [h1] at h; cases h
    | ok x1 =>
      rw [h1] at h
      simp only at h
      cases h2 : optimizeChildrenAt alive x1.2 rest with
      | error e => rw [h2] at h; cases h
      | ok x2 =>
        rw [originsAliveList_cons, Bool.and_eq_true]
        exact ⟨optimizeAt_alive child alive cache x1 h1,
          optimizeChildrenAt_alive rest alive x1.2 x2 h2⟩
end

theorem optimize_total (p : JKSNProxy) (cache : JKSNCache) (hp : p.AllDumped)
    (ha : p.originsAlive true = true) : ∃ r, optimize cache p = .ok r :=
  optimizeAt_total p true cache hp ha

theorem optimize_alive (p : JKSNProxy) (cache : JKSNCache) (r : JKSNProxy × JKSNCache)
    (h : optimize cache p = .ok r) : p.originsAlive true = true :=
  optimizeAt_alive p true cache r h

theorem dumps_total (cache : JKSNCache) (obj : JKSNValue) (header : Bool) (proxy : JKSNProxy)
    (hd : dumpValue true obj = .ok proxy) (ha : proxy.originsAlive true = true) :
    ∃ bytes cache1, JKSNEncoder.dumps true cache obj header = .ok (bytes, cache1) := by
  obtain ⟨r, hr⟩ := optimize_total proxy cache (dumpValue_allDumped true obj proxy hd) ha
  simp only [JKSNEncoder.dumps, dumpToProxy, bind, Except.bind, hd, hr, pure, Except.pure]
  exact ⟨_, _, rfl⟩

theorem decodeInt_frame (a b : IStream) (size : Nat) (h1 : a.rest = b.rest)
    (h2 : a.failed = b.failed) :
    (∃ e, decodeInt a size = .error e ∧ decodeInt b size = .error e) ∨
    (∃ n fa fb, decodeInt a size = .ok (n, fa) ∧ decodeInt b size = .ok (n, fb) ∧
      fa.rest = fb.rest ∧ fa.failed = fb.failed) := by
  obtain ⟨pa, ra, ga, fa⟩ := a
  obtain ⟨pb, rb, gb, fb⟩ := b
  simp only at h1 h2
  subst h1 h2
  match size with
  | 1 =>
    simp only [decodeInt, IStream.get]
    cases fa with
    | true => exact Or.inl ⟨_, rfl, rfl⟩
    | false =>
      cases ra with
      | nil => exact Or.inl ⟨_, rfl, rfl⟩
      | cons c r => exact Or.inr ⟨_, _, _, rfl, rfl, rfl, rfl⟩
  | 2 =>
    simp only [decodeInt, IStream.read]
    cases fa with
    | true => exact Or.inl ⟨_, rfl, rfl⟩
    | false =>
      by_cases hl : 2 ≤ ra.length
      · simp only [Bool.false_eq_true, if_false, hl, if_true]
        exact Or.inr ⟨_, _, _, rfl, rfl, rfl, rfl⟩
      · simp only [Bool.false_eq_true, if_false, hl]
        exact Or.inl ⟨_, rfl, rfl⟩
  | 4 =>
    simp only [decodeInt, IStream.read]
    cases fa with
    | true => exact Or.inl ⟨_, rfl, rfl⟩
    | false =>
      by_cases hl : 4 ≤ ra.length
      · simp only [Bool.false_eq_true, if_false, hl, if_true]
        exact Or.inr ⟨_, _, _, rfl, rfl, rfl, rfl⟩
      · simp only [Bool.false_eq_true, if_false, hl]
        exact Or.inl ⟨_, rfl, rfl⟩
  | 0 =>
    simp only [decodeInt]
    cases fa with
    | true => exact Or.inl ⟨_, rfl, rfl⟩
    | false =>
      simp only [Bool.false_eq_true, if_false]
      cases hd : decodeIntLoop ra 0 with
      | error e => exact Or.inl ⟨_, rfl, rfl⟩
      | ok r => exact Or.inr ⟨_, _, _, rfl, rfl, rfl, rfl⟩
  | 3 => exact Or.inl ⟨_, rfl, rfl⟩
  | n + 5 => exact Or.inl ⟨_, rfl, rfl⟩

theorem parseControl_frame (cache : JKSNCache) (control : Nat) (a b : IStream)
    (h1 : a.rest = b.rest) (h2 : a.failed = b.failed) :
    observed (parseControl cache control a) = observed (parseControl cache control b) := by
  unfold parseControl
  simp only [bind, Except.bind, pure, Except.pure, throw, throwThe, MonadExceptOf.throw]
  split_ifs
  all_goals (first | (simp only [observed, h1, h2]; done) | skip)
  · rcases decodeInt_frame a b 4 h1 h2 with ⟨e, ha, hb⟩ | ⟨n, fa, fb, ha, hb, hr, hf⟩
    · rw [ha, hb]
    · rw [ha, hb]; simp only [observed, hr, hf]
  · rcases decodeInt_frame a b 2 h1 h2 with ⟨e, ha, hb⟩ | ⟨n, fa, fb, ha, hb, hr, hf⟩
    · rw [ha, hb]
    · rw [ha, hb]; simp only [observed, hr, hf]
  · rcases decodeInt_frame a b 1 h1 h2 with ⟨e, ha, hb⟩ | ⟨n, fa, fb, ha, hb, hr, hf⟩
    · rw [ha, hb]
    · rw [ha, hb]; simp only [observed, hr, hf]
  · rcases decodeInt_frame a b 0 h1 h2 with ⟨e, ha, hb⟩ | ⟨n, fa, fb, ha, hb, hr, hf⟩
    · rw [ha, hb]
    · rw [ha, hb]; simp only [observed, hr, hf]; split_ifs <;> simp only [observed, hr, hf]
  · rcases decodeInt_frame a b 0 h1 h2 with ⟨e, ha, hb⟩ | ⟨n, fa, fb, ha, hb, hr, hf⟩
    · rw [ha, hb]
    · rw [ha, hb]; simp only [observed, hr, hf]; split_ifs <;> simp only [observed, hr, hf]

theorem parseValue_frame (cache : JKSNCache) (a b : IStream) (h1 : a.rest = b.rest)
    (h2 : a.failed = b.failed) :
    observed (parseValue cache a) = observed (parseValue cache b) := by
  obtain ⟨pa, ra, ga, fa⟩ := a
  obtain ⟨pb, rb, gb, fb⟩ := b
  simp only at h1 h2
  subst h1 h2
  cases fa with
  | true => simp [parseValue, IStream.get, observed]
  | false =>
    cases ra with
    | nil => simp [parseValue, IStream.get, observed]
    | cons c r =>
      simp only [parseValue, IStream.get, Bool.false_eq_true, if_false]
      exact parseControl_frame cache _ _ _ rfl rfl

theorem parse_eq_observed (cache : JKSNCache) (str : Bytes) (header : Bool) :
    JKSNDecoder.parse cache str header =
      (observed (JKSNDecoder.parseStream cache (IStream.ofBytes str) header)).map
        (fun r => (r.1, r.2.1)) := by
  unfold JKSNDecoder.parse observed
  cases JKSNDecoder.parseStream cache (IStream.ofBytes str) header with
  | error e => rfl
  | ok r => rfl

theorem parse_header (cache : JKSNCache) (bytes : Bytes) :
    JKSNDecoder.parse cache (0x6a :: 0x6b :: 0x21 :: bytes) true =
      JKSNDecoder.parse cache bytes false := by
  rw [parse_eq_observed, parse_eq_observed]
  congr 1
  simp only [JKSNDecoder.parseStream, IStream.ofBytes, IStream.read, if_true, Bool.false_eq_true,
    if_false]
  have hlen : 3 ≤ (0x6a :: 0x6b :: 0x21 :: bytes).length := by simp
  simp only [hlen, if_true]
  simp only [List.take, ne_eq, not_true_eq_false, or_self, if_false, List.drop]
  exact parseValue_frame cache _ _ rfl rfl

theorem dumps_header (ndebug : Bool) (cache : JKSNCache) (obj : JKSNValue) (bytes : Bytes)
    (cache1 : JKSNCache) (h : JKSNEncoder.dumps ndebug cache obj false = .ok (bytes, cache1)) :
    JKSNEncoder.dumps ndebug cache obj true = .ok (0x6a :: 0x6b :: 0x21 :: bytes, cache1) := by
  unfold JKSNEncoder.dumps at h ⊢
  cases hd : dumpToProxy ndebug cache obj with
  | error e => rw [hd] at h; cases h
  | ok r =>
    rw [hd] at h
    simp only [bind, Except.bind, pure, Except.pure, Bool.false_eq_true, if_false,
      List.nil_append] at h
    cases h
    rfl

theorem dumpValue_array (ndebug : Bool) (xs : List JKSNValue) :
    dumpValue ndebug (.array xs) = dumpArray ndebug (.array xs) := rfl

theorem dumpValue_object (ndebug : Bool) (kvs : List (JKSNValue × JKSNValue)) :
    dumpValue ndebug (.object kvs) = dumpObject ndebug (.object kvs) := rfl

theorem dumpElements_eq_map (ndebug : Bool) (xs : List JKSNValue) :
    dumpElements ndebug xs = xs.map (dumpValue ndebug) := by
  induction xs with
  | nil => simp [dumpElements]
  | cons x xs ih => simp [dumpElements, ih]

theorem dumpKeys_eq_map (ndebug : Bool) (kvs : List (JKSNValue × JKSNValue)) :
    dumpKeys ndebug kvs = kvs.map (fun e => (e.1, dumpValue ndebug e.1)) := by
  induction kvs with
  | nil => simp [dumpKeys]
  | cons x xs ih =>
    obtain ⟨k, v⟩ := x
    simp [dumpKeys, ih]

theorem dumpEntries_eq_flatMap (ndebug : Bool) (kvs : List (JKSNValue × JKSNValue)) :
    dumpEntries ndebug kvs =
      kvs.flatMap (fun e => [dumpValue ndebug e.1, dumpValue ndebug e.2]) := by
  induction kvs with
  | nil => simp [dumpEntries]
  | cons x xs ih =>
    obtain ⟨k, v⟩ := x
    simp [dumpEntries, ih]

theorem dumpRows_of_objects (ndebug : Bool) (rows : List (List (JKSNValue × JKSNValue))) :
    dumpRows ndebug (rows.map JKSNValue.object) =
      rows.map (fun kvs => some (kvs.map (fun e => (e.1, dumpValue ndebug e.1)))) := by
  induction rows with
  | nil => simp [dumpRows]
  | cons x xs ih => simp [dumpRows, ih, dumpKeys_eq_map]

theorem integer_form_ladder (ndebug : Bool) (n : Int) (hlo : -2 ^ 63 ≤ n) (hhi : n < 2 ^ 63) :
    ∃ bytes, JKSNEncoder.dumps ndebug JKSNCache.fresh (.int n) false =
        .ok (bytes, JKSNCache.fresh.afterInt n) ∧
      (if 0 ≤ n ∧ n ≤ 10 then bytes = [0x10 ||| n.toNat]
       else if -128 ≤ n ∧ n ≤ 127 then ∃ b0, bytes = [0x1d, b0]
       else if -32768 ≤ n ∧ n ≤ 32767 then ∃ b0 b1, bytes = [0x1c, b0, b1]
       else if -2 ^ 31 ≤ n ∧ n < 2 ^ 31 ∧ 2 ^ 21 ≤ |n| then
         ∃ b0 b1 b2 b3, bytes = [0x1b, b0, b1, b2, b3]
       else if 0 ≤ n then bytes = 0x1f :: varintReference n.natAbs
       else bytes = 0x1e :: varintReference n.natAbs) := by
  by_cases h0 : 0 ≤ n ∧ n ≤ 10
  · obtain ⟨c1, c2, _, _⟩ := immediate_class n.toNat (by omega)
    refine ⟨_, dumps_int_of_dumpInt ndebug n _ _ (dumpInt_immediate n h0.1 h0.2) c1, ?_⟩
    rw [if_pos h0, c2]
  by_cases h1 : -128 ≤ n ∧ n ≤ 127
  · refine ⟨_, dumps_int_of_dumpInt ndebug n _ _ (dumpInt_int8 n h0 h1.1 h1.2) (by decide), ?_⟩
    rw [if_neg h0, if_pos h1]
    exact ⟨_, rfl⟩
  by_cases h2 : -32768 ≤ n ∧ n ≤ 32767
  · refine ⟨_, dumps_int_of_dumpInt ndebug n _ _ (dumpInt_int16 n h1 h2.1 h2.2) (by decide), ?_⟩
    rw [if_neg h0, if_neg h1, if_pos h2]
    exact ⟨_, _, rfl⟩
  by_cases h3 : (-2147483648 ≤ n ∧ n ≤ -2097152) ∨ (2097152 ≤ n ∧ n ≤ 2147483647)
  · refine ⟨_, dumps_int_of_dumpInt ndebug n _ _ (dumpInt_int32 n h2 h3) (by decide), ?_⟩
    have h3b : -2 ^ 31 ≤ n ∧ n < 2 ^ 31 ∧ 2 ^ 21 ≤ |n| := by
      refine ⟨by omega, by omega, ?_⟩
      rcases h3 with h3 | h3
      · rw [abs_of_neg (by omega)]; omega
      · rw [abs_of_nonneg (by omega)]; omega
    rw [if_neg h0, if_neg h1, if_neg h2, if_pos h3b]
    exact ⟨_, _, _, _, rfl⟩
  have h3b : ¬ (-2 ^ 31 ≤ n ∧ n < 2 ^ 31 ∧ 2 ^ 21 ≤ |n|) := by
    rintro ⟨a, b, c⟩
    apply h3
    by_cases hn : 0 ≤ n
    · rw [abs_of_nonneg hn] at c
      exact Or.inr ⟨by omega, by omega⟩
    · rw [abs_of_neg (by omega)] at c
      exact Or.inl ⟨by omega, by omega⟩
  by_cases h4 : 0 ≤ n
  · refine ⟨_, dumps_int_of_dumpInt ndebug n _ _ (dumpInt_varint_pos n h2 h3 h4 hhi) (by decide), ?_⟩
    rw [if_neg h0, if_neg h1, if_neg h2, if_neg h3b, if_pos h4]
  · refine ⟨_, dumps_int_of_dumpInt ndebug n _ _ (dumpInt_varint_neg n h2 h3 (by omega) hlo)
      (by decide), ?_⟩
    rw [if_neg h0, if_neg h1, if_neg h2, if_neg h3b, if_neg h4]

theorem toString_head (p : JKSNProxy) :
    ∃ rest, p.toString true = (p.control % 256) :: rest := by
  obtain ⟨o, c, d, b, ch, h⟩ := p
  exact ⟨d ++ (b ++ JKSNProxy.toStringList ch), by simp [JKSNProxy.toString, JKSNProxy.control]⟩

theorem parse_reject (cache : JKSNCache) (c : Nat) (rest : Bytes)
    (h0 : (c % 256) &&& 0xf0 ≠ 0x00) (h1 : (c % 256) &&& 0xf0 ≠ 0x10)
    (h2 : (c % 256) &&& 0xf0 ≠ 0x20) :
    JKSNDecoder.parse cache (c :: rest) false = .error .JKSNDecodeError := by
  simp [JKSNDecoder.parse, JKSNDecoder.parseStream, parseValue, parseControl, IStream.get,
    IStream.ofBytes, h0, h1, h2]

theorem optimizeHash_cases (table : Nat → Option Bytes) (control : Nat) (data buf : Bytes)
    (hash : Nat) (r : Nat × Bytes × Bytes × (Nat → Option Bytes))
    (h : optimizeHash table control data buf hash = .ok r) :
    (buf.length > 1 ∧ table hash = some buf ∧
      r = (0x3c, [hash % 2 ^ 64 % 256], [], table)) ∨
    (r.1 = control ∧ r.2.1 = data ∧ r.2.2.1 = buf ∧
      (r.2.2.2 = table ∨
        (buf.length > 1 ∧ r.2.2.2 = fun i => if i = hash then some buf else table i))) := by
  unfold optimizeHash at h
  simp only [bind, Except.bind, pure, Except.pure, encodeInt_one] at h
  split_ifs at h with h1 h2
  · cases h; exact Or.inl ⟨h1, h2, rfl⟩
  · cases h; exact Or.inr ⟨rfl, rfl, rfl, Or.inr ⟨h1, rfl⟩⟩
  · cases h; exact Or.inr ⟨rfl, rfl, rfl, Or.inl rfl⟩

theorem optimize_root_control (cache : JKSNCache) (p : JKSNProxy) (r : JKSNProxy × JKSNCache)
    (h : optimize cache p = .ok r) (h1 : p.control &&& 0xf0 ≠ 0x10) :
    r.1.control = p.control ∨ r.1.control = 0x3c := by
  obtain ⟨o, c, d, b, ch, hs⟩ := p
  simp only [JKSNProxy.control] at h1
  simp only [optimize, optimizeAt, h1, if_false, bind, Except.bind, pure, Except.pure] at h
  by_cases h3 : c &&& 0xf0 = 0x30 ∨ c &&& 0xf0 = 0x40
  · simp only [h3, if_true] at h
    cases hh : optimizeHash cache.texthash c d b hs with
    | error e => rw [hh] at h; cases h
    | ok x =>
      rw [hh] at h
      cases h
      rcases optimizeHash_cases _ _ _ _ _ _ hh with ⟨_, _, hx⟩ | ⟨hx, _⟩
      · rw [hx]; exact Or.inr rfl
      · exact Or.inl hx
  · simp only [h3, if_false] at h
    by_cases h5 : c &&& 0xf0 = 0x50
    · simp only [h5, if_true] at h
      cases hh : optimizeHash cache.blobhash c d b hs with
      | error e => rw [hh] at h; cases h
      | ok x =>
        rw [hh] at h
        cases h
        rcases optimizeHash_cases _ _ _ _ _ _ hh with ⟨_, _, hx⟩ | ⟨hx, _⟩
        · rw [hx]; exact Or.inr rfl
        · exact Or.inl hx
    · simp only [h5, if_false] at h
      cases hh : optimizeChildrenAt (true && decide (c &&& 0xf0 = 0x80)) cache ch with
      | error e => rw [hh] at h; cases h
      | ok x =>
        rw [hh] at h
        cases h
        exact Or.inl rfl

theorem dumpValue_root_class (nd : Bool) (V : JKSNValue) (p : JKSNProxy)
    (hV : (∃ s, V = .string s) ∨ (∃ s, V = .blob s) ∨ (∃ xs, V = .array xs) ∨
      (∃ kvs, V = .object kvs) ∨ V = .unspecified)
    (h : dumpValue nd V = .ok p) : p.control < 256 ∧ undecodedClass p.control := by
  rcases hV with ⟨s, rfl⟩ | ⟨s, rfl⟩ | ⟨xs, rfl⟩ | ⟨kvs, rfl⟩ | rfl
  · simp only [dumpValue] at h
    obtain ⟨control, data, buf, hp, ht, _, hlt⟩ := dumpString_shape s p h
    subst hp
    rcases ht with ht | ht
    · exact ⟨hlt, Or.inl ht⟩
    · exact ⟨hlt, Or.inr (Or.inl ht)⟩
  · simp only [dumpValue] at h
    obtain ⟨control, data, hp, ht, _, hlt⟩ := dumpBlob_shape s p h
    subst hp
    exact ⟨hlt, Or.inr (Or.inr (Or.inl ht))⟩
  · simp only [dumpValue] at h
    obtain ⟨straight, hs, hp⟩ := dumpArrayFrom_ok nd xs _ _ p h
    rcases hp with hp | ⟨_, hw, _⟩
    · subst hp
      obtain ⟨control, data, children, _, hp, hcls, hlt⟩ := encodeStraightArrayFrom_ok nd xs _ _ hs
      subst hp
      exact ⟨hlt, Or.inr (Or.inr (Or.inr (Or.inl hcls)))⟩
    · obtain ⟨control, data, children, entries, _, _, hp, hcls, hlt⟩ :=
        encodeSwappedArrayFrom_ok nd xs _ p hw
      subst hp
      exact ⟨hlt, Or.inr (Or.inr (Or.inr (Or.inr (Or.inr hcls))))⟩
  · simp only [dumpValue] at h
    obtain ⟨control, data, children, _, hp, hcls, hlt⟩ := dumpObjectFrom_ok nd kvs _ p h
    subst hp
    exact ⟨hlt, Or.inr (Or.inr (Or.inr (Or.inr (Or.inl hcls))))⟩
  · simp only [dumpValue] at h
    cases h
    exact ⟨by decide, Or.inr (Or.inr (Or.inr (Or.inr (Or.inr (by decide)))))⟩

theorem dumps_undecoded (nd : Bool) (cache0 : JKSNCache) (V : JKSNValue)
    (hV : (∃ s, V = .string s) ∨ (∃ s, V = .blob s) ∨ (∃ xs, V = .array xs) ∨
      (∃ kvs, V = .object kvs) ∨ V = .unspecified)
    (bytes : Bytes) (cache : JKSNCache)
    (h : JKSNEncoder.dumps nd cache0 V false = .ok (bytes, cache)) (cache1 : JKSNCache) :
    JKSNDecoder.parse cache1 bytes false = .error .JKSNDecodeError := by
  unfold JKSNEncoder.dumps dumpToProxy at h
  simp only [bind, Except.bind, pure, Except.pure, Bool.false_eq_true, if_false,
    List.nil_append] at h
  cases hd : dumpValue nd V with
  | error e => rw [hd] at h; cases h
  | ok p =>
    rw [hd] at h
    simp only at h
    cases ho : optimize cache0 p with
    | error e => rw [ho] at h; cases h
    | ok r =>
      rw [ho] at h
      simp only at h
      cases h
      obtain ⟨hlt, hcls⟩ := dumpValue_root_class nd V p hV hd
      have hne : p.control &&& 0xf0 ≠ 0x10 := by
        unfold undecodedClass at hcls
        rcases hcls with h | h | h | h | h | h <;> rw [h] <;> decide
      obtain ⟨rest, hrest⟩ := toString_head r.1
      rw [hrest]
      rcases optimize_root_control cache0 p r ho hne with hc | hc
      · rw [hc, Nat.mod_eq_of_lt hlt]
        unfold undecodedClass at hcls
        apply parse_reject <;> rw [Nat.mod_eq_of_lt hlt] <;>
          rcases hcls with h | h | h | h | h | h <;> rw [h] <;> decide
      · rw [hc]
        apply parse_reject <;> decide

theorem int_round_trip (nd : Bool) (n : Int) (hlo : -2 ^ 63 ≤ n) (hhi : n < 2 ^ 63)
    (hform : (-128 ≤ n ∧ n ≤ 127) ∨
      ((n < -32768 ∨ 32767 < n) ∧
        ¬ ((-2147483648 ≤ n ∧ n ≤ -2097152) ∨ (2097152 ≤ n ∧ n ≤ 2147483647)))) :
    ∃ bytes, JKSNEncoder.dumps nd JKSNCache.fresh (.int n) false =
        .ok (bytes, JKSNCache.fresh.afterInt n) ∧
      JKSNDecoder.parse JKSNCache.fresh bytes false = .ok (.int n, JKSNCache.fresh.afterInt n) := by
  by_cases h0 : 0 ≤ n ∧ n ≤ 10
  · obtain ⟨c1, c2, _, _⟩ := immediate_class n.toNat (by omega)
    refine ⟨_, dumps_int_of_dumpInt nd n _ _ (dumpInt_immediate n h0.1 h0.2) c1, ?_⟩
    rw [c2, parse_immediate _ _ _ (by omega)]
    have : ((n.toNat : Nat) : Int) = n := by omega
    rw [this]
  by_cases h1 : -128 ≤ n ∧ n ≤ 127
  · refine ⟨_, dumps_int_of_dumpInt nd n _ _ (dumpInt_int8 n h0 h1.1 h1.2) (by decide), ?_⟩
    have hs : toSigned 8 (toUintmax n % 256 % 256) = n := by
      unfold toSigned toUintmax
      simp only [Nat.reducePow, Nat.reduceSub]
      split_ifs <;> omega
    rw [show (0x1d % 256 : Nat) = 0x1d from rfl, parse_int8, hs]
  have h2 : ¬ (-32768 ≤ n ∧ n ≤ 32767) := by
    rcases hform with h | ⟨h, _⟩
    · exact absurd h h1
    · omega
  have h3 : ¬ ((-2147483648 ≤ n ∧ n ≤ -2097152) ∨ (2097152 ≤ n ∧ n ≤ 2147483647)) := by
    rcases hform with h | ⟨_, h⟩
    · exact absurd h h1
    · exact h
  by_cases h4 : 0 ≤ n
  · refine ⟨_, dumps_int_of_dumpInt nd n _ _ (dumpInt_varint_pos n h2 h3 h4 hhi) (by decide), ?_⟩
    have hp := parse_varint_pos JKSNCache.fresh n.natAbs [] (by omega)
    rw [List.append_nil] at hp
    have : ((n.natAbs : Nat) : Int) = n := by omega
    rw [show (0x1f % 256 : Nat) = 0x1f from rfl, hp, this]
  · refine ⟨_, dumps_int_of_dumpInt nd n _ _ (dumpInt_varint_neg n h2 h3 (by omega) hlo)
      (by decide), ?_⟩
    have hp := parse_varint_neg JKSNCache.fresh n.natAbs [] (by omega) (by omega)
    rw [List.append_nil] at hp
    have : -((n.natAbs : Nat) : Int) = n := by omega
    rw [show (0x1e % 256 : Nat) = 0x1e from rfl, hp, this]

theorem resolved_mono (R : Nat → Nat → Prop) : ∀ (originals optimized e1 e2 : List JKSNProxy),
    (∀ x ∈ e1, x ∈ e2) → Resolved R e1 originals optimized → Resolved R e2 originals optimized
  | [], [], _, _, _, _ => trivial
  | [], _ :: _, _, _, _, h => by simp [Resolved] at h
  | _ :: _, [], _, _, _, h => by simp [Resolved] at h
  | o :: os, n :: ns, e1, e2, hsub, h => by
    simp only [Resolved] at h ⊢
    refine ⟨fun hc => ?_, ?_⟩
    · obtain ⟨e, he, hr⟩ := h.1 hc
      exact ⟨e, hsub e he, hr⟩
    · refine resolved_mono R os ns _ _ ?_ h.2
      intro x hx
      rcases List.mem_append.mp hx with h1 | h1
      · exact List.mem_append_left _ (hsub x h1)
      · exact List.mem_append_right _ h1

theorem resolved_append (R : Nat → Nat → Prop) :
    ∀ (os1 ns1 os2 ns2 emitted : List JKSNProxy),
      Resolved R emitted os1 ns1 → Resolved R (emitted ++ ns1) os2 ns2 →
      Resolved R emitted (os1 ++ os2) (ns1 ++ ns2)
  | [], [], os2, ns2, emitted, _, h2 => by simpa using h2
  | [], _ :: _, _, _, _, h, _ => by simp [Resolved] at h
  | _ :: _, [], _, _, _, h, _ => by simp [Resolved] at h
  | o :: os, n :: ns, os2, ns2, emitted, h1, h2 => by
    simp only [Resolved] at h1
    simp only [List.cons_append, Resolved]
    refine ⟨h1.1, resolved_append R os ns os2 ns2 _ h1.2 ?_⟩
    simpa using h2

theorem resolved_same (R : Nat → Nat → Prop) : ∀ (xs emitted : List JKSNProxy),
    (∀ q ∈ xs, q.control ≠ 0x3c) → Resolved R emitted xs xs
  | [], _, _ => trivial
  | x :: xs, emitted, h => by
    simp only [Resolved]
    exact ⟨fun hc => absurd hc (h x (List.mem_cons_self _ _)),
      resolved_same R xs _ (fun q hq => h q (List.mem_cons_of_mem _ hq))⟩

theorem resolved_index (R : Nat → Nat → Prop) :
    ∀ (originals optimized emitted : List JKSNProxy), Resolved R emitted originals optimized →
      ∀ (j : Nat) (node : JKSNProxy), optimized[j]? = some node → node.control = 0x3c →
        ∃ original, originals[j]? = some original ∧
          ∃ earlier ∈ emitted ++ optimized.take j, resolves R earlier original node
  | [], [], _, _ => by intro j node h; simp at h
  | [], _ :: _, _, h => by simp [Resolved] at h
  | _ :: _, [], _, h => by simp [Resolved] at h
  | o :: os, n :: ns, emitted, h => by
    simp only [Resolved] at h
    intro j node hj hc
    cases j with
    | zero =>
      simp only [List.getElem?_cons_zero, Option.some.injEq] at hj
      subst hj
      obtain ⟨e, he, hr⟩ := h.1 hc
      exact ⟨o, by simp, e, by simpa using he, hr⟩
    | succ j =>
      simp only [List.getElem?_cons_succ] at hj
      obtain ⟨original, ho, e, he, hr⟩ := resolved_index R os ns _ h.2 j node hj hc
      refine ⟨original, by simpa using ho, e, ?_, hr⟩
      simpa [List.take_succ_cons] using he

theorem mem_take_index {α : Type} : ∀ (l : List α) (j : Nat) (x : α), x ∈ l.take j →
    ∃ i, i < j ∧ l[i]? = some x
  | [], j, x, h => by simp at h
  | a :: l, 0, x, h => by simp at h
  | a :: l, j + 1, x, h => by
    simp only [List.take_succ_cons, List.mem_cons] at h
    rcases h with h | h
    · exact ⟨0, Nat.succ_pos _, by simp [h]⟩
    · obtain ⟨i, hi, hx⟩ := mem_take_index l j x h
      exact ⟨i + 1, by omega, by simpa using hx⟩

theorem resolved_length (R : Nat → Nat → Prop) :
    ∀ (originals optimized emitted : List JKSNProxy), Resolved R emitted originals optimized →
      optimized.length = originals.length
  | [], [], _, _ => rfl
  | [], _ :: _, _, h => by simp [Resolved] at h
  | _ :: _, [], _, h => by simp [Resolved] at h
  | o :: os, n :: ns, emitted, h => by
    simp only [Resolved] at h
    simp [resolved_length R os ns _ h.2]

theorem hashRefsResolved_of_resolved (R : Nat → Nat → Prop) (proxy optimized : JKSNProxy)
    (h : Resolved R [] proxy.nodes optimized.nodes) : HashRefsResolved R proxy optimized := by
  intro j node hj hc
  obtain ⟨original, ho, e, he, hr⟩ := resolved_index R _ _ _ h j node hj hc
  simp only [List.nil_append] at he
  obtain ⟨i, hi, hx⟩ := mem_take_index _ _ _ he
  exact ⟨original, i, e, ho, hi, hx, hr⟩

theorem cacheInv_mono (cache : JKSNCache) (e1 e2 : List JKSNProxy) (hsub : ∀ x ∈ e1, x ∈ e2)
    (h : CacheInv cache e1) : CacheInv cache e2 := by
  refine ⟨fun i s hs => ?_, fun i s hs => ?_⟩
  · obtain ⟨e, he, hr⟩ := h.1 i s hs
    exact ⟨e, hsub e he, hr⟩
  · obtain ⟨e, he, hr⟩ := h.2 i s hs
    exact ⟨e, hsub e he, hr⟩

theorem DJBHash_lt (buf : Bytes) (iv : Nat) : DJBHash buf iv < 256 := by
  unfold DJBHash
  exact Nat.mod_lt _ (by norm_num)

theorem delta_control_ne (k : Nat) (h : k ≤ 10) : 0xb0 ||| k ≠ 0x3c := by
  interval_cases k <;> decide

theorem deltaForm_control (delta : Int) (r : Nat × Bytes) (h : deltaForm delta = .ok r) :
    r.1 ≠ 0x3c := by
  unfold deltaForm at h
  simp only [bind, Except.bind, pure, Except.pure, encodeInt_one, encodeInt_two, encodeInt_four,
    encodeInt_zero] at h
  split_ifs at h with h1 h2
  · cases h
    have : toUint8 delta ≤ 10 := by unfold toUint8; omega
    exact delta_control_ne _ this
  · cases h
    have : toUint8 (delta + 11) ≤ 10 := by unfold toUint8; omega
    exact delta_control_ne _ this
  all_goals (cases h; simp only [ne_eq]; decide)

theorem optimizeInt_cases (cache : JKSNCache) (origin : JKSNValue) (control : Nat) (data : Bytes)
    (r : Nat × Bytes × JKSNCache) (h : optimizeInt cache origin control data = .ok r)
    (hc : control ≠ 0x3c) :
    r.1 ≠ 0x3c ∧ r.2.2.texthash = cache.texthash ∧ r.2.2.blobhash = cache.blobhash := by
  unfold optimizeInt at h
  cases ho : origin.toInt with
  | error e =>
    simp only [ho, bind, Except.bind, pure, Except.pure] at h
    split_ifs at h
  | ok current =>
    simp only [ho, bind, Except.bind, pure, Except.pure] at h
    by_cases hl : cache.haslastint = true
    · simp only [hl, if_true] at h
      by_cases ha : absInt (wrapIntmax (current - cache.lastint)) < absInt current
      · simp only [ha, if_true] at h
        cases hd : deltaForm (wrapIntmax (current - cache.lastint)) with
        | error e => rw [hd] at h; cases h
        | ok x =>
          rw [hd] at h
          simp only at h
          split_ifs at h
          · cases h
            exact ⟨deltaForm_control _ _ hd, rfl, rfl⟩
          · cases h
            exact ⟨hc, rfl, rfl⟩
      · simp only [ha, if_false] at h
        cases h
        exact ⟨hc, rfl, rfl⟩
    · simp only [hl, if_false, Bool.false_eq_true] at h
      cases h
      exact ⟨hc, rfl, rfl⟩

theorem cacheInv_of_tables (c1 c2 : JKSNCache) (emitted : List JKSNProxy)
    (ht : c1.texthash = c2.texthash) (hb : c1.blobhash = c2.blobhash) (h : CacheInv c2 emitted) :
    CacheInv c1 emitted := by
  unfold CacheInv at h ⊢
  rw [ht, hb]
  exact h

theorem hash_byte (buf : Bytes) : DJBHash buf 0 % 2 ^ 64 % 256 = DJBHash buf 0 := by
  have := DJBHash_lt buf 0
  omega

mutual
theorem optimizeAt_resolved : ∀ (p : JKSNProxy) (alive : Bool) (cache : JKSNCache)
    (emitted : List JKSNProxy) (r : JKSNProxy × JKSNCache), p.AllDumped →
    CacheInv cache emitted → optimizeAt alive cache p = .ok r →
    CacheInv r.2 (emitted ++ r.1.nodes) ∧ Resolved sameHashTable emitted p.nodes r.1.nodes
  | .mk origin control data buf children hash, alive, cache, emitted, r, hp, hinv, h => by
    have hroot := hp _ (by rw [nodes_mk]; exact List.mem_cons_self _ _)
    have hch : ∀ q ∈ JKSNProxy.nodesList children, q.Dumped := by
      intro q hq
      exact hp q (by rw [nodes_mk]; exact List.mem_cons_of_mem _ hq)
    have hchne : ∀ q ∈ JKSNProxy.nodesList children, q.control ≠ 0x3c :=
      fun q hq => (hch q hq).1
    have hne : control ≠ 0x3c := hroot.1
    have hhash : isTextControl control ∨ isBlobControl control → hash = DJBHash buf 0 :=
      hroot.2.2.2
    simp only [optimizeAt, bind, Except.bind, pure, Except.pure] at h
    by_cases h1 : control &&& 0xf0 = 0x10
    · have halive : alive = true := by
        cases alive with
        | true => rfl
        | false => simp [h1] at h
      subst halive
      simp only [h1, if_true] at h
      cases hi : optimizeInt cache origin control data with
      | error e => rw [hi] at h; cases h
      | ok x =>
        rw [hi] at h
        cases h
        obtain ⟨hxne, ht, hb⟩ := optimizeInt_cases _ _ _ _ _ hi hne
        simp only [nodes_mk]
        constructor
        · exact cacheInv_of_tables _ cache _ ht hb
            (cacheInv_mono cache _ _ (fun x hx => List.mem_append_left _ hx) hinv)
        · simp only [Resolved]
          exact ⟨fun hc => absurd hc hxne, resolved_same _ _ _ hchne⟩
    · simp only [h1, if_false] at h
      by_cases h3 : control &&& 0xf0 = 0x30 ∨ control &&& 0xf0 = 0x40
      · simp only [h3, if_true] at h
        cases hh : optimizeHash cache.texthash control data buf hash with
        | error e => rw [hh] at h; cases h
        | ok x =>
          rw [hh] at h
          cases h
          have hhv : hash = DJBHash buf 0 := hhash (Or.inl h3)
          rcases optimizeHash_cases _ _ _ _ _ _ hh with ⟨_, htab, hx⟩ | ⟨hc, hd, hb, htab⟩
          · subst hx
            simp only [nodes_mk]
            constructor
            · exact cacheInv_mono cache _ _ (fun x hx => List.mem_append_left _ hx) hinv
            · simp only [Resolved]
              refine ⟨fun _ => ?_, resolved_same _ _ _ hchne⟩
              obtain ⟨e, he, hene, het, hebuf, _⟩ := hinv.1 hash buf htab
              refine ⟨e, he, hene, Or.inl ⟨het, h3⟩, hebuf, ?_⟩
              simp only [JKSNProxy.data, hebuf, hhv, hash_byte]
          · obtain ⟨c1, d1, b1, t1⟩ := x
            simp only at hc hd hb htab
            subst hc hd hb
            simp only [nodes_mk]
            constructor
            · constructor
              · intro i s hs
                simp only at hs
                rcases htab with htab | ⟨_, htab⟩
                · rw [htab] at hs
                  obtain ⟨e, he, hr⟩ := hinv.1 i s hs
                  exact ⟨e, List.mem_append_left _ he, hr⟩
                · rw [htab] at hs
                  simp only at hs
                  split_ifs at hs with hih
                  · cases hs
                    exact ⟨_, List.mem_append_right _ (List.mem_cons_self _ _), hne, h3, rfl,
                      by rw [hih, hhv]⟩
                  · obtain ⟨e, he, hr⟩ := hinv.1 i s hs
                    exact ⟨e, List.mem_append_left _ he, hr⟩
              · intro i s hs
                obtain ⟨e, he, hr⟩ := hinv.2 i s hs
                exact ⟨e, List.mem_append_left _ he, hr⟩
            · simp only [Resolved]
              exact ⟨fun hc => absurd hc hne, resolved_same _ _ _ hchne⟩
      · simp only [h3, if_false] at h
        by_cases h5 : control &&& 0xf0 = 0x50
        · simp only [h5, if_true] at h
          cases hh : optimizeHash cache.blobhash control data buf hash with
          | error e => rw [hh] at h; cases h
          | ok x =>
            rw [hh] at h
            cases h
            have hhv : hash = DJBHash buf 0 := hhash (Or.inr h5)
            rcases optimizeHash_cases _ _ _ _ _ _ hh with ⟨_, htab, hx⟩ | ⟨hc, hd, hb, htab⟩
            · subst hx
              simp only [nodes_mk]
              constructor
              · exact cacheInv_mono cache _ _ (fun x hx => List.mem_append_left _ hx) hinv
              · simp only [Resolved]
                refine ⟨fun _ => ?_, resolved_same _ _ _ hchne⟩
                obtain ⟨e, he, hene, het, hebuf, _⟩ := hinv.2 hash buf htab
                refine ⟨e, he, hene, Or.inr ⟨het, h5⟩, hebuf, ?_⟩
                simp only [JKSNProxy.data, hebuf, hhv, hash_byte]
            · obtain ⟨c1, d1, b1, t1⟩ := x
              simp only at hc hd hb htab
              subst hc hd hb
              simp only [nodes_mk]
              constructor
              · constructor
                · intro i s hs
                  obtain ⟨e, he, hr⟩ := hinv.1 i s hs
                  exact ⟨e, List.mem_append_left _ he, hr⟩
                · intro i s hs
                  simp only at hs
                  rcases htab with htab | ⟨_, htab⟩
                  · rw [htab] at hs
                    obtain ⟨e, he, hr⟩ := hinv.2 i s hs
                    exact ⟨e, List.mem_append_left _ he, hr⟩
                  · rw [htab] at hs
                    simp only at hs
                    split_ifs at hs with hih
                    · cases hs
                      exact ⟨_, List.mem_append_right _ (List.mem_cons_self _ _), hne, h5, rfl,
                        by rw [hih, hhv]⟩
                    · obtain ⟨e, he, hr⟩ := hinv.2 i s hs
                      exact ⟨e, List.mem_append_left _ he, hr⟩
              · simp only [Resolved]
                exact ⟨fun hc => absurd hc hne, resolved_same _ _ _ hchne⟩
        · simp only [h5, if_false] at h
          cases hc : optimizeChildrenAt (alive && decide (control &&& 0xf0 = 0x80)) cache children with
          | error e => rw [hc] at h; cases h
          | ok x =>
            rw [hc] at h
            cases h
            have ih := optimizeChildrenAt_resolved children _ cache
              (emitted ++ [JKSNProxy.mk origin control data buf x.1 hash]) x hch
              (cacheInv_mono cache _ _ (fun y hy => List.mem_append_left _ hy) hinv) hc
            simp only [nodes_mk]
            constructor
            · have := ih.1
              simpa using this
            · simp only [Resolved]
              exact ⟨fun hc3 => absurd hc3 hne, ih.2⟩
theorem optimizeChildrenAt_resolved : ∀ (cs : List JKSNProxy) (alive : Bool)
    (cache : JKSNCache) (emitted : List JKSNProxy) (r : List JKSNProxy × JKSNCache),
    (∀ q ∈ JKSNProxy.nodesList cs, q.Dumped) → CacheInv cache emitted →
    optimizeChildrenAt alive cache cs = .ok r →
    CacheInv r.2 (emitted ++ JKSNProxy.nodesList r.1) ∧
      Resolved sameHashTable emitted (JKSNProxy.nodesList cs) (JKSNProxy.nodesList r.1)
  | [], alive, cache, emitted, r, _, hinv, h => by
    simp only [optimizeChildrenAt] at h
    cases h
    simp only [nodesList_nil, List.append_nil]
    exact ⟨hinv, trivial⟩
  | child :: rest, alive, cache, emitted, r, hd, hinv, h => by
    have hd1 : child.AllDumped := by
      intro q hq
      exact hd q (by rw [nodesList_cons]; exact List.mem_append_left _ hq)
    have hd2 : ∀ q ∈ JKSNProxy.nodesList rest, q.Dumped := by
      intro q hq
      exact hd q (by rw [nodesList_cons]; exact List.mem_append_right _ hq)
    simp only [optimizeChildrenAt, bind, Except.bind, pure, Except.pure] at h
    cases h1 : optimizeAt alive cache child with
    | error e => rw [h1] at h; cases h
    | ok x1 =>
      rw [h1] at h
      simp only at h
      cases h2 : optimizeChildrenAt alive x1.2 rest with
      | error e => rw [h2] at h; cases h
      | ok x2 =>
        rw [h2] at h
        cases h
        have ih1 := optimizeAt_resolved child alive cache emitted x1 hd1 hinv h1
        have ih2 := optimizeChildrenAt_resolved rest alive x1.2 (emitted ++ x1.1.nodes) x2 hd2 ih1.1 h2
        simp only [nodesList_cons]
        constructor
        · have := ih2.1
          simpa using this
        · exact resolved_append _ _ _ _ _ _ ih1.2 ih2.2
end

theorem optimize_resolved (p : JKSNProxy) (cache : JKSNCache) (emitted : List JKSNProxy)
    (r : JKSNProxy × JKSNCache) (hp : p.AllDumped) (hinv : CacheInv cache emitted)
    (h : optimize cache p = .ok r) :
    CacheInv r.2 (emitted ++ r.1.nodes) ∧ Resolved sameHashTable emitted p.nodes r.1.nodes :=
  optimizeAt_resolved p true cache emitted r hp hinv h

theorem cacheInv_fresh : CacheInv JKSNCache.fresh [] := by
  constructor <;> intro h s hs <;> simp [JKSNCache.fresh] at hs

theorem UTF8ToUTF16LEStep_advance (utf8str : Bytes) (i : Nat) (unit : Bytes) (j : Nat)
    (h : UTF8ToUTF16LEStep utf8str i = some (unit, j)) : i < j := by
  unfold UTF8ToUTF16LEStep at h
  simp only at h
  split_ifs at h <;> simp only [Option.some.injEq, Prod.mk.injEq] at h <;> omega

theorem UTF8ToUTF16LELoop_fuel (utf8str : Bytes) (strict : Bool) :
    ∀ (fuel i : Nat) (utf16str : Bytes), utf8str.length - i ≤ fuel →
      ∀ extra, UTF8ToUTF16LELoop utf8str strict (fuel + extra) i utf16str =
        UTF8ToUTF16LELoop utf8str strict fuel i utf16str := by
  intro fuel
  induction fuel with
  | zero =>
    intro i utf16str h extra
    have hi : ¬ i < utf8str.length := by omega
    cases extra with
    | zero => rfl
    | succ extra =>
      rw [show 0 + (extra + 1) = extra + 1 by omega]
      simp [UTF8ToUTF16LELoop, hi]
  | succ fuel ih =>
    intro i utf16str h extra
    rw [show fuel + 1 + extra = (fuel + extra) + 1 by omega]
    simp only [UTF8ToUTF16LELoop]
    by_cases hi : i < utf8str.length
    · simp only [hi, if_true]
      cases hs : UTF8ToUTF16LEStep utf8str i with
      | none =>
        simp only
        cases strict with
        | true => rfl
        | false =>
          simp only [Bool.false_eq_true, if_false]
          exact ih _ _ (by omega) extra
      | some r =>
        obtain ⟨unit, j⟩ := r
        have := UTF8ToUTF16LEStep_advance utf8str i unit j hs
        simp only
        exact ih _ _ (by omega) extra
    · simp only [hi, if_false]

/-! ### Byte primitives against their references, length forms, array layout -/

theorem djb_fold_mod (buf : Bytes) : ∀ (a b : Nat), a = b % 2 ^ 32 → (∀ x ∈ buf, x < 256) →
    buf.foldl (fun result i => (result + ((result <<< 5) % 2 ^ 32 + i % 256) % 2 ^ 32) % 2 ^ 32) a
      = (buf.foldl (fun h b => h + (h <<< 5) + b) b) % 2 ^ 32 := by
  induction buf with
  | nil => intro a b h _; simpa using h
  | cons x xs ih =>
    intro a b h hx
    simp only [List.foldl_cons]
    apply ih
    · have hx256 : x < 256 := hx x (List.mem_cons_self _ _)
      subst h
      simp only [Nat.shiftLeft_eq, Nat.reducePow]
      omega
    · intro y hy; exact hx y (List.mem_cons_of_mem _ hy)

theorem djb_fold33_mod (buf : Bytes) : ∀ (a b : Nat), a = b % 256 →
    buf.foldl (fun h b => (33 * h + b) % 256) a
      = (buf.foldl (fun h b => h + (h <<< 5) + b) b) % 256 := by
  induction buf with
  | nil => intro a b h; simpa using h
  | cons x xs ih =>
    intro a b h
    simp only [List.foldl_cons]
    apply ih
    subst h
    simp only [Nat.shiftLeft_eq, Nat.reducePow]
    omega

theorem DJBHash_eq_reference (buf : Bytes) (iv : Nat) (hiv : iv < 256)
    (hbuf : ∀ b ∈ buf, b < 256) : DJBHash buf iv = DJBReference buf iv := by
  unfold DJBHash DJBReference
  rw [djb_fold_mod buf (iv % 256) iv (by omega) hbuf]
  omega

theorem encodeInt_two_bytes (n : Nat) : encodeInt n 2 = .ok [0, n % 256] := by
  rw [encodeInt_two]
  have h1 : (n % 2 ^ 64 % 256) >>> 8 % 256 = 0 := by
    rw [Nat.shiftRight_eq_div_pow]; omega
  have h2 : n % 2 ^ 64 % 256 = n % 256 := by omega
  rw [h1, h2]

theorem encodeInt_four_bytes (n : Nat) : encodeInt n 4 = .ok [0, 0, 0, n % 256] := by
  rw [encodeInt_four]
  have h1 : (n % 2 ^ 64 % 256) >>> 8 % 256 = 0 := by
    rw [Nat.shiftRight_eq_div_pow]; omega
  have h3 : (n % 2 ^ 64 % 256) >>> 16 % 256 = 0 := by
    rw [Nat.shiftRight_eq_div_pow]; omega
  have h4 : (n % 2 ^ 64 % 256) >>> 24 % 256 = 0 := by
    rw [Nat.shiftRight_eq_div_pow]; omega
  have h2 : n % 2 ^ 64 % 256 = n % 256 := by omega
  rw [h1, h3, h4, h2]

theorem encodeInt_one_byte (n : Nat) : encodeInt n 1 = .ok (bigEndianReference 1 (n % 2 ^ 8)) := by
  rw [encodeInt_one]
  have h : bigEndianReference 1 (n % 2 ^ 8) = [(n % 2 ^ 8) % 256] := rfl
  rw [h]
  congr 2
  omega

theorem and_overflowMask_lt (r : Nat) (h : r < 2 ^ 64) (h0 : r &&& (127 <<< 57) = 0) :
    r < 2 ^ 57 := by
  by_contra hge
  exact and_overflowMask_ne_zero r (by omega) h h0

theorem low7_mod (b : Nat) : (b % 256) &&& 0x7f = b % 128 := by
  have := Nat.and_pow_two_sub_one_eq_mod (b % 256) 7
  simp only [Nat.reducePow, Nat.add_one_sub_one] at this
  rw [this]
  omega

theorem decodeIntLoop_overflow (rest : Bytes) (r : Nat) (hlo : 2 ^ 57 ≤ r) (hhi : r < 2 ^ 64) :
    decodeIntLoop rest r = .error .JKSNDecodeError := by
  cases rest <;>
    rw [decodeIntLoop, overflowMask_eq, if_pos (and_overflowMask_ne_zero r hlo hhi)]

theorem decodeIntLoop_step (b : Nat) (rest : Bytes) (r : Nat) (hr : r < 2 ^ 57) :
    decodeIntLoop (b :: rest) r =
      if (b % 256) &&& 0x80 ≠ 0 then decodeIntLoop rest (r * 128 + b % 128)
      else .ok (r * 128 + b % 128, rest) := by
  rw [decodeIntLoop, overflowMask_eq, if_neg (not_not.mpr (and_overflowMask_eq_zero r hr))]
  simp only [low7_mod, shift7_or r (b % 128) hr (Nat.mod_lt _ (by norm_num))]

theorem decodeIntLoop_empty (r : Nat) (hr : r < 2 ^ 57) :
    decodeIntLoop [] r = .error .charPointer := by
  rw [decodeIntLoop, overflowMask_eq, if_neg (not_not.mpr (and_overflowMask_eq_zero r hr))]

theorem decodeIntLoop_value (rest : Bytes) : ∀ (acc r : Nat) (left : Bytes), acc < 2 ^ 64 →
    decodeIntLoop rest acc = .ok (r, left) →
    ∃ consumed, rest = consumed ++ left ∧ consumed ≠ [] ∧
      r = consumed.foldl (fun a b => a * 128 + b % 128) acc ∧ r < 2 ^ 64 := by
  induction rest with
  | nil =>
    intro acc r left hacc h
    by_cases h57 : acc < 2 ^ 57
    · rw [decodeIntLoop_empty acc h57] at h; cases h
    · rw [decodeIntLoop_overflow [] acc (by omega) hacc] at h; cases h
  | cons b rest ih =>
    intro acc r left hacc h
    by_cases h57 : acc < 2 ^ 57
    · rw [decodeIntLoop_step b rest acc h57] at h
      have hb : b % 128 < 128 := Nat.mod_lt _ (by norm_num)
      by_cases hc : (b % 256) &&& 0x80 ≠ 0
      · rw [if_pos hc] at h
        obtain ⟨consumed, h1, h2, h3, h4⟩ := ih (acc * 128 + b % 128) r left (by omega) h
        exact ⟨b :: consumed, by rw [h1]; rfl, by simp, by simpa using h3, h4⟩
      · rw [if_neg hc] at h
        injection h with h
        injection h with h1 h2
        exact ⟨[b], by rw [h2]; rfl, by simp, by simpa using h1.symm, by omega⟩
    · rw [decodeIntLoop_overflow _ acc (by omega) hacc] at h; cases h

theorem decodeIntLoop_reject (cs : Bytes) : ∀ (acc : Nat) (rest : Bytes), acc < 2 ^ 64 →
    (∀ c ∈ cs, (c % 256) &&& 0x80 ≠ 0) →
    2 ^ 57 ≤ cs.foldl (fun a b => a * 128 + b % 128) acc →
    decodeIntLoop (cs ++ rest) acc = .error .JKSNDecodeError := by
  induction cs with
  | nil =>
    intro acc rest hacc _ hge
    exact decodeIntLoop_overflow _ acc (by simpa using hge) hacc
  | cons c cs ih =>
    intro acc rest hacc hcs hge
    by_cases h57 : acc < 2 ^ 57
    · have hb : c % 128 < 128 := Nat.mod_lt _ (by norm_num)
      rw [List.cons_append, decodeIntLoop_step c _ acc h57,
        if_pos (hcs c (List.mem_cons_self _ _))]
      exact ih (acc * 128 + c % 128) rest (by omega)
        (fun x hx => hcs x (List.mem_cons_of_mem _ hx)) (by simpa using hge)
    · exact decodeIntLoop_overflow _ acc (by omega) hacc

theorem decodeInt_varint_value (fp fp1 : IStream) (r : Nat) (h : decodeInt fp 0 = .ok (r, fp1)) :
    ∃ consumed, fp.rest = consumed ++ fp1.rest ∧ consumed ≠ [] ∧
      fp1.past = consumed.reverse ++ fp.past ∧ r = base128Value consumed ∧ r < 2 ^ 64 := by
  simp only [decodeInt] at h
  split_ifs at h with hf
  cases hd : decodeIntLoop fp.rest 0 with
  | error e => rw [hd] at h; cases h
  | ok v =>
    obtain ⟨r1, left⟩ := v
    rw [hd] at h
    simp only at h
    injection h with h
    injection h with h1 h2
    obtain ⟨consumed, c1, c2, c3, c4⟩ := decodeIntLoop_value fp.rest 0 r1 left (by norm_num) hd
    subst h1 h2
    refine ⟨consumed, c1, c2, ?_, c3, c4⟩
    simp only [c1, List.length_append, Nat.add_sub_cancel, List.take_left']

theorem base128Value_varint (n : Nat) : base128Value (varintReference n) = n := by
  unfold base128Value varintReference
  rw [List.foldl_append, List.foldl_map]
  have hf : (fun (x : Nat) (y : Nat) => x * 128 + (y + 128) % 128) =
      (fun (acc : Nat) (d : Nat) => acc * 128 + d % 128) := by
    funext x y; omega
  rw [hf]
  have hds : ∀ (ds : List Nat) (a : Nat), (∀ d ∈ ds, d < 128) →
      ds.foldl (fun acc d => acc * 128 + d % 128) a = ds.foldl (fun acc d => acc * 128 + d) a := by
    intro ds
    induction ds with
    | nil => intro a _; rfl
    | cons d ds ih =>
      intro a hd
      simp only [List.foldl_cons]
      rw [Nat.mod_eq_of_lt (hd d (List.mem_cons_self _ _))]
      exact ih _ (fun x hx => hd x (List.mem_cons_of_mem _ hx))
  rw [hds _ _ (fun d hd => Nat.digits_lt_base (by norm_num) (List.mem_reverse.mp hd)),
    foldl_base128_digits]
  simp only [List.foldl_cons, List.foldl_nil]
  omega

theorem varint_continuation (n : Nat) :
    varintReference n ≠ [] ∧
    (∀ b ∈ (varintReference n).dropLast, b < 256 ∧ b &&& 0x80 = 0x80) ∧
    ∃ last, (varintReference n).getLast? = some last ∧ last < 256 ∧ last &&& 0x80 = 0 := by
  unfold varintReference
  refine ⟨by simp, ?_, n % 128, by simp, by omega, ?_⟩
  · intro b hb
    rw [List.dropLast_concat] at hb
    obtain ⟨d, hd, rfl⟩ := List.mem_map.mp hb
    have hlt : d < 128 := Nat.digits_lt_base (by norm_num) (List.mem_reverse.mp hd)
    refine ⟨by omega, ?_⟩
    interval_cases d <;> rfl
  · have hlt : n % 128 < 128 := Nat.mod_lt _ (by norm_num)
    generalize n % 128 = d at hlt
    interval_cases d <;> rfl

theorem parse_rewind_short (cache : JKSNCache) (bytes : Bytes) (h : bytes.length < 3) :
    JKSNDecoder.parse cache bytes true = .error .charPointer := by
  match bytes, h with
  | [], _ => rfl
  | [_], _ => rfl
  | [_, _], _ => rfl
  | _ :: _ :: _ :: _, h => exact absurd h (by simp)

theorem parse_rewind_long (cache : JKSNCache) (a b c : Nat) (rest : Bytes)
    (h : [a, b, c] ≠ [0x6a, 0x6b, 0x21]) :
    JKSNDecoder.parse cache (a :: b :: c :: rest) true =
      JKSNDecoder.parse cache (a :: b :: c :: rest) false := by
  rw [parse_eq_observed, parse_eq_observed]
  congr 1
  simp only [JKSNDecoder.parseStream, IStream.ofBytes, IStream.read, if_true, Bool.false_eq_true,
    if_false]
  have hlen : 3 ≤ (a :: b :: c :: rest).length := by simp
  simp only [hlen, if_true]
  simp only [List.take, ne_eq, h, not_false_eq_true, or_true, if_true]
  exact parseValue_frame cache _ _ rfl rfl

theorem parseControl_reserved (cache : JKSNCache) (fp : IStream) (c : Nat)
    (h : c = 0x0f ∨ (0x04 ≤ c ∧ c ≤ 0x0e) ∨ (0x21 ≤ c ∧ c ≤ 0x2a) ∨ (0x60 ≤ c ∧ c ≤ 0x7f) ∨
      (0xc0 ≤ c ∧ c ≤ 0xff)) :
    parseControl cache c fp = .error .JKSNDecodeError := by
  have hc : c < 256 := by omega
  interval_cases c <;> first | rfl | (exfalso; omega)

theorem parseControl_1f_reject (cache : JKSNCache) (fp fp1 : IStream) (m : Nat)
    (h : decodeInt fp 0 = .ok (m, fp1)) (hm : 2 ^ 63 ≤ m) :
    parseControl cache 0x1f fp = .error .JKSNDecodeError := by
  obtain ⟨_, _, _, _, _, hlt⟩ := decodeInt_varint_value fp fp1 m h
  have hi : toIntmax m < 0 := by
    unfold toIntmax
    simp only [Nat.reducePow] at hm hlt ⊢
    split_ifs <;> omega
  simp [parseControl, h, bind, Except.bind, pure, Except.pure, throw, throwThe,
    MonadExceptOf.throw, hi]

theorem parseControl_1e_reject (cache : JKSNCache) (fp fp1 : IStream) (m : Nat)
    (h : decodeInt fp 0 = .ok (m, fp1)) (hm : 2 ^ 63 < m) :
    parseControl cache 0x1e fp = .error .JKSNDecodeError := by
  obtain ⟨_, _, _, _, _, hlt⟩ := decodeInt_varint_value fp fp1 m h
  have hi : 0 ≤ wrapIntmax (-(toIntmax m)) := by
    unfold wrapIntmax toIntmax toUintmax
    simp only [Nat.reducePow] at hm hlt ⊢
    split_ifs <;> omega
  simp [parseControl, h, bind, Except.bind, pure, Except.pure, throw, throwThe,
    MonadExceptOf.throw, hi]

theorem lengthForm_immediate (control immediate length : Nat) (h : length ≤ immediate) :
    lengthForm control immediate length = .ok (control ||| length % 256, []) := by
  simp [lengthForm, h, pure, Except.pure]

theorem lengthForm_u8 (control immediate length : Nat) (h : immediate < length)
    (h1 : length ≤ 0xff) :
    lengthForm control immediate length = .ok (control ||| 0xe, [length]) := by
  have hm : length % 2 ^ 64 % 256 = length := by omega
  simp only [lengthForm, Nat.not_le.mpr h, h1, if_true, if_false, bind, Except.bind, pure,
    Except.pure, encodeInt_one, hm]

theorem lengthForm_u16 (control immediate length : Nat) (h : immediate ≤ 0xff)
    (h0 : 0xff < length) (h1 : length ≤ 0xffff) :
    lengthForm control immediate length = .ok (control ||| 0xd, [0, length % 256]) := by
  have e1 : ¬ length ≤ immediate := by omega
  have e2 : ¬ length ≤ 0xff := by omega
  simp only [lengthForm, e1, e2, h1, if_true, if_false, bind, Except.bind, pure, Except.pure,
    encodeInt_two_bytes]

theorem lengthForm_varint (control immediate length : Nat) (h : immediate ≤ 0xff)
    (h0 : 0xffff < length) (h1 : length < 2 ^ 64) :
    lengthForm control immediate length = .ok (control ||| 0xf, varintReference length) := by
  have e1 : ¬ length ≤ immediate := by omega
  have e2 : ¬ length ≤ 0xff := by omega
  have e3 : ¬ length ≤ 0xffff := by omega
  simp only [lengthForm, e1, e2, e3, if_false, bind, Except.bind, pure, Except.pure,
    encodeInt_varint length h1]

theorem dumpBlob_header (s : Bytes) :
    ∃ p, dumpBlob (.blob s) = .ok p ∧ p.buf = s ∧ p.children = [] ∧
      lengthForm 0x50 0xb s.length = .ok (p.control, p.data) := by
  unfold dumpBlob lengthForm
  simp only [JKSNValue.toBlob, bind, Except.bind, pure, Except.pure, encodeInt_one,
    encodeInt_two, encodeInt_zero]
  split_ifs <;> exact ⟨_, rfl, rfl, rfl, rfl⟩

theorem dumpString_header (s : Bytes) :
    ∃ p, dumpString (.string s) = .ok p ∧ p.children = [] ∧
      ((∃ u, UTF8ToUTF16LE s true = .ok u ∧ u.length < s.length ∧ p.buf = u ∧
          lengthForm 0x30 0xb (u.length / 2) = .ok (p.control, p.data)) ∨
       ((∀ u, UTF8ToUTF16LE s true = .ok u → ¬ u.length < s.length) ∧ p.buf = s ∧
          lengthForm 0x40 0xc s.length = .ok (p.control, p.data))) := by
  unfold dumpString
  simp only [JKSNValue.toString, bind, Except.bind, pure, Except.pure, encodeInt_one,
    encodeInt_two, encodeInt_zero]
  cases hu : UTF8ToUTF16LE s true with
  | error e =>
    have he : e = .JKSNTypeError := UTF8ToUTF16LELoop_error _ _ _ _ _ _ hu
    subst he
    simp only [Bool.false_eq_true, if_false]
    split_ifs with h1 h2 h3
    all_goals
      refine ⟨_, rfl, rfl, Or.inr ⟨fun u hu1 => (by cases hu1), rfl, ?_⟩⟩
      simp only [lengthForm, *, if_true, if_false, bind, Except.bind, pure,
        Except.pure, encodeInt_one, encodeInt_two, encodeInt_zero]
      rfl
  | ok obj_utf16 =>
    simp only
    by_cases hlen : obj_utf16.length < s.length
    · simp only [hlen, if_true]
      split_ifs with h1 h2 h3
      all_goals
        refine ⟨_, rfl, rfl, Or.inl ⟨_, rfl, hlen, rfl, ?_⟩⟩
        simp only [lengthForm, *, if_true, if_false, bind, Except.bind, pure,
          Except.pure, encodeInt_one, encodeInt_two, encodeInt_zero]
        rfl
    · simp only [hlen, if_false, Bool.false_eq_true]
      split_ifs with h1 h2 h3
      all_goals
        refine ⟨_, rfl, rfl, Or.inr ⟨fun u hu1 => (by cases hu1; exact hlen), rfl, ?_⟩⟩
        simp only [lengthForm, *, if_true, if_false, bind, Except.bind, pure,
          Except.pure, encodeInt_one, encodeInt_two, encodeInt_zero]
        rfl

theorem lengthForm_class (control immediate length : Nat) (c : Nat) (data : Bytes)
    (hc : control = 0x30 ∨ control = 0x40 ∨ control = 0x50 ∨ control = 0x80 ∨ control = 0x90)
    (hi : immediate ≤ 0xc)
    (h : lengthForm control immediate length = .ok (c, data)) :
    c &&& 0xf0 = control := by
  unfold lengthForm at h
  simp only [bind, Except.bind, pure, Except.pure, encodeInt_one, encodeInt_two,
    encodeInt_zero] at h
  split_ifs at h with h1 h2 h3
  · injection h with h
    injection h with h _
    subst h
    have hl : length ≤ 0xc := by omega
    rcases hc with rfl | rfl | rfl | rfl | rfl <;> interval_cases length <;> rfl
  all_goals
    injection h with h
    injection h with h _
    subst h
    rcases hc with rfl | rfl | rfl | rfl | rfl <;> rfl

theorem testSwapAvailabilityLoop_iff : ∀ (xs : List JKSNValue) (columns : Bool),
    testSwapAvailabilityLoop xs columns = true ↔
      (∀ x ∈ xs, x.isObject = true) ∧
      (columns = true ∨ ∃ x ∈ xs, ∃ kvs, x = .object kvs ∧ kvs ≠ [])
  | [], columns => by simp [testSwapAvailabilityLoop]
  | x :: rest, columns => by
    cases x with
    | object kvs =>
      simp only [testSwapAvailabilityLoop]
      rw [testSwapAvailabilityLoop_iff rest (columns || !kvs.isEmpty)]
      cases kvs with
      | nil => simp [JKSNValue.isObject]
      | cons kv kvs => simp [JKSNValue.isObject]
    | _ => simp [testSwapAvailabilityLoop, JKSNValue.isObject]

theorem collect_eq_map {α : Type} : ∀ (l : List (Except JKSNErr α)) (ps : List α),
    collect l = .ok ps → l = ps.map Except.ok
  | [], ps, h => by
    simp only [collect] at h
    cases h
    rfl
  | x :: rest, ps, h => by
    cases x with
    | error e => simp [collect, bind, Except.bind] at h
    | ok a =>
      cases hr : collect rest with
      | error e => simp [collect, bind, Except.bind, hr] at h
      | ok others =>
        simp only [collect, bind, Except.bind, hr, pure, Except.pure] at h
        cases h
        rw [List.map_cons, ← collect_eq_map rest others hr]

theorem collect_map_ok {α : Type} : ∀ (ps : List α),
    collect (ps.map (Except.ok : α → Except JKSNErr α)) = .ok ps
  | [] => rfl
  | p :: ps => by
    simp [collect, collect_map_ok ps, bind, Except.bind, pure, Except.pure]

theorem encodeStraightArray_layout (nd : Bool) (xs : List JKSNValue) (p : JKSNProxy)
    (h : encodeStraightArray nd (.array xs) = .ok p) :
    lengthForm 0x80 0xc xs.length = .ok (p.control, p.data) ∧ p.buf = [] ∧
      xs.map (dumpValue nd) = p.children.map Except.ok := by
  simp only [encodeStraightArray] at h
  unfold encodeStraightArrayFrom at h
  simp only [JKSNValue.toVector, bind, Except.bind, pure, Except.pure, encodeInt_one,
    encodeInt_two, encodeInt_zero] at h
  cases hc : collect (dumpElements nd xs) with
  | error e =>
    rw [hc] at h
    split_ifs at h
  | ok children =>
    have hm := collect_eq_map _ _ hc
    rw [dumpElements_eq_map] at hm
    rw [hc] at h
    split_ifs at h with h1 h2 h3 <;> simp only [JKSNProxy.setChildren] at h
    all_goals (split_ifs at h)
    all_goals
      cases h
      refine ⟨?_, rfl, hm⟩
      simp only [lengthForm, *, if_true, if_false, bind, Except.bind, pure,
        Except.pure, encodeInt_one, encodeInt_two, encodeInt_zero]
      rfl

theorem encodeStraightArray_returns (nd : Bool) (xs : List JKSNValue)
    (h : ∀ x ∈ xs, ∃ q, dumpValue nd x = .ok q) :
    ∃ p, encodeStraightArray nd (.array xs) = .ok p := by
  have hall : ∀ r ∈ dumpElements nd xs, ∃ q, r = .ok q := by
    intro r hr
    rw [dumpElements_eq_map] at hr
    obtain ⟨x, hx, rfl⟩ := List.mem_map.mp hr
    exact h x hx
  obtain ⟨children, hc⟩ := collect_total _ hall
  have hlen : children.length = xs.length := by
    have hm := collect_eq_map _ _ hc
    rw [dumpElements_eq_map] at hm
    have := congrArg List.length hm
    simpa using this.symm
  simp only [encodeStraightArray]
  unfold encodeStraightArrayFrom
  simp only [JKSNValue.toVector, bind, Except.bind, pure, Except.pure, encodeInt_one,
    encodeInt_two, encodeInt_zero, hc, hlen, bne_self_eq_false, Bool.and_false,
    Bool.false_eq_true, if_false]
  split_ifs <;> exact ⟨_, rfl⟩

theorem dumpArray_straight (nd : Bool) (xs : List JKSNValue)
    (h : testSwapAvailabilityLoop xs false = false) :
    dumpArray nd (.array xs) = encodeStraightArray nd (.array xs) := by
  unfold dumpArray
  simp only [testSwapAvailability, JKSNValue.toVector, bind, Except.bind, pure, Except.pure, h,
    Bool.false_eq_true, if_false]
  cases encodeStraightArray nd (.array xs) <;> rfl

theorem dumpObject_layout (nd : Bool) (kvs : List (JKSNValue × JKSNValue)) (p : JKSNProxy)
    (h : dumpObject nd (.object kvs) = .ok p) :
    lengthForm 0x90 0xc kvs.length = .ok (p.control, p.data) ∧ p.buf = [] := by
  simp only [dumpObject] at h
  unfold dumpObjectFrom at h
  simp only [JKSNValue.toMap, bind, Except.bind, pure, Except.pure, encodeInt_one,
    encodeInt_two, encodeInt_zero] at h
  cases hc : collect (dumpEntries nd kvs) with
  | error e =>
    rw [hc] at h
    split_ifs at h
  | ok children =>
    rw [hc] at h
    split_ifs at h with h1 h2 h3 <;> simp only [JKSNProxy.setChildren] at h
    all_goals (split_ifs at h)
    all_goals
      cases h
      refine ⟨?_, rfl⟩
      simp only [lengthForm, *, if_true, if_false, bind, Except.bind, pure,
        Except.pure, encodeInt_one, encodeInt_two, encodeInt_zero]
      rfl

theorem low_nibble_immediate (control length : Nat)
    (hc : control = 0x30 ∨ control = 0x40 ∨ control = 0x50 ∨ control = 0x80 ∨ control = 0x90)
    (h : length ≤ 0xc) : (control ||| length % 256) % 16 = length := by
  rcases hc with rfl | rfl | rfl | rfl | rfl <;> interval_cases length <;> rfl

theorem lengthForm_reads (control immediate length : Nat)
    (hc : control = 0x30 ∨ control = 0x40 ∨ control = 0x50 ∨ control = 0x80 ∨ control = 0x90)
    (hi : immediate = 0xb ∨ immediate = 0xc) (hl : length < 2 ^ 64) :
    ∃ c data, lengthForm control immediate length = .ok (c, data) ∧
      grammarLength c data =
        some (if 0xff < length ∧ length ≤ 0xffff then length % 256 else length) := by
  by_cases h1 : length ≤ immediate
  · refine ⟨_, _, lengthForm_immediate control immediate length h1, ?_⟩
    have hlow := low_nibble_immediate control length hc (by omega)
    have hne : ¬ (0xff < length ∧ length ≤ 0xffff) := by omega
    simp only [grammarLength, hlow, hne, if_false, if_true]
    have e1 : length ≠ 0xe := by omega
    have e2 : length ≠ 0xd := by omega
    have e3 : length ≠ 0xf := by omega
    simp only [e1, e2, e3, if_false, if_true]
  · by_cases h2 : length ≤ 0xff
    · refine ⟨_, _, lengthForm_u8 control immediate length (by omega) h2, ?_⟩
      have hne : ¬ (0xff < length ∧ length ≤ 0xffff) := by omega
      have hlow : (control ||| 0xe) % 16 = 0xe := by
        rcases hc with rfl | rfl | rfl | rfl | rfl <;> rfl
      simp only [grammarLength, hlow, hne, if_false, if_true]
    · by_cases h3 : length ≤ 0xffff
      · refine ⟨_, _, lengthForm_u16 control immediate length (by omega) (by omega) h3, ?_⟩
        have hyes : 0xff < length ∧ length ≤ 0xffff := ⟨by omega, h3⟩
        have hlow : (control ||| 0xd) % 16 = 0xd := by
          rcases hc with rfl | rfl | rfl | rfl | rfl <;> rfl
        simp only [grammarLength, hlow, hyes, and_self, if_true]
        simp
      · refine ⟨_, _, lengthForm_varint control immediate length (by omega) (by omega) hl, ?_⟩
        have hne : ¬ (0xff < length ∧ length ≤ 0xffff) := by omega
        have hlow : (control ||| 0xf) % 16 = 0xf := by
          rcases hc with rfl | rfl | rfl | rfl | rfl <;> rfl
        simp only [grammarLength, hlow, hne, if_false, if_true,
          (varint_continuation length).1, base128Value_varint]
        simp

theorem bigEndianReference_two (n : Nat) :
    bigEndianReference 2 n = [(n / 256) % 256, n % 256] := by
  have h : bigEndianReference 2 n = [(n >>> 8) % 256, (n >>> 0) % 256] := rfl
  rw [h, Nat.shiftRight_eq_div_pow]
  rfl

/-! ### The decoder on integer records: values, stream position, truncation -/

theorem parseControl_delta_class (cache : JKSNCache) (fp : IStream) (c : Nat)
    (h0 : 0xb0 ≤ c) (h1 : c ≤ 0xbf) :
    parseControl cache c fp = .error .JKSNDecodeError := by
  interval_cases c <;> rfl

theorem parseControl_immediate (cache : JKSNCache) (fp : IStream) (c : Nat)
    (h0 : 0x10 ≤ c) (h1 : c ≤ 0x1a) :
    parseControl cache c fp =
      .ok (.int ((c &&& 0xf : Nat) : Int), cache.afterInt ((c &&& 0xf : Nat) : Int), fp) := by
  interval_cases c <;> rfl

theorem parseValue_cons (cache : JKSNCache) (fp : IStream) (c : Nat) (rest : Bytes)
    (hgood : fp.failed = false) (hrest : fp.rest = c :: rest) :
    parseValue cache fp =
      parseControl cache (c % 256) { fp with past := c :: fp.past, rest := rest, gcount := 1 } := by
  simp only [parseValue, IStream.get, hgood, hrest, Bool.false_eq_true, if_false]

theorem shift8_or (a b : Nat) (hb : b < 256) : (a <<< 8) ||| b = a * 256 + b := by
  rw [Nat.shiftLeft_eq, Nat.mul_comm, ← Nat.mul_add_lt_is_or (by simpa using hb) a]

theorem shift_or_four (a b c d : Nat) (hb : b < 256) (hc : c < 256) (hd : d < 256) :
    (a <<< 24) ||| (b <<< 16) ||| (c <<< 8) ||| d =
      ((a * 256 + b) * 256 + c) * 256 + d := by
  have e1 : a <<< 24 = 2 ^ 24 * a := by rw [Nat.shiftLeft_eq, Nat.mul_comm]
  have e2 : b <<< 16 = 2 ^ 16 * b := by rw [Nat.shiftLeft_eq, Nat.mul_comm]
  have e3 : c <<< 8 = 2 ^ 8 * c := by rw [Nat.shiftLeft_eq, Nat.mul_comm]
  have s1 : 2 ^ 24 * a ||| 2 ^ 16 * b = 2 ^ 16 * (a * 256 + b) := by
    rw [← Nat.mul_add_lt_is_or (show 2 ^ 16 * b < 2 ^ 24 by omega) a]; omega
  have s2 : 2 ^ 16 * (a * 256 + b) ||| 2 ^ 8 * c = 2 ^ 8 * ((a * 256 + b) * 256 + c) := by
    rw [← Nat.mul_add_lt_is_or (show 2 ^ 8 * c < 2 ^ 16 by omega) (a * 256 + b)]; omega
  rw [e1, e2, e3, s1, s2, ← Nat.mul_add_lt_is_or (show d < 2 ^ 8 by omega) _]
  omega

theorem toSigned_two (a b : Nat) (ha : a < 256) (hb : b < 256) :
    toSigned 16 (a * 256 + b) = signedBigEndianReference [a, b] := by
  have hm : (a * 256 + b) % 2 ^ 16 = a * 256 + b := Nat.mod_eq_of_lt (by omega)
  simp only [toSigned, signedBigEndianReference, List.foldl_cons, List.foldl_nil,
    List.length_cons, List.length_nil, hm]
  norm_num

theorem toSigned_four (a b c d : Nat) (ha : a < 256) (hb : b < 256) (hc : c < 256)
    (hd : d < 256) :
    toSigned 32 (((a * 256 + b) * 256 + c) * 256 + d) =
      signedBigEndianReference [a, b, c, d] := by
  have hm : (((a * 256 + b) * 256 + c) * 256 + d) % 2 ^ 32 = ((a * 256 + b) * 256 + c) * 256 + d :=
    Nat.mod_eq_of_lt (by omega)
  simp only [toSigned, signedBigEndianReference, List.foldl_cons, List.foldl_nil,
    List.length_cons, List.length_nil, hm]
  norm_num
theorem toSigned_one (b : Nat) (hb : b < 256) : toSigned 8 b = signedBigEndianReference [b] := by
  have hm : b % 2 ^ 8 = b := Nat.mod_eq_of_lt (by omega)
  simp only [toSigned, signedBigEndianReference, List.foldl_cons, List.foldl_nil,
    List.length_cons, List.length_nil, hm]
  norm_num

theorem parseControl_int8 (cache : JKSNCache) (fp : IStream) (b : Nat) (t : Bytes)
    (hgood : fp.failed = false) (hrest : fp.rest = b :: t) (hb : b < 256) :
    ∃ fp1, parseControl cache 0x1d fp =
        .ok (.int (signedBigEndianReference [b]),
          cache.afterInt (signedBigEndianReference [b]), fp1) ∧
      fp1.rest = t ∧ fp1.failed = false := by
  refine ⟨{ fp with past := b :: fp.past, rest := t, gcount := 1 }, ?_, rfl, hgood⟩
  simp [parseControl, decodeInt, IStream.get, hgood, hrest, bind, Except.bind, pure,
    Except.pure, class_1d, JKSNCache.afterInt, Nat.mod_eq_of_lt hb, toSigned_one b hb]

theorem parseControl_int16 (cache : JKSNCache) (fp : IStream) (a b : Nat) (t : Bytes)
    (hgood : fp.failed = false) (hrest : fp.rest = a :: b :: t) (ha : a < 256) (hb : b < 256) :
    ∃ fp1, parseControl cache 0x1c fp =
        .ok (.int (signedBigEndianReference [a, b]),
          cache.afterInt (signedBigEndianReference [a, b]), fp1) ∧
      fp1.rest = t ∧ fp1.failed = false := by
  refine ⟨{ fp with past := b :: a :: fp.past, rest := t, gcount := 2 }, ?_, rfl, hgood⟩
  have hc : (28 &&& 240 : Nat) = 16 := by decide
  have hv : ((a % 256) <<< 8) ||| (b % 256) = a * 256 + b := by
    rw [Nat.mod_eq_of_lt ha, Nat.mod_eq_of_lt hb, shift8_or a b hb]
  simp [parseControl, decodeInt, IStream.read, hgood, hrest, bind, Except.bind, pure,
    Except.pure, hc, JKSNCache.afterInt, hv, toSigned_two a b ha hb]

theorem parseControl_int32 (cache : JKSNCache) (fp : IStream) (a b c d : Nat) (t : Bytes)
    (hgood : fp.failed = false) (hrest : fp.rest = a :: b :: c :: d :: t) (ha : a < 256)
    (hb : b < 256) (hc : c < 256) (hd : d < 256) :
    ∃ fp1, parseControl cache 0x1b fp =
        .ok (.int (signedBigEndianReference [a, b, c, d]),
          cache.afterInt (signedBigEndianReference [a, b, c, d]), fp1) ∧
      fp1.rest = t ∧ fp1.failed = false := by
  refine ⟨{ fp with past := d :: c :: b :: a :: fp.past, rest := t, gcount := 4 }, ?_, rfl,
    hgood⟩
  have hcl : (27 &&& 240 : Nat) = 16 := by decide
  have hv : ((a % 256) <<< 24) ||| ((b % 256) <<< 16) ||| ((c % 256) <<< 8) ||| (d % 256) =
      ((a * 256 + b) * 256 + c) * 256 + d := by
    rw [Nat.mod_eq_of_lt ha, Nat.mod_eq_of_lt hb, Nat.mod_eq_of_lt hc, Nat.mod_eq_of_lt hd,
      shift_or_four a b c d hb hc hd]
  simp [parseControl, decodeInt, IStream.read, hgood, hrest, bind, Except.bind, pure,
    Except.pure, hcl, JKSNCache.afterInt, hv, toSigned_four a b c d ha hb hc hd]

theorem parseControl_int_cache (cache : JKSNCache) (control : Nat) (fp fp1 : IStream)
    (n : Int) (cache1 : JKSNCache)
    (h : parseControl cache control fp = .ok (.int n, cache1, fp1)) :
    cache1 = cache.afterInt n := by
  unfold parseControl at h
  simp only [bind, Except.bind, pure, Except.pure, throw, throwThe, MonadExceptOf.throw] at h
  split_ifs at h
  all_goals (first | (cases h; done) | skip)
  · cases hd : decodeInt fp 4 with
    | error e => rw [hd] at h; cases h
    | ok r => rw [hd] at h; cases h; rfl
  · cases hd : decodeInt fp 2 with
    | error e => rw [hd] at h; cases h
    | ok r => rw [hd] at h; cases h; rfl
  · cases hd : decodeInt fp 1 with
    | error e => rw [hd] at h; cases h
    | ok r => rw [hd] at h; cases h; rfl
  · cases hd : decodeInt fp 0 with
    | error e => rw [hd] at h; cases h
    | ok r =>
      rw [hd] at h
      simp only at h
      split_ifs at h
      cases h; rfl
  · cases hd : decodeInt fp 0 with
    | error e => rw [hd] at h; cases h
    | ok r =>
      rw [hd] at h
      simp only at h
      split_ifs at h
      cases h; rfl
  · cases h; rfl

theorem decodeIntLoop_consumed (rest : Bytes) : ∀ (acc r : Nat) (left : Bytes), acc < 2 ^ 64 →
    decodeIntLoop rest acc = .ok (r, left) →
    ∃ consumed, rest = consumed ++ left ∧ consumed ≠ [] ∧
      ∀ t, decodeIntLoop (consumed ++ t) acc = .ok (r, t) := by
  induction rest with
  | nil =>
    intro acc r left hacc h
    by_cases h57 : acc < 2 ^ 57
    · rw [decodeIntLoop_empty acc h57] at h; cases h
    · rw [decodeIntLoop_overflow [] acc (by omega) hacc] at h; cases h
  | cons b rest ih =>
    intro acc r left hacc h
    by_cases h57 : acc < 2 ^ 57
    · rw [decodeIntLoop_step b rest acc h57] at h
      have hb : b % 128 < 128 := Nat.mod_lt _ (by norm_num)
      by_cases hc : (b % 256) &&& 0x80 ≠ 0
      · rw [if_pos hc] at h
        obtain ⟨consumed, h1, h2, h3⟩ := ih (acc * 128 + b % 128) r left (by omega) h
        refine ⟨b :: consumed, by rw [h1]; rfl, by simp, ?_⟩
        intro t
        rw [List.cons_append, decodeIntLoop_step b _ acc h57, if_pos hc]
        exact h3 t
      · rw [if_neg hc] at h
        injection h with h
        injection h with h1 h2
        refine ⟨[b], by rw [h2]; rfl, by simp, ?_⟩
        intro t
        rw [List.singleton_append, decodeIntLoop_step b _ acc h57, if_neg hc, h1]
    · rw [decodeIntLoop_overflow _ acc (by omega) hacc] at h; cases h

theorem decodeInt_consumed (fp fp1 : IStream) (size n : Nat)
    (h : decodeInt fp size = .ok (n, fp1)) :
    ∃ p, p ≠ [] ∧ fp.rest = p ++ fp1.rest ∧ fp1.past = p.reverse ++ fp.past ∧
      fp1.failed = false ∧
      ∀ (fp2 : IStream) (t : Bytes), fp2.failed = false → fp2.rest = p ++ t →
        ∃ fp3, decodeInt fp2 size = .ok (n, fp3) ∧ fp3.rest = t ∧
          fp3.past = p.reverse ++ fp2.past ∧ fp3.failed = false := by
  obtain ⟨past, rest, gcount, failed⟩ := fp
  match size with
  | 1 =>
    simp only [decodeInt, IStream.get] at h
    cases failed with
    | true => simp at h
    | false =>
      cases rest with
      | nil => simp at h
      | cons c r =>
        simp only [Bool.false_eq_true, if_false] at h
        injection h with h
        injection h with h1 h2
        subst h1 h2
        refine ⟨[c], by simp, rfl, rfl, rfl, ?_⟩
        intro fp2 t hg hr
        refine ⟨{ fp2 with past := c :: fp2.past, rest := t, gcount := 1 }, ?_, rfl, rfl, hg⟩
        simp [decodeInt, IStream.get, hg, hr]
  | 2 =>
    simp only [decodeInt, IStream.read] at h
    cases failed with
    | true => simp at h
    | false =>
      match rest with
      | [] => simp at h
      | [_] => simp at h
      | a :: b :: r =>
        simp at h
        obtain ⟨h1, h2⟩ := h
        subst h1 h2
        refine ⟨[a, b], by simp, rfl, rfl, rfl, ?_⟩
        intro fp2 t hg hr
        refine ⟨{ fp2 with past := b :: a :: fp2.past, rest := t, gcount := 2 }, ?_, rfl, rfl,
          hg⟩
        simp [decodeInt, IStream.read, hg, hr]
  | 4 =>
    simp only [decodeInt, IStream.read] at h
    cases failed with
    | true => simp at h
    | false =>
      match rest with
      | [] => simp at h
      | [_] => simp at h
      | [_, _] => simp at h
      | [_, _, _] => simp at h
      | a :: b :: c :: d :: r =>
        simp at h
        obtain ⟨h1, h2⟩ := h
        subst h1 h2
        refine ⟨[a, b, c, d], by simp, rfl, rfl, rfl, ?_⟩
        intro fp2 t hg hr
        refine ⟨{ fp2 with past := d :: c :: b :: a :: fp2.past, rest := t, gcount := 4 }, ?_,
          rfl, rfl, hg⟩
        simp [decodeInt, IStream.read, hg, hr]
  | 0 =>
    simp only [decodeInt] at h
    cases failed with
    | true => simp at h
    | false =>
      simp only [Bool.false_eq_true, if_false] at h
      cases hd : decodeIntLoop rest 0 with
      | error e => rw [hd] at h; cases h
      | ok v =>
        obtain ⟨r1, left⟩ := v
        rw [hd] at h
        simp only at h
        injection h with h
        injection h with h1 h2
        obtain ⟨consumed, c1, c2, c3⟩ := decodeIntLoop_consumed rest 0 r1 left (by norm_num) hd
        subst h1 h2
        refine ⟨consumed, c2, c1, ?_, rfl, ?_⟩
        · simp only [c1, List.length_append, Nat.add_sub_cancel, List.take_left']
        · intro fp2 t hg hr
          refine ⟨{ fp2 with past := consumed.reverse ++ fp2.past, rest := t, gcount := 1 }, ?_,
            rfl, rfl, hg⟩
          simp only [decodeInt, hg, hr, c3 t, Bool.false_eq_true, if_false, List.length_append,
            Nat.add_sub_cancel, List.take_left']
  | 3 => simp [decodeInt] at h
  | k + 5 => simp [decodeInt] at h

theorem parseControl_consumed (cache : JKSNCache) (control : Nat) (fp fp1 : IStream)
    (v : JKSNValue) (cache1 : JKSNCache) (hgood : fp.failed = false)
    (h : parseControl cache control fp = .ok (v, cache1, fp1)) :
    ∃ p, fp.rest = p ++ fp1.rest ∧ fp1.past = p.reverse ++ fp.past ∧ fp1.failed = false ∧
      ∀ (fp2 : IStream) (t : Bytes), fp2.failed = false → fp2.rest = p ++ t →
        ∃ fp3, parseControl cache control fp2 = .ok (v, cache1, fp3) ∧ fp3.rest = t ∧
          fp3.past = p.reverse ++ fp2.past ∧ fp3.failed = false := by
  unfold parseControl at h
  simp only [bind, Except.bind, pure, Except.pure, throw, throwThe, MonadExceptOf.throw] at h
  split_ifs at h
  all_goals (first
    | (cases h
       subst_vars
       exact ⟨[], rfl, rfl, hgood, fun fp2 t hg hr => ⟨fp2, rfl, hr, rfl, hg⟩⟩)
    | (cases h
       refine ⟨[], rfl, rfl, hgood, fun fp2 t hg hr => ⟨fp2, ?_, hr, rfl, hg⟩⟩
       simp only [parseControl, *, if_true, if_false]
       done)
    | skip)
  · cases hd : decodeInt fp 4 with
    | error e => rw [hd] at h; cases h
    | ok r =>
      obtain ⟨n, fpn⟩ := r
      rw [hd] at h
      simp only [Except.ok.injEq, Prod.mk.injEq] at h
      obtain ⟨hv, hc, hf⟩ := h
      subst hv hc hf
      subst_vars
      obtain ⟨p, _, h1, h2, h3, h4⟩ := decodeInt_consumed fp fpn 4 n hd
      refine ⟨p, h1, h2, h3, ?_⟩
      intro fp2 t hg hr
      obtain ⟨fp3, e1, e2, e3, e4⟩ := h4 fp2 t hg hr
      refine ⟨fp3, ?_, e2, e3, e4⟩
      unfold parseControl
      simp only [bind, Except.bind, pure, Except.pure, throw, throwThe, MonadExceptOf.throw,
        e1]
      rfl
  · cases hd : decodeInt fp 2 with
    | error e => rw [hd] at h; cases h
    | ok r =>
      obtain ⟨n, fpn⟩ := r
      rw [hd] at h
      simp only [Except.ok.injEq, Prod.mk.injEq] at h
      obtain ⟨hv, hc, hf⟩ := h
      subst hv hc hf
      subst_vars
      obtain ⟨p, _, h1, h2, h3, h4⟩ := decodeInt_consumed fp fpn 2 n hd
      refine ⟨p, h1, h2, h3, ?_⟩
      intro fp2 t hg hr
      obtain ⟨fp3, e1, e2, e3, e4⟩ := h4 fp2 t hg hr
      refine ⟨fp3, ?_, e2, e3, e4⟩
      unfold parseControl
      simp only [bind, Except.bind, pure, Except.pure, throw, throwThe, MonadExceptOf.throw,
        e1]
      rfl
  · cases hd : decodeInt fp 1 with
    | error e => rw [hd] at h; cases h
    | ok r =>
      obtain ⟨n, fpn⟩ := r
      rw [hd] at h
      simp only [Except.ok.injEq, Prod.mk.injEq] at h
      obtain ⟨hv, hc, hf⟩ := h
      subst hv hc hf
      subst_vars
      obtain ⟨p, _, h1, h2, h3, h4⟩ := decodeInt_consumed fp fpn 1 n hd
      refine ⟨p, h1, h2, h3, ?_⟩
      intro fp2 t hg hr
      obtain ⟨fp3, e1, e2, e3, e4⟩ := h4 fp2 t hg hr
      refine ⟨fp3, ?_, e2, e3, e4⟩
      unfold parseControl
      simp only [bind, Except.bind, pure, Except.pure, throw, throwThe, MonadExceptOf.throw,
        e1]
      rfl
  · cases hd : decodeInt fp 0 with
    | error e => rw [hd] at h; cases h
    | ok r =>
      obtain ⟨n, fpn⟩ := r
      rw [hd] at h
      simp only at h
      split_ifs at h with hneg
      simp only [Except.ok.injEq, Prod.mk.injEq] at h
      obtain ⟨hv, hc, hf⟩ := h
      subst hv hc hf
      subst_vars
      obtain ⟨p, _, h1, h2, h3, h4⟩ := decodeInt_consumed fp fpn 0 n hd
      refine ⟨p, h1, h2, h3, ?_⟩
      intro fp2 t hg hr
      obtain ⟨fp3, e1, e2, e3, e4⟩ := h4 fp2 t hg hr
      refine ⟨fp3, ?_, e2, e3, e4⟩
      unfold parseControl
      simp only [bind, Except.bind, pure, Except.pure, throw, throwThe, MonadExceptOf.throw,
        e1, hneg, if_false]
      rfl
  · cases hd : decodeInt fp 0 with
    | error e => rw [hd] at h; cases h
    | ok r =>
      obtain ⟨n, fpn⟩ := r
      rw [hd] at h
      simp only at h
      split_ifs at h with hneg
      simp only [Except.ok.injEq, Prod.mk.injEq] at h
      obtain ⟨hv, hc, hf⟩ := h
      subst hv hc hf
      subst_vars
      obtain ⟨p, _, h1, h2, h3, h4⟩ := decodeInt_consumed fp fpn 0 n hd
      refine ⟨p, h1, h2, h3, ?_⟩
      intro fp2 t hg hr
      obtain ⟨fp3, e1, e2, e3, e4⟩ := h4 fp2 t hg hr
      refine ⟨fp3, ?_, e2, e3, e4⟩
      unfold parseControl
      simp only [bind, Except.bind, pure, Except.pure, throw, throwThe, MonadExceptOf.throw,
        e1, hneg, if_false]
      rfl
  · rename_i a0 a1 a2 a3 a4 a5 a6
    cases h
    refine ⟨[], rfl, rfl, hgood, fun fp2 t hg hr => ⟨fp2, ?_, hr, rfl, hg⟩⟩
    simp only [parseControl, a0, a1, a2, a3, a4, a5, a6, if_true, if_false]
    rfl

theorem parseValue_consumed (cache : JKSNCache) (fp fp1 : IStream) (v : JKSNValue)
    (cache1 : JKSNCache) (h : parseValue cache fp = .ok (v, cache1, fp1)) :
    ∃ p, p ≠ [] ∧ fp.rest = p ++ fp1.rest ∧ fp1.past = p.reverse ++ fp.past ∧
      fp.failed = false ∧ fp1.failed = false ∧
      ∀ (fp2 : IStream) (t : Bytes), fp2.failed = false → fp2.rest = p ++ t →
        ∃ fp3, parseValue cache fp2 = .ok (v, cache1, fp3) ∧ fp3.rest = t ∧
          fp3.past = p.reverse ++ fp2.past ∧ fp3.failed = false := by
  obtain ⟨past, rest, gcount, failed⟩ := fp
  cases failed with
  | true => simp [parseValue, IStream.get] at h
  | false =>
    cases rest with
    | nil => simp [parseValue, IStream.get] at h
    | cons c r =>
      rw [parseValue_cons cache _ c r rfl rfl] at h
      obtain ⟨p, h1, h2, h3, h4⟩ := parseControl_consumed cache (c % 256) _ fp1 v cache1 rfl h
      simp only at h1 h2
      refine ⟨c :: p, by simp, by simp [h1], by simp [h2], rfl, h3, ?_⟩
      intro fp2 t hg hr
      rw [parseValue_cons cache fp2 c (p ++ t) hg (by simpa using hr)]
      obtain ⟨fp3, e1, e2, e3, e4⟩ := h4
        { fp2 with past := c :: fp2.past, rest := p ++ t, gcount := 1 } t hg rfl
      exact ⟨fp3, e1, e2, by simp [e3], e4⟩

theorem decodeIntLoop_truncated (cs : Bytes) : ∀ (acc : Nat), acc < 2 ^ 64 →
    (∀ c ∈ cs, (c % 256) &&& 0x80 ≠ 0) →
    cs.foldl (fun a b => a * 128 + b % 128) acc < 2 ^ 57 →
    decodeIntLoop cs acc = .error .charPointer := by
  induction cs with
  | nil =>
    intro acc _ _ hlt
    exact decodeIntLoop_empty acc (by simpa using hlt)
  | cons c cs ih =>
    intro acc hacc hcs hlt
    simp only [List.foldl_cons] at hlt
    have hge := foldl_base128_ge (cs.map (fun b => b % 128)) (acc * 128 + c % 128)
    rw [List.foldl_map] at hge
    have h57 : acc < 2 ^ 57 := by omega
    rw [decodeIntLoop_step c _ acc h57, if_pos (hcs c (List.mem_cons_self _ _))]
    exact ih _ (by omega) (fun x hx => hcs x (List.mem_cons_of_mem _ hx)) hlt

theorem parseControl_truncated_fixed (cache : JKSNCache) (fp : IStream) :
    (fp.rest.length < 4 → parseControl cache 0x1b fp = .error .charPointer) ∧
    (fp.rest.length < 2 → parseControl cache 0x1c fp = .error .charPointer) ∧
    (fp.rest.length < 1 → parseControl cache 0x1d fp = .error .charPointer) := by
  have c1 : (27 &&& 240 : Nat) = 16 := by decide
  have c2 : (28 &&& 240 : Nat) = 16 := by decide
  refine ⟨?_, ?_, ?_⟩
  · intro hl
    have : ¬ 4 ≤ fp.rest.length := by omega
    simp only [parseControl, decodeInt, IStream.read, bind, Except.bind, c1]
    cases fp.failed <;> simp [this]
  · intro hl
    have : ¬ 2 ≤ fp.rest.length := by omega
    simp only [parseControl, decodeInt, IStream.read, bind, Except.bind, c2]
    cases fp.failed <;> simp [this]
  · intro hl
    have he : fp.rest = [] := List.length_eq_zero.mp (by omega)
    simp only [parseControl, decodeInt, IStream.get, bind, Except.bind, class_1d, he]
    cases fp.failed <;> simp

theorem parseControl_truncated_varint (cache : JKSNCache) (fp : IStream)
    (hcs : ∀ c ∈ fp.rest, (c % 256) &&& 0x80 ≠ 0) (hlt : base128Value fp.rest < 2 ^ 57) :
    parseControl cache 0x1e fp = .error .charPointer ∧
    parseControl cache 0x1f fp = .error .charPointer := by
  have hd : decodeInt fp 0 = .error .charPointer := by
    simp only [decodeInt]
    cases fp.failed with
    | true => simp
    | false =>
      simp only [Bool.false_eq_true, if_false,
        decodeIntLoop_truncated fp.rest 0 (by norm_num) hcs hlt]
  constructor
  · simp [parseControl, hd, bind, Except.bind, class_1e]
  · simp [parseControl, hd, bind, Except.bind, class_1f]

/-! ### The optimizer on integer and string nodes, across calls -/

theorem delta_immediate_class (k : Nat) (h : k ≤ 10) :
    (0xb0 ||| k) &&& 0xf0 = 0xb0 ∧ (0xb0 ||| k) % 16 = k ∧ 0xb0 ||| k < 256 := by
  interval_cases k <;> decide

theorem deltaForm_class (delta : Int) (r : Nat × Bytes) (h : deltaForm delta = .ok r) :
    r.1 &&& 0xf0 = 0xb0 ∧ r.1 < 256 := by
  unfold deltaForm at h
  simp only [bind, Except.bind, pure, Except.pure, encodeInt_one, encodeInt_two, encodeInt_four,
    encodeInt_zero] at h
  split_ifs at h with h1 h2
  · cases h
    have : toUint8 delta ≤ 10 := by unfold toUint8; omega
    exact ⟨(delta_immediate_class _ this).1, (delta_immediate_class _ this).2.2⟩
  · cases h
    have : toUint8 (delta + 11) ≤ 10 := by unfold toUint8; omega
    exact ⟨(delta_immediate_class _ this).1, (delta_immediate_class _ this).2.2⟩
  all_goals (cases h; exact ⟨by simp only; decide, by simp only; decide⟩)

theorem optimizeInt_outcome (cache : JKSNCache) (origin : JKSNValue) (control : Nat)
    (data : Bytes) (r : Nat × Bytes × JKSNCache)
    (h : optimizeInt cache origin control data = .ok r) :
    ∃ current, origin.toInt = .ok current ∧ r.2.2 = cache.afterInt current ∧
      ((r.1 = control ∧ r.2.1 = data) ∨
       (cache.haslastint = true ∧
        absInt (wrapIntmax (current - cache.lastint)) < absInt current ∧
        deltaForm (wrapIntmax (current - cache.lastint)) = .ok (r.1, r.2.1) ∧
        r.2.1.length < data.length)) := by
  unfold optimizeInt at h
  cases ho : origin.toInt with
  | error e =>
    simp only [ho, bind, Except.bind, pure, Except.pure] at h
    split_ifs at h
  | ok current =>
    refine ⟨current, rfl, ?_⟩
    simp only [ho, bind, Except.bind, pure, Except.pure] at h
    by_cases hl : cache.haslastint = true
    · simp only [hl, if_true] at h
      by_cases ha : absInt (wrapIntmax (current - cache.lastint)) < absInt current
      · simp only [ha, if_true] at h
        cases hd : deltaForm (wrapIntmax (current - cache.lastint)) with
        | error e => rw [hd] at h; cases h
        | ok x =>
          rw [hd] at h
          simp only at h
          split_ifs at h with hlen
          · cases h
            exact ⟨rfl, Or.inr ⟨hl, ha, rfl, hlen⟩⟩
          · cases h
            exact ⟨rfl, Or.inl ⟨rfl, rfl⟩⟩
      · simp only [ha, if_false] at h
        cases h
        exact ⟨rfl, Or.inl ⟨rfl, rfl⟩⟩
    · simp only [hl, if_false, Bool.false_eq_true] at h
      cases h
      exact ⟨rfl, Or.inl ⟨rfl, rfl⟩⟩

theorem optimize_int_node (cache cache1 : JKSNCache) (origin : JKSNValue) (control : Nat)
    (data buf : Bytes) (children : List JKSNProxy) (hash : Nat) (q : JKSNProxy)
    (hc : control &&& 0xf0 = 0x10)
    (h : optimize cache (.mk origin control data buf children hash) = .ok (q, cache1)) :
    ∃ c d, optimizeInt cache origin control data = .ok (c, d, cache1) ∧
      q = .mk origin c d buf children hash := by
  simp only [optimize, optimizeAt, hc, if_true, bind, Except.bind, pure, Except.pure] at h
  cases ho : optimizeInt cache origin control data with
  | error e => rw [ho] at h; cases h
  | ok r =>
    obtain ⟨c, d, cc⟩ := r
    rw [ho] at h
    cases h
    exact ⟨c, d, rfl, rfl⟩

theorem optimize_int_node_total (cache : JKSNCache) (n : Int) (control : Nat)
    (data buf : Bytes) (children : List JKSNProxy) (hash : Nat)
    (hc : control &&& 0xf0 = 0x10) :
    ∃ c d, optimizeInt cache (.int n) control data = .ok (c, d, cache.afterInt n) ∧
      optimize cache (.mk (.int n) control data buf children hash) =
        .ok (.mk (.int n) c d buf children hash, cache.afterInt n) := by
  obtain ⟨c, d, ho⟩ := optimizeInt_total cache n control data
  refine ⟨c, d, ho, ?_⟩
  simp only [optimize, optimizeAt, hc, if_true, bind, Except.bind, pure, Except.pure, ho]

theorem wrapIntmax_range (x : Int) : -2 ^ 63 ≤ wrapIntmax x ∧ wrapIntmax x < 2 ^ 63 := by
  unfold wrapIntmax toIntmax toUintmax
  simp only [Nat.reducePow]
  split_ifs <;> omega

theorem wrapIntmax_id (x : Int) (h0 : -2 ^ 63 ≤ x) (h1 : x < 2 ^ 63) : wrapIntmax x = x := by
  unfold wrapIntmax toIntmax toUintmax
  simp only [Nat.reducePow]
  split_ifs <;> omega

theorem signedBigEndianReference_one (b : Nat) :
    signedBigEndianReference [b] = if b < 128 then (b : Int) else (b : Int) - 256 := by
  simp only [signedBigEndianReference, List.foldl_cons, List.foldl_nil, List.length_cons,
    List.length_nil]
  norm_num

theorem signedBigEndianReference_low_two (b : Nat) (hb : b < 256) :
    signedBigEndianReference [0, b] = (b : Int) := by
  simp only [signedBigEndianReference, List.foldl_cons, List.foldl_nil, List.length_cons,
    List.length_nil]
  norm_num
  omega

theorem signedBigEndianReference_low_four (b : Nat) (hb : b < 256) :
    signedBigEndianReference [0, 0, 0, b] = (b : Int) := by
  simp only [signedBigEndianReference, List.foldl_cons, List.foldl_nil, List.length_cons,
    List.length_nil]
  norm_num
  omega

theorem deltaForm_reads (delta : Int) (h0 : -2 ^ 63 ≤ delta) (h1 : delta < 2 ^ 63) :
    ∃ c d, deltaForm delta = .ok (c, d) ∧
      grammarDelta c d =
        some (if (delta < -0x80 ∨ 0x7f < delta) ∧
            ((-0x8000 ≤ delta ∧ delta ≤ 0x7fff) ∨ (0x200000 ≤ delta ∧ delta ≤ 0x7fffffff))
          then delta % 256 else delta) := by
  simp only [Nat.reducePow, Int.reducePow, Int.reduceNeg] at h0 h1
  unfold deltaForm
  simp only [bind, Except.bind, pure, Except.pure]
  by_cases c1 : delta ≥ 0 ∧ delta ≤ 0x5
  · rw [if_pos c1]
    refine ⟨_, _, rfl, ?_⟩
    have hk : toUint8 delta = delta.toNat := by unfold toUint8; omega
    have hle : delta.toNat ≤ 10 := by omega
    have hne : ¬ ((delta < -0x80 ∨ 0x7f < delta) ∧
        ((-0x8000 ≤ delta ∧ delta ≤ 0x7fff) ∨ (0x200000 ≤ delta ∧ delta ≤ 0x7fffffff))) := by
      omega
    have h5 : delta.toNat ≤ 5 := by omega
    simp only [grammarDelta, hk, (delta_immediate_class _ hle).2.1, h5, if_true, hne, if_false]
    congr 1
    omega
  rw [if_neg c1]
  by_cases c2 : delta ≥ -0x5 ∧ delta ≤ -0x1
  · rw [if_pos c2]
    refine ⟨_, _, rfl, ?_⟩
    have hk : toUint8 (delta + 11) = (delta + 11).toNat := by unfold toUint8; omega
    have hle : (delta + 11).toNat ≤ 10 := by omega
    have hne : ¬ ((delta < -0x80 ∨ 0x7f < delta) ∧
        ((-0x8000 ≤ delta ∧ delta ≤ 0x7fff) ∨ (0x200000 ≤ delta ∧ delta ≤ 0x7fffffff))) := by
      omega
    have h5 : ¬ (delta + 11).toNat ≤ 5 := by omega
    simp only [grammarDelta, hk, (delta_immediate_class _ hle).2.1, h5, hle, if_true, hne,
      if_false]
    congr 1
    omega
  rw [if_neg c2]
  by_cases c3 : delta ≥ -0x80 ∧ delta ≤ 0x7f
  · rw [if_pos c3]
    simp only [encodeInt_one]
    refine ⟨_, _, rfl, ?_⟩
    have hne : ¬ ((delta < -0x80 ∨ 0x7f < delta) ∧
        ((-0x8000 ≤ delta ∧ delta ≤ 0x7fff) ∨ (0x200000 ≤ delta ∧ delta ≤ 0x7fffffff))) := by
      omega
    have hlow : (0xbd : Nat) % 16 = 13 := rfl
    simp only [grammarDelta, hlow, hne, if_false, List.length_singleton,
      if_true, Nat.reduceLeDiff, signedBigEndianReference_one]
    simp only [toUintmax, Nat.reducePow]
    congr 1
    split_ifs <;> omega
  rw [if_neg c3]
  by_cases c4 : delta ≥ -0x8000 ∧ delta ≤ 0x7fff
  · rw [if_pos c4]
    simp only [encodeInt_two_bytes]
    refine ⟨_, _, rfl, ?_⟩
    have hyes : (delta < -0x80 ∨ 0x7f < delta) ∧
        ((-0x8000 ≤ delta ∧ delta ≤ 0x7fff) ∨ (0x200000 ≤ delta ∧ delta ≤ 0x7fffffff)) := by
      omega
    have hlow : (0xbc : Nat) % 16 = 12 := rfl
    rw [if_pos hyes]
    simp only [grammarDelta, hlow, List.length_cons, List.length_nil]
    simp only [Nat.reduceLeDiff, if_false, Nat.reduceEqDiff, Nat.reduceAdd, if_true,
      signedBigEndianReference_low_two _ (Nat.mod_lt _ (by norm_num))]
    simp only [toUintmax, Nat.reducePow]
    congr 1
    omega
  rw [if_neg c4]
  by_cases c5 : (delta ≥ 0x80000000 ∧ delta ≤ -0x200000) ∨
      (delta ≥ 0x200000 ∧ delta ≤ 0x7fffffff)
  · rw [if_pos c5]
    simp only [encodeInt_four_bytes]
    refine ⟨_, _, rfl, ?_⟩
    have hyes : (delta < -0x80 ∨ 0x7f < delta) ∧
        ((-0x8000 ≤ delta ∧ delta ≤ 0x7fff) ∨ (0x200000 ≤ delta ∧ delta ≤ 0x7fffffff)) := by
      omega
    have hlow : (0xbb : Nat) % 16 = 11 := rfl
    rw [if_pos hyes]
    simp only [grammarDelta, hlow, List.length_cons, List.length_nil]
    simp only [Nat.reduceLeDiff, if_false, Nat.reduceEqDiff, Nat.reduceAdd, if_true,
      signedBigEndianReference_low_four _ (Nat.mod_lt _ (by norm_num))]
    simp only [toUintmax, Nat.reducePow]
    congr 1
    omega
  rw [if_neg c5]
  have hne : ¬ ((delta < -0x80 ∨ 0x7f < delta) ∧
      ((-0x8000 ≤ delta ∧ delta ≤ 0x7fff) ∨ (0x200000 ≤ delta ∧ delta ≤ 0x7fffffff))) := by
    omega
  rw [if_neg hne]
  by_cases c6 : delta ≥ 0
  · rw [if_pos c6]
    have hu : toUintmax delta = delta.toNat := by
      unfold toUintmax; omega
    have hv := encodeInt_varint delta.toNat (by omega)
    rw [hu, hv]
    refine ⟨_, _, rfl, ?_⟩
    have hlow : (0xbf : Nat) % 16 = 15 := rfl
    simp only [grammarDelta, hlow, (varint_continuation delta.toNat).1, base128Value_varint]
    simp only [Nat.reduceLeDiff, if_false, Nat.reduceEqDiff, if_true]
    congr 1
    omega
  · rw [if_neg c6]
    have hu : toUintmax (-delta) = (-delta).toNat := by
      unfold toUintmax; omega
    have hv := encodeInt_varint (-delta).toNat (by omega)
    rw [hu, hv]
    refine ⟨_, _, rfl, ?_⟩
    have hlow : (0xbe : Nat) % 16 = 14 := rfl
    simp only [grammarDelta, hlow, (varint_continuation (-delta).toNat).1, base128Value_varint]
    simp only [Nat.reduceLeDiff, if_false, Nat.reduceEqDiff, if_true]
    congr 1
    omega

theorem optimize_text_node (cache : JKSNCache) (origin : JKSNValue) (control : Nat)
    (data buf : Bytes) (children : List JKSNProxy) (hash : Nat) (hc : isTextControl control) :
    optimize cache (.mk origin control data buf children hash) =
      (optimizeHash cache.texthash control data buf hash).map
        (fun r => (.mk origin r.1 r.2.1 r.2.2.1 children hash,
          { cache with texthash := r.2.2.2 })) := by
  have h1 : ¬ control &&& 0xf0 = 0x10 := by
    rcases hc with h | h <;> rw [h] <;> decide
  simp only [optimize, optimizeAt, h1, if_false, show (control &&& 0xf0 = 0x30 ∨ control &&& 0xf0 = 0x40)
    from hc, if_true, bind, Except.bind, pure, Except.pure]
  cases optimizeHash cache.texthash control data buf hash <;> rfl

theorem dumps_string_hit (nd : Bool) (cache : JKSNCache) (s : Bytes) (p : JKSNProxy)
    (hp : dumpString (.string s) = .ok p) (hlen : 1 < p.buf.length)
    (hslot : cache.texthash (DJBHash p.buf 0) = some p.buf) :
    JKSNEncoder.dumps nd cache (.string s) false = .ok ([0x3c, DJBHash p.buf 0], cache) := by
  obtain ⟨control, data, buf, rfl, hc, _, _⟩ := dumpString_shape s p hp
  simp only [JKSNProxy.buf] at hlen hslot
  have ho : optimizeHash cache.texthash control data buf (DJBHash buf 0) =
      .ok (0x3c, [DJBHash buf 0], [], cache.texthash) := by
    simp only [optimizeHash, gt_iff_lt, hlen, if_true, hslot, bind, Except.bind, pure,
      Except.pure, encodeInt_one, hash_byte]
  simp only [JKSNEncoder.dumps, dumpToProxy, dumpValue, hp, bind, Except.bind,
    optimize_text_node cache _ control data buf [] _ hc, ho, Except.map, pure, Except.pure,
    JKSNProxy.toString, JKSNProxy.toStringList, JKSNProxy.buf]
  simp

theorem dumps_string_stores (nd : Bool) (cache : JKSNCache) (s : Bytes) (p : JKSNProxy)
    (hp : dumpString (.string s) = .ok p) (hlen : 1 < p.buf.length) :
    ∃ bytes cache1, JKSNEncoder.dumps nd cache (.string s) false = .ok (bytes, cache1) ∧
      cache1.texthash (DJBHash p.buf 0) = some p.buf := by
  obtain ⟨control, data, buf, rfl, hc, _, _⟩ := dumpString_shape s p hp
  simp only [JKSNProxy.buf] at hlen ⊢
  by_cases hslot : cache.texthash (DJBHash buf 0) = some buf
  · exact ⟨_, _, dumps_string_hit nd cache s _ hp hlen hslot, hslot⟩
  · have ho : optimizeHash cache.texthash control data buf (DJBHash buf 0) =
        .ok (control, data, buf,
          fun i => if i = DJBHash buf 0 then some buf else cache.texthash i) := by
      simp only [optimizeHash, gt_iff_lt, hlen, if_true, hslot, if_false, bind, Except.bind,
        pure, Except.pure]
    refine ⟨(JKSNProxy.mk (.string s) control data buf [] (DJBHash buf 0)).toString true,
      { cache with texthash :=
          fun i => if i = DJBHash buf 0 then some buf else cache.texthash i }, ?_, ?_⟩
    · simp only [JKSNEncoder.dumps, dumpToProxy, dumpValue, hp, bind, Except.bind,
        optimize_text_node cache _ control data buf [] _ hc, ho, Except.map, pure, Except.pure]
      rfl
    · simp

theorem dumps_int_step (nd : Bool) (cache : JKSNCache) (b : Int) :
    ∃ p c d, dumpInt (.int b) = .ok p ∧
      optimizeInt cache (.int b) p.control p.data = .ok (c, d, cache.afterInt b) ∧
      JKSNEncoder.dumps nd cache (.int b) false = .ok (c % 256 :: d, cache.afterInt b) := by
  obtain ⟨p, hp⟩ := dumpInt_total b
  obtain ⟨control, data, rfl, hc, _⟩ := dumpInt_shape b p hp
  obtain ⟨c, d, ho, hopt⟩ := optimize_int_node_total cache b control data [] [] 0 hc
  refine ⟨_, c, d, hp, ho, ?_⟩
  simp only [JKSNEncoder.dumps, dumpToProxy, dumpValue, hp, bind, Except.bind, hopt, pure,
    Except.pure, JKSNProxy.toString, JKSNProxy.toStringList]
  simp

/-! ### The transcoders against UTF-8 and UTF-16 -/

theorem and_mask_mod (x k : Nat) : x &&& (2 ^ k - 1) = x % 2 ^ k :=
  Nat.and_pow_two_sub_one_eq_mod x k

theorem and_0x3f (x : Nat) : x &&& 0x3f = x % 64 := and_mask_mod x 6

theorem and_0x1f (x : Nat) : x &&& 0x1f = x % 32 := and_mask_mod x 5

theorem and_0xf (x : Nat) : x &&& 0xf = x % 16 := and_mask_mod x 4

theorem and_0x7 (x : Nat) : x &&& 0x7 = x % 8 := and_mask_mod x 3

theorem and_0x3ff (x : Nat) : x &&& 0x3ff = x % 1024 := and_mask_mod x 10

theorem shl_or (x y k : Nat) (hy : y < 2 ^ k) : (x <<< k) ||| y = x * 2 ^ k + y := by
  rw [Nat.shiftLeft_eq, Nat.mul_comm, ← Nat.mul_add_lt_is_or hy x]

theorem and_0xc0 (b : Nat) (hb : b < 256) : b &&& 0xc0 = 0x80 ↔ 0x80 ≤ b ∧ b < 0xc0 := by
  interval_cases b <;> decide

theorem or_0xc0 (x : Nat) (hx : x < 32) : x ||| 0xc0 = 0xc0 + x := by
  interval_cases x <;> rfl

theorem or_0xe0 (x : Nat) (hx : x < 16) : x ||| 0xe0 = 0xe0 + x := by
  interval_cases x <;> rfl

theorem or_0xf0 (x : Nat) (hx : x < 8) : x ||| 0xf0 = 0xf0 + x := by
  interval_cases x <;> rfl

theorem or_0x80 (x : Nat) (hx : x < 64) : x ||| 0x80 = 0x80 + x := by
  interval_cases x <;> rfl

theorem and_high_mask (u k : Nat) (mask : Nat) (hu : u < 2 ^ 16) (hk : k ≤ 16)
    (hmask : ∀ j, j < 16 → Nat.testBit mask j = decide (k ≤ j))
    (hm : mask < 2 ^ 16) : u &&& mask = u / 2 ^ k * 2 ^ k := by
  apply Nat.eq_of_testBit_eq
  intro i
  have e : u / 2 ^ k * 2 ^ k = (u >>> k) <<< k := by
    rw [Nat.shiftLeft_eq, Nat.shiftRight_eq_div_pow]
  rw [Nat.testBit_and, e, Nat.testBit_shiftLeft, Nat.testBit_shiftRight]
  by_cases hi : i < 16
  · rw [hmask i hi]
    by_cases hki : k ≤ i
    · have : k + (i - k) = i := by omega
      simp [hki, this]
    · simp [hki]
  · have h1 : u < 2 ^ i := lt_of_lt_of_le hu (Nat.pow_le_pow_right (by norm_num) (by omega))
    have h2 : mask < 2 ^ i := lt_of_lt_of_le hm (Nat.pow_le_pow_right (by norm_num) (by omega))
    have hki : k ≤ i := by omega
    have : k + (i - k) = i := by omega
    rw [Nat.testBit_lt_two_pow h1, Nat.testBit_lt_two_pow h2, this, Nat.testBit_lt_two_pow h1]
    simp

theorem and_0xf800 (u : Nat) (hu : u < 2 ^ 16) : u &&& 0xf800 = u / 2048 * 2048 :=
  and_high_mask u 11 0xf800 hu (by decide) (by decide) (by decide)

theorem and_0xfc00 (u : Nat) (hu : u < 2 ^ 16) : u &&& 0xfc00 = u / 1024 * 1024 :=
  and_high_mask u 10 0xfc00 hu (by decide) (by decide) (by decide)

theorem surrogate_iff (u : Nat) (hu : u < 2 ^ 16) :
    u &&& 0xf800 = 0xd800 ↔ 0xD800 ≤ u ∧ u < 0xE000 := by
  rw [and_0xf800 u hu]
  omega

theorem high_surrogate_iff (u : Nat) (hu : u < 2 ^ 16) :
    u &&& 0xfc00 = 0xd800 ↔ 0xD800 ≤ u ∧ u < 0xDC00 := by
  rw [and_0xfc00 u hu]
  omega

theorem low_surrogate_iff (u : Nat) (hu : u < 2 ^ 16) :
    u &&& 0xfc00 = 0xdc00 ↔ 0xDC00 ≤ u ∧ u < 0xE000 := by
  rw [and_0xfc00 u hu]
  omega

theorem ucs4_two (b0 b1 : Nat) :
    ((b0 &&& 0x1f) <<< 6) ||| (b1 &&& 0x3f) = b0 % 32 * 64 + b1 % 64 := by
  rw [and_0x1f, and_0x3f, shl_or _ _ 6 (show b1 % 64 < 2 ^ 6 by omega)]
  omega

theorem ucs4_three (b0 b1 b2 : Nat) :
    ((b0 &&& 0xf) <<< 12) ||| ((b1 &&& 0x3f) <<< 6) ||| (b2 &&& 0x3f) =
      b0 % 16 * 4096 + b1 % 64 * 64 + b2 % 64 := by
  rw [and_0xf, and_0x3f, and_0x3f]
  have h1 : (b1 % 64) <<< 6 = b1 % 64 * 64 := by rw [Nat.shiftLeft_eq]
  rw [h1, shl_or _ _ 12 (by omega)]
  have h2 : b0 % 16 * 2 ^ 12 + b1 % 64 * 64 = (b0 % 16 * 64 + b1 % 64) <<< 6 := by
    rw [Nat.shiftLeft_eq]; omega
  rw [h2, shl_or _ _ 6 (show b2 % 64 < 2 ^ 6 by omega)]
  omega

theorem ucs4_four (b0 b1 b2 b3 : Nat) :
    ((b0 &&& 0x7) <<< 18) ||| ((b1 &&& 0x3f) <<< 12) ||| ((b2 &&& 0x3f) <<< 6) |||
        (b3 &&& 0x3f) =
      b0 % 8 * 262144 + b1 % 64 * 4096 + b2 % 64 * 64 + b3 % 64 := by
  rw [and_0x7, and_0x3f, and_0x3f, and_0x3f]
  have h1 : (b1 % 64) <<< 12 = b1 % 64 * 4096 := by rw [Nat.shiftLeft_eq]
  have h2 : (b2 % 64) <<< 6 = b2 % 64 * 64 := by rw [Nat.shiftLeft_eq]
  rw [h1, h2, shl_or _ _ 18 (by omega)]
  have h3 : b0 % 8 * 2 ^ 18 + b1 % 64 * 4096 = (b0 % 8 * 64 + b1 % 64) <<< 12 := by
    rw [Nat.shiftLeft_eq]; omega
  rw [h3, shl_or _ _ 12 (by omega)]
  have h4 : (b0 % 8 * 64 + b1 % 64) * 2 ^ 12 + b2 % 64 * 64 =
      ((b0 % 8 * 64 + b1 % 64) * 64 + b2 % 64) <<< 6 := by
    rw [Nat.shiftLeft_eq]; omega
  rw [h4, shl_or _ _ 6 (show b3 % 64 < 2 ^ 6 by omega)]
  omega

theorem drop_cons_getD (s : List Nat) (i : Nat) (h : i < s.length) :
    s.drop i = s.getD i 0 :: s.drop (i + 1) := by
  rw [List.getD_eq_getElem _ _ h]
  exact List.drop_eq_getElem_cons h

theorem getD_of_drop (s : List Nat) (i k : Nat) : (s.drop i).getD k 0 = s.getD (i + k) 0 := by
  simp [List.getD_eq_getElem?_getD, List.getElem?_drop]

theorem length_of_drop_eq (s pre rest : List Nat) (i : Nat) (h : s.drop i = pre ++ rest) :
    s.length - i = pre.length + rest.length := by
  have := congrArg List.length h
  simpa using this

theorem getD_lt_of_bytes (s : Bytes) (hb : ∀ b ∈ s, b < 256) (k : Nat) : s.getD k 0 < 256 := by
  by_cases hk : k < s.length
  · rw [List.getD_eq_getElem _ _ hk]
    exact hb _ (List.getElem_mem _)
  · rw [List.getD_eq_default _ _ (by omega)]
    norm_num

theorem checkContinuation_one (s : Bytes) (i : Nat) :
    UTF8CheckContinuation s i 1 = true ↔
      i + 1 < s.length ∧ (s.getD (i + 1) 0 % 256) &&& 0xc0 = 0x80 := by
  simp only [UTF8CheckContinuation, UTF8CheckContinuationLoop]
  by_cases h : s.length > i + 1
  · by_cases h1 : (s.getD (i + 1) 0 % 256) &&& 0xc0 = 0x80 <;> simp [h, h1]
  · simp [h]

theorem checkContinuation_two (s : Bytes) (i : Nat) :
    UTF8CheckContinuation s i 2 = true ↔
      i + 2 < s.length ∧ (s.getD (i + 1) 0 % 256) &&& 0xc0 = 0x80 ∧
        (s.getD (i + 2) 0 % 256) &&& 0xc0 = 0x80 := by
  simp only [UTF8CheckContinuation, UTF8CheckContinuationLoop]
  by_cases h : s.length > i + 2
  · by_cases h1 : (s.getD (i + 1) 0 % 256) &&& 0xc0 = 0x80 <;>
      by_cases h2 : (s.getD (i + 2) 0 % 256) &&& 0xc0 = 0x80 <;>
      simp [h, h1, h2, Nat.add_assoc]
  · simp [h]

theorem checkContinuation_three (s : Bytes) (i : Nat) :
    UTF8CheckContinuation s i 3 = true ↔
      i + 3 < s.length ∧ (s.getD (i + 1) 0 % 256) &&& 0xc0 = 0x80 ∧
        (s.getD (i + 2) 0 % 256) &&& 0xc0 = 0x80 ∧
        (s.getD (i + 3) 0 % 256) &&& 0xc0 = 0x80 := by
  simp only [UTF8CheckContinuation, UTF8CheckContinuationLoop]
  by_cases h : s.length > i + 3
  · by_cases h1 : (s.getD (i + 1) 0 % 256) &&& 0xc0 = 0x80 <;>
      by_cases h2 : (s.getD (i + 2) 0 % 256) &&& 0xc0 = 0x80 <;>
      by_cases h3 : (s.getD (i + 3) 0 % 256) &&& 0xc0 = 0x80 <;>
      simp [h, h1, h2, h3, Nat.add_assoc]
  · simp [h]

theorem units_bmp (cp : Nat) (h : cp < 0x10000) :
    UTF16LEUnits cp = [cp % 256, 0] := by
  have h0 : (cp >>> 16) % 256 = 0 := by rw [Nat.shiftRight_eq_div_pow]; omega
  simp only [UTF16LEUnits, h, if_true, h0]

theorem units_bmp_code (cp : Nat) (h : cp < 0x10000) :
    [cp % 256, (cp >>> 16) % 256] = UTF16LEUnits cp := by
  simp only [UTF16LEUnits, h, if_true]

theorem units_supplementary (cp : Nat) (h : 0x10000 ≤ cp) :
    UTF16LEUnits cp =
      [((cp - 0x10000) >>> 10) % 256, (((cp - 0x10000) >>> 18) ||| 0xd8) % 256,
        (cp - 0x10000) % 256, (((cp - 0x10000) &&& 0x3f) ||| 0xdc) % 256] := by
  have : ¬ cp < 0x10000 := by omega
  simp only [UTF16LEUnits, this, if_false]

theorem step_ascii (s : Bytes) (i : Nat) (h : s.getD i 0 % 256 < 0x80) :
    UTF8ToUTF16LEStep s i = some (UTF16LEUnits (s.getD i 0 % 256), i + 1) := by
  unfold UTF8ToUTF16LEStep
  simp only [h, if_true]
  rw [units_bmp _ (by omega), Nat.mod_mod]

theorem step_none (s : Bytes) (i : Nat)
    (h : (0x80 ≤ s.getD i 0 % 256 ∧ s.getD i 0 % 256 < 0xc0) ∨ 0xf8 ≤ s.getD i 0 % 256) :
    UTF8ToUTF16LEStep s i = none := by
  unfold UTF8ToUTF16LEStep
  rcases h with ⟨h1, h2⟩ | h1
  · have : ¬ s.getD i 0 % 256 < 0x80 := by omega
    simp only [this, if_false, h2, if_true]
  · have e1 : ¬ s.getD i 0 % 256 < 0x80 := by omega
    have e2 : ¬ s.getD i 0 % 256 < 0xc0 := by omega
    have e3 : ¬ s.getD i 0 % 256 < 0xe0 := by omega
    have e4 : ¬ s.getD i 0 % 256 < 0xf0 := by omega
    have e5 : ¬ s.getD i 0 % 256 < 0xf8 := by omega
    simp only [e1, e2, e3, e4, e5, if_false]

theorem step_two (s : Bytes) (i : Nat) (h0 : 0xc0 ≤ s.getD i 0 % 256)
    (h1 : s.getD i 0 % 256 < 0xe0) :
    UTF8ToUTF16LEStep s i =
      if i + 1 < s.length ∧
          (0x80 ≤ s.getD (i + 1) 0 % 256 ∧ s.getD (i + 1) 0 % 256 < 0xc0) ∧
          0x80 ≤ s.getD i 0 % 256 % 32 * 64 + s.getD (i + 1) 0 % 256 % 64 then
        some (UTF16LEUnits (s.getD i 0 % 256 % 32 * 64 + s.getD (i + 1) 0 % 256 % 64), i + 2)
      else none := by
  unfold UTF8ToUTF16LEStep
  have e1 : ¬ s.getD i 0 % 256 < 0x80 := by omega
  have e2 : ¬ s.getD i 0 % 256 < 0xc0 := by omega
  simp only [e1, e2, if_false, h1, if_true, ucs4_two]
  by_cases hc : UTF8CheckContinuation s i 1 = true
  · obtain ⟨hl, hb1⟩ := (checkContinuation_one s i).mp hc
    rw [and_0xc0 _ (Nat.mod_lt _ (by norm_num))] at hb1
    simp only [hc, if_true, hl, hb1, and_self, true_and, ge_iff_le]
    by_cases hu : 0x80 ≤ s.getD i 0 % 256 % 32 * 64 + s.getD (i + 1) 0 % 256 % 64
    · simp only [hu, if_true]
      rw [units_bmp_code _ (by omega)]
    · simp only [hu, if_false]
  · have hn : ¬ (i + 1 < s.length ∧
        (0x80 ≤ s.getD (i + 1) 0 % 256 ∧ s.getD (i + 1) 0 % 256 < 0xc0)) := by
      rw [← and_0xc0 _ (Nat.mod_lt _ (by norm_num)), ← checkContinuation_one]
      exact hc
    have hn2 : ¬ (i + 1 < s.length ∧
        (0x80 ≤ s.getD (i + 1) 0 % 256 ∧ s.getD (i + 1) 0 % 256 < 0xc0) ∧
        0x80 ≤ s.getD i 0 % 256 % 32 * 64 + s.getD (i + 1) 0 % 256 % 64) :=
      fun h => hn ⟨h.1, h.2.1⟩
    simp only [hc, hn2, if_false, Bool.false_eq_true]

theorem step_three (s : Bytes) (i : Nat) (h0 : 0xe0 ≤ s.getD i 0 % 256)
    (h1 : s.getD i 0 % 256 < 0xf0) :
    UTF8ToUTF16LEStep s i =
      if i + 2 < s.length ∧
          (0x80 ≤ s.getD (i + 1) 0 % 256 ∧ s.getD (i + 1) 0 % 256 < 0xc0) ∧
          (0x80 ≤ s.getD (i + 2) 0 % 256 ∧ s.getD (i + 2) 0 % 256 < 0xc0) ∧
          0x800 ≤ s.getD i 0 % 256 % 16 * 4096 + s.getD (i + 1) 0 % 256 % 64 * 64 +
            s.getD (i + 2) 0 % 256 % 64 ∧
          ¬ (0xD800 ≤ s.getD i 0 % 256 % 16 * 4096 + s.getD (i + 1) 0 % 256 % 64 * 64 +
              s.getD (i + 2) 0 % 256 % 64 ∧
            s.getD i 0 % 256 % 16 * 4096 + s.getD (i + 1) 0 % 256 % 64 * 64 +
              s.getD (i + 2) 0 % 256 % 64 < 0xE000) then
        some (UTF16LEUnits (s.getD i 0 % 256 % 16 * 4096 + s.getD (i + 1) 0 % 256 % 64 * 64 +
          s.getD (i + 2) 0 % 256 % 64), i + 3)
      else none := by
  unfold UTF8ToUTF16LEStep
  have e1 : ¬ s.getD i 0 % 256 < 0x80 := by omega
  have e2 : ¬ s.getD i 0 % 256 < 0xc0 := by omega
  have e3 : ¬ s.getD i 0 % 256 < 0xe0 := by omega
  simp only [e1, e2, e3, if_false, h1, if_true, ucs4_three]
  generalize hcp : s.getD i 0 % 256 % 16 * 4096 + s.getD (i + 1) 0 % 256 % 64 * 64 +
    s.getD (i + 2) 0 % 256 % 64 = cp
  have hlt : cp < 2 ^ 16 := by omega
  simp only [ne_eq, surrogate_iff cp hlt]
  by_cases hc : UTF8CheckContinuation s i 2 = true
  · obtain ⟨hl, hb1, hb2⟩ := (checkContinuation_two s i).mp hc
    rw [and_0xc0 _ (Nat.mod_lt _ (by norm_num))] at hb1 hb2
    simp only [hc, if_true, hl, hb1, hb2, and_self, true_and, ge_iff_le]
    by_cases hu : 0x800 ≤ cp ∧ ¬ (0xD800 ≤ cp ∧ cp < 0xE000)
    · simp only [hu, if_true, not_false_eq_true, and_self]
      rw [units_bmp_code _ (by omega)]
    · simp only [hu, if_false]
  · have hn : ¬ (i + 2 < s.length ∧
        (0x80 ≤ s.getD (i + 1) 0 % 256 ∧ s.getD (i + 1) 0 % 256 < 0xc0) ∧
        (0x80 ≤ s.getD (i + 2) 0 % 256 ∧ s.getD (i + 2) 0 % 256 < 0xc0)) := by
      rw [← and_0xc0 _ (Nat.mod_lt _ (by norm_num)), ← and_0xc0 _ (Nat.mod_lt _ (by norm_num)),
        ← checkContinuation_two]
      exact hc
    have hn2 : ¬ (i + 2 < s.length ∧
        (0x80 ≤ s.getD (i + 1) 0 % 256 ∧ s.getD (i + 1) 0 % 256 < 0xc0) ∧
        (0x80 ≤ s.getD (i + 2) 0 % 256 ∧ s.getD (i + 2) 0 % 256 < 0xc0) ∧
        0x800 ≤ cp ∧ ¬ (0xD800 ≤ cp ∧ cp < 0xE000)) :=
      fun h => hn ⟨h.1, h.2.1, h.2.2.1⟩
    simp only [hc, hn2, if_false, Bool.false_eq_true]

theorem step_four (s : Bytes) (i : Nat) (h0 : 0xf0 ≤ s.getD i 0 % 256)
    (h1 : s.getD i 0 % 256 < 0xf8) :
    UTF8ToUTF16LEStep s i =
      if i + 3 < s.length ∧
          (0x80 ≤ s.getD (i + 1) 0 % 256 ∧ s.getD (i + 1) 0 % 256 < 0xc0) ∧
          (0x80 ≤ s.getD (i + 2) 0 % 256 ∧ s.getD (i + 2) 0 % 256 < 0xc0) ∧
          (0x80 ≤ s.getD (i + 3) 0 % 256 ∧ s.getD (i + 3) 0 % 256 < 0xc0) ∧
          0x10000 ≤ s.getD i 0 % 256 % 8 * 262144 + s.getD (i + 1) 0 % 256 % 64 * 4096 +
            s.getD (i + 2) 0 % 256 % 64 * 64 + s.getD (i + 3) 0 % 256 % 64 ∧
          s.getD i 0 % 256 % 8 * 262144 + s.getD (i + 1) 0 % 256 % 64 * 4096 +
            s.getD (i + 2) 0 % 256 % 64 * 64 + s.getD (i + 3) 0 % 256 % 64 < 0x110000 then
        some (UTF16LEUnits (s.getD i 0 % 256 % 8 * 262144 +
          s.getD (i + 1) 0 % 256 % 64 * 4096 + s.getD (i + 2) 0 % 256 % 64 * 64 +
          s.getD (i + 3) 0 % 256 % 64), i + 4)
      else none := by
  unfold UTF8ToUTF16LEStep
  have e1 : ¬ s.getD i 0 % 256 < 0x80 := by omega
  have e2 : ¬ s.getD i 0 % 256 < 0xc0 := by omega
  have e3 : ¬ s.getD i 0 % 256 < 0xe0 := by omega
  have e4 : ¬ s.getD i 0 % 256 < 0xf0 := by omega
  simp only [e1, e2, e3, e4, if_false, h1, if_true, ucs4_four]
  generalize hcp : s.getD i 0 % 256 % 8 * 262144 + s.getD (i + 1) 0 % 256 % 64 * 4096 +
    s.getD (i + 2) 0 % 256 % 64 * 64 + s.getD (i + 3) 0 % 256 % 64 = cp
  by_cases hc : UTF8CheckContinuation s i 3 = true
  · obtain ⟨hl, hb1, hb2, hb3⟩ := (checkContinuation_three s i).mp hc
    rw [and_0xc0 _ (Nat.mod_lt _ (by norm_num))] at hb1 hb2 hb3
    simp only [hc, if_true, hl, hb1, hb2, hb3, and_self, true_and, ge_iff_le]
    by_cases hu : 0x10000 ≤ cp ∧ cp < 0x110000
    · simp only [hu, if_true, and_self]
      rw [units_supplementary _ hu.1]
    · simp only [hu, if_false]
  · have hn : ¬ (i + 3 < s.length ∧
        (0x80 ≤ s.getD (i + 1) 0 % 256 ∧ s.getD (i + 1) 0 % 256 < 0xc0) ∧
        (0x80 ≤ s.getD (i + 2) 0 % 256 ∧ s.getD (i + 2) 0 % 256 < 0xc0) ∧
        (0x80 ≤ s.getD (i + 3) 0 % 256 ∧ s.getD (i + 3) 0 % 256 < 0xc0)) := by
      rw [← and_0xc0 _ (Nat.mod_lt _ (by norm_num)), ← and_0xc0 _ (Nat.mod_lt _ (by norm_num)),
        ← and_0xc0 _ (Nat.mod_lt _ (by norm_num)), ← checkContinuation_three]
      exact hc
    have hn2 : ¬ (i + 3 < s.length ∧
        (0x80 ≤ s.getD (i + 1) 0 % 256 ∧ s.getD (i + 1) 0 % 256 < 0xc0) ∧
        (0x80 ≤ s.getD (i + 2) 0 % 256 ∧ s.getD (i + 2) 0 % 256 < 0xc0) ∧
        (0x80 ≤ s.getD (i + 3) 0 % 256 ∧ s.getD (i + 3) 0 % 256 < 0xc0) ∧
        0x10000 ≤ cp ∧ cp < 0x110000) :=
      fun h => hn ⟨h.1, h.2.1, h.2.2.1, h.2.2.2.1⟩
    simp only [hc, hn2, if_false, Bool.false_eq_true]

theorem getD_of_drop_append (s l rest : List Nat) (i k : Nat) (hd : s.drop i = l ++ rest)
    (hk : k < l.length) : s.getD (i + k) 0 = l.getD k 0 := by
  rw [← getD_of_drop, hd, List.getD_append _ _ _ _ hk]

theorem length_of_drop_append (s l rest : List Nat) (i : Nat) (hd : s.drop i = l ++ rest)
    (hl : 0 < l.length) : i + l.length + rest.length = s.length := by
  have := length_of_drop_eq s l rest i hd
  omega

theorem drop_of_drop_append (s l rest : List Nat) (i : Nat) (hd : s.drop i = l ++ rest) :
    s.drop (i + l.length) = rest := by
  rw [← List.drop_drop, hd, List.drop_left]

theorem utf8Encode_one (cp : Nat) (h : cp < 0x80) : utf8Encode cp = [cp] := by
  simp only [utf8Encode, h, if_true]

theorem utf8Encode_two (cp : Nat) (h0 : 0x80 ≤ cp) (h : cp < 0x800) :
    utf8Encode cp = [0xC0 + cp / 64, 0x80 + cp % 64] := by
  have e : ¬ cp < 0x80 := by omega
  simp only [utf8Encode, e, if_false, h, if_true]

theorem utf8Encode_three (cp : Nat) (h0 : 0x800 ≤ cp) (h : cp < 0x10000) :
    utf8Encode cp = [0xE0 + cp / 4096, 0x80 + cp / 64 % 64, 0x80 + cp % 64] := by
  have e : ¬ cp < 0x80 := by omega
  have e2 : ¬ cp < 0x800 := by omega
  simp only [utf8Encode, e, e2, if_false, h, if_true]

theorem utf8Encode_four (cp : Nat) (h0 : 0x10000 ≤ cp) :
    utf8Encode cp =
      [0xF0 + cp / 262144, 0x80 + cp / 4096 % 64, 0x80 + cp / 64 % 64, 0x80 + cp % 64] := by
  have e : ¬ cp < 0x80 := by omega
  have e2 : ¬ cp < 0x800 := by omega
  have e3 : ¬ cp < 0x10000 := by omega
  simp only [utf8Encode, e, e2, e3, if_false]

theorem utf8Encode_length_pos (cp : Nat) : 0 < (utf8Encode cp).length := by
  unfold utf8Encode
  split_ifs <;> simp

theorem step_of_encode (s rest : Bytes) (i cp : Nat) (hcp : isScalarValue cp)
    (hd : s.drop i = utf8Encode cp ++ rest) :
    UTF8ToUTF16LEStep s i = some (UTF16LEUnits cp, i + (utf8Encode cp).length) := by
  have hlt : cp < 0x110000 := by unfold isScalarValue at hcp; omega
  by_cases c1 : cp < 0x80
  · rw [utf8Encode_one cp c1] at hd ⊢
    have g0 := getD_of_drop_append s _ rest i 0 hd (by simp)
    simp only [Nat.add_zero, List.getD_cons_zero] at g0
    have hm : s.getD i 0 % 256 = cp := by rw [g0]; omega
    rw [step_ascii s i (by rw [hm]; exact c1), hm]
    rfl
  by_cases c2 : cp < 0x800
  · rw [utf8Encode_two cp (by omega) c2] at hd ⊢
    have g0 := getD_of_drop_append s _ rest i 0 hd (by simp)
    have g1 := getD_of_drop_append s _ rest i 1 hd (by simp)
    have hl := length_of_drop_append s _ rest i hd (by simp)
    simp only [Nat.add_zero, List.getD_cons_zero, List.getD_cons_succ, List.length_cons,
      List.length_nil] at g0 g1 hl
    have m0 : s.getD i 0 % 256 = 0xC0 + cp / 64 := by rw [g0]; omega
    have m1 : s.getD (i + 1) 0 % 256 = 0x80 + cp % 64 := by rw [g1]; omega
    rw [step_two s i (by rw [m0]; omega) (by rw [m0]; omega), m0, m1]
    have e : (0xC0 + cp / 64) % 32 * 64 + (0x80 + cp % 64) % 64 = cp := by omega
    rw [e, if_pos (by omega)]
    rfl
  by_cases c3 : cp < 0x10000
  · rw [utf8Encode_three cp (by omega) c3] at hd ⊢
    have g0 := getD_of_drop_append s _ rest i 0 hd (by simp)
    have g1 := getD_of_drop_append s _ rest i 1 hd (by simp)
    have g2 := getD_of_drop_append s _ rest i 2 hd (by simp)
    have hl := length_of_drop_append s _ rest i hd (by simp)
    simp only [Nat.add_zero, List.getD_cons_zero, List.getD_cons_succ, List.length_cons,
      List.length_nil] at g0 g1 g2 hl
    have m0 : s.getD i 0 % 256 = 0xE0 + cp / 4096 := by rw [g0]; omega
    have m1 : s.getD (i + 1) 0 % 256 = 0x80 + cp / 64 % 64 := by rw [g1]; omega
    have m2 : s.getD (i + 2) 0 % 256 = 0x80 + cp % 64 := by rw [g2]; omega
    rw [step_three s i (by rw [m0]; omega) (by rw [m0]; omega), m0, m1, m2]
    have e : (0xE0 + cp / 4096) % 16 * 4096 + (0x80 + cp / 64 % 64) % 64 * 64 +
        (0x80 + cp % 64) % 64 = cp := by omega
    rw [e, if_pos (by unfold isScalarValue at hcp; omega)]
    rfl
  · rw [utf8Encode_four cp (by omega)] at hd ⊢
    have g0 := getD_of_drop_append s _ rest i 0 hd (by simp)
    have g1 := getD_of_drop_append s _ rest i 1 hd (by simp)
    have g2 := getD_of_drop_append s _ rest i 2 hd (by simp)
    have g3 := getD_of_drop_append s _ rest i 3 hd (by simp)
    have hl := length_of_drop_append s _ rest i hd (by simp)
    simp only [Nat.add_zero, List.getD_cons_zero, List.getD_cons_succ, List.length_cons,
      List.length_nil] at g0 g1 g2 g3 hl
    have m0 : s.getD i 0 % 256 = 0xF0 + cp / 262144 := by rw [g0]; omega
    have m1 : s.getD (i + 1) 0 % 256 = 0x80 + cp / 4096 % 64 := by rw [g1]; omega
    have m2 : s.getD (i + 2) 0 % 256 = 0x80 + cp / 64 % 64 := by rw [g2]; omega
    have m3 : s.getD (i + 3) 0 % 256 = 0x80 + cp % 64 := by rw [g3]; omega
    rw [step_four s i (by rw [m0]; omega) (by rw [m0]; omega), m0, m1, m2, m3]
    have e : (0xF0 + cp / 262144) % 8 * 262144 + (0x80 + cp / 4096 % 64) % 64 * 4096 +
        (0x80 + cp / 64 % 64) % 64 * 64 + (0x80 + cp % 64) % 64 = cp := by omega
    rw [e, if_pos (by omega)]
    rfl

theorem step_decode (s : Bytes) (i : Nat) (unit : Bytes) (j : Nat)
    (hb : ∀ b ∈ s, b < 256) (hi : i < s.length)
    (h : UTF8ToUTF16LEStep s i = some (unit, j)) :
    ∃ cp, isScalarValue cp ∧ unit = UTF16LEUnits cp ∧ j = i + (utf8Encode cp).length ∧
      s.drop i = utf8Encode cp ++ s.drop j := by
  have m0 : s.getD i 0 % 256 = s.getD i 0 := Nat.mod_eq_of_lt (getD_lt_of_bytes s hb _)
  have m1 : s.getD (i + 1) 0 % 256 = s.getD (i + 1) 0 :=
    Nat.mod_eq_of_lt (getD_lt_of_bytes s hb _)
  have m2 : s.getD (i + 2) 0 % 256 = s.getD (i + 2) 0 :=
    Nat.mod_eq_of_lt (getD_lt_of_bytes s hb _)
  have m3 : s.getD (i + 3) 0 % 256 = s.getD (i + 3) 0 :=
    Nat.mod_eq_of_lt (getD_lt_of_bytes s hb _)
  have hlt0 := getD_lt_of_bytes s hb i
  by_cases c1 : s.getD i 0 < 0x80
  · rw [step_ascii s i (by rw [m0]; exact c1), m0] at h
    injection h with h
    injection h with hu hj
    refine ⟨s.getD i 0, Or.inl (by omega), hu.symm, ?_, ?_⟩
    · rw [utf8Encode_one _ c1, ← hj]; rfl
    · rw [utf8Encode_one _ c1, ← hj]
      exact drop_cons_getD s i hi
  by_cases c2 : s.getD i 0 < 0xc0
  · rw [step_none s i (Or.inl (by rw [m0]; omega))] at h
    cases h
  by_cases c3 : s.getD i 0 < 0xe0
  · rw [step_two s i (by rw [m0]; omega) (by rw [m0]; omega), m0, m1] at h
    split_ifs at h with hc
    obtain ⟨hl, ⟨hb1, hb1'⟩, hu⟩ := hc
    injection h with h
    injection h with hu1 hj
    have henc : utf8Encode (s.getD i 0 % 32 * 64 + s.getD (i + 1) 0 % 64) =
        [s.getD i 0, s.getD (i + 1) 0] := by
      rw [utf8Encode_two _ hu (by omega)]
      congr 1
      · omega
      · congr 1; omega
    refine ⟨_, Or.inl (by omega), hu1.symm, ?_, ?_⟩
    · rw [henc, ← hj]; rfl
    · rw [henc, ← hj, drop_cons_getD s i hi, drop_cons_getD s (i + 1) hl]
      rfl
  by_cases c4 : s.getD i 0 < 0xf0
  · rw [step_three s i (by rw [m0]; omega) (by rw [m0]; omega), m0, m1, m2] at h
    split_ifs at h with hc
    obtain ⟨hl, ⟨hb1, hb1'⟩, ⟨hb2, hb2'⟩, hu, hs⟩ := hc
    injection h with h
    injection h with hu1 hj
    have henc : utf8Encode (s.getD i 0 % 16 * 4096 + s.getD (i + 1) 0 % 64 * 64 +
        s.getD (i + 2) 0 % 64) = [s.getD i 0, s.getD (i + 1) 0, s.getD (i + 2) 0] := by
      rw [utf8Encode_three _ hu (by omega)]
      congr 1
      · omega
      · congr 1
        · omega
        · congr 1; omega
    refine ⟨_, by unfold isScalarValue; omega, hu1.symm, ?_, ?_⟩
    · rw [henc, ← hj]; rfl
    · rw [henc, ← hj, drop_cons_getD s i hi, drop_cons_getD s (i + 1) (by omega),
        drop_cons_getD s (i + 2) hl]
      rfl
  by_cases c5 : s.getD i 0 < 0xf8
  · rw [step_four s i (by rw [m0]; omega) (by rw [m0]; omega), m0, m1, m2, m3] at h
    split_ifs at h with hc
    obtain ⟨hl, ⟨hb1, hb1'⟩, ⟨hb2, hb2'⟩, ⟨hb3, hb3'⟩, hu, hs⟩ := hc
    injection h with h
    injection h with hu1 hj
    have henc : utf8Encode (s.getD i 0 % 8 * 262144 + s.getD (i + 1) 0 % 64 * 4096 +
        s.getD (i + 2) 0 % 64 * 64 + s.getD (i + 3) 0 % 64) =
        [s.getD i 0, s.getD (i + 1) 0, s.getD (i + 2) 0, s.getD (i + 3) 0] := by
      rw [utf8Encode_four _ hu]
      congr 1
      · omega
      · congr 1
        · omega
        · congr 1
          · omega
          · congr 1; omega
    refine ⟨_, by unfold isScalarValue; omega, hu1.symm, ?_, ?_⟩
    · rw [henc, ← hj]; rfl
    · rw [henc, ← hj, drop_cons_getD s i hi, drop_cons_getD s (i + 1) (by omega),
        drop_cons_getD s (i + 2) (by omega), drop_cons_getD s (i + 3) hl]
      rfl
  · rw [step_none s i (Or.inr (by rw [m0]; omega))] at h
    cases h

theorem UTF8ToUTF16LELoop_of_encoding (s : Bytes) (strict : Bool) :
    ∀ (cps : List Nat) (fuel i : Nat) (acc : Bytes), (∀ cp ∈ cps, isScalarValue cp) →
      s.drop i = cps.flatMap utf8Encode → s.length - i ≤ fuel →
      UTF8ToUTF16LELoop s strict fuel i acc = .ok (acc ++ cps.flatMap UTF16LEUnits) := by
  intro cps
  induction cps with
  | nil =>
    intro fuel i acc _ hd _
    have hlen : s.length ≤ i := by
      have := congrArg List.length hd
      simp at this
      omega
    cases fuel with
    | zero => simp [UTF8ToUTF16LELoop]
    | succ f => simp [UTF8ToUTF16LELoop, Nat.not_lt.mpr hlen]
  | cons cp cps ih =>
    intro fuel i acc hcps hd hfuel
    rw [List.flatMap_cons] at hd
    have hpos := utf8Encode_length_pos cp
    have hl := length_of_drop_append s _ _ i hd hpos
    have hstep := step_of_encode s _ i cp (hcps cp (List.mem_cons_self _ _)) hd
    cases fuel with
    | zero => omega
    | succ f =>
      have hi : i < s.length := by omega
      simp only [UTF8ToUTF16LELoop, hi, if_true, hstep]
      rw [ih f _ _ (fun x hx => hcps x (List.mem_cons_of_mem _ hx))
        (drop_of_drop_append s _ _ i hd) (by omega)]
      simp [List.flatMap_cons]

theorem UTF8ToUTF16LELoop_encoding_of_ok (s : Bytes) (hb : ∀ b ∈ s, b < 256) :
    ∀ (fuel i : Nat) (acc u : Bytes), UTF8ToUTF16LELoop s true fuel i acc = .ok u →
      s.length - i ≤ fuel →
      ∃ cps : List Nat, (∀ cp ∈ cps, isScalarValue cp) ∧ s.drop i = cps.flatMap utf8Encode ∧
        u = acc ++ cps.flatMap UTF16LEUnits := by
  intro fuel
  induction fuel with
  | zero =>
    intro i acc u h hfuel
    simp only [UTF8ToUTF16LELoop] at h
    injection h with h
    refine ⟨[], by simp, ?_, by simp [h]⟩
    simp only [List.flatMap_nil]
    exact List.drop_eq_nil_of_le (by omega)
  | succ f ih =>
    intro i acc u h hfuel
    simp only [UTF8ToUTF16LELoop] at h
    by_cases hi : i < s.length
    · simp only [hi, if_true] at h
      cases hs : UTF8ToUTF16LEStep s i with
      | none =>
        rw [hs] at h
        simp at h
      | some r =>
        obtain ⟨unit, j⟩ := r
        rw [hs] at h
        simp only at h
        obtain ⟨cp, hcp, hu, hj, hd⟩ := step_decode s i unit j hb hi hs
        have hpos := utf8Encode_length_pos cp
        obtain ⟨cps, h1, h2, h3⟩ := ih j (acc ++ unit) u h (by omega)
        refine ⟨cp :: cps, ?_, ?_, ?_⟩
        · intro x hx
          rcases List.mem_cons.mp hx with rfl | hx
          · exact hcp
          · exact h1 x hx
        · rw [List.flatMap_cons, hd, h2]
        · rw [List.flatMap_cons, h3, hu, List.append_assoc]
    · simp only [hi, if_false] at h
      injection h with h
      refine ⟨[], by simp, ?_, by simp [h]⟩
      simp only [List.flatMap_nil]
      exact List.drop_eq_nil_of_le (by omega)

theorem UTF8ToUTF16LE_of_encoding (strict : Bool) (cps : List Nat)
    (h : ∀ cp ∈ cps, isScalarValue cp) :
    UTF8ToUTF16LE (cps.flatMap utf8Encode) strict = .ok (cps.flatMap UTF16LEUnits) := by
  unfold UTF8ToUTF16LE
  rw [UTF8ToUTF16LELoop_of_encoding _ strict cps _ 0 [] h (by simp) (by simp)]
  simp

theorem UTF8ToUTF16LE_ok_iff (s : Bytes) (hb : ∀ b ∈ s, b < 256) :
    (∃ u, UTF8ToUTF16LE s true = .ok u) ↔ WellFormedUTF8 s := by
  constructor
  · rintro ⟨u, hu⟩
    obtain ⟨cps, h1, h2, _⟩ := UTF8ToUTF16LELoop_encoding_of_ok s hb _ 0 [] u hu (by simp)
    exact ⟨cps, h1, by simpa using h2⟩
  · rintro ⟨cps, h1, rfl⟩
    exact ⟨_, UTF8ToUTF16LE_of_encoding true cps h1⟩

theorem UTF8ToUTF16LE_error_iff (s : Bytes) (hb : ∀ b ∈ s, b < 256) :
    UTF8ToUTF16LE s true = .error .JKSNTypeError ↔ ¬ WellFormedUTF8 s := by
  rw [← UTF8ToUTF16LE_ok_iff s hb]
  cases h : UTF8ToUTF16LE s true with
  | error e =>
    have he : e = .JKSNTypeError := UTF8ToUTF16LELoop_error _ _ _ _ _ _ h
    subst he
    simp
  | ok u => simp

theorem continuation_byte (x : Nat) : ((x &&& 0x3f) ||| 0x80) % 256 = 0x80 + x % 64 := by
  rw [and_0x3f, or_0x80 _ (Nat.mod_lt _ (by norm_num))]
  omega

theorem lead_byte_two (x : Nat) (h : x < 0x800) : ((x / 64) ||| 0xc0) % 256 = 0xC0 + x / 64 := by
  rw [or_0xc0 _ (by omega)]
  omega

theorem lead_byte_three (x : Nat) (h : x < 0x10000) :
    ((x / 4096) ||| 0xe0) % 256 = 0xE0 + x / 4096 := by
  rw [or_0xe0 _ (by omega)]
  omega

theorem lead_byte_four (x : Nat) (h : x < 0x200000) :
    ((x / 262144) ||| 0xf0) % 256 = 0xF0 + x / 262144 := by
  rw [or_0xf0 _ (by omega)]
  omega

theorem pair_code_point (u v : Nat) (hu0 : 0xD800 ≤ u) (hu : u < 0xDC00) (hv0 : 0xDC00 ≤ v)
    (hv : v < 0xE000) :
    ((((u &&& 0x3ff) <<< 10) ||| (v &&& 0x3ff)) % 2 ^ 32 + 0x10000) % 2 ^ 32 =
      0x10000 + (u - 0xD800) * 1024 + (v - 0xDC00) := by
  rw [and_0x3ff, and_0x3ff, shl_or _ _ 10 (show v % 1024 < 2 ^ 10 by omega)]
  omega

theorem UTF16ToUTF8Step_spec (units : List Nat) (i : Nat) :
    UTF16ToUTF8Step units i =
      if ¬ (0xD800 ≤ units.getD i 0 % 2 ^ 16 ∧ units.getD i 0 % 2 ^ 16 < 0xE000) then
        (utf8Encode (units.getD i 0 % 2 ^ 16), i + 1)
      else if i + 1 < units.length ∧ units.getD i 0 % 2 ^ 16 < 0xDC00 ∧
          0xDC00 ≤ units.getD (i + 1) 0 % 2 ^ 16 ∧ units.getD (i + 1) 0 % 2 ^ 16 < 0xE000 then
        (utf8Encode (0x10000 + (units.getD i 0 % 2 ^ 16 - 0xD800) * 1024 +
          (units.getD (i + 1) 0 % 2 ^ 16 - 0xDC00)), i + 2)
      else (utf8Encode 0xFFFD, i + 1) := by
  unfold UTF16ToUTF8Step
  generalize hu0 : units.getD i 0 % 2 ^ 16 = u0
  generalize hu1 : units.getD (i + 1) 0 % 2 ^ 16 = u1
  have b0 : u0 < 2 ^ 16 := by rw [← hu0]; exact Nat.mod_lt _ (by norm_num)
  have b1 : u1 < 2 ^ 16 := by rw [← hu1]; exact Nat.mod_lt _ (by norm_num)
  simp only [ne_eq, surrogate_iff u0 b0, high_surrogate_iff u0 b0, low_surrogate_iff u1 b1]
  by_cases c1 : u0 < 0x80
  · have hn : ¬ (0xD800 ≤ u0 ∧ u0 < 0xE000) := by omega
    simp only [c1, if_true, hn, not_false_eq_true, utf8Encode_one u0 c1]
    rw [Nat.mod_eq_of_lt (by omega)]
  by_cases c2 : u0 < 0x800
  · have hn : ¬ (0xD800 ≤ u0 ∧ u0 < 0xE000) := by omega
    simp only [c1, if_false, c2, if_true, hn, not_false_eq_true,
      utf8Encode_two u0 (by omega) c2, Nat.shiftRight_eq_div_pow, Nat.reducePow,
      lead_byte_two u0 c2, continuation_byte]
  by_cases c3 : 0xD800 ≤ u0 ∧ u0 < 0xE000
  · simp only [c1, c2, if_false, c3, not_true_eq_false, and_self, if_true, true_and]
    by_cases c4 : i + 1 < units.length ∧ u0 < 0xDC00 ∧ 0xDC00 ≤ u1 ∧ u1 < 0xE000
    · simp only [c4, and_self, if_true, pair_code_point u0 u1 c3.1 c4.2.1 c4.2.2.1 c4.2.2.2]
      generalize hcp : 0x10000 + (u0 - 0xD800) * 1024 + (u1 - 0xDC00) = cp
      have hcp0 : 0x10000 ≤ cp := by omega
      have hcp1 : cp < 0x200000 := by omega
      simp only [utf8Encode_four cp hcp0, Nat.shiftRight_eq_div_pow, Nat.reducePow,
        lead_byte_four cp hcp1, continuation_byte]
    · simp only [c4, if_false]
      rfl
  · simp only [c1, c2, if_false, c3, not_false_eq_true, if_true,
      utf8Encode_three u0 (by omega) b0, Nat.shiftRight_eq_div_pow, Nat.reducePow,
      lead_byte_three u0 b0, continuation_byte]

theorem utf16CodePoints_cons (u : Nat) (tail : List Nat) :
    utf16CodePoints (u :: tail) =
      if 0xD800 ≤ u ∧ u < 0xDC00 ∧ 0 < tail.length ∧ 0xDC00 ≤ tail.getD 0 0 ∧
          tail.getD 0 0 < 0xE000 then
        (0x10000 + (u - 0xD800) * 1024 + (tail.getD 0 0 - 0xDC00)) ::
          utf16CodePoints (tail.drop 1)
      else (if 0xD800 ≤ u ∧ u < 0xE000 then 0xFFFD else u) :: utf16CodePoints tail := by
  cases tail with
  | nil => simp [utf16CodePoints]
  | cons v rest =>
    rw [utf16CodePoints]
    simp only [List.length_cons, Nat.zero_lt_succ, true_and, List.getD_cons_zero, List.drop_one,
      List.tail_cons]

theorem UTF16ToUTF8Loop_eq (units : List Nat) (hb : ∀ u ∈ units, u < 2 ^ 16) :
    ∀ (fuel i : Nat) (acc : Bytes), units.length - i ≤ fuel →
      UTF16ToUTF8Loop units fuel i acc =
        acc ++ (utf16CodePoints (units.drop i)).flatMap utf8Encode := by
  have hmod : ∀ k, units.getD k 0 % 2 ^ 16 = units.getD k 0 := by
    intro k
    apply Nat.mod_eq_of_lt
    by_cases hk : k < units.length
    · rw [List.getD_eq_getElem _ _ hk]
      exact hb _ (List.getElem_mem _)
    · rw [List.getD_eq_default _ _ (by omega)]
      norm_num
  intro fuel
  induction fuel with
  | zero =>
    intro i acc hfuel
    rw [List.drop_eq_nil_of_le (by omega)]
    simp [UTF16ToUTF8Loop, utf16CodePoints]
  | succ f ih =>
    intro i acc hfuel
    by_cases hi : i < units.length
    · simp only [UTF16ToUTF8Loop, hi, if_true]
      rw [drop_cons_getD units i hi, utf16CodePoints_cons, UTF16ToUTF8Step_spec, hmod, hmod]
      have hlen : 0 < (units.drop (i + 1)).length ↔ i + 1 < units.length := by
        simp only [List.length_drop]; omega
      have hg : (units.drop (i + 1)).getD 0 0 = units.getD (i + 1) 0 := getD_of_drop units _ 0
      have hdd : (units.drop (i + 1)).drop 1 = units.drop (i + 2) := by
        rw [List.drop_drop]
      rw [hg, hdd]
      by_cases c3 : 0xD800 ≤ units.getD i 0 ∧ units.getD i 0 < 0xE000
      · by_cases c4 : i + 1 < units.length ∧ units.getD i 0 < 0xDC00 ∧
            0xDC00 ≤ units.getD (i + 1) 0 ∧ units.getD (i + 1) 0 < 0xE000
        · have c5 : 0xD800 ≤ units.getD i 0 ∧ units.getD i 0 < 0xDC00 ∧
              0 < (units.drop (i + 1)).length ∧ 0xDC00 ≤ units.getD (i + 1) 0 ∧
              units.getD (i + 1) 0 < 0xE000 :=
            ⟨c3.1, c4.2.1, hlen.mpr c4.1, c4.2.2⟩
          rw [if_pos c5, if_neg (not_not.mpr c3), if_pos c4]
          simp only
          rw [ih _ _ (by omega), List.flatMap_cons, List.append_assoc]
        · have c5 : ¬ (0xD800 ≤ units.getD i 0 ∧ units.getD i 0 < 0xDC00 ∧
              0 < (units.drop (i + 1)).length ∧ 0xDC00 ≤ units.getD (i + 1) 0 ∧
              units.getD (i + 1) 0 < 0xE000) :=
            fun h => c4 ⟨hlen.mp h.2.2.1, h.2.1, h.2.2.2⟩
          rw [if_neg c5, if_neg (not_not.mpr c3), if_neg c4, if_pos c3]
          simp only
          rw [ih _ _ (by omega), List.flatMap_cons, List.append_assoc]
      · have c5 : ¬ (0xD800 ≤ units.getD i 0 ∧ units.getD i 0 < 0xDC00 ∧
            0 < (units.drop (i + 1)).length ∧ 0xDC00 ≤ units.getD (i + 1) 0 ∧
            units.getD (i + 1) 0 < 0xE000) := fun h => c3 ⟨h.1, by omega⟩
        rw [if_neg c5, if_pos c3, if_neg c3]
        simp only
        rw [ih _ _ (by omega), List.flatMap_cons, List.append_assoc]
    · simp only [UTF16ToUTF8Loop, hi, if_false]
      rw [List.drop_eq_nil_of_le (by omega)]
      simp [utf16CodePoints]

theorem UTF16ToUTF8_eq (units : List Nat) (hb : ∀ u ∈ units, u < 2 ^ 16) :
    UTF16ToUTF8 units = (utf16CodePoints units).flatMap utf8Encode := by
  unfold UTF16ToUTF8
  rw [UTF16ToUTF8Loop_eq units hb _ 0 [] (by simp)]
  simp

theorem utf16CodePoints_scalar : ∀ (n : Nat) (units : List Nat), units.length ≤ n →
    (∀ u ∈ units, u < 2 ^ 16) → ∀ cp ∈ utf16CodePoints units, isScalarValue cp := by
  intro n
  induction n with
  | zero =>
    intro units hl _ cp hcp
    have : units = [] := List.length_eq_zero.mp (by omega)
    subst this
    simp [utf16CodePoints] at hcp
  | succ n ih =>
    intro units hl hb cp hcp
    cases units with
    | nil => simp [utf16CodePoints] at hcp
    | cons u tail =>
      have hu : u < 2 ^ 16 := hb u (List.mem_cons_self _ _)
      have htail : ∀ x ∈ tail, x < 2 ^ 16 := fun x hx => hb x (List.mem_cons_of_mem _ hx)
      have hv : tail.getD 0 0 < 2 ^ 16 := by
        cases tail with
        | nil => simp
        | cons v rest => simpa using htail v (List.mem_cons_self _ _)
      simp only [List.length_cons] at hl
      rw [utf16CodePoints_cons] at hcp
      split_ifs at hcp with c1 c2
      · rcases List.mem_cons.mp hcp with h0 | h
        · rw [h0]; unfold isScalarValue; omega
        · exact ih (tail.drop 1) (by simp only [List.length_drop]; omega)
            (fun x hx => htail x (List.mem_of_mem_drop hx)) cp h
      · rcases List.mem_cons.mp hcp with h0 | h
        · rw [h0]; unfold isScalarValue; omega
        · exact ih tail (by omega) htail cp h
      · rcases List.mem_cons.mp hcp with h0 | h
        · rw [h0]; unfold isScalarValue; omega
        · exact ih tail (by omega) htail cp h

/-! ### The swapped array, the ordering of values, and the shape of the optimized tree -/

theorem length_flatMap_const {α β : Type} (f : α → List β) (n : Nat)
    (h : ∀ a, (f a).length = n) : ∀ l : List α, (l.flatMap f).length = l.length * n
  | [] => by simp
  | a :: l => by
    rw [List.flatMap_cons, List.length_append, h a, length_flatMap_const f n h l,
      List.length_cons, Nat.succ_mul]
    omega

theorem swapCells_length (rows : List (List (JKSNValue × Except JKSNErr JKSNProxy))) :
    (swapCells rows).length = (swapColumns rows).length * (1 + rows.length) := by
  unfold swapCells
  apply length_flatMap_const
  intro a
  simp only [List.length_cons, List.length_map]
  omega

theorem valLt_object (xs ys : List (JKSNValue × JKSNValue)) :
    valLt (.object xs) (.object ys) = valLtEntries xs xs := by
  simp only [valLt]

theorem bytesLt_irrefl : ∀ s : Bytes, bytesLt s s = false
  | [] => by simp [bytesLt]
  | a :: s => by simp [bytesLt, bytesLt_irrefl s]

mutual
theorem valEq_refl : ∀ v : JKSNValue, valEq v v = true
  | .undefined => by simp [valEq]
  | .null => by simp [valEq]
  | .bool _ => by simp [valEq]
  | .int _ => by simp [valEq]
  | .string _ => by simp [valEq]
  | .blob _ => by simp [valEq]
  | .unspecified => by simp [valEq]
  | .array xs => by simp [valEq, valEqList_refl xs]
  | .object kvs => by simp [valEq, valEqEntries_refl kvs]
theorem valEqList_refl : ∀ xs : List JKSNValue, valEqList xs xs = true
  | [] => by simp [valEqList]
  | x :: xs => by simp [valEqList, valEq_refl x, valEqList_refl xs]
theorem valEqEntries_refl : ∀ kvs : List (JKSNValue × JKSNValue), valEqEntries kvs kvs = true
  | [] => by simp [valEqEntries]
  | (k, v) :: rest => by simp [valEqEntries, valEq_refl k, valEq_refl v, valEqEntries_refl rest]
end

mutual
theorem valLt_irrefl : ∀ v : JKSNValue, valLt v v = false
  | .undefined => by simp [valLt]
  | .null => by simp [valLt]
  | .bool _ => by simp [valLt]
  | .int _ => by simp [valLt]
  | .string _ => by simp [valLt, bytesLt_irrefl]
  | .blob _ => by simp [valLt, bytesLt_irrefl]
  | .unspecified => by simp [valLt]
  | .array xs => by simp [valLt, valLtList_irrefl xs]
  | .object kvs => by simp [valLt, valLtEntries_irrefl kvs]
theorem valLtList_irrefl : ∀ xs : List JKSNValue, valLtList xs xs = false
  | [] => by simp [valLtList]
  | x :: xs => by simp [valLtList, valLt_irrefl x, valEq_refl x, valLtList_irrefl xs]
theorem valLtEntries_irrefl : ∀ kvs : List (JKSNValue × JKSNValue), valLtEntries kvs kvs = false
  | [] => by simp [valLtEntries]
  | (k, v) :: rest => by
    simp [valLtEntries, valLt_irrefl k, valLt_irrefl v, valEq_refl k, valEq_refl v,
      valLtEntries_irrefl rest]
end

theorem valLt_object_false (xs ys : List (JKSNValue × JKSNValue)) :
    valLt (.object xs) (.object ys) = false := by
  rw [valLt_object, valLtEntries_irrefl]

theorem optimizedNode_refl (p : JKSNProxy) : optimizedNode p p :=
  ⟨rfl, rfl, rfl, Or.inl ⟨rfl, rfl, rfl⟩⟩

theorem forall₂_optimizedNode_refl : ∀ l : List JKSNProxy, List.Forall₂ optimizedNode l l
  | [] => List.Forall₂.nil
  | p :: l => List.Forall₂.cons (optimizedNode_refl p) (forall₂_optimizedNode_refl l)

theorem size_zero_mk (o : JKSNValue) (c : Nat) (d b : Bytes) (ch : List JKSNProxy) (h : Nat) :
    (JKSNProxy.mk o c d b ch h).size 0 = 1 + d.length + b.length + JKSNProxy.sizeList 0 ch := by
  simp [JKSNProxy.size]

theorem size_one_mk (o : JKSNValue) (c : Nat) (d b : Bytes) (ch : List JKSNProxy) (h : Nat) :
    (JKSNProxy.mk o c d b ch h).size 1 = 1 + d.length + b.length := by
  simp [JKSNProxy.size]

mutual
theorem size_eq_length : ∀ p : JKSNProxy, p.size 0 = (p.toString true).length
  | .mk o c d b ch h => by
    rw [size_zero_mk, sizeList_eq_length ch]
    simp [JKSNProxy.toString]
    omega
theorem sizeList_eq_length : ∀ l : List JKSNProxy,
    JKSNProxy.sizeList 0 l = (JKSNProxy.toStringList l).length
  | [] => by simp [JKSNProxy.sizeList, JKSNProxy.toStringList]
  | p :: l => by
    simp [JKSNProxy.sizeList, JKSNProxy.toStringList, size_eq_length p, sizeList_eq_length l]
end

mutual
theorem optimizeAt_shape : ∀ (p : JKSNProxy) (alive : Bool) (cache : JKSNCache)
    (r : JKSNProxy × JKSNCache), optimizeAt alive cache p = .ok r →
    List.Forall₂ optimizedNode p.nodes r.1.nodes ∧ r.1.size 0 ≤ p.size 0
  | .mk origin control data buf children hash, alive, cache, r, h => by
    by_cases h1 : control &&& 0xf0 = 0x10
    · have halive : alive = true := by
        cases alive with
        | true => rfl
        | false => simp [optimizeAt, h1] at h
      subst halive
      obtain ⟨q, cache1⟩ := r
      obtain ⟨c, d, ho, hq⟩ := optimize_int_node cache cache1 origin control data buf children
        hash q h1 h
      subst hq
      obtain ⟨current, _, _, hout⟩ := optimizeInt_outcome _ _ _ _ _ ho
      simp only at hout
      simp only [nodes_mk, size_zero_mk]
      rcases hout with ⟨hc, hd⟩ | ⟨_, _, hdf, hlen⟩
      · subst hc hd
        exact ⟨forall₂_optimizedNode_refl _, Nat.le_refl _⟩
      · refine ⟨List.Forall₂.cons ⟨rfl, rfl, rfl, Or.inr ⟨Or.inl (deltaForm_class _ _ hdf).1, ?_⟩⟩
          (forall₂_optimizedNode_refl _), by omega⟩
        simp only [size_one_mk]
        omega
    · simp only [optimizeAt, h1, if_false, bind, Except.bind, pure, Except.pure] at h
      by_cases h3 : control &&& 0xf0 = 0x30 ∨ control &&& 0xf0 = 0x40
      · simp only [h3, if_true] at h
        cases hh : optimizeHash cache.texthash control data buf hash with
        | error e => rw [hh] at h; cases h
        | ok x =>
          rw [hh] at h
          cases h
          simp only [nodes_mk, size_zero_mk]
          rcases optimizeHash_cases _ _ _ _ _ _ hh with ⟨hlen, _, hx⟩ | ⟨hc, hd, hb, _⟩
          · subst hx
            refine ⟨List.Forall₂.cons ⟨rfl, rfl, rfl, Or.inr ⟨Or.inr rfl, ?_⟩⟩
              (forall₂_optimizedNode_refl _), ?_⟩
            · simp only [size_one_mk, List.length_cons, List.length_nil]
              omega
            · simp only [List.length_cons, List.length_nil]
              omega
          · rw [hc, hd, hb]
            exact ⟨forall₂_optimizedNode_refl _, Nat.le_refl _⟩
      · simp only [h3, if_false] at h
        by_cases h5 : control &&& 0xf0 = 0x50
        · simp only [h5, if_true] at h
          cases hh : optimizeHash cache.blobhash control data buf hash with
          | error e => rw [hh] at h; cases h
          | ok x =>
            rw [hh] at h
            cases h
            simp only [nodes_mk, size_zero_mk]
            rcases optimizeHash_cases _ _ _ _ _ _ hh with ⟨hlen, _, hx⟩ | ⟨hc, hd, hb, _⟩
            · subst hx
              refine ⟨List.Forall₂.cons ⟨rfl, rfl, rfl, Or.inr ⟨Or.inr rfl, ?_⟩⟩
                (forall₂_optimizedNode_refl _), ?_⟩
              · simp only [size_one_mk, List.length_cons, List.length_nil]
                omega
              · simp only [List.length_cons, List.length_nil]
                omega
            · rw [hc, hd, hb]
              exact ⟨forall₂_optimizedNode_refl _, Nat.le_refl _⟩
        · simp only [h5, if_false] at h
          cases hc : optimizeChildrenAt (alive && decide (control &&& 0xf0 = 0x80)) cache children with
          | error e => rw [hc] at h; cases h
          | ok x =>
            rw [hc] at h
            cases h
            obtain ⟨ih1, ih2, ih3⟩ := optimizeChildrenAt_shape children _ cache x hc
            simp only [nodes_mk, size_zero_mk]
            exact ⟨List.Forall₂.cons ⟨rfl, rfl, ih3, Or.inl ⟨rfl, rfl, rfl⟩⟩ ih1, by omega⟩
theorem optimizeChildrenAt_shape : ∀ (cs : List JKSNProxy) (alive : Bool) (cache : JKSNCache)
    (r : List JKSNProxy × JKSNCache), optimizeChildrenAt alive cache cs = .ok r →
    List.Forall₂ optimizedNode (JKSNProxy.nodesList cs) (JKSNProxy.nodesList r.1) ∧
      JKSNProxy.sizeList 0 r.1 ≤ JKSNProxy.sizeList 0 cs ∧ r.1.length = cs.length
  | [], alive, cache, r, h => by
    simp only [optimizeChildrenAt] at h
    cases h
    exact ⟨by rw [nodesList_nil]; exact List.Forall₂.nil, Nat.le_refl _, rfl⟩
  | child :: rest, alive, cache, r, h => by
    simp only [optimizeChildrenAt, bind, Except.bind, pure, Except.pure] at h
    cases h1 : optimizeAt alive cache child with
    | error e => rw [h1] at h; cases h
    | ok x1 =>
      rw [h1] at h
      simp only at h
      cases h2 : optimizeChildrenAt alive x1.2 rest with
      | error e => rw [h2] at h; cases h
      | ok x2 =>
        rw [h2] at h
        cases h
        obtain ⟨a1, a2⟩ := optimizeAt_shape child alive cache x1 h1
        obtain ⟨b1, b2, b3⟩ := optimizeChildrenAt_shape rest alive x1.2 x2 h2
        simp only [nodesList_cons, JKSNProxy.sizeList, List.length_cons]
        exact ⟨List.rel_append a1 b1, by omega, by omega⟩
end

theorem optimize_shape (p : JKSNProxy) (cache : JKSNCache) (r : JKSNProxy × JKSNCache)
    (h : optimize cache p = .ok r) :
    List.Forall₂ optimizedNode p.nodes r.1.nodes ∧ r.1.size 0 ≤ p.size 0 :=
  optimizeAt_shape p true cache r h

theorem forall₂_index_right {α β : Type} (R : α → β → Prop) (l1 : List α) (l2 : List β)
    (h : List.Forall₂ R l1 l2) :
    ∀ (i : Nat) (b : β), l2[i]? = some b → ∃ a, l1[i]? = some a ∧ R a b := by
  induction h with
  | nil => intro i b hb; simp at hb
  | cons hr _ ih =>
    intro i b hb
    cases i with
    | zero =>
      simp only [List.getElem?_cons_zero, Option.some.injEq] at hb
      subst hb
      exact ⟨_, by simp, hr⟩
    | succ i =>
      simp only [List.getElem?_cons_succ] at hb
      obtain ⟨a, ha, hab⟩ := ih i b hb
      exact ⟨a, by simpa using ha, hab⟩

theorem dumpValue_nodes_ind (nd : Bool) (P : JKSNProxy → Prop)
    (hleaf : ∀ v p, (∀ xs, v ≠ .array xs) → (∀ kvs, v ≠ .object kvs) →
      dumpValue nd v = .ok p → ∀ q ∈ p.nodes, P q)
    (hnode : ∀ o c d ch, c &&& 0xf0 = 0x80 ∨ c &&& 0xf0 = 0x90 ∨ c &&& 0xf0 = 0xa0 →
      ((∃ xs, o = JKSNValue.array xs) ∨ ∃ kvs, o = JKSNValue.object kvs) →
      P (.mk o c d [] ch 0))
    (v : JKSNValue) : ∀ p, dumpValue nd v = .ok p → ∀ q ∈ p.nodes, P q := by
  apply dumpValue_ind nd (fun r => ∀ p, r = .ok p → ∀ q ∈ p.nodes, P q)
  · intro v h1 h2 p h
    exact hleaf v p h1 h2 h
  · intro xs helems hrows p h
    simp only [dumpValue] at h
    obtain ⟨straight, hs, hp⟩ := dumpArrayFrom_ok nd xs _ _ p h
    rcases hp with hp | ⟨_, hw, _⟩
    · subst hp
      obtain ⟨control, data, children, hc, hp, hcls, hlt⟩ :=
        encodeStraightArrayFrom_ok nd xs _ _ hs
      subst hp
      intro q hq
      rw [nodes_mk] at hq
      rcases List.mem_cons.mp hq with h1 | h1
      · rw [h1]; exact hnode _ _ _ _ (Or.inl hcls) (Or.inl ⟨xs, rfl⟩)
      · obtain ⟨x, hx, hqx⟩ := (mem_nodesList q children).mp h1
        exact helems _ (collect_ok_mem _ _ hc x hx) x rfl q hqx
    · obtain ⟨control, data, children, entries, hr, hc, hp, hcls, hlt⟩ :=
        encodeSwappedArrayFrom_ok nd xs _ p hw
      subst hp
      intro q hq
      rw [nodes_mk] at hq
      rcases List.mem_cons.mp hq with h1 | h1
      · rw [h1]; exact hnode _ _ _ _ (Or.inr (Or.inr hcls)) (Or.inl ⟨xs, rfl⟩)
      · obtain ⟨x, hx, hqx⟩ := (mem_nodesList q children).mp h1
        rcases swapCells_mem entries _ (collect_ok_mem _ _ hc x hx) with
          ⟨row, hrow, e, he, hxe⟩ | hu
        · exact hrows _ (swapRows_mem _ _ hr row hrow) row rfl e he x hxe.symm q hqx
        · cases hu
          exact hleaf .unspecified _ (by intro xs h; cases h) (by intro xs h; cases h)
            (by simp only [dumpValue]) q hqx
  · intro kvs hentries p h
    simp only [dumpValue] at h
    obtain ⟨control, data, children, hc, hp, hcls, hlt⟩ := dumpObjectFrom_ok nd kvs _ p h
    subst hp
    intro q hq
    rw [nodes_mk] at hq
    rcases List.mem_cons.mp hq with h1 | h1
    · rw [h1]; exact hnode _ _ _ _ (Or.inr (Or.inl hcls)) (Or.inr ⟨kvs, rfl⟩)
    · obtain ⟨x, hx, hqx⟩ := (mem_nodesList q children).mp h1
      exact hentries _ (collect_ok_mem _ _ hc x hx) x rfl q hqx

theorem leaf_not_string (o : JKSNValue) (c : Nat) (d b : Bytes) (h : Nat)
    (hc : ¬ isTextControl c) (ho : ∀ s, o ≠ .string s) :
    ∀ q ∈ (JKSNProxy.mk o c d b [] h).nodes,
      (isTextControl q.control ∨ ∃ s, q.origin = .string s) →
      ∃ s, dumpString (.string s) = .ok q := by
  intro q hq hP
  rw [nodes_mk, nodesList_nil, List.mem_singleton] at hq
  subst hq
  rcases hP with hP | ⟨s, hs⟩
  · exact absurd hP hc
  · exact absurd hs (ho s)

theorem dumpValue_string_nodes (nd : Bool) (v : JKSNValue) :
    ∀ p, dumpValue nd v = .ok p → ∀ q ∈ p.nodes,
      (isTextControl q.control ∨ ∃ s, q.origin = .string s) →
      ∃ s, dumpString (.string s) = .ok q := by
  apply dumpValue_nodes_ind
  · intro v p h1 h2 h
    cases v with
    | undefined =>
      simp only [dumpValue] at h
      cases h
      exact leaf_not_string _ _ _ _ _ (by unfold isTextControl; decide) (by intro s hs; cases hs)
    | null =>
      simp only [dumpValue] at h
      cases h
      exact leaf_not_string _ _ _ _ _ (by unfold isTextControl; decide) (by intro s hs; cases hs)
    | bool b =>
      simp only [dumpValue, dumpBool, JKSNValue.toBool, bind, Except.bind, pure, Except.pure] at h
      cases h
      cases b <;>
      exact leaf_not_string _ _ _ _ _ (by unfold isTextControl; decide) (by intro s hs; cases hs)
    | int n =>
      simp only [dumpValue] at h
      obtain ⟨control, data, hp, hc, hlt⟩ := dumpInt_shape n p h
      subst hp
      refine leaf_not_string _ _ _ _ _ ?_ (by intro s hs; cases hs)
      unfold isTextControl
      rw [hc]
      decide
    | string s =>
      simp only [dumpValue] at h
      obtain ⟨control, data, buf, hp, ht, hne, hlt⟩ := dumpString_shape s p h
      intro q hq _
      rw [hp, nodes_mk, nodesList_nil, List.mem_singleton] at hq
      rw [hq, ← hp]
      exact ⟨s, h⟩
    | blob s =>
      simp only [dumpValue] at h
      obtain ⟨control, data, hp, ht, hne, hlt⟩ := dumpBlob_shape s p h
      subst hp
      refine leaf_not_string _ _ _ _ _ ?_ (by intro s hs; cases hs)
      unfold isTextControl
      unfold isBlobControl at ht
      rw [ht]
      decide
    | array xs => exact absurd rfl (h1 xs)
    | object kvs => exact absurd rfl (h2 kvs)
    | unspecified =>
      simp only [dumpValue] at h
      cases h
      exact leaf_not_string _ _ _ _ _ (by unfold isTextControl; decide) (by intro s hs; cases hs)
  · intro o c d ch hc ho hq
    rcases hq with hq | ⟨s, hs⟩
    · exfalso
      simp only [JKSNProxy.control, isTextControl] at hq
      rcases hc with hc | hc | hc <;> rw [hc] at hq <;> rcases hq with hq | hq <;>
        exact absurd hq (by decide)
    · exfalso
      simp only [JKSNProxy.origin] at hs
      rcases ho with ⟨xs, hx⟩ | ⟨kvs, hx⟩ <;> rw [hx] at hs <;> cases hs

theorem dumpString_utf8_buf (s : Bytes) (p : JKSNProxy) (h : dumpString (.string s) = .ok p)
    (hc : p.control &&& 0xf0 = 0x40) : p.buf = s := by
  unfold dumpString at h
  simp only [JKSNValue.toString, bind, Except.bind, pure, Except.pure, encodeInt_one,
    encodeInt_two, encodeInt_zero] at h
  cases hu : UTF8ToUTF16LE s true with
  | error e =>
    rw [hu] at h
    cases e <;> simp only [throw, throwThe, MonadExceptOf.throw] at h
    all_goals (first | cases h | skip)
    simp only [Bool.false_eq_true, if_false] at h
    split_ifs at h with h1 h2 h3
    all_goals (cases h; rfl)
  | ok obj_utf16 =>
    rw [hu] at h
    simp only at h
    by_cases hlen : obj_utf16.length < s.length
    · exfalso
      simp only [hlen, if_true] at h
      split_ifs at h with h1 h2 h3
      · cases h
        simp only [JKSNProxy.setHash, JKSNProxy.control] at hc
        rw [(control_0x30 _ h1).1] at hc
        exact absurd hc (by decide)
      all_goals
        cases h
        simp only [JKSNProxy.setHash, JKSNProxy.control] at hc
        exact absurd hc (by decide)
    · simp only [hlen, if_false, Bool.false_eq_true] at h
      split_ifs at h with h1 h2 h3
      all_goals (cases h; rfl)

theorem text_not_blob (c : Nat) (h : isTextControl c) : ¬ isBlobControl c := by
  unfold isBlobControl
  rcases h with h | h <;> rw [h] <;> decide

theorem optimize_string_refs (nd : Bool) (V : JKSNValue) (proxy optimized : JKSNProxy)
    (cache1 : JKSNCache) (hd : dumpValue nd V = .ok proxy)
    (ho : optimize JKSNCache.fresh proxy = .ok (optimized, cache1)) :
    StringRefsResolved sameStringIfBothUTF8 proxy optimized := by
  have hres := (optimize_resolved proxy JKSNCache.fresh [] (optimized, cache1)
    (dumpValue_allDumped nd V proxy hd) cacheInv_fresh ho).2
  have hshape := (optimize_shape proxy JKSNCache.fresh (optimized, cache1) ho).1
  have hstr := dumpValue_string_nodes nd V proxy hd
  intro j node s hj hc horigin
  obtain ⟨original, i, earlier, hoj, hij, hei, hne, hsame, hbuf, hdata⟩ :=
    hashRefsResolved_of_resolved _ _ _ hres j node hj hc
  obtain ⟨a, ha, hRa⟩ := forall₂_index_right _ _ _ hshape j node hj
  have hao : a = original := by
    rw [hoj] at ha
    exact (Option.some.inj ha).symm
  subst hao
  have horig : a.origin = .string s := by rw [← hRa.1]; exact horigin
  obtain ⟨s1, hs1⟩ := hstr a (List.getElem?_mem hoj) (Or.inr ⟨s, horig⟩)
  obtain ⟨c1, d1, b1, hp1, ht1, _, _⟩ := dumpString_shape s1 a hs1
  have hs : s = s1 := by
    rw [hp1] at horig
    simp only [JKSNProxy.origin, JKSNValue.string.injEq] at horig
    exact horig.symm
  subst hs
  have hatext : isTextControl a.control := by rw [hp1]; exact ht1
  obtain ⟨e0, he0, hRe⟩ := forall₂_index_right _ _ _ hshape i earlier hei
  have hetext : isTextControl earlier.control := by
    rcases hsame with ⟨h1, _⟩ | ⟨_, h2⟩
    · exact h1
    · exact absurd h2 (text_not_blob _ hatext)
  have hkept : earlier.control = e0.control ∧ earlier.data = e0.data ∧ earlier.buf = e0.buf := by
    rcases hRe.2.2.2 with hk | ⟨hcls, _⟩
    · exact hk
    · exfalso
      rcases hcls with hb | h3c
      · rcases hetext with h | h <;> rw [h] at hb <;> exact absurd hb (by decide)
      · exact hne h3c
  obtain ⟨t, ht⟩ := hstr e0 (List.getElem?_mem he0) (Or.inl (hkept.1 ▸ hetext))
  have heq : earlier = e0 := by
    obtain ⟨c0, d0, b0, hp0, _⟩ := dumpString_shape t e0 ht
    subst hp0
    obtain ⟨o2, c2, d2, b2, ch2, h2⟩ := earlier
    obtain ⟨r1, r2, r3, _⟩ := hRe
    obtain ⟨k1, k2, k3⟩ := hkept
    simp only [JKSNProxy.origin, JKSNProxy.hash, JKSNProxy.children, JKSNProxy.control,
      JKSNProxy.data, JKSNProxy.buf, List.length_nil, List.length_eq_zero] at r1 r2 r3 k1 k2 k3
    subst r1 r2 r3 k1 k2 k3
    rfl
  rw [heq] at hbuf hdata hei
  refine ⟨a, i, e0, t, hoj, hs1, hij, hei, ht, hbuf, by rw [hdata, hbuf], ?_⟩
  intro h4e h4o
  have e1 := dumpString_utf8_buf t e0 ht h4e
  have e2 := dumpString_utf8_buf s a hs1 h4o
  obtain ⟨c0, d0, b0, hp0, _⟩ := dumpString_shape t e0 ht
  rw [hp0, hp1]
  simp only [JKSNProxy.origin, JKSNValue.string.injEq]
  rw [← e1, ← e2, hbuf]

theorem dumpString_payload_collision :
    (dumpString (.string [0xe4, 0xb8, 0xad, 0xe4, 0xb8, 0xad])).map
      (fun p => (p.control, p.buf)) = .ok (0x32, [0x2d, 0x00, 0x2d, 0x00]) ∧
    (dumpString (.string [0xe4, 0xbc, 0xad, 0xe4, 0xbc, 0xad])).map
      (fun p => (p.control, p.buf)) = .ok (0x32, [0x2d, 0x00, 0x2d, 0x00]) :=
  ⟨rfl, rfl⟩

/-! ### Record extents, integer records along a run, and the runs that return -/

theorem decodeIntLoop_extent (rest : Bytes) : ∀ (acc r : Nat) (left : Bytes), acc < 2 ^ 64 →
    decodeIntLoop rest acc = .ok (r, left) →
    ∃ consumed, rest = consumed ++ left ∧ varintExtent rest = some consumed := by
  induction rest with
  | nil =>
    intro acc r left hacc h
    by_cases h57 : acc < 2 ^ 57
    · rw [decodeIntLoop_empty acc h57] at h; cases h
    · rw [decodeIntLoop_overflow [] acc (by omega) hacc] at h; cases h
  | cons b rest ih =>
    intro acc r left hacc h
    by_cases h57 : acc < 2 ^ 57
    · rw [decodeIntLoop_step b rest acc h57] at h
      have hb : b % 128 < 128 := Nat.mod_lt _ (by norm_num)
      by_cases hc : (b % 256) &&& 0x80 ≠ 0
      · rw [if_pos hc] at h
        obtain ⟨consumed, h1, h2⟩ := ih (acc * 128 + b % 128) r left (by omega) h
        refine ⟨b :: consumed, by rw [h1]; rfl, ?_⟩
        rw [varintExtent, if_pos hc, h2]
        rfl
      · rw [if_neg hc] at h
        injection h with h
        injection h with h1 h2
        refine ⟨[b], by rw [h2]; rfl, ?_⟩
        rw [varintExtent, if_neg hc]
    · rw [decodeIntLoop_overflow _ acc (by omega) hacc] at h; cases h

theorem takeExactly_append (p t : Bytes) : takeExactly p.length (p ++ t) = some p := by
  simp [takeExactly]

theorem decodeInt_extent (fp fp1 : IStream) (size n : Nat)
    (h : decodeInt fp size = .ok (n, fp1)) :
    ∃ p, fp.rest = p ++ fp1.rest ∧
      (if size = 0 then varintExtent fp.rest = some p else takeExactly size fp.rest = some p) := by
  obtain ⟨past, rest, gcount, failed⟩ := fp
  match size with
  | 1 =>
    simp only [decodeInt, IStream.get] at h
    cases failed with
    | true => simp at h
    | false =>
      cases rest with
      | nil => simp at h
      | cons c r =>
        simp only [Bool.false_eq_true, if_false] at h
        injection h with h
        injection h with h1 h2
        subst h1 h2
        exact ⟨[c], rfl, by simp [takeExactly]⟩
  | 2 =>
    simp only [decodeInt, IStream.read] at h
    cases failed with
    | true => simp at h
    | false =>
      match rest with
      | [] => simp at h
      | [_] => simp at h
      | a :: b :: r =>
        simp at h
        obtain ⟨h1, h2⟩ := h
        subst h1 h2
        exact ⟨[a, b], rfl, by simp [takeExactly]⟩
  | 4 =>
    simp only [decodeInt, IStream.read] at h
    cases failed with
    | true => simp at h
    | false =>
      match rest with
      | [] => simp at h
      | [_] => simp at h
      | [_, _] => simp at h
      | [_, _, _] => simp at h
      | a :: b :: c :: d :: r =>
        simp at h
        obtain ⟨h1, h2⟩ := h
        subst h1 h2
        exact ⟨[a, b, c, d], rfl, by simp [takeExactly]⟩
  | 0 =>
    simp only [decodeInt] at h
    cases failed with
    | true => simp at h
    | false =>
      simp only [Bool.false_eq_true, if_false] at h
      cases hd : decodeIntLoop rest 0 with
      | error e => rw [hd] at h; cases h
      | ok v =>
        obtain ⟨r1, left⟩ := v
        rw [hd] at h
        simp only at h
        injection h with h
        injection h with h1 h2
        obtain ⟨consumed, c1, c2⟩ := decodeIntLoop_extent rest 0 r1 left (by norm_num) hd
        subst h1 h2
        exact ⟨consumed, c1, by simpa using c2⟩
  | 3 => simp [decodeInt] at h
  | k + 5 => simp [decodeInt] at h

theorem recordExtent_cons (c : Nat) (rest : Bytes) :
    recordExtent (c :: rest) =
      (if c % 256 = 0x1d then takeExactly 1 rest
       else if c % 256 = 0x1c then takeExactly 2 rest
       else if c % 256 = 0x1b then takeExactly 4 rest
       else if c % 256 = 0x1e ∨ c % 256 = 0x1f then varintExtent rest
       else if c % 256 = 0x2d then takeExactly 4 rest
       else if c % 256 = 0x2c then takeExactly 8 rest
       else if c % 256 = 0x2b then takeExactly 10 rest
       else some []).map (List.cons c) := rfl

theorem and_f0_eq (k : Nat) (hk : k < 256) : k &&& 0xf0 = 16 * (k / 16) := by
  interval_cases k <;> rfl

theorem parseControl_extent (cache : JKSNCache) (c : Nat) (fp fp1 : IStream)
    (v : JKSNValue) (cache1 : JKSNCache)
    (h : parseControl cache (c % 256) fp = .ok (v, cache1, fp1)) :
    ∃ p, fp.rest = p ++ fp1.rest ∧ recordExtent (c :: fp.rest) = some (c :: p) := by
  rw [recordExtent_cons]
  have hk : c % 256 < 256 := Nat.mod_lt _ (by norm_num)
  have hn := and_f0_eq (c % 256) hk
  generalize c % 256 = k at h hk hn ⊢
  unfold parseControl at h
  simp only [bind, Except.bind, pure, Except.pure, throw, throwThe, MonadExceptOf.throw] at h
  split_ifs at h with a0 a1 a2 a3 a4 a5 a6 a7 a8 a9 a10 a11
  · cases h
    refine ⟨[], rfl, ?_⟩
    rw [if_neg (by omega), if_neg (by omega), if_neg (by omega), if_neg (by omega),
      if_neg (by omega), if_neg (by omega), if_neg (by omega)]
    rfl
  · cases h
    refine ⟨[], rfl, ?_⟩
    rw [if_neg (by omega), if_neg (by omega), if_neg (by omega), if_neg (by omega),
      if_neg (by omega), if_neg (by omega), if_neg (by omega)]
    rfl
  · cases h
    refine ⟨[], rfl, ?_⟩
    rw [if_neg (by omega), if_neg (by omega), if_neg (by omega), if_neg (by omega),
      if_neg (by omega), if_neg (by omega), if_neg (by omega)]
    rfl
  · cases h
    refine ⟨[], rfl, ?_⟩
    rw [if_neg (by omega), if_neg (by omega), if_neg (by omega), if_neg (by omega),
      if_neg (by omega), if_neg (by omega), if_neg (by omega)]
    rfl
  · cases hd : decodeInt fp 4 with
    | error e => rw [hd] at h; cases h
    | ok r =>
      obtain ⟨n, fpn⟩ := r
      rw [hd] at h
      simp only [Except.ok.injEq, Prod.mk.injEq] at h
      obtain ⟨hv, hc, hf⟩ := h
      subst hf
      obtain ⟨p, h1, h2⟩ := decodeInt_extent fp fpn 4 n hd
      refine ⟨p, h1, ?_⟩
      simp only [show (4 : Nat) ≠ 0 by norm_num, if_false] at h2
      rw [if_neg (by omega), if_neg (by omega), if_pos a7, h2]
      rfl
  · cases hd : decodeInt fp 2 with
    | error e => rw [hd] at h; cases h
    | ok r =>
      obtain ⟨n, fpn⟩ := r
      rw [hd] at h
      simp only [Except.ok.injEq, Prod.mk.injEq] at h
      obtain ⟨hv, hc, hf⟩ := h
      subst hf
      obtain ⟨p, h1, h2⟩ := decodeInt_extent fp fpn 2 n hd
      refine ⟨p, h1, ?_⟩
      simp only [show (2 : Nat) ≠ 0 by norm_num, if_false] at h2
      rw [if_neg (by omega), if_pos a8, h2]
      rfl
  · cases hd : decodeInt fp 1 with
    | error e => rw [hd] at h; cases h
    | ok r =>
      obtain ⟨n, fpn⟩ := r
      rw [hd] at h
      simp only [Except.ok.injEq, Prod.mk.injEq] at h
      obtain ⟨hv, hc, hf⟩ := h
      subst hf
      obtain ⟨p, h1, h2⟩ := decodeInt_extent fp fpn 1 n hd
      refine ⟨p, h1, ?_⟩
      simp only [show (1 : Nat) ≠ 0 by norm_num, if_false] at h2
      rw [if_pos a9, h2]
      rfl
  · cases hd : decodeInt fp 0 with
    | error e => rw [hd] at h; cases h
    | ok r =>
      obtain ⟨n, fpn⟩ := r
      rw [hd] at h
      simp only at h
      split_ifs at h with hneg
      simp only [Except.ok.injEq, Prod.mk.injEq] at h
      obtain ⟨hv, hc, hf⟩ := h
      subst hf
      obtain ⟨p, h1, h2⟩ := decodeInt_extent fp fpn 0 n hd
      refine ⟨p, h1, ?_⟩
      simp only [if_true] at h2
      rw [if_neg (by omega), if_neg (by omega), if_neg (by omega), if_pos (Or.inl a10), h2]
      rfl
  · cases hd : decodeInt fp 0 with
    | error e => rw [hd] at h; cases h
    | ok r =>
      obtain ⟨n, fpn⟩ := r
      rw [hd] at h
      simp only at h
      split_ifs at h with hneg
      simp only [Except.ok.injEq, Prod.mk.injEq] at h
      obtain ⟨hv, hc, hf⟩ := h
      subst hf
      obtain ⟨p, h1, h2⟩ := decodeInt_extent fp fpn 0 n hd
      refine ⟨p, h1, ?_⟩
      simp only [if_true] at h2
      rw [if_neg (by omega), if_neg (by omega), if_neg (by omega), if_pos (Or.inr a11), h2]
      rfl
  · cases h
    refine ⟨[], rfl, ?_⟩
    rw [if_neg (by omega), if_neg (by omega), if_neg (by omega), if_neg (by omega),
      if_neg (by omega), if_neg (by omega), if_neg (by omega)]
    rfl

theorem parseValue_extent (cache : JKSNCache) (fp fp1 : IStream) (v : JKSNValue)
    (cache1 : JKSNCache) (h : parseValue cache fp = .ok (v, cache1, fp1)) :
    ∃ p, fp.rest = p ++ fp1.rest ∧ recordExtent fp.rest = some p := by
  obtain ⟨past, rest, gcount, failed⟩ := fp
  cases failed with
  | true => simp [parseValue, IStream.get] at h
  | false =>
    cases rest with
    | nil => simp [parseValue, IStream.get] at h
    | cons c r =>
      rw [parseValue_cons cache _ c r rfl rfl] at h
      obtain ⟨p, h1, h2⟩ := parseControl_extent cache c _ fp1 v cache1 h
      simp only at h1 h2
      exact ⟨c :: p, by simp [h1], h2⟩

theorem parseValue_record (cache cache1 : JKSNCache) (fp fp1 : IStream) (v : JKSNValue)
    (h : parseValue cache fp = .ok (v, cache1, fp1)) :
    ∃ p, p ≠ [] ∧ recordExtent fp.rest = some p ∧ fp.rest = p ++ fp1.rest ∧
      fp1.past = p.reverse ++ fp.past ∧ fp.failed = false ∧ fp1.failed = false ∧
      ∀ (fp2 : IStream) (t : Bytes), fp2.failed = false → fp2.rest = p ++ t →
        ∃ fp3, parseValue cache fp2 = .ok (v, cache1, fp3) ∧ fp3.rest = t ∧
          fp3.past = p.reverse ++ fp2.past ∧ fp3.failed = false := by
  obtain ⟨p, h0, h1, h2, h3, h4, h5⟩ := parseValue_consumed cache fp fp1 v cache1 h
  obtain ⟨q, e1, e2⟩ := parseValue_extent cache fp fp1 v cache1 h
  have hpq : q = p := List.append_cancel_right (e1.symm.trans h1)
  subst hpq
  exact ⟨q, h0, e2, h1, h2, h3, h4, h5⟩

theorem parseValueFloatConstant_record (cache cache1 : JKSNCache) (fp fp1 : IStream)
    (k : FloatConstant) (h : parseValueFloatConstant cache fp = some (k, cache1, fp1)) :
    ∃ c, recordExtent fp.rest = some [c] ∧ fp.rest = c :: fp1.rest ∧
      fp1.past = c :: fp.past ∧ fp.failed = false ∧ fp1.failed = false ∧ cache1 = cache ∧
      parseValue cache fp = .error .floatOpcode ∧
      ∀ (fp2 : IStream) (t : Bytes), fp2.failed = false → fp2.rest = c :: t →
        ∃ fp3, parseValueFloatConstant cache fp2 = some (k, cache1, fp3) ∧ fp3.rest = t ∧
          fp3.past = c :: fp2.past ∧ fp3.failed = false := by
  obtain ⟨past, rest, gcount, failed⟩ := fp
  cases failed with
  | true => simp [parseValueFloatConstant, IStream.get] at h
  | false =>
    cases rest with
    | nil => simp [parseValueFloatConstant, IStream.get] at h
    | cons c r =>
      simp only [parseValueFloatConstant, IStream.get, Bool.false_eq_true, if_false,
        Option.map_eq_some'] at h
      obtain ⟨k1, hk, he⟩ := h
      simp only [Prod.mk.injEq] at he
      obtain ⟨rfl, rfl, rfl⟩ := he
      have hc : c % 256 = 0x20 ∨ c % 256 = 0x2e ∨ c % 256 = 0x2f := by
        unfold parseFloatConstant at hk
        split_ifs at hk with b0 b1 b2
        · exact Or.inl b0
        · exact Or.inr (Or.inl b1)
        · exact Or.inr (Or.inr b2)
      refine ⟨c, ?_, rfl, rfl, rfl, rfl, rfl, ?_, ?_⟩
      · rw [recordExtent_cons]
        rcases hc with hc | hc | hc <;> simp [hc]
      · rw [parseValue_cons cache _ c r rfl rfl]
        rcases hc with hc | hc | hc <;> rw [hc] <;> rfl
      · intro fp2 t hg hr
        refine ⟨{ fp2 with past := c :: fp2.past, rest := t, gcount := 1 }, ?_, rfl, rfl, hg⟩
        simp [parseValueFloatConstant, IStream.get, hg, hr, hk]

theorem optimizeInt_cache (cache next : JKSNCache) (origin : JKSNValue) (control c : Nat)
    (data d : Bytes) (h : optimizeInt cache origin control data = .ok (c, d, next)) :
    ∃ n, origin.toInt = .ok n ∧ next = { cache with haslastint := true, lastint := n } := by
  unfold optimizeInt at h
  simp only [bind, Except.bind, pure, Except.pure] at h
  cases ht : origin.toInt with
  | error e =>
    rw [ht] at h
    split_ifs at h
  | ok n =>
    rw [ht] at h
    refine ⟨n, rfl, ?_⟩
    simp only at h
    cases hdf : deltaForm (wrapIntmax (n - cache.lastint)) with
    | error e =>
      try rw [hdf] at h
      split_ifs at h
      all_goals first | (cases h; done) | (cases h; rfl)
    | ok r =>
      try rw [hdf] at h
      try simp only at h
      split_ifs at h
      all_goals first | (cases h; done) | (cases h; rfl)

theorem optimizeInt_congr (cache cache2 next : JKSNCache) (origin : JKSNValue)
    (control c : Nat) (data d : Bytes) (h1 : cache2.haslastint = cache.haslastint)
    (h2 : cache2.lastint = cache.lastint)
    (h : optimizeInt cache origin control data = .ok (c, d, next)) :
    ∃ next2, optimizeInt cache2 origin control data = .ok (c, d, next2) ∧
      next2.haslastint = next.haslastint ∧ next2.lastint = next.lastint := by
  obtain ⟨n, hn, hnext⟩ := optimizeInt_cache cache next origin control c data d h
  have hmap : (optimizeInt cache2 origin control data).map (fun r => (r.1, r.2.1)) =
      (optimizeInt cache origin control data).map (fun r => (r.1, r.2.1)) := by
    unfold optimizeInt
    simp only [bind, Except.bind, pure, Except.pure, h1, h2, hn]
    split_ifs
    · cases deltaForm (wrapIntmax (n - cache.lastint)) with
      | error e => rfl
      | ok r => simp only; split_ifs <;> rfl
    all_goals rfl
  rw [h] at hmap
  cases h3 : optimizeInt cache2 origin control data with
  | error e => rw [h3] at hmap; cases hmap
  | ok r =>
    obtain ⟨c2, d2, next2⟩ := r
    rw [h3] at hmap
    simp only [Except.map, Except.ok.injEq, Prod.mk.injEq] at hmap
    obtain ⟨rfl, rfl⟩ := hmap
    obtain ⟨n2, hn2, hnext2⟩ := optimizeInt_cache cache2 next2 origin control _ data _ h3
    rw [hn] at hn2
    cases hn2
    exact ⟨next2, rfl, by rw [hnext2, hnext], by rw [hnext2, hnext]⟩

theorem intTrace_congr : ∀ (originals optimized : List JKSNProxy) (cache cache2 final : JKSNCache),
    cache2.haslastint = cache.haslastint → cache2.lastint = cache.lastint →
    IntTrace cache originals optimized final → IntTrace cache2 originals optimized final
  | [], [], cache, cache2, final, h1, h2, h => by
    simp only [IntTrace] at h ⊢
    exact ⟨by rw [h.1, h1], by rw [h.2, h2]⟩
  | [], _ :: _, _, _, _, _, _, h => by simp [IntTrace] at h
  | _ :: _, [], _, _, _, _, _, h => by simp [IntTrace] at h
  | x :: xs, y :: ys, cache, cache2, final, h1, h2, h => by
    simp only [IntTrace] at h ⊢
    split_ifs at h ⊢ with hc
    · obtain ⟨c, d, next, ho, hy, ht⟩ := h
      obtain ⟨next2, ho2, e1, e2⟩ := optimizeInt_congr cache cache2 next _ _ c _ d h1 h2 ho
      exact ⟨c, d, next2, ho2, hy, intTrace_congr xs ys next next2 final e1 e2 ht⟩
    · exact intTrace_congr xs ys cache cache2 final h1 h2 h

theorem intTrace_append : ∀ (os1 ns1 os2 ns2 : List JKSNProxy) (cache mid final : JKSNCache),
    IntTrace cache os1 ns1 mid → IntTrace mid os2 ns2 final →
    IntTrace cache (os1 ++ os2) (ns1 ++ ns2) final
  | [], [], os2, ns2, cache, mid, final, h1, h2 => by
    simp only [IntTrace] at h1
    simpa using intTrace_congr os2 ns2 mid cache final h1.1.symm h1.2.symm h2
  | [], _ :: _, _, _, _, _, _, h1, _ => by simp [IntTrace] at h1
  | _ :: _, [], _, _, _, _, _, h1, _ => by simp [IntTrace] at h1
  | x :: xs, y :: ys, os2, ns2, cache, mid, final, h1, h2 => by
    simp only [IntTrace, List.cons_append] at h1 ⊢
    split_ifs at h1 ⊢ with hc
    · obtain ⟨c, d, next, ho, hy, ht⟩ := h1
      exact ⟨c, d, next, ho, hy, intTrace_append xs ys os2 ns2 next mid final ht h2⟩
    · exact intTrace_append xs ys os2 ns2 cache mid final h1 h2

theorem intTrace_same : ∀ (nodes : List JKSNProxy) (cache final : JKSNCache),
    (∀ q ∈ nodes, q.control &&& 0xf0 ≠ 0x10) → final.haslastint = cache.haslastint →
    final.lastint = cache.lastint → IntTrace cache nodes nodes final
  | [], cache, final, _, h1, h2 => by
    simp only [IntTrace]
    exact ⟨h1, h2⟩
  | x :: xs, cache, final, hn, h1, h2 => by
    simp only [IntTrace]
    rw [if_neg (hn x (List.mem_cons_self _ _))]
    exact intTrace_same xs cache final (fun q hq => hn q (List.mem_cons_of_mem _ hq)) h1 h2

theorem intTrace_none : ∀ (originals optimized : List JKSNProxy) (cache final : JKSNCache),
    IntTrace cache originals optimized final →
    (∀ q ∈ originals, q.control &&& 0xf0 ≠ 0x10) →
    final.haslastint = cache.haslastint ∧ final.lastint = cache.lastint
  | [], [], cache, final, h, _ => by
    simpa [IntTrace] using h
  | [], _ :: _, _, _, h, _ => by simp [IntTrace] at h
  | _ :: _, [], _, _, h, _ => by simp [IntTrace] at h
  | x :: xs, y :: ys, cache, final, h, hn => by
    simp only [IntTrace] at h
    rw [if_neg (hn x (List.mem_cons_self _ _))] at h
    exact intTrace_none xs ys cache final h (fun q hq => hn q (List.mem_cons_of_mem _ hq))

theorem intTrace_first : ∀ (pre : List JKSNProxy) (x : JKSNProxy) (post optimized : List JKSNProxy)
    (cache final : JKSNCache), IntTrace cache (pre ++ x :: post) optimized final →
    (∀ q ∈ pre, q.control &&& 0xf0 ≠ 0x10) → x.control &&& 0xf0 = 0x10 →
    ∃ c d next pre2 post2, optimizeInt cache x.origin x.control x.data = .ok (c, d, next) ∧
      optimized = pre2 ++ .mk x.origin c d x.buf x.children x.hash :: post2 ∧
      pre2.length = pre.length
  | [], x, post, [], cache, final, h, _, _ => by simp [IntTrace] at h
  | [], x, post, y :: ys, cache, final, h, _, hx => by
    simp only [List.nil_append, IntTrace] at h
    rw [if_pos hx] at h
    obtain ⟨c, d, next, ho, hy, _⟩ := h
    exact ⟨c, d, next, [], ys, ho, by rw [hy]; rfl, rfl⟩
  | q :: pre, x, post, [], cache, final, h, _, _ => by simp [IntTrace] at h
  | q :: pre, x, post, y :: ys, cache, final, h, hn, hx => by
    simp only [List.cons_append, IntTrace] at h
    rw [if_neg (hn q (List.mem_cons_self _ _))] at h
    obtain ⟨c, d, next, pre2, post2, ho, hy, hl⟩ := intTrace_first pre x post ys cache final h
      (fun z hz => hn z (List.mem_cons_of_mem _ hz)) hx
    exact ⟨c, d, next, y :: pre2, post2, ho, by rw [hy]; rfl, by simp [hl]⟩

theorem intTrace_last : ∀ (pre : List JKSNProxy) (x : JKSNProxy) (post optimized : List JKSNProxy)
    (cache final : JKSNCache), IntTrace cache (pre ++ x :: post) optimized final →
    (∀ q ∈ post, q.control &&& 0xf0 ≠ 0x10) → x.control &&& 0xf0 = 0x10 →
    final.haslastint = true ∧ x.origin.toInt = .ok final.lastint
  | [], x, post, [], cache, final, h, _, _ => by simp [IntTrace] at h
  | [], x, post, y :: ys, cache, final, h, hn, hx => by
    simp only [List.nil_append, IntTrace] at h
    rw [if_pos hx] at h
    obtain ⟨c, d, next, ho, _, ht⟩ := h
    obtain ⟨n, hn1, hnext⟩ := optimizeInt_cache cache next _ _ c _ d ho
    obtain ⟨e1, e2⟩ := intTrace_none post ys next final ht hn
    rw [hnext] at e1 e2
    simp only at e1 e2
    exact ⟨e1, by rw [hn1, e2]⟩
  | q :: pre, x, post, [], cache, final, h, _, _ => by simp [IntTrace] at h
  | q :: pre, x, post, y :: ys, cache, final, h, hn, hx => by
    simp only [List.cons_append, IntTrace] at h
    split_ifs at h with hq
    · obtain ⟨c, d, next, _, _, ht⟩ := h
      exact intTrace_last pre x post ys next final ht hn hx
    · exact intTrace_last pre x post ys cache final h hn hx

mutual
theorem optimizeAt_intTrace : ∀ (p : JKSNProxy) (alive : Bool) (cache : JKSNCache)
    (r : JKSNProxy × JKSNCache),
    (∀ q ∈ p.nodes, (q.control &&& 0xf0 = 0x10 ∨ q.control &&& 0xf0 = 0x30 ∨
      q.control &&& 0xf0 = 0x40 ∨ q.control &&& 0xf0 = 0x50) → q.children = []) →
    optimizeAt alive cache p = .ok r → IntTrace cache p.nodes r.1.nodes r.2
  | .mk origin control data buf children hash, alive, cache, r, hleaf, h => by
    have hself := hleaf _ (by rw [nodes_mk]; exact List.mem_cons_self _ _)
    simp only [JKSNProxy.control, JKSNProxy.children] at hself
    simp only [optimizeAt, bind, Except.bind, pure, Except.pure] at h
    by_cases h1 : control &&& 0xf0 = 0x10
    · simp only [h1, if_true] at h
      have hch := hself (Or.inl h1)
      subst hch
      cases alive with
      | false => simp at h
      | true =>
        simp only [if_true] at h
        cases ho : optimizeInt cache origin control data with
        | error e => rw [ho] at h; cases h
        | ok x =>
          obtain ⟨c, d, next⟩ := x
          rw [ho] at h
          cases h
          simp only [nodes_mk, nodesList_nil, IntTrace, JKSNProxy.control, h1, if_true]
          exact ⟨c, d, next, ho, rfl, rfl, rfl⟩
    · simp only [h1, if_false] at h
      by_cases h3 : control &&& 0xf0 = 0x30 ∨ control &&& 0xf0 = 0x40
      · simp only [h3, if_true] at h
        have hch := hself (Or.inr (by tauto))
        subst hch
        cases hh : optimizeHash cache.texthash control data buf hash with
        | error e => rw [hh] at h; cases h
        | ok x =>
          rw [hh] at h
          cases h
          simp only [nodes_mk, nodesList_nil, IntTrace, JKSNProxy.control, h1, if_false]
          exact ⟨trivial, trivial⟩
      · simp only [h3, if_false] at h
        by_cases h5 : control &&& 0xf0 = 0x50
        · simp only [h5, if_true] at h
          have hch := hself (Or.inr (Or.inr (Or.inr h5)))
          subst hch
          cases hh : optimizeHash cache.blobhash control data buf hash with
          | error e => rw [hh] at h; cases h
          | ok x =>
            rw [hh] at h
            cases h
            simp only [nodes_mk, nodesList_nil, IntTrace, JKSNProxy.control, h1, if_false]
            exact ⟨trivial, trivial⟩
        · simp only [h5, if_false] at h
          cases hc : optimizeChildrenAt (alive && decide (control &&& 0xf0 = 0x80)) cache
              children with
          | error e => rw [hc] at h; cases h
          | ok x =>
            rw [hc] at h
            cases h
            have ih := optimizeChildrenAt_intTrace children _ cache x
              (fun q hq => hleaf q (by rw [nodes_mk]; exact List.mem_cons_of_mem _ hq)) hc
            simp only [nodes_mk, IntTrace, JKSNProxy.control, h1, if_false]
            exact ih
theorem optimizeChildrenAt_intTrace : ∀ (cs : List JKSNProxy) (alive : Bool)
    (cache : JKSNCache) (r : List JKSNProxy × JKSNCache),
    (∀ q ∈ JKSNProxy.nodesList cs, (q.control &&& 0xf0 = 0x10 ∨ q.control &&& 0xf0 = 0x30 ∨
      q.control &&& 0xf0 = 0x40 ∨ q.control &&& 0xf0 = 0x50) → q.children = []) →
    optimizeChildrenAt alive cache cs = .ok r →
    IntTrace cache (JKSNProxy.nodesList cs) (JKSNProxy.nodesList r.1) r.2
  | [], alive, cache, r, _, h => by
    simp only [optimizeChildrenAt] at h
    cases h
    simp only [nodesList_nil, IntTrace]
    exact ⟨trivial, trivial⟩
  | child :: rest, alive, cache, r, hleaf, h => by
    simp only [optimizeChildrenAt, bind, Except.bind, pure, Except.pure] at h
    cases h1 : optimizeAt alive cache child with
    | error e => rw [h1] at h; cases h
    | ok x1 =>
      rw [h1] at h
      simp only at h
      cases h2 : optimizeChildrenAt alive x1.2 rest with
      | error e => rw [h2] at h; cases h
      | ok x2 =>
        rw [h2] at h
        cases h
        have ih1 := optimizeAt_intTrace child alive cache x1
          (fun q hq => hleaf q (by rw [nodesList_cons]; exact List.mem_append_left _ hq)) h1
        have ih2 := optimizeChildrenAt_intTrace rest alive x1.2 x2
          (fun q hq => hleaf q (by rw [nodesList_cons]; exact List.mem_append_right _ hq)) h2
        simp only [nodesList_cons]
        exact intTrace_append _ _ _ _ _ _ _ ih1 ih2
end

theorem dumpValue_leaves (nd : Bool) (v : JKSNValue) (p : JKSNProxy)
    (h : dumpValue nd v = .ok p) :
    ∀ q ∈ p.nodes, ((q.control &&& 0xf0 = 0x10 ∨ q.control &&& 0xf0 = 0x30 ∨
        q.control &&& 0xf0 = 0x40 ∨ q.control &&& 0xf0 = 0x50) → q.children = []) ∧
      (q.control &&& 0xf0 = 0x10 → ∃ n, q.origin = .int n) := by
  refine dumpValue_nodes_ind nd _ ?_ ?_ v p h
  · intro v p h1 h2 hd q hq
    cases v with
    | undefined =>
      simp only [dumpValue] at hd
      cases hd
      simp [JKSNProxy.nodes, JKSNProxy.nodesList, dumpUndefined] at hq
      subst hq
      exact ⟨fun _ => rfl, fun hc => absurd hc (by decide)⟩
    | null =>
      simp only [dumpValue] at hd
      cases hd
      simp [JKSNProxy.nodes, JKSNProxy.nodesList, dumpNull] at hq
      subst hq
      exact ⟨fun _ => rfl, fun hc => absurd hc (by decide)⟩
    | unspecified =>
      simp only [dumpValue] at hd
      cases hd
      simp [JKSNProxy.nodes, JKSNProxy.nodesList, dumpUnspecified] at hq
      subst hq
      exact ⟨fun _ => rfl, fun hc => absurd hc (by decide)⟩
    | bool b =>
      simp only [dumpValue] at hd
      cases b
      all_goals
        simp [dumpBool, JKSNValue.toBool, bind, Except.bind, pure, Except.pure] at hd
        subst hd
        simp [JKSNProxy.nodes, JKSNProxy.nodesList] at hq
        subst hq
        exact ⟨fun _ => rfl, fun hc => absurd hc (by decide)⟩
    | int n =>
      simp only [dumpValue] at hd
      obtain ⟨control, data, rfl, hc, _⟩ := dumpInt_shape n p hd
      simp only [nodes_mk, nodesList_nil, List.mem_singleton] at hq
      subst hq
      exact ⟨fun _ => rfl, fun _ => ⟨n, rfl⟩⟩
    | string s =>
      simp only [dumpValue] at hd
      obtain ⟨control, data, buf, rfl, hc, _, _⟩ := dumpString_shape s p hd
      simp only [nodes_mk, nodesList_nil, List.mem_singleton] at hq
      subst hq
      refine ⟨fun _ => rfl, fun h10 => ?_⟩
      simp only [JKSNProxy.control] at h10
      rcases hc with hc | hc <;> rw [hc] at h10 <;> exact absurd h10 (by decide)
    | blob s =>
      simp only [dumpValue] at hd
      obtain ⟨control, data, rfl, hc, _, _⟩ := dumpBlob_shape s p hd
      simp only [nodes_mk, nodesList_nil, List.mem_singleton] at hq
      subst hq
      refine ⟨fun _ => rfl, fun h10 => ?_⟩
      simp only [JKSNProxy.control] at h10
      unfold isBlobControl at hc
      rw [hc] at h10
      exact absurd h10 (by decide)
    | array xs => exact absurd rfl (h1 xs)
    | object kvs => exact absurd rfl (h2 kvs)
  · intro o c d ch hc _
    simp only [JKSNProxy.control]
    refine ⟨fun h => ?_, fun h => ?_⟩
    · exfalso
      rcases hc with hc | hc | hc <;> rcases h with h | h | h | h <;> rw [hc] at h <;>
        exact absurd h (by decide)
    · exfalso
      rcases hc with hc | hc | hc <;> rw [hc] at h <;> exact absurd h (by decide)

theorem dumpToProxy_intTrace (nd : Bool) (cache cache1 : JKSNCache) (V : JKSNValue)
    (proxy optimized : JKSNProxy) (hd : dumpValue nd V = .ok proxy)
    (h : dumpToProxy nd cache V = .ok (optimized, cache1)) :
    IntTrace cache proxy.nodes optimized.nodes cache1 := by
  simp only [dumpToProxy, bind, Except.bind, hd] at h
  exact optimizeAt_intTrace proxy true cache (optimized, cache1)
    (fun q hq => (dumpValue_leaves nd V proxy hd q hq).1) h

theorem dumps_string_miss (nd : Bool) (cache : JKSNCache) (s : Bytes) (p : JKSNProxy)
    (hp : dumpString (.string s) = .ok p) (hlen : 1 < p.buf.length)
    (hslot : cache.texthash (DJBHash p.buf 0) ≠ some p.buf) :
    JKSNEncoder.dumps nd cache (.string s) false =
      .ok (p.control :: (p.data ++ p.buf), { cache with texthash :=
        (fun i => if i = DJBHash p.buf 0 then some p.buf else cache.texthash i) }) ∧
    p.control ≠ 0x3c := by
  obtain ⟨control, data, buf, rfl, hc, hne, hlt⟩ := dumpString_shape s p hp
  simp only [JKSNProxy.buf, JKSNProxy.control, JKSNProxy.data] at hlen hslot ⊢
  have ho : optimizeHash cache.texthash control data buf (DJBHash buf 0) =
      .ok (control, data, buf,
        fun i => if i = DJBHash buf 0 then some buf else cache.texthash i) := by
    simp only [optimizeHash, gt_iff_lt, hlen, if_true, hslot, if_false, bind, Except.bind,
      pure, Except.pure]
  refine ⟨?_, hne⟩
  simp only [JKSNEncoder.dumps, dumpToProxy, dumpValue, hp, bind, Except.bind,
    optimize_text_node cache _ control data buf [] _ hc, ho, Except.map, pure, Except.pure,
    JKSNProxy.toString, JKSNProxy.toStringList, Nat.mod_eq_of_lt hlt]
  simp


theorem parse_int16_low (cache : JKSNCache) (b : Nat) (hb : b < 256) :
    JKSNDecoder.parse cache [0x1c, 0x00, b] false = .ok (.int b, cache.afterInt b) := by
  obtain ⟨fp1, h1, _, _⟩ := parseControl_int16 cache
    { past := [0x1c], rest := [0x00, b], gcount := 1, failed := false } 0 b [] rfl rfl
    (by norm_num) hb
  rw [signedBigEndianReference_low_two b hb] at h1
  have h2 : parseValue cache (IStream.ofBytes [0x1c, 0x00, b]) =
      .ok (.int b, cache.afterInt b, fp1) := by
    rw [parseValue_cons cache _ 0x1c [0x00, b] rfl rfl]
    exact h1
  simp only [JKSNDecoder.parse, JKSNDecoder.parseStream, Bool.false_eq_true, if_false, h2]

theorem parse_int32_low (cache : JKSNCache) (b : Nat) (hb : b < 256) :
    JKSNDecoder.parse cache [0x1b, 0x00, 0x00, 0x00, b] false =
      .ok (.int b, cache.afterInt b) := by
  obtain ⟨fp1, h1, _, _⟩ := parseControl_int32 cache
    { past := [0x1b], rest := [0x00, 0x00, 0x00, b], gcount := 1, failed := false } 0 0 0 b []
    rfl rfl (by norm_num) (by norm_num) (by norm_num) hb
  rw [signedBigEndianReference_low_four b hb] at h1
  have h2 : parseValue cache (IStream.ofBytes [0x1b, 0x00, 0x00, 0x00, b]) =
      .ok (.int b, cache.afterInt b, fp1) := by
    rw [parseValue_cons cache _ 0x1b [0x00, 0x00, 0x00, b] rfl rfl]
    exact h1
  simp only [JKSNDecoder.parse, JKSNDecoder.parseStream, Bool.false_eq_true, if_false, h2]

theorem int_fixed_form_decodes_low_byte (nd : Bool) (n : Int)
    (h1 : ¬ (-128 ≤ n ∧ n ≤ 127))
    (h : (-32768 ≤ n ∧ n ≤ 32767) ∨ (-2147483648 ≤ n ∧ n ≤ -2097152) ∨
      (2097152 ≤ n ∧ n ≤ 2147483647)) :
    ∃ bytes, JKSNEncoder.dumps nd JKSNCache.fresh (.int n) false =
        .ok (bytes, JKSNCache.fresh.afterInt n) ∧
      JKSNDecoder.parse JKSNCache.fresh bytes false =
        .ok (.int (n % 256), JKSNCache.fresh.afterInt (n % 256)) := by
  have hb : toUintmax n % 256 < 256 := Nat.mod_lt _ (by norm_num)
  have hv : ((toUintmax n % 256 : Nat) : Int) = n % 256 := by
    unfold toUintmax
    omega
  by_cases h2 : -32768 ≤ n ∧ n ≤ 32767
  · refine ⟨_, dumps_int_of_dumpInt nd n _ _ (dumpInt_int16 n h1 h2.1 h2.2) (by decide), ?_⟩
    rw [show (0x1c % 256 : Nat) = 0x1c from rfl, parse_int16_low _ _ hb, hv]
  · have h3 : (-2147483648 ≤ n ∧ n ≤ -2097152) ∨ (2097152 ≤ n ∧ n ≤ 2147483647) := by
      rcases h with h | h
      · exact absurd h h2
      · exact h
    refine ⟨_, dumps_int_of_dumpInt nd n _ _ (dumpInt_int32 n h2 h3) (by decide), ?_⟩
    rw [show (0x1b % 256 : Nat) = 0x1b from rfl, parse_int32_low _ _ hb, hv]

theorem int_round_trip_low (nd : Bool) (n : Int) (hlo : -2 ^ 63 < n) (hhi : n < 2 ^ 63)
    (hform : (-128 ≤ n ∧ n ≤ 255) ∨
      ((n < -32768 ∨ 32767 < n) ∧
        ¬ ((-2147483648 ≤ n ∧ n ≤ -2097152) ∨ (2097152 ≤ n ∧ n ≤ 2147483647)))) :
    ∃ bytes, JKSNEncoder.dumps nd JKSNCache.fresh (.int n) false =
        .ok (bytes, JKSNCache.fresh.afterInt n) ∧
      JKSNDecoder.parse JKSNCache.fresh bytes false = .ok (.int n, JKSNCache.fresh.afterInt n) := by
  by_cases h8 : 127 < n ∧ n ≤ 255
  · obtain ⟨bytes, e1, e2⟩ := int_fixed_form_decodes_low_byte nd n (by omega)
      (Or.inl ⟨by omega, by omega⟩)
    have hm : n % 256 = n := by omega
    rw [hm] at e2
    exact ⟨bytes, e1, e2⟩
  · exact int_round_trip nd n (le_of_lt hlo) hhi (by
      rcases hform with h | h
      · exact Or.inl ⟨h.1, by omega⟩
      · exact Or.inr h)

theorem int_round_trip_only (nd : Bool) (n : Int) (hlo : -2 ^ 63 ≤ n) (hhi : n < 2 ^ 63)
    (bytes : Bytes) (cache1 cache2 : JKSNCache)
    (hd : JKSNEncoder.dumps nd JKSNCache.fresh (.int n) false = .ok (bytes, cache1))
    (hp : JKSNDecoder.parse JKSNCache.fresh bytes false = .ok (.int n, cache2)) :
    (-128 ≤ n ∧ n ≤ 255) ∨
      ((n < -32768 ∨ 32767 < n) ∧
        ¬ ((-2147483648 ≤ n ∧ n ≤ -2097152) ∨ (2097152 ≤ n ∧ n ≤ 2147483647))) := by
  by_contra hno
  have h1 : ¬ (-128 ≤ n ∧ n ≤ 127) := by omega
  obtain ⟨bytes2, e1, e2⟩ := int_fixed_form_decodes_low_byte nd n h1 (by omega)
  rw [hd] at e1
  injection e1 with e1
  injection e1 with e1 _
  rw [e1, e2] at hp
  injection hp with hp
  injection hp with hp _
  injection hp with hp
  omega

theorem optimize_returns_iff (p : JKSNProxy) (cache : JKSNCache) (hp : p.AllDumped) :
    (∃ optimized cache1, optimize cache p = .ok (optimized, cache1)) ↔
      p.originsAlive true = true := by
  constructor
  · rintro ⟨optimized, cache1, h⟩
    exact optimize_alive p cache _ h
  · intro ha
    obtain ⟨r, hr⟩ := optimize_total p cache hp ha
    exact ⟨r.1, r.2, hr⟩

theorem dumpToProxy_returns_iff (cache : JKSNCache) (V : JKSNValue) :
    ∃ proxy, dumpValue true V = .ok proxy ∧
      ((∃ optimized cache1, dumpToProxy true cache V = .ok (optimized, cache1)) ↔
        proxy.originsAlive true = true) := by
  obtain ⟨p, hp⟩ := dumpValue_total V
  refine ⟨p, hp, ?_⟩
  rw [← optimize_returns_iff p cache (dumpValue_allDumped true V p hp)]
  simp only [dumpToProxy, bind, Except.bind, hp]

theorem dumps_returns_iff (cache : JKSNCache) (V : JKSNValue) (header : Bool) :
    ∃ proxy, dumpValue true V = .ok proxy ∧
      ((∃ bytes cache1, JKSNEncoder.dumps true cache V header = .ok (bytes, cache1)) ↔
        proxy.originsAlive true = true) := by
  obtain ⟨p, hp, hiff⟩ := dumpToProxy_returns_iff cache V
  refine ⟨p, hp, ?_⟩
  rw [← hiff]
  constructor
  · rintro ⟨bytes, cache1, h⟩
    simp only [JKSNEncoder.dumps, bind, Except.bind, pure, Except.pure] at h
    cases ht : dumpToProxy true cache V with
    | error e => rw [ht] at h; cases h
    | ok r => exact ⟨r.1, r.2, rfl⟩
  · rintro ⟨optimized, cache1, h⟩
    exact ⟨(if header = true then [0x6a, 0x6b, 0x21] else []) ++ optimized.toString true, cache1,
      by simp only [JKSNEncoder.dumps, bind, Except.bind, pure, Except.pure, h]⟩

theorem lengthForm_grammar (control immediate length c : Nat) (data : Bytes)
    (hc : control = 0x30 ∨ control = 0x40 ∨ control = 0x50 ∨ control = 0x80 ∨ control = 0x90)
    (hi : immediate = 0xb ∨ immediate = 0xc) (hl : length < 2 ^ 64)
    (h : lengthForm control immediate length = .ok (c, data)) :
    grammarLength c data =
      some (if 0xff < length ∧ length ≤ 0xffff then length % 256 else length) := by
  obtain ⟨c1, d1, e1, e2⟩ := lengthForm_reads control immediate length hc hi hl
  rw [h] at e1
  injection e1 with e1
  injection e1 with e1a e1b
  rw [← e1a, ← e1b] at e2
  exact e2

set_option maxRecDepth 4000

theorem dumps_dead_origin :
    (∀ ndebug header, JKSNEncoder.dumps ndebug JKSNCache.fresh
      (.array [.null, .object [(.string [0x61], .int 1)]]) header = .error .deadOrigin) ∧
    dumpValue false (.array [.null, .object [(.string [0x61], .int 1)]]) =
      .ok (.mk (.array [.null, .object [(.string [0x61], .int 1)]]) 0x82 [] []
        [.mk .null 0x01 [] [] [] 0,
         .mk (.object [(.string [0x61], .int 1)]) 0x91 [] []
           [.mk (.string [0x61]) 0x41 [] [0x61] [] 0x61, .mk (.int 1) 0x11 [] [] [] 0] 0] 0) := by
  refine ⟨?_, rfl⟩
  intro ndebug header
  cases ndebug <;> cases header <;> rfl

theorem dumps_string_ref_iff (nd : Bool) (cache : JKSNCache) (s : Bytes) (p : JKSNProxy)
    (hp : dumpString (.string s) = .ok p) (hlen : 1 < p.buf.length) :
    (∃ cache1, JKSNEncoder.dumps nd cache (.string s) false =
        .ok ([0x3c, DJBHash p.buf 0], cache1)) ↔
      cache.texthash (DJBHash p.buf 0) = some p.buf := by
  constructor
  · rintro ⟨cache1, h⟩
    by_contra hslot
    obtain ⟨e1, e2⟩ := dumps_string_miss nd cache s p hp hlen hslot
    rw [e1] at h
    injection h with h
    injection h with h _
    injection h with h _
    exact e2 h
  · intro hslot
    exact ⟨cache, dumps_string_hit nd cache s p hp hlen hslot⟩

/-! ## The claims -/

set_option maxRecDepth 4000

/-- Claim C1, as stated, fails on the String "a": the encoder emits the record 41 61 and the
decoder, which has no case for class 0x4, rejects it with a decode error. -/
theorem C1_counterexample :
    (JKSNEncoder.dumps false JKSNCache.fresh (.string [0x61]) false).map Prod.fst =
      .ok [0x41, 0x61] ∧
    JKSNDecoder.parse JKSNCache.fresh [0x41, 0x61] false = .error .JKSNDecodeError :=
  ⟨rfl, rfl⟩

/-- Claim C1, amended.  Round trip for the kinds the decoder has a case for: encoding
Undefined, Null, a Bool, or an Int n with -2^63 < n < 2^63 whose record is the immediate
form, the int8 form, the int16 form with 128 ≤ n ≤ 255 (1C 00 n) or a varint form, with a
fresh encoder and no header, and decoding the bytes with a fresh decoder succeeds and
returns the value.  For a String, Blob, Array, Object or Unspecified, whatever the encoder
emits is rejected by the decoder with a decode error. -/
theorem C1_round_trip_of_decoded_kinds (ndebug : Bool) (V : JKSNValue) :
    ((V = .undefined ∨ V = .null ∨ (∃ b, V = .bool b) ∨
        (∃ n : Int, V = .int n ∧ -2 ^ 63 < n ∧ n < 2 ^ 63 ∧
          ((-128 ≤ n ∧ n ≤ 255) ∨
            ((n < -32768 ∨ 32767 < n) ∧
              ¬ ((-2147483648 ≤ n ∧ n ≤ -2097152) ∨ (2097152 ≤ n ∧ n ≤ 2147483647)))))) →
      ∃ bytes cache1 cache2,
        JKSNEncoder.dumps ndebug JKSNCache.fresh V false = .ok (bytes, cache1) ∧
        JKSNDecoder.parse JKSNCache.fresh bytes false = .ok (V, cache2)) ∧
    (((∃ s, V = .string s) ∨ (∃ s, V = .blob s) ∨ (∃ xs, V = .array xs) ∨
        (∃ kvs, V = .object kvs) ∨ V = .unspecified) →
      ∀ bytes cache1, JKSNEncoder.dumps ndebug JKSNCache.fresh V false = .ok (bytes, cache1) →
        JKSNDecoder.parse JKSNCache.fresh bytes false = .error .JKSNDecodeError) := by
  constructor
  · rintro (rfl | rfl | ⟨b, rfl⟩ | ⟨n, rfl, hlo, hhi, hform⟩)
    · exact ⟨[0x00], _, _, rfl, rfl⟩
    · exact ⟨[0x01], _, _, rfl, rfl⟩
    · cases b
      · exact ⟨[0x02], _, _, rfl, rfl⟩
      · exact ⟨[0x03], _, _, rfl, rfl⟩
    · obtain ⟨bytes, h1, h2⟩ := int_round_trip_low ndebug n hlo hhi hform
      exact ⟨bytes, _, _, h1, h2⟩
  · intro hV bytes cache1 h
    exact dumps_undecoded ndebug _ V hV bytes cache1 h _

/-- Claim C1, amended, at the Int 200 (int16 form, 1C 00 C8), at the Int -70000 (negative
varint form) and at the Array [1, 2] (encoded as 82 11 12, which the decoder rejects). -/
theorem C1_round_trip_of_decoded_kinds_witness :
    (∃ bytes cache1 cache2,
      JKSNEncoder.dumps false JKSNCache.fresh (.int 200) false = .ok (bytes, cache1) ∧
      JKSNDecoder.parse JKSNCache.fresh bytes false = .ok (.int 200, cache2)) ∧
    (∃ bytes cache1 cache2,
      JKSNEncoder.dumps false JKSNCache.fresh (.int (-70000)) false = .ok (bytes, cache1) ∧
      JKSNDecoder.parse JKSNCache.fresh bytes false = .ok (.int (-70000), cache2)) ∧
    JKSNDecoder.parse JKSNCache.fresh [0x82, 0x11, 0x12] false = .error .JKSNDecodeError :=
  ⟨(C1_round_trip_of_decoded_kinds false (.int 200)).1
      (Or.inr (Or.inr (Or.inr ⟨200, rfl, by decide, by decide, by decide⟩))),
   (C1_round_trip_of_decoded_kinds false (.int (-70000))).1
      (Or.inr (Or.inr (Or.inr ⟨-70000, rfl, by decide, by decide, by decide⟩))),
   (C1_round_trip_of_decoded_kinds false (.array [.int 1, .int 2])).2
      (Or.inr (Or.inr (Or.inl ⟨_, rfl⟩))) [0x82, 0x11, 0x12] (JKSNCache.fresh.afterInt 2) rfl⟩

/-- Claim C2 fails on the code at the Int 256: `dumpInt` chooses the int16 form and
`encodeInt(256, 2)` shifts `uint8_t(number)`, so the payload is 00 00; the record 1C 00 00
decodes to Int 0, not Int 256. -/
theorem C2_int16_form_drops_high_byte :
    (JKSNEncoder.dumps false JKSNCache.fresh (.int 256) false).map Prod.fst =
      .ok [0x1c, 0x00, 0x00] ∧
    (JKSNDecoder.parse JKSNCache.fresh [0x1c, 0x00, 0x00] false).map Prod.fst = .ok (.int 0) ∧
    encodeInt 256 2 = .ok [0x00, 0x00] :=
  ⟨rfl, rfl, rfl⟩

/-- Claim C3.  Encoding a special value without header yields exactly one byte, for every
encoder cache, which is left unchanged: Undefined gives 00, Null 01, false 02, true 03 and
Unspecified A0. -/
theorem C3_special_values_one_byte (ndebug : Bool) (cache : JKSNCache) :
    JKSNEncoder.dumps ndebug cache .undefined false = .ok ([0x00], cache) ∧
    JKSNEncoder.dumps ndebug cache .null false = .ok ([0x01], cache) ∧
    JKSNEncoder.dumps ndebug cache (.bool false) false = .ok ([0x02], cache) ∧
    JKSNEncoder.dumps ndebug cache (.bool true) false = .ok ([0x03], cache) ∧
    JKSNEncoder.dumps ndebug cache .unspecified false = .ok ([0xa0], cache) :=
  ⟨rfl, rfl, rfl, rfl, rfl⟩

/-- Claim C4.  Integer form ladder: for every signed 64-bit Int n a fresh encoder emits the
single byte 0x10|n when 0 <= n <= 10; otherwise 1D and one payload byte when n is in int8
range; otherwise 1C and two payload bytes when n is in int16 range; otherwise 1B and four
payload bytes when n is in int32 range with |n| >= 2^21; otherwise 1F (n >= 0) or 1E (n < 0)
followed by the reference varint of |n|.  In particular 0 gives 10, 10 gives 1A, -1 gives
1D FF, 128 gives 1C 00 80 and 65535 gives 1F 83 FF 7F. -/
theorem C4_integer_form_ladder (ndebug : Bool) :
    (∀ n : Int, -2 ^ 63 ≤ n → n < 2 ^ 63 →
      ∃ bytes, JKSNEncoder.dumps ndebug JKSNCache.fresh (.int n) false =
          .ok (bytes, JKSNCache.fresh.afterInt n) ∧
        (if 0 ≤ n ∧ n ≤ 10 then bytes = [0x10 ||| n.toNat]
         else if -128 ≤ n ∧ n ≤ 127 then ∃ b0, bytes = [0x1d, b0]
         else if -32768 ≤ n ∧ n ≤ 32767 then ∃ b0 b1, bytes = [0x1c, b0, b1]
         else if -2 ^ 31 ≤ n ∧ n < 2 ^ 31 ∧ 2 ^ 21 ≤ |n| then
           ∃ b0 b1 b2 b3, bytes = [0x1b, b0, b1, b2, b3]
         else if 0 ≤ n then bytes = 0x1f :: varintReference n.natAbs
         else bytes = 0x1e :: varintReference n.natAbs)) ∧
    (JKSNEncoder.dumps ndebug JKSNCache.fresh (.int 0) false).map Prod.fst = .ok [0x10] ∧
    (JKSNEncoder.dumps ndebug JKSNCache.fresh (.int 10) false).map Prod.fst = .ok [0x1a] ∧
    (JKSNEncoder.dumps ndebug JKSNCache.fresh (.int (-1)) false).map Prod.fst = .ok [0x1d, 0xff] ∧
    (JKSNEncoder.dumps ndebug JKSNCache.fresh (.int 128) false).map Prod.fst =
      .ok [0x1c, 0x00, 0x80] ∧
    (JKSNEncoder.dumps ndebug JKSNCache.fresh (.int 65535) false).map Prod.fst =
      .ok [0x1f, 0x83, 0xff, 0x7f] :=
  ⟨fun n hlo hhi => integer_form_ladder ndebug n hlo hhi, rfl, rfl, rfl, rfl, rfl⟩

/-- Claim C4 at the Int -70000: the record is 1E followed by the varint of 70000. -/
theorem C4_integer_form_ladder_witness :
    ∃ bytes, JKSNEncoder.dumps false JKSNCache.fresh (.int (-70000)) false =
        .ok (bytes, JKSNCache.fresh.afterInt (-70000)) ∧
      bytes = 0x1e :: varintReference 70000 := by
  obtain ⟨bytes, h1, h2⟩ := (C4_integer_form_ladder false).1 (-70000) (by decide) (by decide)
  exact ⟨bytes, h1, by simpa using h2⟩

/-- Claim C5, as stated, fails: the encoding of the Array [100, 101, 100] is not
83 1D 64 B1 B6. -/
theorem C5_counterexample :
    (JKSNEncoder.dumps false JKSNCache.fresh (.array [.int 100, .int 101, .int 100]) false).map
      Prod.fst ≠ .ok [0x83, 0x1d, 0x64, 0xb1, 0xb6] := by
  rw [show (JKSNEncoder.dumps false JKSNCache.fresh (.array [.int 100, .int 101, .int 100])
    false).map Prod.fst = .ok [0x83, 0x1d, 0x64, 0xb1, 0xba] from rfl]
  simp

/-- Claim C5, amended.  Encoding the Array of Ints [100, 101, 100] with a fresh encoder and
no header yields exactly the bytes 83 1D 64 B1 BA: the array header, the first integer in
int8 form, the second as the delta +1 (B1) and the third as the delta -1, whose opcode is
0xB0 | (-1 + 11) = BA. -/
theorem C5_delta_array_bytes (ndebug : Bool) :
    (JKSNEncoder.dumps ndebug JKSNCache.fresh (.array [.int 100, .int 101, .int 100]) false).map
      Prod.fst = .ok [0x83, 0x1d, 0x64, 0xb1, 0xba] := by
  cases ndebug <;> rfl

/-- Claim C6, as stated, fails: the DJB8 hash of 61 61 61 is not 0xBC, and the encoding of
the Array ["aaa", "aaa"] does not end in 3C BC. -/
theorem C6_counterexample :
    DJBHash [0x61, 0x61, 0x61] 0 ≠ 0xbc ∧
    (JKSNEncoder.dumps false JKSNCache.fresh
      (.array [.string [0x61, 0x61, 0x61], .string [0x61, 0x61, 0x61]]) false).map Prod.fst ≠
      .ok [0x82, 0x43, 0x61, 0x61, 0x61, 0x3c, 0xbc] := by
  refine ⟨by decide, ?_⟩
  rw [show (JKSNEncoder.dumps false JKSNCache.fresh
      (.array [.string [0x61, 0x61, 0x61], .string [0x61, 0x61, 0x61]]) false).map Prod.fst =
      .ok [0x82, 0x43, 0x61, 0x61, 0x61, 0x3c, 0x83] from rfl]
  simp

/-- Claim C6, amended.  Encoding the Array ["aaa", "aaa"] with a fresh encoder emits the
first element as the class-0x4 record 43 61 61 61 and the second as the two-byte hash
reference 3C h, where h = DJB8(61 61 61) = 0x83. -/
theorem C6_repeated_string_reference (ndebug : Bool) :
    (dumpToProxy ndebug JKSNCache.fresh
      (.array [.string [0x61, 0x61, 0x61], .string [0x61, 0x61, 0x61]])).map
      (fun r => r.1.children.map (JKSNProxy.toString true)) =
      .ok [[0x43, 0x61, 0x61, 0x61], [0x3c, DJBHash [0x61, 0x61, 0x61] 0]] ∧
    DJBHash [0x61, 0x61, 0x61] 0 = 0x83 := by
  cases ndebug <;> exact ⟨rfl, rfl⟩

/-- Claim C7 fails on the code at the Array [{"a": "hello"}]: the proxy built by
`encodeSwappedArray` has the children 41 61, 41 61, the record of the key followed by the
record of the key again (`it->first`), where the claim has the record of the value,
45 68 65 6C 6C 6F; the array is emitted as A1 41 61 41 61. -/
theorem C7_swapped_cell_is_the_key_record :
    (encodeSwappedArray false
      (.array [.object [(.string [0x61], .string [0x68, 0x65, 0x6c, 0x6c, 0x6f])]])).map
      (fun p => p.children.map (JKSNProxy.toString true)) = .ok [[0x41, 0x61], [0x41, 0x61]] ∧
    (dumpValue false (.string [0x68, 0x65, 0x6c, 0x6c, 0x6f])).map (JKSNProxy.toString true) =
      .ok [0x45, 0x68, 0x65, 0x6c, 0x6c, 0x6f] ∧
    (JKSNEncoder.dumps false JKSNCache.fresh
      (.array [.object [(.string [0x61], .string [0x68, 0x65, 0x6c, 0x6c, 0x6f])]]) false).map
      Prod.fst = .ok [0xa1, 0x41, 0x61, 0x41, 0x61] :=
  ⟨rfl, rfl, rfl⟩

/-- Claim C8, as stated, fails on the Array of the Strings 2D 00 2D 00 and E4 B8 AD E4 B8 AD:
the second String becomes a class-0x3 record with the payload 2D 00 2D 00 and is rewritten
to the reference 3C DA, while the only earlier node with that payload is the class-0x4
record of the first String: no earlier node has the high nibble 0x3. -/
theorem C8_counterexample :
    ∃ proxy optimized cache,
      dumpValue false (.array [.string [0x2d, 0x00, 0x2d, 0x00],
        .string [0xe4, 0xb8, 0xad, 0xe4, 0xb8, 0xad]]) = .ok proxy ∧
      dumpToProxy false JKSNCache.fresh (.array [.string [0x2d, 0x00, 0x2d, 0x00],
        .string [0xe4, 0xb8, 0xad, 0xe4, 0xb8, 0xad]]) = .ok (optimized, cache) ∧
      (optimized.nodes.map (JKSNProxy.toString false) =
        [[0x82], [0x44, 0x2d, 0x00, 0x2d, 0x00], [0x3c, 0xda]]) ∧
      (proxy.nodes.map (JKSNProxy.toString false) =
        [[0x82], [0x44, 0x2d, 0x00, 0x2d, 0x00], [0x32, 0x2d, 0x00, 0x2d, 0x00]]) ∧
      ¬ HashRefsResolved sameHighNibble proxy optimized := by
  refine ⟨_, _, _, rfl, rfl, rfl, rfl, ?_⟩
  intro h
  obtain ⟨original, i, earlier, ho, hi, he, _, hsame, _, _⟩ := h 2 _ rfl rfl
  cases ho
  have hi2 : i = 0 ∨ i = 1 := by omega
  rcases hi2 with rfl | rfl
  · cases he
    exact absurd hsame (by unfold sameHighNibble; decide)
  · cases he
    exact absurd hsame (by unfold sameHighNibble; decide)

/-- Claim C8, amended.  Hash dedup correctness: for every value and every run of
`dumpToProxy` from a fresh cache, the optimized tree has the nodes of the dumped tree one
for one, and whenever a node of it has control 0x3C with data byte h, an earlier node in
emission order is a payload record of the same kind as the rewritten node was (a string
record, class 0x3 or 0x4, for a string; a blob record, class 0x5, for a blob), carries a
payload equal to the original payload of the rewritten node, and the DJB8 hash of that
payload is h.  Such runs exist: with assertions compiled out `dumpValue` returns a tree for
every value, and `dumpToProxy` returns exactly when `optimize` reads no dead origin in it,
that is, when no integer record lies below an Object or a swapped Array record. -/
theorem C8_hash_references_resolved (V : JKSNValue) :
    (∃ proxy, dumpValue true V = .ok proxy ∧
      ((∃ optimized cache, dumpToProxy true JKSNCache.fresh V = .ok (optimized, cache)) ↔
        proxy.originsAlive true = true)) ∧
    ∀ (ndebug : Bool) (proxy optimized : JKSNProxy) (cache : JKSNCache),
      dumpValue ndebug V = .ok proxy →
      dumpToProxy ndebug JKSNCache.fresh V = .ok (optimized, cache) →
      optimized.nodes.length = proxy.nodes.length ∧
        HashRefsResolved sameHashTable proxy optimized := by
  refine ⟨dumpToProxy_returns_iff JKSNCache.fresh V, ?_⟩
  · intro ndebug proxy optimized cache hd ht
    simp only [dumpToProxy, bind, Except.bind, hd] at ht
    have := optimize_resolved proxy JKSNCache.fresh [] (optimized, cache)
      (dumpValue_allDumped ndebug V proxy hd) cacheInv_fresh ht
    exact ⟨resolved_length _ _ _ _ this.2, hashRefsResolved_of_resolved _ _ _ this.2⟩

/-- Claim C8, amended, at the Array ["aaa", "aaa"]: the reference 3C 83 of the second
element is resolved by the record 43 61 61 61 of the first. -/
theorem C8_hash_references_resolved_witness :
    HashRefsResolved sameHashTable
      (.mk (.array [.string [0x61, 0x61, 0x61], .string [0x61, 0x61, 0x61]]) 0x82 [] []
        [.mk (.string [0x61, 0x61, 0x61]) 0x43 [] [0x61, 0x61, 0x61] [] 0x83,
         .mk (.string [0x61, 0x61, 0x61]) 0x43 [] [0x61, 0x61, 0x61] [] 0x83] 0)
      (.mk (.array [.string [0x61, 0x61, 0x61], .string [0x61, 0x61, 0x61]]) 0x82 [] []
        [.mk (.string [0x61, 0x61, 0x61]) 0x43 [] [0x61, 0x61, 0x61] [] 0x83,
         .mk (.string [0x61, 0x61, 0x61]) 0x3c [0x83] [] [] 0x83] 0) :=
  ((C8_hash_references_resolved
    (.array [.string [0x61, 0x61, 0x61], .string [0x61, 0x61, 0x61]])).2 false _ _
    { haslastint := false, lastint := 0,
      texthash := fun i => if i = 0x83 then some [0x61, 0x61, 0x61] else none,
      blobhash := fun _ => none } rfl rfl).2

/-- Claim C9.  Monotone size preference: for every Array value, `dumpArray` returns a proxy
when assertions are compiled out, and in either build the proxy it returns has `size(3)`
less than or equal to `size(3)` of the straight encoding `encodeStraightArray` of the same
value; it is the straight encoding unless it is the swapped one with a strictly smaller
`size(3)`. -/
theorem C9_monotone_size_preference (xs : List JKSNValue) :
    (∃ result, dumpArray true (.array xs) = .ok result) ∧
    ∀ (ndebug : Bool) (result : JKSNProxy), dumpArray ndebug (.array xs) = .ok result →
      ∃ straight, encodeStraightArray ndebug (.array xs) = .ok straight ∧
        result.size 3 ≤ straight.size 3 ∧
        (result = straight ∨
          (encodeSwappedArray ndebug (.array xs) = .ok result ∧
            result.size 3 < straight.size 3)) := by
  refine ⟨dumpValue_total (.array xs), ?_⟩
  intro ndebug result h
  obtain ⟨straight, hs, hp⟩ := dumpArrayFrom_ok ndebug xs _ _ result h
  refine ⟨straight, hs, ?_, ?_⟩
  · rcases hp with hp | ⟨_, _, hlt⟩
    · rw [hp]
    · exact Nat.le_of_lt hlt
  · rcases hp with hp | ⟨_, hw, hlt⟩
    · exact Or.inl hp
    · exact Or.inr ⟨hw, hlt⟩

/-- Claim C9 at the Array [{"a": "hello"}], for which `dumpArray` keeps the swapped form. -/
theorem C9_monotone_size_preference_witness :
    dumpArray false
      (.array [.object [(.string [0x61], .string [0x68, 0x65, 0x6c, 0x6c, 0x6f])]]) =
      .ok (.mk (.array [.object [(.string [0x61], .string [0x68, 0x65, 0x6c, 0x6c, 0x6f])]])
        0xa1 [] [] [.mk (.string [0x61]) 0x41 [] [0x61] [] 0x61,
          .mk (.string [0x61]) 0x41 [] [0x61] [] 0x61] 0) ∧
    ∃ straight, encodeStraightArray false
        (.array [.object [(.string [0x61], .string [0x68, 0x65, 0x6c, 0x6c, 0x6f])]]) =
        .ok straight ∧
      JKSNProxy.size 3 (.mk (.array [.object [(.string [0x61],
        .string [0x68, 0x65, 0x6c, 0x6c, 0x6f])]])
        0xa1 [] [] [.mk (.string [0x61]) 0x41 [] [0x61] [] 0x61,
          .mk (.string [0x61]) 0x41 [] [0x61] [] 0x61] 0) ≤ straight.size 3 :=
  ⟨rfl, by
    obtain ⟨straight, h1, h2, _⟩ := (C9_monotone_size_preference
      [.object [(.string [0x61], .string [0x68, 0x65, 0x6c, 0x6c, 0x6f])]]).2 false _ rfl
    exact ⟨straight, h1, h2⟩⟩

/-- Claim C10.  Header optional: for every value V, whenever a fresh encoder returns the
header-less encoding, it returns "jk!" followed by the same bytes when the header is
requested, and decoding the header-prefixed encoding with header acceptance enabled gives
the same result (the same value and cache, or the same failure) as decoding the header-less
encoding with header acceptance disabled, each with a fresh decoder.  With assertions
compiled out `dumpValue` returns a tree for every V, and the encoder returns the header-less
encoding exactly when `optimize` reads no dead origin in that tree, that is, when no integer
record lies below an Object or a swapped Array record. -/
theorem C10_header_optional (V : JKSNValue) :
    (∃ proxy, dumpValue true V = .ok proxy ∧
      ((∃ bytes cache, JKSNEncoder.dumps true JKSNCache.fresh V false = .ok (bytes, cache)) ↔
        proxy.originsAlive true = true)) ∧
    ∀ (ndebug : Bool) (bytes : Bytes) (cache : JKSNCache),
      JKSNEncoder.dumps ndebug JKSNCache.fresh V false = .ok (bytes, cache) →
      JKSNEncoder.dumps ndebug JKSNCache.fresh V true =
        .ok (0x6a :: 0x6b :: 0x21 :: bytes, cache) ∧
      JKSNDecoder.parse JKSNCache.fresh (0x6a :: 0x6b :: 0x21 :: bytes) true =
        JKSNDecoder.parse JKSNCache.fresh bytes false :=
  ⟨dumps_returns_iff JKSNCache.fresh V false, fun ndebug bytes cache h =>
    ⟨dumps_header ndebug _ V bytes cache h, parse_header _ bytes⟩⟩

/-- Claim C10 at the Int 65535, encoded as 1F 83 FF 7F. -/
theorem C10_header_optional_witness :
    JKSNEncoder.dumps false JKSNCache.fresh (.int 65535) true =
      .ok ([0x6a, 0x6b, 0x21, 0x1f, 0x83, 0xff, 0x7f], JKSNCache.fresh.afterInt 65535) ∧
    JKSNDecoder.parse JKSNCache.fresh [0x6a, 0x6b, 0x21, 0x1f, 0x83, 0xff, 0x7f] true =
      JKSNDecoder.parse JKSNCache.fresh [0x1f, 0x83, 0xff, 0x7f] false :=
  (C10_header_optional (.int 65535)).2 false [0x1f, 0x83, 0xff, 0x7f]
    (JKSNCache.fresh.afterInt 65535) rfl

/-- Claim C11, the rewind path, fails on an encoding shorter than 3 bytes.  Null encodes as
the single byte 01, which decodes to Null with header acceptance disabled; with header
acceptance enabled the same byte gives no value: `read` of 3 bytes sets `failbit`, `seekg`
does nothing on a failed stream, and `parseValue` finds nothing to read.  So does every
stream of fewer than 3 bytes.  From 3 bytes on, an encoding that does not start with the
magic decodes the same either way. -/
theorem C11_rewind_fails_below_three_bytes :
    JKSNEncoder.dumps true JKSNCache.fresh .null false = .ok ([0x01], JKSNCache.fresh) ∧
    JKSNDecoder.parse JKSNCache.fresh [0x01] false = .ok (.null, JKSNCache.fresh) ∧
    JKSNDecoder.parse JKSNCache.fresh [0x01] true = .error .charPointer ∧
    (∀ (cache : JKSNCache) (bytes : Bytes), bytes.length < 3 →
      JKSNDecoder.parse cache bytes true = .error .charPointer) ∧
    (∀ (cache : JKSNCache) (a b c : Nat) (rest : Bytes), [a, b, c] ≠ [0x6a, 0x6b, 0x21] →
      JKSNDecoder.parse cache (a :: b :: c :: rest) true =
        JKSNDecoder.parse cache (a :: b :: c :: rest) false) :=
  ⟨rfl, rfl, rfl, parse_rewind_short, parse_rewind_long⟩

/-- Claim C12, the length of a class-0x4 record is the byte length of s, fails on the String
of 256 bytes 61: `dumpString` emits the header 4D 00 00, since `encodeInt(256, 2)` writes
00 00, and read by the control-byte grammar that header denotes the length 0, not 256.  The
rest of the claim holds for every byte sequence s: `dumpString` returns a record; its class
is 0x3 exactly when `UTF8ToUTF16LE(s, true)` succeeds with fewer bytes than s, and then the
payload is the transcoded bytes; otherwise the class is 0x4 and the payload is s.  The
length that the header denotes is the claimed one (code units, or bytes of s) outside
256..65535, and its low byte inside that range.  The encoded lone surrogate ED A0 80 is
rejected by the strict transcoder and is emitted as 43 ED A0 80. -/
theorem C12_string_length_denotes_low_byte :
    (∃ p, dumpString (.string (List.replicate 256 0x61)) = .ok p ∧
      p.buf = List.replicate 256 0x61 ∧ p.control = 0x4d ∧ p.data = [0x00, 0x00] ∧
      grammarLength p.control p.data = some 0) ∧
    (∀ s : Bytes, ∃ p, dumpString (.string s) = .ok p ∧
      ((∃ u, UTF8ToUTF16LE s true = .ok u ∧ u.length < s.length) ↔
        p.control &&& 0xf0 = 0x30) ∧
      (∀ u, UTF8ToUTF16LE s true = .ok u → u.length < s.length →
        p.buf = u ∧
        (s.length < 2 ^ 64 → grammarLength p.control p.data =
          some (if 0xff < u.length / 2 ∧ u.length / 2 ≤ 0xffff then u.length / 2 % 256
            else u.length / 2))) ∧
      (¬ (∃ u, UTF8ToUTF16LE s true = .ok u ∧ u.length < s.length) →
        p.control &&& 0xf0 = 0x40 ∧ p.buf = s ∧
        (s.length < 2 ^ 64 → grammarLength p.control p.data =
          some (if 0xff < s.length ∧ s.length ≤ 0xffff then s.length % 256
            else s.length)))) ∧
    UTF8ToUTF16LE [0xed, 0xa0, 0x80] true = .error .JKSNTypeError ∧
    (∃ p, dumpString (.string [0xed, 0xa0, 0x80]) = .ok p ∧
      p.toString true = [0x43, 0xed, 0xa0, 0x80]) := by
  refine ⟨⟨_, rfl, rfl, rfl, rfl, rfl⟩, ?_, rfl, ⟨_, rfl, rfl⟩⟩
  intro s
  obtain ⟨p, hp, _, h | h⟩ := dumpString_header s
  · obtain ⟨u, hu, hlen, hbuf, hform⟩ := h
    have hclass := lengthForm_class 0x30 0xb _ _ _ (by decide) (by decide) hform
    refine ⟨p, hp, ⟨fun _ => hclass, fun _ => ⟨u, hu, hlen⟩⟩, ?_, ?_⟩
    · intro u1 hu1 _
      rw [hu] at hu1
      cases hu1
      exact ⟨hbuf, fun hs => lengthForm_grammar 0x30 0xb _ _ _ (Or.inl rfl) (Or.inl rfl)
        (by omega) hform⟩
    · intro hno
      exact absurd ⟨u, hu, hlen⟩ hno
  · obtain ⟨hno, hbuf, hform⟩ := h
    have hclass := lengthForm_class 0x40 0xc _ _ _ (by decide) (by decide) hform
    refine ⟨p, hp, ⟨?_, ?_⟩, ?_, ?_⟩
    · rintro ⟨u, hu, hlen⟩
      exact absurd hlen (hno u hu)
    · intro h3
      rw [hclass] at h3
      exact absurd h3 (by decide)
    · intro u hu hlen
      exact absurd hlen (hno u hu)
    · intro _
      exact ⟨hclass, hbuf, fun hs => lengthForm_grammar 0x40 0xc _ _ _ (Or.inr (Or.inl rfl))
        (Or.inr rfl) hs hform⟩

/-- Claim C13, the length prefix denotes the length, fails for the lengths 256 to 65535.
The header of a String, Blob, straight Array or Object record is the length form of its
length; read by the control-byte grammar, the length form of L denotes L outside that
range and L mod 256 inside it, because `encodeInt(L, 2)` writes 00 and the low byte of L,
not the big-endian bytes of L.  A Blob of 256 bytes gets the header 5D 00 00, which
denotes the length 0. -/
theorem C13_two_byte_length_denotes_low_byte :
    (∃ p, dumpBlob (.blob (List.replicate 256 0)) = .ok p ∧ p.buf.length = 256 ∧
      p.control = 0x5d ∧ p.data = [0x00, 0x00] ∧ grammarLength p.control p.data = some 0) ∧
    (∀ L : Nat, 0xff < L → L ≤ 0xffff →
      encodeInt L 2 = .ok [0x00, L % 256] ∧
      bigEndianReference 2 L = [L / 256, L % 256] ∧ L / 256 ≠ 0) ∧
    (∀ control immediate L : Nat,
      control = 0x30 ∨ control = 0x40 ∨ control = 0x50 ∨ control = 0x80 ∨ control = 0x90 →
      immediate = 0xb ∨ immediate = 0xc → L < 2 ^ 64 →
      ∃ c data, lengthForm control immediate L = .ok (c, data) ∧
        grammarLength c data = some (if 0xff < L ∧ L ≤ 0xffff then L % 256 else L)) ∧
    (∀ s : Bytes, ∃ p, dumpBlob (.blob s) = .ok p ∧ p.buf = s ∧
      lengthForm 0x50 0xb s.length = .ok (p.control, p.data)) ∧
    (∀ s : Bytes, ∃ p, dumpString (.string s) = .ok p ∧
      (lengthForm 0x30 0xb (p.buf.length / 2) = .ok (p.control, p.data) ∨
       lengthForm 0x40 0xc p.buf.length = .ok (p.control, p.data))) ∧
    (∀ (nd : Bool) (xs : List JKSNValue) (p : JKSNProxy),
      encodeStraightArray nd (.array xs) = .ok p →
      lengthForm 0x80 0xc xs.length = .ok (p.control, p.data)) ∧
    (∀ (nd : Bool) (kvs : List (JKSNValue × JKSNValue)) (p : JKSNProxy),
      dumpObject nd (.object kvs) = .ok p →
      lengthForm 0x90 0xc kvs.length = .ok (p.control, p.data)) := by
  refine ⟨?_, ?_, lengthForm_reads, ?_, ?_, ?_, ?_⟩
  · obtain ⟨p, hp, hbuf, _, hform⟩ := dumpBlob_header (List.replicate 256 0)
    have hlen : (List.replicate 256 (0 : Nat)).length = 256 := List.length_replicate _ _
    rw [hlen, lengthForm_u16 0x50 0xb 256 (by decide) (by decide) (by decide)] at hform
    injection hform with hform
    injection hform with hc hd
    refine ⟨p, hp, by rw [hbuf, hlen], hc.symm, hd.symm, ?_⟩
    rw [← hc, ← hd]
    rfl
  · intro L h1 h2
    refine ⟨encodeInt_two_bytes L, ?_, by omega⟩
    rw [bigEndianReference_two]
    have : L / 256 % 256 = L / 256 := Nat.mod_eq_of_lt (by omega)
    rw [this]
  · intro s
    obtain ⟨p, hp, hbuf, _, hform⟩ := dumpBlob_header s
    exact ⟨p, hp, hbuf, hform⟩
  · intro s
    obtain ⟨p, hp, _, h | h⟩ := dumpString_header s
    · obtain ⟨u, _, _, hbuf, hform⟩ := h
      exact ⟨p, hp, Or.inl (by rw [hbuf]; exact hform)⟩
    · obtain ⟨_, hbuf, hform⟩ := h
      exact ⟨p, hp, Or.inr (by rw [hbuf]; exact hform)⟩
  · intro nd xs p h
    exact (encodeStraightArray_layout nd xs p h).1
  · intro nd kvs p h
    exact (dumpObject_layout nd kvs p h).1

/-- Claim C14, the class-0x8 header carries the element count N, fails on the Array of
256 Nulls: the header is 8D 00 00, since `encodeInt(256, 2)` writes 00 00, and read by the
control-byte grammar it denotes the count 0, while 256 child records follow.  The rest of
the claim holds: `testSwapAvailability` holds exactly when every element is an Object and at
least one is non-empty; for an array with an element that is not an Object, or without a
non-empty Object, the test fails and `dumpArray` is `encodeStraightArray`; it returns when
the assertions are compiled out or every element is dumped, and whatever it returns is a
class-0x8 record without payload whose N children are the records of the elements in
order.  The count that the header denotes is N outside 256..65535 and the low byte of N
inside that range. -/
theorem C14_array_count_denotes_low_byte :
    (∀ nd : Bool, ∃ p, dumpArray nd (.array (List.replicate 256 .null)) = .ok p ∧
      p.control = 0x8d ∧ p.data = [0x00, 0x00] ∧ p.children.length = 256 ∧
      grammarLength p.control p.data = some 0) ∧
    (∀ ys : List JKSNValue, testSwapAvailability (.array ys) = .ok true ↔
      (∀ y ∈ ys, y.isObject = true) ∧ ∃ y ∈ ys, ∃ kvs, y = .object kvs ∧ kvs ≠ []) ∧
    (∀ (nd : Bool) (xs : List JKSNValue),
      ((∃ x ∈ xs, x.isObject = false) ∨ (∀ x ∈ xs, ∀ kvs, x = .object kvs → kvs = [])) →
      testSwapAvailability (.array xs) = .ok false ∧
      dumpArray nd (.array xs) = encodeStraightArray nd (.array xs) ∧
      dumpValue nd (.array xs) = encodeStraightArray nd (.array xs) ∧
      ((nd = true ∨ ∀ x ∈ xs, ∃ q, dumpValue nd x = .ok q) →
        ∃ p, dumpArray nd (.array xs) = .ok p) ∧
      (∀ p, dumpArray nd (.array xs) = .ok p →
        p.control &&& 0xf0 = 0x80 ∧ p.buf = [] ∧ p.children.length = xs.length ∧
        xs.map (dumpValue nd) = p.children.map Except.ok ∧
        (xs.length < 2 ^ 64 → grammarLength p.control p.data =
          some (if 0xff < xs.length ∧ xs.length ≤ 0xffff then xs.length % 256
            else xs.length)))) := by
  have hiff : ∀ ys : List JKSNValue, testSwapAvailability (.array ys) = .ok true ↔
      (∀ y ∈ ys, y.isObject = true) ∧ ∃ y ∈ ys, ∃ kvs, y = .object kvs ∧ kvs ≠ [] := by
    intro ys
    have := testSwapAvailabilityLoop_iff ys false
    simp only [Bool.false_eq_true, false_or] at this
    rw [← this]
    simp [testSwapAvailability, JKSNValue.toVector, bind, Except.bind, pure, Except.pure]
  refine ⟨?_, hiff, ?_⟩
  · intro nd
    cases nd
    · exact ⟨_, rfl, rfl, rfl, rfl, rfl⟩
    · exact ⟨_, rfl, rfl, rfl, rfl, rfl⟩
  intro nd xs h
  have hfalse : testSwapAvailabilityLoop xs false = false := by
    cases ht : testSwapAvailabilityLoop xs false with
    | false => rfl
    | true =>
      exfalso
      obtain ⟨hall, hsome⟩ := (testSwapAvailabilityLoop_iff xs false).mp ht
      simp only [Bool.false_eq_true, false_or] at hsome
      rcases h with ⟨x, hx, hno⟩ | hempty
      · rw [hall x hx] at hno
        exact Bool.noConfusion hno
      · obtain ⟨y, hy, kvs, hk, hne⟩ := hsome
        exact hne (hempty y hy kvs hk)
  have hstraight := dumpArray_straight nd xs hfalse
  refine ⟨?_, hstraight, ?_, ?_, ?_⟩
  · simp [testSwapAvailability, JKSNValue.toVector, bind, Except.bind, pure, Except.pure,
      hfalse]
  · rw [dumpValue_array, hstraight]
  · intro hret
    rw [hstraight]
    apply encodeStraightArray_returns
    rcases hret with hnd | hall
    · subst hnd
      intro x _
      exact dumpValue_total x
    · exact hall
  · intro p hp
    rw [hstraight] at hp
    obtain ⟨hform, hbuf, hkids⟩ := encodeStraightArray_layout nd xs p hp
    refine ⟨lengthForm_class 0x80 0xc _ _ _ (by decide) (by decide) hform, hbuf, ?_, hkids,
      fun hl => lengthForm_grammar 0x80 0xc _ _ _ (Or.inr (Or.inr (Or.inr (Or.inl rfl))))
        (Or.inr rfl) hl hform⟩
    have := congrArg List.length hkids
    simpa using this.symm

/-- Claim C15, fixed-width integers are big-endian, fails for the widths 2 and 4.  The width
1 is right: `encodeInt(n, 1)` is the byte n mod 256.  For the widths 2 and 4 every byte but
the last is 0, and the last is n mod 256, since the source shifts `uint8_t(number)`:
`encodeInt(0x1234, 2)` is 00 34 and `encodeInt(0x12345678, 4)` is 00 00 00 78, where the
big-endian bytes are 12 34 and 12 34 56 78. -/
theorem C15_fixed_width_keeps_low_byte_only :
    (∀ n : Nat, encodeInt n 1 = .ok (bigEndianReference 1 (n % 2 ^ 8))) ∧
    (∀ n : Nat, encodeInt n 2 = .ok [0x00, n % 256]) ∧
    (∀ n : Nat, encodeInt n 4 = .ok [0x00, 0x00, 0x00, n % 256]) ∧
    encodeInt 0x1234 2 = .ok [0x00, 0x34] ∧
    bigEndianReference 2 0x1234 = [0x12, 0x34] ∧
    encodeInt 0x12345678 4 = .ok [0x00, 0x00, 0x00, 0x78] ∧
    bigEndianReference 4 0x12345678 = [0x12, 0x34, 0x56, 0x78] :=
  ⟨encodeInt_one_byte, encodeInt_two_bytes, encodeInt_four_bytes, rfl, rfl, rfl, rfl⟩

/-- Claim C16.  Varint format: for every unsigned 64-bit n, `encodeInt(n, 0)` returns a
non-empty byte sequence; every byte except the last has bit 0x80 set, the last has it
clear, and the big-endian base-128 value of the low 7 bits of the bytes is n. -/
theorem C16_varint_format (n : Nat) (h : n < 2 ^ 64) :
    ∃ bytes, encodeInt n 0 = .ok bytes ∧ bytes ≠ [] ∧
      (∀ b ∈ bytes.dropLast, b < 256 ∧ b &&& 0x80 = 0x80) ∧
      (∃ last, bytes.getLast? = some last ∧ last < 256 ∧ last &&& 0x80 = 0) ∧
      base128Value bytes = n :=
  ⟨varintReference n, encodeInt_varint n h, (varint_continuation n).1,
    (varint_continuation n).2.1, (varint_continuation n).2.2, base128Value_varint n⟩

/-- Claim C16 at n = 300, encoded as 82 2C. -/
theorem C16_varint_format_witness :
    (300 : Nat) < 2 ^ 64 ∧ encodeInt 300 0 = .ok [0x82, 0x2c] ∧
    ∃ bytes, encodeInt 300 0 = .ok bytes ∧ bytes ≠ [] ∧
      (∀ b ∈ bytes.dropLast, b < 256 ∧ b &&& 0x80 = 0x80) ∧
      (∃ last, bytes.getLast? = some last ∧ last < 256 ∧ last &&& 0x80 = 0) ∧
      base128Value bytes = 300 :=
  ⟨by norm_num, rfl, C16_varint_format 300 (by norm_num)⟩

/-- Claim C17.  Varint round trip: for every unsigned 64-bit n and every byte sequence t,
`decodeInt` with size 0 on a good stream that holds `encodeInt(n, 0)` followed by t returns
n, has consumed exactly the bytes of `encodeInt(n, 0)`, and leaves t on a good stream. -/
theorem C17_varint_round_trip (n : Nat) (t past : Bytes) (gcount : Nat) (h : n < 2 ^ 64) :
    ∃ bytes fp1, encodeInt n 0 = .ok bytes ∧
      decodeInt { past := past, rest := bytes ++ t, gcount := gcount, failed := false } 0 =
        .ok (n, fp1) ∧
      fp1.rest = t ∧ fp1.past = bytes.reverse ++ past ∧ fp1.failed = false := by
  have hd := decodeIntLoop_varint n t h
  refine ⟨varintReference n,
    { past := (varintReference n).reverse ++ past, rest := t, gcount := 1, failed := false },
    encodeInt_varint n h, ?_, rfl, rfl, rfl⟩
  simp only [decodeInt, Bool.false_eq_true, if_false, hd, List.length_append,
    Nat.add_sub_cancel, List.take_left']

/-- Claim C17 at n = 300 followed by the bytes 01 02. -/
theorem C17_varint_round_trip_witness :
    (300 : Nat) < 2 ^ 64 ∧
    ∃ bytes fp1, encodeInt 300 0 = .ok bytes ∧
      decodeInt { past := [], rest := bytes ++ [0x01, 0x02], gcount := 0, failed := false } 0 =
        .ok (300, fp1) ∧
      fp1.rest = [0x01, 0x02] ∧ fp1.past = bytes.reverse ++ [] ∧ fp1.failed = false :=
  ⟨by norm_num, C17_varint_round_trip 300 [0x01, 0x02] [] 0 (by norm_num)⟩

/-- Claim C18.  Varint overflow rejection: whenever `decodeInt` with size 0 returns, the
result is the big-endian base-128 value of the bytes it consumed, below 2^64.  On a good
stream that starts with continuation bytes and one more byte whose base-128 value together
is 2^64 or more, it throws JKSNDecodeError.  The opcode 0x1F throws JKSNDecodeError for a
magnitude of 2^63 or more, the opcode 0x1E for a magnitude above 2^63. -/
theorem C18_varint_overflow_rejected :
    (∀ (fp fp1 : IStream) (r : Nat), decodeInt fp 0 = .ok (r, fp1) →
      ∃ consumed, fp.rest = consumed ++ fp1.rest ∧ fp1.past = consumed.reverse ++ fp.past ∧
        r = base128Value consumed ∧ r < 2 ^ 64) ∧
    (∀ (fp : IStream) (cs : Bytes) (last : Nat) (t : Bytes), fp.failed = false →
      fp.rest = cs ++ last :: t → (∀ c ∈ cs, (c % 256) &&& 0x80 ≠ 0) →
      2 ^ 64 ≤ base128Value (cs ++ [last]) →
      decodeInt fp 0 = .error .JKSNDecodeError) ∧
    (∀ (cache : JKSNCache) (fp fp1 : IStream) (m : Nat), decodeInt fp 0 = .ok (m, fp1) →
      2 ^ 63 ≤ m → parseControl cache 0x1f fp = .error .JKSNDecodeError) ∧
    (∀ (cache : JKSNCache) (fp fp1 : IStream) (m : Nat), decodeInt fp 0 = .ok (m, fp1) →
      2 ^ 63 < m → parseControl cache 0x1e fp = .error .JKSNDecodeError) := by
  refine ⟨?_, ?_, parseControl_1f_reject, parseControl_1e_reject⟩
  · intro fp fp1 r h
    obtain ⟨consumed, h1, _, h3, h4, h5⟩ := decodeInt_varint_value fp fp1 r h
    exact ⟨consumed, h1, h3, h4, h5⟩
  · intro fp cs last t hgood hrest hcs hbig
    have hge : 2 ^ 57 ≤ cs.foldl (fun a b => a * 128 + b % 128) 0 := by
      simp only [base128Value, List.foldl_append, List.foldl_cons, List.foldl_nil] at hbig
      have hl : last % 128 < 128 := Nat.mod_lt _ (by norm_num)
      omega
    simp only [decodeInt, hgood, Bool.false_eq_true, if_false, hrest,
      decodeIntLoop_reject cs 0 (last :: t) (by norm_num) hcs hge]

/-- Claim C18 at the ten bytes 82 80 80 80 80 80 80 80 80 00, whose base-128 value is 2^64:
`decodeInt` throws JKSNDecodeError. -/
theorem C18_varint_overflow_rejected_witness :
    base128Value [0x82, 0x80, 0x80, 0x80, 0x80, 0x80, 0x80, 0x80, 0x80, 0x00] = 2 ^ 64 ∧
    decodeInt (IStream.ofBytes [0x82, 0x80, 0x80, 0x80, 0x80, 0x80, 0x80, 0x80, 0x80, 0x00]) 0 =
      .error .JKSNDecodeError :=
  ⟨by decide, C18_varint_overflow_rejected.2.1
    (IStream.ofBytes [0x82, 0x80, 0x80, 0x80, 0x80, 0x80, 0x80, 0x80, 0x80, 0x00])
    [0x82, 0x80, 0x80, 0x80, 0x80, 0x80, 0x80, 0x80, 0x80] 0x00 [] rfl rfl (by decide)
    (by decide)⟩

/-- Claim C19.  DJB8 reference: for every sequence buf of bytes and every initial value iv
in 0..255, `DJBHash(buf, iv)`, computed with a 32-bit wrapping accumulator and truncated
to 8 bits, is the value of the reference definition over unbounded integers, and the value
of the fold h := (33 h + b) mod 256. -/
theorem C19_djb8_reference (buf : Bytes) (iv : Nat) (hiv : iv < 256)
    (hbuf : ∀ b ∈ buf, b < 256) :
    DJBHash buf iv = DJBReference buf iv ∧ DJBHash buf iv = DJBFold33 buf iv := by
  have h1 := DJBHash_eq_reference buf iv hiv hbuf
  refine ⟨h1, ?_⟩
  rw [h1]
  unfold DJBReference DJBFold33
  rw [djb_fold33_mod buf iv iv (Nat.mod_eq_of_lt hiv).symm]

/-- Claim C19 at the bytes 61 61 61 with initial value 0: the hash is 0x83. -/
theorem C19_djb8_reference_witness :
    DJBHash [0x61, 0x61, 0x61] 0 = 0x83 ∧
    DJBHash [0x61, 0x61, 0x61] 0 = DJBReference [0x61, 0x61, 0x61] 0 ∧
    DJBHash [0x61, 0x61, 0x61] 0 = DJBFold33 [0x61, 0x61, 0x61] 0 :=
  ⟨rfl, C19_djb8_reference [0x61, 0x61, 0x61] 0 (by decide) (by decide)⟩

/-- Claim C20.  Reserved opcodes are rejected: for every cache, `parseValue` on a good
stream whose first byte is 0x0F, or lies in 0x04..0x0E, 0x21..0x2A, 0x60..0x7F or
0xC0..0xFF, throws JKSNDecodeError. -/
theorem C20_reserved_opcodes_rejected (cache : JKSNCache) (fp : IStream) (c : Nat)
    (rest : Bytes) (hgood : fp.failed = false) (hrest : fp.rest = c :: rest)
    (hc : c = 0x0f ∨ (0x04 ≤ c ∧ c ≤ 0x0e) ∨ (0x21 ≤ c ∧ c ≤ 0x2a) ∨ (0x60 ≤ c ∧ c ≤ 0x7f) ∨
      (0xc0 ≤ c ∧ c ≤ 0xff)) :
    parseValue cache fp = .error .JKSNDecodeError := by
  have hmod : c % 256 = c := Nat.mod_eq_of_lt (by omega)
  simp only [parseValue, IStream.get, hgood, hrest, Bool.false_eq_true, if_false, hmod]
  exact parseControl_reserved cache _ c hc

/-- Claim C20 at the stream 0F: the decoder throws JKSNDecodeError. -/
theorem C20_reserved_opcodes_rejected_witness :
    parseValue JKSNCache.fresh (IStream.ofBytes [0x0f]) = .error .JKSNDecodeError ∧
    JKSNDecoder.parse JKSNCache.fresh [0x0f] false = .error .JKSNDecodeError :=
  ⟨C20_reserved_opcodes_rejected JKSNCache.fresh (IStream.ofBytes [0x0f]) 0x0f [] rfl rfl
    (Or.inl rfl), rfl⟩

/-- Claim C21 fails on its own example: a decoder that has decoded 1D 64 as 100 (so that
`haslastint` is true and `lastint` is 100) throws JKSNDecodeError on B1. -/
theorem C21_counterexample :
    JKSNDecoder.parse JKSNCache.fresh [0x1d, 0x64] false =
      .ok (.int 100, JKSNCache.fresh.afterInt 100) ∧
    JKSNDecoder.parse (JKSNCache.fresh.afterInt 100) [0xb1] false = .error .JKSNDecodeError :=
  ⟨rfl, rfl⟩

/-- Claim C21, amended.  Delta records are not decoded: for every cache, with or without a
last integer, `parseValue` on a good stream whose first byte is a class-0xB control byte
(B0 to BF) throws JKSNDecodeError; `parseValue` has no case for the class. -/
theorem C21_delta_records_rejected (cache : JKSNCache) (fp : IStream) (c : Nat) (rest : Bytes)
    (hgood : fp.failed = false) (hrest : fp.rest = c :: rest) (h0 : 0xb0 ≤ c)
    (h1 : c ≤ 0xbf) :
    parseValue cache fp = .error .JKSNDecodeError := by
  rw [parseValue_cons cache fp c rest hgood hrest, Nat.mod_eq_of_lt (by omega)]
  exact parseControl_delta_class cache _ c h0 h1

/-- Claim C21, amended, at the stream B1 and the cache left by decoding 100. -/
theorem C21_delta_records_rejected_witness :
    parseValue (JKSNCache.fresh.afterInt 100) (IStream.ofBytes [0xb1]) =
      .error .JKSNDecodeError :=
  C21_delta_records_rejected (JKSNCache.fresh.afterInt 100) (IStream.ofBytes [0xb1]) 0xb1 []
    rfl rfl (by decide) (by decide)

/-- Claim C22.  Integer decoding: for every cache, on a good stream, `parseValue` returns
Int (c & 0x0F) for a first byte c in 0x10..0x1A, and for 1D, 1C, 1B followed by 1, 2, 4
payload bytes the sign-extended big-endian value of the payload, consuming the record and
leaving the bytes after it; the cache left has `haslastint` true and `lastint` equal to the
value.  So it is after every integer that `parseValue` returns.  The examples 1D FF, 1C 00
80 and 1C FF 7F give -1, 128 and -129. -/
theorem C22_integer_decoding :
    (∀ (cache : JKSNCache) (fp : IStream) (c : Nat) (t : Bytes), fp.failed = false →
      fp.rest = c :: t → 0x10 ≤ c → c ≤ 0x1a →
      ∃ fp1, parseValue cache fp =
          .ok (.int ((c &&& 0x0f : Nat) : Int), cache.afterInt ((c &&& 0x0f : Nat) : Int), fp1) ∧
        fp1.rest = t ∧ fp1.failed = false) ∧
    (∀ (cache : JKSNCache) (fp : IStream) (b : Nat) (t : Bytes), fp.failed = false →
      fp.rest = 0x1d :: b :: t → b < 256 →
      ∃ fp1, parseValue cache fp =
          .ok (.int (signedBigEndianReference [b]),
            cache.afterInt (signedBigEndianReference [b]), fp1) ∧
        fp1.rest = t ∧ fp1.failed = false) ∧
    (∀ (cache : JKSNCache) (fp : IStream) (a b : Nat) (t : Bytes), fp.failed = false →
      fp.rest = 0x1c :: a :: b :: t → a < 256 → b < 256 →
      ∃ fp1, parseValue cache fp =
          .ok (.int (signedBigEndianReference [a, b]),
            cache.afterInt (signedBigEndianReference [a, b]), fp1) ∧
        fp1.rest = t ∧ fp1.failed = false) ∧
    (∀ (cache : JKSNCache) (fp : IStream) (a b c d : Nat) (t : Bytes), fp.failed = false →
      fp.rest = 0x1b :: a :: b :: c :: d :: t → a < 256 → b < 256 → c < 256 → d < 256 →
      ∃ fp1, parseValue cache fp =
          .ok (.int (signedBigEndianReference [a, b, c, d]),
            cache.afterInt (signedBigEndianReference [a, b, c, d]), fp1) ∧
        fp1.rest = t ∧ fp1.failed = false) ∧
    (∀ (cache cache1 : JKSNCache) (fp fp1 : IStream) (n : Int),
      parseValue cache fp = .ok (.int n, cache1, fp1) →
      cache1.haslastint = true ∧ cache1.lastint = n ∧ cache1 = cache.afterInt n) ∧
    (∀ cache : JKSNCache,
      JKSNDecoder.parse cache [0x1d, 0xff] false = .ok (.int (-1), cache.afterInt (-1)) ∧
      JKSNDecoder.parse cache [0x1c, 0x00, 0x80] false = .ok (.int 128, cache.afterInt 128) ∧
      JKSNDecoder.parse cache [0x1c, 0xff, 0x7f] false =
        .ok (.int (-129), cache.afterInt (-129))) := by
  refine ⟨?_, ?_, ?_, ?_, ?_, fun cache => ⟨rfl, rfl, rfl⟩⟩
  · intro cache fp c t hg hr h0 h1
    rw [parseValue_cons cache fp c t hg hr, Nat.mod_eq_of_lt (by omega),
      parseControl_immediate cache _ c h0 h1]
    exact ⟨_, rfl, rfl, hg⟩
  · intro cache fp b t hg hr hb
    rw [parseValue_cons cache fp 0x1d (b :: t) hg hr]
    exact parseControl_int8 cache _ b t hg rfl hb
  · intro cache fp a b t hg hr ha hb
    rw [parseValue_cons cache fp 0x1c (a :: b :: t) hg hr]
    exact parseControl_int16 cache _ a b t hg rfl ha hb
  · intro cache fp a b c d t hg hr ha hb hc hd
    rw [parseValue_cons cache fp 0x1b (a :: b :: c :: d :: t) hg hr]
    exact parseControl_int32 cache _ a b c d t hg rfl ha hb hc hd
  · intro cache cache1 fp fp1 n h
    have hc : cache1 = cache.afterInt n := by
      obtain ⟨past, rest, gcount, failed⟩ := fp
      cases failed with
      | true => simp [parseValue, IStream.get] at h
      | false =>
        cases rest with
        | nil => simp [parseValue, IStream.get] at h
        | cons c r =>
          rw [parseValue_cons cache _ c r rfl rfl] at h
          exact parseControl_int_cache cache _ _ fp1 n cache1 h
    subst hc
    exact ⟨rfl, rfl, rfl⟩

/-- Claim C22 at the stream 1C FF 7F 00 and the fresh cache: the value is -129 and the byte
00 is left. -/
theorem C22_integer_decoding_witness :
    signedBigEndianReference [0xff, 0x7f] = -129 ∧
    ∃ fp1, parseValue JKSNCache.fresh (IStream.ofBytes [0x1c, 0xff, 0x7f, 0x00]) =
        .ok (.int (signedBigEndianReference [0xff, 0x7f]),
          JKSNCache.fresh.afterInt (signedBigEndianReference [0xff, 0x7f]), fp1) ∧
      fp1.rest = [0x00] ∧ fp1.failed = false :=
  ⟨by decide, C22_integer_decoding.2.2.1 JKSNCache.fresh
    (IStream.ofBytes [0x1c, 0xff, 0x7f, 0x00]) 0xff 0x7f [0x00] rfl rfl (by decide)
    (by decide)⟩

/-- Claim C23.  Stream position after decode: whenever `parseValue` returns a value on a
stream, the stream was good and it has consumed exactly the bytes p of one record, the
control byte and its fixed-width or variable-length payload as the control-byte grammar
delimits them (`recordExtent`), and the stream is still good; on every other good stream
whose unread bytes start with p, `parseValue` from the same cache returns the same value
and cache, has consumed p and leaves exactly the bytes after p.  The same holds where
`parseValue` returns a float constant (opcodes 0x20, 0x2e, 0x2f): the record is the control
byte alone.  Left out: the result -2^63, which only the payload 2^63 under 0x1e yields and
whose negation overflows in the source, and the opcodes 0x2b, 0x2c, 0x2d, whose parsers
`jksn.cpp` does not define. -/
theorem C23_stream_position_after_decode (cache : JKSNCache) (fp : IStream) :
    (∀ (v : JKSNValue) (cache1 : JKSNCache) (fp1 : IStream),
      parseValue cache fp = .ok (v, cache1, fp1) → v ≠ .int (-9223372036854775808) →
      ∃ p, p ≠ [] ∧ recordExtent fp.rest = some p ∧ fp.rest = p ++ fp1.rest ∧
        fp1.past = p.reverse ++ fp.past ∧ fp.failed = false ∧ fp1.failed = false ∧
        ∀ (fp2 : IStream) (t : Bytes), fp2.failed = false → fp2.rest = p ++ t →
          ∃ fp3, parseValue cache fp2 = .ok (v, cache1, fp3) ∧ fp3.rest = t ∧
            fp3.past = p.reverse ++ fp2.past ∧ fp3.failed = false) ∧
    (∀ (k : FloatConstant) (cache1 : JKSNCache) (fp1 : IStream),
      parseValueFloatConstant cache fp = some (k, cache1, fp1) →
      ∃ c, recordExtent fp.rest = some [c] ∧ fp.rest = c :: fp1.rest ∧
        fp1.past = c :: fp.past ∧ fp.failed = false ∧ fp1.failed = false ∧ cache1 = cache ∧
        ∀ (fp2 : IStream) (t : Bytes), fp2.failed = false → fp2.rest = c :: t →
          ∃ fp3, parseValueFloatConstant cache fp2 = some (k, cache1, fp3) ∧ fp3.rest = t ∧
            fp3.past = c :: fp2.past ∧ fp3.failed = false) := by
  constructor
  · intro v cache1 fp1 h _
    exact parseValue_record cache cache1 fp fp1 v h
  · intro k cache1 fp1 h
    obtain ⟨c, h1, h2, h3, h4, h5, h6, _, h7⟩ :=
      parseValueFloatConstant_record cache cache1 fp fp1 k h
    exact ⟨c, h1, h2, h3, h4, h5, h6, h7⟩

/-- Claim C23 at the stream 1F 82 2C 01, where the record 1F 82 2C (Int 300) is consumed
and the byte 01 is left, and at the stream 2F 01, where the record 2F (the constant
+Infinity) is consumed and the byte 01 is left. -/
theorem C23_stream_position_after_decode_witness :
    (∃ p, recordExtent [0x1f, 0x82, 0x2c, 0x01] = some p ∧
      [0x1f, 0x82, 0x2c, 0x01] = p ++ [0x01] ∧
      ∀ (fp2 : IStream) (t : Bytes), fp2.failed = false → fp2.rest = p ++ t →
        ∃ fp3, parseValue JKSNCache.fresh fp2 =
            .ok (.int 300, JKSNCache.fresh.afterInt 300, fp3) ∧ fp3.rest = t ∧
          fp3.past = p.reverse ++ fp2.past ∧ fp3.failed = false) ∧
    (∃ c, recordExtent [0x2f, 0x01] = some [c] ∧ [0x2f, 0x01] = [c, 0x01] ∧
      ∀ (fp2 : IStream) (t : Bytes), fp2.failed = false → fp2.rest = c :: t →
        ∃ fp3, parseValueFloatConstant JKSNCache.fresh fp2 =
            some (.infinity, JKSNCache.fresh, fp3) ∧ fp3.rest = t ∧
          fp3.past = c :: fp2.past ∧ fp3.failed = false) := by
  constructor
  · obtain ⟨p, _, h1, h2, _, _, _, h3⟩ := (C23_stream_position_after_decode JKSNCache.fresh
      (IStream.ofBytes [0x1f, 0x82, 0x2c, 0x01])).1 (.int 300) (JKSNCache.fresh.afterInt 300)
      { past := [0x2c, 0x82, 0x1f], rest := [0x01], gcount := 1, failed := false } rfl
      (by intro h; injection h with h; omega)
    exact ⟨p, h1, h2, h3⟩
  · obtain ⟨c, h1, h2, _, _, _, _, h3⟩ := (C23_stream_position_after_decode JKSNCache.fresh
      (IStream.ofBytes [0x2f, 0x01])).2 .infinity JKSNCache.fresh
      { past := [0x2f], rest := [0x01], gcount := 1, failed := false } rfl
    exact ⟨c, h1, h2, h3⟩

/-- Claim C24, truncated input is a DecodeError, fails: on the empty stream, on a fixed
form 1B, 1C, 1D with fewer payload bytes than its width, and on a varint 1E, 1F whose
bytes all carry the continuation bit (their value being below 2^57), `parseValue` does
fail, but with the thrown string literal "JKSN stream may be truncated or corrupted", not
with a JKSNDecodeError, which is what the reserved opcode 0F raises. -/
theorem C24_truncated_input_throws_a_string :
    (∀ cache : JKSNCache, parseValue cache (IStream.ofBytes []) = .error .charPointer) ∧
    (∀ (cache : JKSNCache) (payload : Bytes), payload.length < 4 →
      parseValue cache (IStream.ofBytes (0x1b :: payload)) = .error .charPointer) ∧
    (∀ (cache : JKSNCache) (payload : Bytes), payload.length < 2 →
      parseValue cache (IStream.ofBytes (0x1c :: payload)) = .error .charPointer) ∧
    (∀ cache : JKSNCache,
      parseValue cache (IStream.ofBytes [0x1d]) = .error .charPointer) ∧
    (∀ (cache : JKSNCache) (payload : Bytes), (∀ c ∈ payload, (c % 256) &&& 0x80 ≠ 0) →
      base128Value payload < 2 ^ 57 →
      parseValue cache (IStream.ofBytes (0x1e :: payload)) = .error .charPointer ∧
      parseValue cache (IStream.ofBytes (0x1f :: payload)) = .error .charPointer) ∧
    (∀ cache : JKSNCache,
      parseValue cache (IStream.ofBytes [0x0f]) = .error .JKSNDecodeError) ∧
    JKSNErr.charPointer ≠ JKSNErr.JKSNDecodeError := by
  refine ⟨fun cache => rfl, ?_, ?_, fun cache => rfl, ?_, fun cache => rfl, by decide⟩
  · intro cache payload hl
    rw [parseValue_cons cache _ 0x1b payload rfl rfl]
    exact (parseControl_truncated_fixed cache _).1 hl
  · intro cache payload hl
    rw [parseValue_cons cache _ 0x1c payload rfl rfl]
    exact (parseControl_truncated_fixed cache _).2.1 hl
  · intro cache payload hcs hlt
    constructor
    · rw [parseValue_cons cache _ 0x1e payload rfl rfl]
      exact (parseControl_truncated_varint cache _ hcs hlt).1
    · rw [parseValue_cons cache _ 0x1f payload rfl rfl]
      exact (parseControl_truncated_varint cache _ hcs hlt).2

/-- Claim C25 fails for a String whose slot of `texthash` is taken over before the later
call: "ab" and "bA" have the same DJB8 hash, so after a call that encoded the Array
["ab", "bA"] the slot holds "bA", and the next call on the same encoder emits the String
"ab" in full, 42 61 62, not as a hash reference. -/
theorem C25_counterexample :
    DJBHash [0x61, 0x62] 0 = DJBHash [0x62, 0x41] 0 ∧
    ∃ cache1, JKSNEncoder.dumps false JKSNCache.fresh
        (.array [.string [0x61, 0x62], .string [0x62, 0x41]]) false =
        .ok ([0x82, 0x42, 0x61, 0x62, 0x42, 0x62, 0x41], cache1) ∧
      ∃ cache2, JKSNEncoder.dumps false cache1 (.string [0x61, 0x62]) false =
        .ok ([0x42, 0x61, 0x62], cache2) :=
  ⟨rfl, _, rfl, _, rfl⟩

/-- Claim C25, amended.  Cache persistence across calls, the cache left by a call being
the cache of the next call on the same encoder.  Strings: a call that encodes a String whose
payload has more than 1 byte emits 3C h, h the DJB8 of the payload, exactly when the slot h
of the `texthash` it starts from holds the payload, and then leaves the cache as it was;
otherwise it emits the full record and leaves the payload in the slot.  So the same String
encoded twice in a row is emitted as 3C h the second time, and after a call that encoded a
String with the same hash and another payload it is emitted in full again.  Integers, for
every value: a call whose tree holds no integer record leaves `haslastint` and `lastint` as
they were; a call whose last visited integer record stands for Int a leaves `haslastint`
set and `lastint` = a; and the first visited integer record of a call is rewritten as
`optimizeInt`, the delta test of `optimize`, decides from the cache the call started with.
Int 100 and then Int 101 on a fresh encoder give 1D 64 and then B1. -/
theorem C25_cache_persists_across_calls :
    (∀ s : Bytes, ∃ p, dumpString (.string s) = .ok p) ∧
    (∀ (nd : Bool) (cache : JKSNCache) (s : Bytes) (p : JKSNProxy),
      dumpString (.string s) = .ok p → 1 < p.buf.length →
      ((∃ cache1, JKSNEncoder.dumps nd cache (.string s) false =
          .ok ([0x3c, DJBHash p.buf 0], cache1)) ↔
        cache.texthash (DJBHash p.buf 0) = some p.buf) ∧
      (cache.texthash (DJBHash p.buf 0) = some p.buf →
        JKSNEncoder.dumps nd cache (.string s) false =
          .ok ([0x3c, DJBHash p.buf 0], cache)) ∧
      (cache.texthash (DJBHash p.buf 0) ≠ some p.buf →
        p.control ≠ 0x3c ∧ ∃ cache1, JKSNEncoder.dumps nd cache (.string s) false =
          .ok (p.control :: (p.data ++ p.buf), cache1) ∧
          cache1.texthash (DJBHash p.buf 0) = some p.buf) ∧
      (∃ bytes cache1,
        JKSNEncoder.dumps nd cache (.string s) false = .ok (bytes, cache1) ∧
        cache1.texthash (DJBHash p.buf 0) = some p.buf ∧
        JKSNEncoder.dumps nd cache1 (.string s) false =
          .ok ([0x3c, DJBHash p.buf 0], cache1))) ∧
    (∀ (nd : Bool) (cache : JKSNCache) (s t : Bytes) (p q : JKSNProxy),
      dumpString (.string s) = .ok p → dumpString (.string t) = .ok q →
      1 < p.buf.length → 1 < q.buf.length → DJBHash q.buf 0 = DJBHash p.buf 0 →
      q.buf ≠ p.buf →
      ∃ bytes cache1 cache2,
        JKSNEncoder.dumps nd cache (.string t) false = .ok (bytes, cache1) ∧
        JKSNEncoder.dumps nd cache1 (.string s) false =
          .ok (p.control :: (p.data ++ p.buf), cache2) ∧ p.control ≠ 0x3c) ∧
    (∀ (nd : Bool) (cache cache1 : JKSNCache) (V : JKSNValue) (proxy optimized : JKSNProxy),
      dumpValue nd V = .ok proxy → dumpToProxy nd cache V = .ok (optimized, cache1) →
      ((∀ q ∈ proxy.nodes, q.control &&& 0xf0 ≠ 0x10) →
        cache1.haslastint = cache.haslastint ∧ cache1.lastint = cache.lastint) ∧
      (∀ (pre : List JKSNProxy) (x : JKSNProxy) (post : List JKSNProxy),
        proxy.nodes = pre ++ x :: post → x.control &&& 0xf0 = 0x10 →
        (∀ q ∈ post, q.control &&& 0xf0 ≠ 0x10) →
        ∃ a, x.origin = .int a ∧ cache1.haslastint = true ∧ cache1.lastint = a) ∧
      (∀ (pre : List JKSNProxy) (x : JKSNProxy) (post : List JKSNProxy),
        proxy.nodes = pre ++ x :: post → x.control &&& 0xf0 = 0x10 →
        (∀ q ∈ pre, q.control &&& 0xf0 ≠ 0x10) →
        ∃ c d next pre2 post2,
          optimizeInt cache x.origin x.control x.data = .ok (c, d, next) ∧
          optimized.nodes = pre2 ++ .mk x.origin c d x.buf x.children x.hash :: post2 ∧
          pre2.length = pre.length)) ∧
    (∀ (nd : Bool) (cache : JKSNCache) (a b : Int), ∃ bytes p c d,
      JKSNEncoder.dumps nd cache (.int a) false = .ok (bytes, cache.afterInt a) ∧
      dumpInt (.int b) = .ok p ∧
      optimizeInt (cache.afterInt a) (.int b) p.control p.data =
        .ok (c, d, (cache.afterInt a).afterInt b) ∧
      JKSNEncoder.dumps nd (cache.afterInt a) (.int b) false =
        .ok (c % 256 :: d, (cache.afterInt a).afterInt b)) ∧
    (∀ nd : Bool,
      JKSNEncoder.dumps nd JKSNCache.fresh (.int 100) false =
        .ok ([0x1d, 0x64], JKSNCache.fresh.afterInt 100) ∧
      JKSNEncoder.dumps nd (JKSNCache.fresh.afterInt 100) (.int 101) false =
        .ok ([0xb1], (JKSNCache.fresh.afterInt 100).afterInt 101)) := by
  refine ⟨dumpString_total, ?_, ?_, ?_, ?_, ?_⟩
  · intro nd cache s p hp hlen
    refine ⟨dumps_string_ref_iff nd cache s p hp hlen, dumps_string_hit nd cache s p hp hlen,
      ?_, ?_⟩
    · intro hslot
      obtain ⟨e1, e2⟩ := dumps_string_miss nd cache s p hp hlen hslot
      exact ⟨e2, _, e1, by simp⟩
    · obtain ⟨bytes, cache1, h1, h2⟩ := dumps_string_stores nd cache s p hp hlen
      exact ⟨bytes, cache1, h1, h2, dumps_string_hit nd cache1 s p hp hlen h2⟩
  · intro nd cache s t p q hp hq hlp hlq hhash hne
    obtain ⟨bytes, cache1, h1, h2⟩ := dumps_string_stores nd cache t q hq hlq
    have hslot : cache1.texthash (DJBHash p.buf 0) ≠ some p.buf := by
      rw [← hhash, h2]
      intro h
      injection h with h
      exact hne h
    obtain ⟨e1, e2⟩ := dumps_string_miss nd cache1 s p hp hlp hslot
    exact ⟨bytes, cache1, _, h1, e1, e2⟩
  · intro nd cache cache1 V proxy optimized hd ht
    have htrace := dumpToProxy_intTrace nd cache cache1 V proxy optimized hd ht
    refine ⟨fun hnone => intTrace_none _ _ _ _ htrace hnone, ?_, ?_⟩
    · intro pre x post hn hx hpost
      rw [hn] at htrace
      obtain ⟨e1, e2⟩ := intTrace_last pre x post _ _ _ htrace hpost hx
      obtain ⟨a, ha⟩ := (dumpValue_leaves nd V proxy hd x
        (by rw [hn]; exact List.mem_append_right _ (List.mem_cons_self _ _))).2 hx
      rw [ha] at e2
      simp only [JKSNValue.toInt] at e2
      injection e2 with e2
      exact ⟨a, ha, e1, e2.symm⟩
    · intro pre x post hn hx hpre
      rw [hn] at htrace
      exact intTrace_first pre x post _ _ _ htrace hpre hx
  · intro nd cache a b
    obtain ⟨_, c0, d0, _, _, h1⟩ := dumps_int_step nd cache a
    obtain ⟨p, c, d, h2, h3, h4⟩ := dumps_int_step nd (cache.afterInt a) b
    exact ⟨_, p, c, d, h1, h2, h3, h4⟩
  · intro nd
    cases nd <;> exact ⟨rfl, rfl⟩

/-- Claim C25, amended, at the String "ab" on a fresh encoder, whose second call emits
3C E3, and at the Arrays [7, "x", 100] and then ["y", 101, 5] on a fresh encoder: the first
call leaves `lastint` = 100, and the first integer record of the second call, 1D 65,
becomes B1. -/
theorem C25_cache_persists_across_calls_witness :
    (∃ bytes cache1,
      JKSNEncoder.dumps false JKSNCache.fresh (.string [0x61, 0x62]) false =
        .ok (bytes, cache1) ∧
      JKSNEncoder.dumps false cache1 (.string [0x61, 0x62]) false =
        .ok ([0x3c, 0xe3], cache1)) ∧
    (∃ cache1 cache2,
      JKSNEncoder.dumps false JKSNCache.fresh
        (.array [.int 7, .string [0x78], .int 100]) false =
        .ok ([0x83, 0x17, 0x41, 0x78, 0x1d, 0x64], cache1) ∧
      cache1.haslastint = true ∧ cache1.lastint = 100 ∧
      JKSNEncoder.dumps false cache1 (.array [.string [0x79], .int 101, .int 5]) false =
        .ok ([0x83, 0x41, 0x79, 0xb1, 0x15], cache2)) :=
  ⟨⟨_, _, rfl, (C25_cache_persists_across_calls.2.1 false _ [0x61, 0x62]
    (.mk (.string [0x61, 0x62]) 0x42 [] [0x61, 0x62] [] 0xe3) rfl (by decide)).2.1 rfl⟩,
   ⟨_, _, rfl, rfl, rfl, rfl⟩⟩

/-- Claim C26.  Delta adoption is strictly shorter: for every cache and every node whose
control is of class 0x1, whatever `optimize` returns keeps origin, buf, children and hash,
and either has a control of class 0xB and strictly fewer data bytes than the node, or has
the control and data of the node; a node without data, such as an immediate integer, is
never rewritten.  `optimize` returns on every such node whose origin is an Int. -/
theorem C26_delta_adoption_strictly_shorter (cache : JKSNCache) (origin : JKSNValue)
    (control : Nat) (data buf : Bytes) (children : List JKSNProxy) (hash : Nat)
    (hc : control &&& 0xf0 = 0x10) :
    (∀ n, origin = .int n → ∃ q cache1,
      optimize cache (.mk origin control data buf children hash) = .ok (q, cache1)) ∧
    ∀ q cache1, optimize cache (.mk origin control data buf children hash) = .ok (q, cache1) →
      q.origin = origin ∧ q.buf = buf ∧ q.children = children ∧ q.hash = hash ∧
      ((q.control &&& 0xf0 = 0xb0 ∧ q.data.length < data.length) ∨
        (q.control = control ∧ q.data = data)) ∧
      (data = [] → q.control = control ∧ q.data = []) := by
  constructor
  · intro n hn
    subst hn
    obtain ⟨c, d, _, h⟩ := optimize_int_node_total cache n control data buf children hash hc
    exact ⟨_, _, h⟩
  · intro q cache1 h
    obtain ⟨c, d, ho, rfl⟩ := optimize_int_node cache cache1 origin control data buf children
      hash q hc h
    obtain ⟨current, _, _, hcase⟩ := optimizeInt_outcome cache origin control data _ ho
    simp only at hcase
    refine ⟨rfl, rfl, rfl, rfl, ?_, ?_⟩
    · rcases hcase with ⟨h1, h2⟩ | ⟨_, _, hd, hlen⟩
      · exact Or.inr ⟨h1, h2⟩
      · exact Or.inl ⟨(deltaForm_class _ _ hd).1, hlen⟩
    · intro hnil
      rcases hcase with ⟨h1, h2⟩ | ⟨_, _, hd, hlen⟩
      · exact ⟨h1, by rw [← hnil]; exact h2⟩
      · rw [hnil] at hlen
        exact absurd hlen (Nat.not_lt_zero _)

/-- Claim C26 at the node 1D 65 of Int 101 and the cache left by Int 100: the node is
rewritten to B1 without data. -/
theorem C26_delta_adoption_strictly_shorter_witness :
    optimize (JKSNCache.fresh.afterInt 100) (.mk (.int 101) 0x1d [0x65] [] [] 0) =
      .ok (.mk (.int 101) 0xb1 [] [] [] 0, (JKSNCache.fresh.afterInt 100).afterInt 101) ∧
    ((0xb1 &&& 0xf0 = 0xb0 ∧ ([] : Bytes).length < [0x65].length) ∨
      (0xb1 = 0x1d ∧ ([] : Bytes) = [0x65])) :=
  ⟨rfl, ((C26_delta_adoption_strictly_shorter (JKSNCache.fresh.afterInt 100) (.int 101) 0x1d
    [0x65] [] [] 0 (by decide)).2 _ _ rfl).2.2.2.2.1⟩

/-- Claim C27, delta records denote current - lastint, fails for the two-byte and
four-byte delta forms.  With `lastint` = 2097152 the node 1B 00 00 00 E8 of Int 2098152 is
rewritten to BC 00 E8, which denotes the delta 232, where current - lastint is 1000.  For
every delta, the form chosen by `optimize` denotes the delta itself, except in the forms
BC and BB, where it denotes the delta mod 256, `encodeInt` writing zeros and the low
byte.  Every rewrite to class 0xB takes the form chosen for current - lastint. -/
theorem C27_fixed_width_delta_denotes_low_byte :
    (∃ cache1, dumpInt (.int 2098152) = .ok (.mk (.int 2098152) 0x1b [0, 0, 0, 0xe8] [] [] 0) ∧
      optimize (JKSNCache.fresh.afterInt 2097152)
          (.mk (.int 2098152) 0x1b [0, 0, 0, 0xe8] [] [] 0) =
        .ok (.mk (.int 2098152) 0xbc [0x00, 0xe8] [] [] 0, cache1) ∧
      grammarDelta 0xbc [0x00, 0xe8] = some 232 ∧ (2098152 : Int) - 2097152 = 1000) ∧
    (∀ delta : Int, -2 ^ 63 ≤ delta → delta < 2 ^ 63 →
      ∃ c d, deltaForm delta = .ok (c, d) ∧
        grammarDelta c d =
          some (if (delta < -0x80 ∨ 0x7f < delta) ∧
              ((-0x8000 ≤ delta ∧ delta ≤ 0x7fff) ∨ (0x200000 ≤ delta ∧ delta ≤ 0x7fffffff))
            then delta % 256 else delta)) ∧
    (∀ (cache : JKSNCache) (origin : JKSNValue) (control : Nat) (data : Bytes)
      (r : Nat × Bytes × JKSNCache), control &&& 0xf0 = 0x10 →
      optimizeInt cache origin control data = .ok r → r.1 &&& 0xf0 = 0xb0 →
      ∃ current, origin.toInt = .ok current ∧ cache.haslastint = true ∧
        deltaForm (wrapIntmax (current - cache.lastint)) = .ok (r.1, r.2.1) ∧
        (-2 ^ 63 ≤ current - cache.lastint → current - cache.lastint < 2 ^ 63 →
          wrapIntmax (current - cache.lastint) = current - cache.lastint)) := by
  refine ⟨⟨_, rfl, rfl, by decide, by decide⟩, deltaForm_reads, ?_⟩
  intro cache origin control data r hc h hb
  obtain ⟨current, h1, _, hcase⟩ := optimizeInt_outcome cache origin control data r h
  rcases hcase with ⟨h2, _⟩ | ⟨h2, _, h3, _⟩
  · rw [h2, hc] at hb
    exact absurd hb (by decide)
  · exact ⟨current, h1, h2, h3, wrapIntmax_id _⟩

/-- Claim C28, strict transcoder correctness, fails from U+0100 on.  The well-formed C4 80
(U+0100) is transcoded to 00 00, where UTF-16LE has 00 01, and F0 9F 98 80 (U+1F600) to
3D D8 00 DC, where UTF-16LE has 3D D8 00 DE.  On the encoding of every sequence of scalar
values the function returns, for each code point, the bytes of its `append` calls: for a
code point below U+10000 the low byte and `ucs4 >> 16`, which is 0, so that the result is
UTF-16LE below U+0100 only; for a supplementary code point the high surrogate and a low
surrogate whose high byte is `(ucs4 & 0x3f) | 0xdc`. -/
theorem C28_transcoder_drops_high_byte :
    utf8Encode 0x100 = [0xc4, 0x80] ∧
    UTF8ToUTF16LE [0xc4, 0x80] true = .ok [0x00, 0x00] ∧
    utf16LEEncode 0x100 = [0x00, 0x01] ∧
    utf8Encode 0x1f600 = [0xf0, 0x9f, 0x98, 0x80] ∧
    UTF8ToUTF16LE [0xf0, 0x9f, 0x98, 0x80] true = .ok [0x3d, 0xd8, 0x00, 0xdc] ∧
    utf16LEEncode 0x1f600 = [0x3d, 0xd8, 0x00, 0xde] ∧
    (∀ cps : List Nat, (∀ cp ∈ cps, isScalarValue cp) →
      UTF8ToUTF16LE (cps.flatMap utf8Encode) true = .ok (cps.flatMap UTF16LEUnits)) ∧
    (∀ cp : Nat, cp < 0x100 → UTF16LEUnits cp = utf16LEEncode cp) ∧
    (∀ cp : Nat, 0x100 ≤ cp → cp < 0x10000 →
      UTF16LEUnits cp = [cp % 256, 0] ∧ utf16LEEncode cp = [cp % 256, cp / 256] ∧
      cp / 256 ≠ 0) := by
  refine ⟨rfl, rfl, rfl, rfl, rfl, rfl, UTF8ToUTF16LE_of_encoding true, ?_, ?_⟩
  · intro cp h
    rw [units_bmp cp (by omega)]
    have h1 : cp < 0x10000 := by omega
    have h2 : cp / 256 = 0 := by omega
    simp only [utf16LEEncode, h1, if_true, h2]
  · intro cp h0 h1
    refine ⟨units_bmp cp h1, ?_, by omega⟩
    simp only [utf16LEEncode, h1, if_true]

/-- Claim C29.  Strict mode fails exactly on malformed input: for every sequence s of
bytes, `UTF8ToUTF16LE(s, true)` throws JKSNTypeError if and only if s is not well-formed
UTF-8, that is, not the encoding of a sequence of scalar values, and returns on every
well-formed s.  A stray continuation byte 80, the truncated C3, the overlong C0 80, the
encoded surrogate ED A0 80, F4 90 80 80 above U+10FFFF and the byte F8 are rejected. -/
theorem C29_strict_mode_fails_exactly_on_malformed :
    (∀ s : Bytes, (∀ b ∈ s, b < 256) →
      (UTF8ToUTF16LE s true = .error .JKSNTypeError ↔ ¬ WellFormedUTF8 s) ∧
      (WellFormedUTF8 s → ∃ u, UTF8ToUTF16LE s true = .ok u)) ∧
    UTF8ToUTF16LE [0x80] true = .error .JKSNTypeError ∧
    UTF8ToUTF16LE [0xc3] true = .error .JKSNTypeError ∧
    UTF8ToUTF16LE [0xc0, 0x80] true = .error .JKSNTypeError ∧
    UTF8ToUTF16LE [0xed, 0xa0, 0x80] true = .error .JKSNTypeError ∧
    UTF8ToUTF16LE [0xf4, 0x90, 0x80, 0x80] true = .error .JKSNTypeError ∧
    UTF8ToUTF16LE [0xf8] true = .error .JKSNTypeError :=
  ⟨fun s hb => ⟨UTF8ToUTF16LE_error_iff s hb, (UTF8ToUTF16LE_ok_iff s hb).mpr⟩,
    rfl, rfl, rfl, rfl, rfl, rfl⟩

/-- Claim C29 at C3 A9, the encoding of U+00E9: the function returns. -/
theorem C29_strict_mode_fails_exactly_on_malformed_witness :
    WellFormedUTF8 [0xc3, 0xa9] ∧ ∃ u, UTF8ToUTF16LE [0xc3, 0xa9] true = .ok u :=
  have hw : WellFormedUTF8 [0xc3, 0xa9] :=
    ⟨[0xe9], fun cp hcp => by
      rw [List.mem_singleton.mp hcp]
      exact Or.inl (by decide), rfl⟩
  ⟨hw, (C29_strict_mode_fails_exactly_on_malformed.1 [0xc3, 0xa9] (by decide)).2 hw⟩

/-- Claim C30.  UTF-16 to UTF-8 transcoding: for every sequence of 16-bit code units,
`UTF16ToUTF8` returns the UTF-8 encoding of the code points read from the units, a unit
that is not a surrogate as itself, a high surrogate immediately followed by a low
surrogate as the supplementary code point of the pair, every other surrogate as U+FFFD,
whose encoding is EF BF BD; these code points are scalar values, so the output is
well-formed UTF-8. -/
theorem C30_utf16_to_utf8 (units : List Nat) (h : ∀ u ∈ units, u < 2 ^ 16) :
    UTF16ToUTF8 units = (utf16CodePoints units).flatMap utf8Encode ∧
    (∀ cp ∈ utf16CodePoints units, isScalarValue cp) ∧
    WellFormedUTF8 (UTF16ToUTF8 units) ∧
    utf8Encode 0xFFFD = [0xef, 0xbf, 0xbd] :=
  ⟨UTF16ToUTF8_eq units h, utf16CodePoints_scalar units.length units (le_refl _) h,
    ⟨utf16CodePoints units, utf16CodePoints_scalar units.length units (le_refl _) h,
      UTF16ToUTF8_eq units h⟩, rfl⟩

/-- Claim C30 at the units 0041 D83D DE00 DC00: the letter A, the pair of U+1F600 and an
unpaired low surrogate give 41 F0 9F 98 80 EF BF BD. -/
theorem C30_utf16_to_utf8_witness :
    utf16CodePoints [0x41, 0xd83d, 0xde00, 0xdc00] = [0x41, 0x1f600, 0xfffd] ∧
    UTF16ToUTF8 [0x41, 0xd83d, 0xde00, 0xdc00] =
      [0x41, 0xf0, 0x9f, 0x98, 0x80, 0xef, 0xbf, 0xbd] ∧
    UTF16ToUTF8 [0x41, 0xd83d, 0xde00, 0xdc00] =
      (utf16CodePoints [0x41, 0xd83d, 0xde00, 0xdc00]).flatMap utf8Encode :=
  ⟨by simp [utf16CodePoints], rfl,
    (C30_utf16_to_utf8 [0x41, 0xd83d, 0xde00, 0xdc00] (by decide)).1⟩

/-- Claim C31 fails on the code at the Array [{"a": 1}, {"a": 2, "b": 3}] (example 5 of the
spec).  The second loop of `encodeSwappedArray` pushes, for each column, the record of the
key and one cell per row: the children number collen * (1 + rows), not collen * 2.  Here
collen = 2 and the proxy has 6 children; with assertions enabled `encodeSwappedArray`, hence
`dumpArray` and `dumps`, abort. -/
theorem C31_swapped_assertion_fails :
    (∀ rows : List (List (JKSNValue × Except JKSNErr JKSNProxy)),
      (swapCells rows).length = (swapColumns rows).length * (1 + rows.length)) ∧
    (encodeSwappedArray true
      (.array [.object [(.string [0x61], .int 1)],
        .object [(.string [0x61], .int 2), (.string [0x62], .int 3)]])).map
      (fun p => (p.control, p.children.length)) = .ok (0xa2, 6) ∧
    encodeSwappedArray false
      (.array [.object [(.string [0x61], .int 1)],
        .object [(.string [0x61], .int 2), (.string [0x62], .int 3)]]) = .error .aborted ∧
    dumpArray false
      (.array [.object [(.string [0x61], .int 1)],
        .object [(.string [0x61], .int 2), (.string [0x62], .int 3)]]) = .error .aborted ∧
    JKSNEncoder.dumps false JKSNCache.fresh
      (.array [.object [(.string [0x61], .int 1)],
        .object [(.string [0x61], .int 2), (.string [0x62], .int 3)]]) false =
      .error .aborted :=
  ⟨swapCells_length, rfl, rfl, rfl, rfl⟩

/-- Claim C32, as stated, fails on the Array of the Strings 2D 00 2D 00 and
E4 B8 AD E4 B8 AD (U+4E2D twice), in either order.  The first String is a class-0x4 record
with the payload 2D 00 2D 00, the second a class-0x3 record with the same payload:
whichever comes second is rewritten to the reference 3C DA, and no earlier node stands
for the same String value. -/
theorem C32_counterexample :
    (dumpValue false (.array [.string [0x2d, 0x00, 0x2d, 0x00],
        .string [0xe4, 0xb8, 0xad, 0xe4, 0xb8, 0xad]])).map
      (fun p => p.nodes.map (JKSNProxy.toString false)) =
      .ok [[0x82], [0x44, 0x2d, 0x00, 0x2d, 0x00], [0x32, 0x2d, 0x00, 0x2d, 0x00]] ∧
    (dumpValue false (.array [.string [0xe4, 0xb8, 0xad, 0xe4, 0xb8, 0xad],
        .string [0x2d, 0x00, 0x2d, 0x00]])).map
      (fun p => p.nodes.map (JKSNProxy.toString false)) =
      .ok [[0x82], [0x32, 0x2d, 0x00, 0x2d, 0x00], [0x44, 0x2d, 0x00, 0x2d, 0x00]] ∧
    (∃ proxy optimized cache,
      dumpValue false (.array [.string [0x2d, 0x00, 0x2d, 0x00],
        .string [0xe4, 0xb8, 0xad, 0xe4, 0xb8, 0xad]]) = .ok proxy ∧
      dumpToProxy false JKSNCache.fresh (.array [.string [0x2d, 0x00, 0x2d, 0x00],
        .string [0xe4, 0xb8, 0xad, 0xe4, 0xb8, 0xad]]) = .ok (optimized, cache) ∧
      (optimized.nodes.map (JKSNProxy.toString false) =
        [[0x82], [0x44, 0x2d, 0x00, 0x2d, 0x00], [0x3c, 0xda]]) ∧
      ¬ StringRefsResolved sameString proxy optimized) ∧
    (∃ proxy optimized cache,
      dumpValue false (.array [.string [0xe4, 0xb8, 0xad, 0xe4, 0xb8, 0xad],
        .string [0x2d, 0x00, 0x2d, 0x00]]) = .ok proxy ∧
      dumpToProxy false JKSNCache.fresh (.array [.string [0xe4, 0xb8, 0xad, 0xe4, 0xb8, 0xad],
        .string [0x2d, 0x00, 0x2d, 0x00]]) = .ok (optimized, cache) ∧
      (optimized.nodes.map (JKSNProxy.toString false) =
        [[0x82], [0x32, 0x2d, 0x00, 0x2d, 0x00], [0x3c, 0xda]]) ∧
      ¬ StringRefsResolved sameString proxy optimized) := by
  refine ⟨rfl, rfl, ?_, ?_⟩
  · refine ⟨.mk (.array [.string [0x2d, 0x00, 0x2d, 0x00],
        .string [0xe4, 0xb8, 0xad, 0xe4, 0xb8, 0xad]]) 0x82 [] []
        [.mk (.string [0x2d, 0x00, 0x2d, 0x00]) 0x44 [] [0x2d, 0x00, 0x2d, 0x00] [] 0xda,
         .mk (.string [0xe4, 0xb8, 0xad, 0xe4, 0xb8, 0xad]) 0x32 [] [0x2d, 0x00, 0x2d, 0x00] []
          0xda] 0,
      .mk (.array [.string [0x2d, 0x00, 0x2d, 0x00],
        .string [0xe4, 0xb8, 0xad, 0xe4, 0xb8, 0xad]]) 0x82 [] []
        [.mk (.string [0x2d, 0x00, 0x2d, 0x00]) 0x44 [] [0x2d, 0x00, 0x2d, 0x00] [] 0xda,
         .mk (.string [0xe4, 0xb8, 0xad, 0xe4, 0xb8, 0xad]) 0x3c [0xda] [] [] 0xda] 0,
      { haslastint := false, lastint := 0,
        texthash := fun i => if i = 0xda then some [0x2d, 0x00, 0x2d, 0x00] else none,
        blobhash := fun _ => none }, rfl, rfl, rfl, ?_⟩
    intro h
    obtain ⟨original, i, earlier, t, ho, _, hi, he, _, _, _, hsame⟩ := h 2 _ _ rfl rfl rfl
    cases ho
    have hi2 : i = 0 ∨ i = 1 := by omega
    rcases hi2 with rfl | rfl
    · cases he
      have hh : JKSNValue.array [.string [0x2d, 0x00, 0x2d, 0x00],
          .string [0xe4, 0xb8, 0xad, 0xe4, 0xb8, 0xad]] =
          JKSNValue.string [0xe4, 0xb8, 0xad, 0xe4, 0xb8, 0xad] := hsame
      cases hh
    · cases he
      have hh : JKSNValue.string [0x2d, 0x00, 0x2d, 0x00] =
          JKSNValue.string [0xe4, 0xb8, 0xad, 0xe4, 0xb8, 0xad] := hsame
      simp at hh
  · refine ⟨.mk (.array [.string [0xe4, 0xb8, 0xad, 0xe4, 0xb8, 0xad],
        .string [0x2d, 0x00, 0x2d, 0x00]]) 0x82 [] []
        [.mk (.string [0xe4, 0xb8, 0xad, 0xe4, 0xb8, 0xad]) 0x32 [] [0x2d, 0x00, 0x2d, 0x00] []
          0xda,
         .mk (.string [0x2d, 0x00, 0x2d, 0x00]) 0x44 [] [0x2d, 0x00, 0x2d, 0x00] [] 0xda] 0,
      .mk (.array [.string [0xe4, 0xb8, 0xad, 0xe4, 0xb8, 0xad],
        .string [0x2d, 0x00, 0x2d, 0x00]]) 0x82 [] []
        [.mk (.string [0xe4, 0xb8, 0xad, 0xe4, 0xb8, 0xad]) 0x32 [] [0x2d, 0x00, 0x2d, 0x00] []
          0xda,
         .mk (.string [0x2d, 0x00, 0x2d, 0x00]) 0x3c [0xda] [] [] 0xda] 0,
      { haslastint := false, lastint := 0,
        texthash := fun i => if i = 0xda then some [0x2d, 0x00, 0x2d, 0x00] else none,
        blobhash := fun _ => none }, rfl, rfl, rfl, ?_⟩
    intro h
    obtain ⟨original, i, earlier, t, ho, _, hi, he, _, _, _, hsame⟩ := h 2 _ _ rfl rfl rfl
    cases ho
    have hi2 : i = 0 ∨ i = 1 := by omega
    rcases hi2 with rfl | rfl
    · cases he
      have hh : JKSNValue.array [.string [0xe4, 0xb8, 0xad, 0xe4, 0xb8, 0xad],
          .string [0x2d, 0x00, 0x2d, 0x00]] = JKSNValue.string [0x2d, 0x00, 0x2d, 0x00] := hsame
      cases hh
    · cases he
      have hh : JKSNValue.string [0xe4, 0xb8, 0xad, 0xe4, 0xb8, 0xad] =
          JKSNValue.string [0x2d, 0x00, 0x2d, 0x00] := hsame
      simp at hh

/-- Claim C32, amended.  For every value and every run of `dumpToProxy` from a fresh cache:
whenever a node of the optimized tree is the reference 0x3C and stands for a String s, the
dumped tree had at that place the record that `dumpString` builds for s, and an earlier node
of the optimized tree, in emission order, is the record that `dumpString` builds for a
String t, with the same payload bytes, whose DJB8 hash is the data byte of the reference; if
both records are class 0x4, then t = s.  Such runs exist: with assertions compiled out
`dumpValue` returns a tree for every value, and `dumpToProxy` returns exactly when
`optimize` reads no dead origin in it, that is, when no integer record lies below an Object
or a swapped Array record. -/
theorem C32_references_share_payload (V : JKSNValue) :
    (∃ proxy, dumpValue true V = .ok proxy ∧
      ((∃ optimized cache, dumpToProxy true JKSNCache.fresh V = .ok (optimized, cache)) ↔
        proxy.originsAlive true = true)) ∧
    ∀ (ndebug : Bool) (proxy optimized : JKSNProxy) (cache : JKSNCache),
      dumpValue ndebug V = .ok proxy →
      dumpToProxy ndebug JKSNCache.fresh V = .ok (optimized, cache) →
      StringRefsResolved sameStringIfBothUTF8 proxy optimized := by
  refine ⟨dumpToProxy_returns_iff JKSNCache.fresh V, ?_⟩
  intro ndebug proxy optimized cache hd ht
  simp only [dumpToProxy, bind, Except.bind, hd] at ht
  exact optimize_string_refs ndebug V proxy optimized cache hd ht

/-- Claim C32, amended, at the Array ["hello", "hello"]: the reference 3C 74 of the second
element is resolved by the class-0x4 record 45 68 65 6C 6C 6F of the first, which stands for
the same String. -/
theorem C32_references_share_payload_witness :
    StringRefsResolved sameStringIfBothUTF8
      (.mk (.array [.string [0x68, 0x65, 0x6c, 0x6c, 0x6f], .string [0x68, 0x65, 0x6c, 0x6c, 0x6f]])
        0x82 [] []
        [.mk (.string [0x68, 0x65, 0x6c, 0x6c, 0x6f]) 0x45 [] [0x68, 0x65, 0x6c, 0x6c, 0x6f] [] 0x74,
         .mk (.string [0x68, 0x65, 0x6c, 0x6c, 0x6f]) 0x45 [] [0x68, 0x65, 0x6c, 0x6c, 0x6f] [] 0x74]
        0)
      (.mk (.array [.string [0x68, 0x65, 0x6c, 0x6c, 0x6f], .string [0x68, 0x65, 0x6c, 0x6c, 0x6f]])
        0x82 [] []
        [.mk (.string [0x68, 0x65, 0x6c, 0x6c, 0x6f]) 0x45 [] [0x68, 0x65, 0x6c, 0x6c, 0x6f] [] 0x74,
         .mk (.string [0x68, 0x65, 0x6c, 0x6c, 0x6f]) 0x3c [0x74] [] [] 0x74]
        0) :=
  (C32_references_share_payload
    (.array [.string [0x68, 0x65, 0x6c, 0x6c, 0x6f], .string [0x68, 0x65, 0x6c, 0x6c, 0x6f]])).2
    false _ _
    { haslastint := false, lastint := 0,
      texthash := fun i => if i = 0x74 then some [0x68, 0x65, 0x6c, 0x6c, 0x6f] else none,
      blobhash := fun _ => none } rfl rfl

/-- Claim C33.  The optimizer never lengthens the output: for every proxy tree that
`dumpValue` returns and every cache state, whatever `optimize` returns satisfies: `size(0)`
is the length of `toString()` before and after; `size(0)` afterwards is less than or equal
to `size(0)` before; and the nodes afterwards are the nodes before, one for one in emission
order, each with the origin and the number of children it had and either with the record it
had or with a record of strictly smaller `size(1)`.  `optimize` returns on the tree exactly
when it reads no dead origin in it, that is, when no integer record lies below an Object or
a swapped Array record. -/
theorem C33_optimizer_never_lengthens (ndebug : Bool) (obj : JKSNValue) (proxy : JKSNProxy)
    (cache : JKSNCache) (h : dumpValue ndebug obj = .ok proxy) :
    ((∃ optimized cache1, optimize cache proxy = .ok (optimized, cache1)) ↔
      proxy.originsAlive true = true) ∧
    ∀ optimized cache1, optimize cache proxy = .ok (optimized, cache1) →
      proxy.size 0 = (proxy.toString true).length ∧
      optimized.size 0 = (optimized.toString true).length ∧
      optimized.size 0 ≤ proxy.size 0 ∧
      List.Forall₂ optimizedNode proxy.nodes optimized.nodes := by
  refine ⟨optimize_returns_iff proxy cache (dumpValue_allDumped ndebug obj proxy h), ?_⟩
  intro optimized cache1 hr
  obtain ⟨h1, h2⟩ := optimize_shape proxy cache (optimized, cache1) hr
  exact ⟨size_eq_length _, size_eq_length _, h2, h1⟩

/-- Claim C33 at the Array [100, 101] and a fresh cache: `optimize` returns, the record
1D 65 of the second element becomes B1, and the five bytes 82 1D 64 1D 65 become the four
bytes 82 1D 64 B1. -/
theorem C33_optimizer_never_lengthens_witness :
    dumpValue false (.array [.int 100, .int 101]) =
      .ok (.mk (.array [.int 100, .int 101]) 0x82 [] []
        [.mk (.int 100) 0x1d [100] [] [] 0, .mk (.int 101) 0x1d [101] [] [] 0] 0) ∧
    optimize JKSNCache.fresh (.mk (.array [.int 100, .int 101]) 0x82 [] []
        [.mk (.int 100) 0x1d [100] [] [] 0, .mk (.int 101) 0x1d [101] [] [] 0] 0) =
      .ok (.mk (.array [.int 100, .int 101]) 0x82 [] []
        [.mk (.int 100) 0x1d [100] [] [] 0, .mk (.int 101) 0xb1 [] [] [] 0] 0,
        JKSNCache.fresh.afterInt 101) ∧
    JKSNProxy.size 0 (.mk (.array [.int 100, .int 101]) 0x82 [] []
        [.mk (.int 100) 0x1d [100] [] [] 0, .mk (.int 101) 0xb1 [] [] [] 0] 0) ≤
      JKSNProxy.size 0 (.mk (.array [.int 100, .int 101]) 0x82 [] []
        [.mk (.int 100) 0x1d [100] [] [] 0, .mk (.int 101) 0x1d [101] [] [] 0] 0) ∧
    List.Forall₂ optimizedNode
      (JKSNProxy.nodes (.mk (.array [.int 100, .int 101]) 0x82 [] []
        [.mk (.int 100) 0x1d [100] [] [] 0, .mk (.int 101) 0x1d [101] [] [] 0] 0))
      (JKSNProxy.nodes (.mk (.array [.int 100, .int 101]) 0x82 [] []
        [.mk (.int 100) 0x1d [100] [] [] 0, .mk (.int 101) 0xb1 [] [] [] 0] 0)) :=
  ⟨rfl, rfl,
   ((C33_optimizer_never_lengthens false (.array [.int 100, .int 101]) _ JKSNCache.fresh
      rfl).2 _ _ rfl).2.2.1,
   ((C33_optimizer_never_lengthens false (.array [.int 100, .int 101]) _ JKSNCache.fresh
      rfl).2 _ _ rfl).2.2.2⟩

/-- Claim C34 fails on the code at the Objects {1: 2} and {1: 3}.  On two Objects
`operator<` walks `this->toMap()` against `this->toMap()`: the right operand is not read,
the result is false for every pair of Objects, and so neither of two unequal Objects is
less than the other; `std::map::find` with the key {1: 3} returns the entry of {1: 2}. -/
theorem C34_object_order_ignores_right_operand :
    (∀ xs ys : List (JKSNValue × JKSNValue),
      valLt (.object xs) (.object ys) = valLtEntries xs xs) ∧
    (∀ xs ys : List (JKSNValue × JKSNValue), valLt (.object xs) (.object ys) = false) ∧
    valLt (.object [(.int 1, .int 2)]) (.object [(.int 1, .int 3)]) = false ∧
    valLt (.object [(.int 1, .int 3)]) (.object [(.int 1, .int 2)]) = false ∧
    valEq (.object [(.int 1, .int 2)]) (.object [(.int 1, .int 3)]) = false ∧
    mapFind [(JKSNValue.object [(.int 1, .int 2)], JKSNValue.int 10)]
      (.object [(.int 1, .int 3)]) = some (.object [(.int 1, .int 2)], .int 10) :=
  ⟨valLt_object, valLt_object_false, by decide, by decide, by decide, rfl⟩

end JKSN
